import Mathlib

/-! MObs persistence layer: relational (Informix) connection and document (Mongo) mapping

Shallow embedding of `src/mobs/informix.cpp` (`InformixDatabaseConnection`, the binder
`SQLInformixdescription`, `InformixCursor`, `CountCursor`), of `src/mobs/mongo.cpp` (the scalar
encoder and decoder `BsonElements::valueStmt`, `BsonOut::doMem`, `MongoRead::parsival`, the
cursors, `retrieve`, `load` and `save` of `mongoDatabaseConnection`), of the number conversions
of `src/objtypes.cpp`, of the builders of `DatabaseInterface` (`src/mobs/dbifc.h`), of the
parser `XmlParser` (`src/xmlparser.h`), of the ISO 8859 codecs and the Base64 reader of
`src/mobs/converter.cpp` and of the writer of `src/xmlwriter.cpp`.

The database server is an arbitrary function from the statements submitted so far and the
statement submitted now to a return code and a processed-row count.  Every statement a call
submits is recorded, in order, in a trace.  The callbacks of the XML parser are recorded in
the same way, each with the tag path it can see.
-/

namespace Mobs

/-! ## Part 1: definitions -/

namespace Informix

/-- Exceptions of `informix.cpp`: `informix_exception(e, errNum)`, whose message is
`"informix: " + e + " " + getErrorMsg(errNum)`, and `std::runtime_error(e)`.  A value stands for
the message: the handlers of `save` and `destroy` rethrow a copy (`throw exc;`), which keeps the
message. -/
inductive Exc where
  | informix (what : String) (errNum : Int)
  | runtime (what : String)
  deriving DecidableEq, Repr

/-- A statement handed to `infx_exec_desc` / `infx_execute`, tagged with the place of the source
that submits it.  The six transaction statements have a fixed text; the others carry the text
the `SqlGenerator` produced. -/
inductive Stmt where
  | beginWork
  | savepoint
  | commitWork
  | releaseSavepoint
  | rollbackWork
  | rollbackToSavepoint
  | update (s : String)
  | insert (s : String)
  | insertRetry (upd : String)
  | detail (s : String)
  | detailRetry (upd : String)
  | delete (s : String)
  | deleteDetail (s : String)
  deriving DecidableEq, Repr

/-- The SQL text that is sent to the server. -/
def Stmt.text : Stmt → String
  | .beginWork => "BEGIN WORK;"
  | .savepoint => "SAVEPOINT MOBS;"
  | .commitWork => "COMMIT WORK;"
  | .releaseSavepoint => "RELEASE SAVEPOINT MOBS;"
  | .rollbackWork => "ROLLBACK WORK;"
  | .rollbackToSavepoint => "ROLLBACK WORK TO SAVEPOINT MOBS;"
  | .update s => s
  | .insert s => s
  | .insertRetry upd => upd
  | .detail s => s
  | .detailRetry upd => upd
  | .delete s => s
  | .deleteDetail s => s

/-- Data statements: everything that is not one of the six transaction statements. -/
def Stmt.isData : Stmt → Bool
  | .update _ | .insert _ | .insertRetry _ | .detail _ | .detailRetry _ | .delete _
  | .deleteDetail _ => true
  | _ => false

/-- A rollback statement, qualified or not. -/
def Stmt.isRollback : Stmt → Bool
  | .rollbackWork | .rollbackToSavepoint => true
  | _ => false

/-- Answer of the server to one statement: the return code `e` of `infx_exec_desc` /
`infx_execute` (0 is success) and the value `infx_processed_rows()` has afterwards. -/
structure Reply where
  code : Int
  rows : Int
  deriving DecidableEq, Repr

/-- The server and the client library.  `exec hist s` is the answer to text `s` after the texts
`hist` were submitted in this call; `connect n` is the result of the `n`-th `infx_connect`
attempt of `open()`. -/
structure Backend where
  exec : List String → String → Reply
  connect : Nat → Int

/-- What the `mobs::SqlGenerator` (not part of the translated sources) yields for the object at
hand: `getVersion()`, the text of `updateStatement(true)`, the pair `(s, upd)` of
`insertUpdStatement(true, upd)`, the pairs of the successive `insertUpdStatement(false, upd)`
calls made while `not gsql.eof()`, the text of `deleteStatement(true)` and the texts of the
successive `deleteStatement(false)` calls.  Generating a text may throw (the binder
`valueStmt` does on a version overflow), hence `Except`. -/
structure SqlGenerator where
  version : Int
  updateStatement : Except Exc String
  insertUpdStatement : Except Exc (String × String)
  details : List (Except Exc (String × String))
  deleteStatement : Except Exc String
  deleteDetails : List (Except Exc String)

/-- State of an `InformixDatabaseConnection`: connection number, the url, and the transaction
the connection is bound to (`nullptr` is `none`; a pointer is identified by a number). -/
structure Conn where
  conNr : Int
  url : List Char
  currentTransaction : Option Nat
  deriving DecidableEq, Repr

/-- Result of a call: connection state afterwards, statements submitted, value or exception. -/
structure Run (α : Type) where
  conn : Conn
  trace : List Stmt
  out : Except Exc α

def UNIQCONSTRAINT : Int := -268

def DBLOCALEMISMATCH : Int := -23197

/-- The test `m_url.find("//") != npos`. -/
def hasDoubleSlash : List Char → Bool
  | [] => false
  | [_] => false
  | a :: b :: rest => (a == '/' && b == '/') || hasDoubleSlash (b :: rest)

/-- The connection attempts of `open()`: `infx_connect`, repeated with the locales
`de_DE.UTF8` and `de_DE.8859-1` while the result is `DBLOCALEMISMATCH`. -/
def connectLoop (be : Backend) : Int :=
  let n0 := be.connect 0
  let n1 := if n0 = DBLOCALEMISMATCH then be.connect 1 else n0
  if n1 = DBLOCALEMISMATCH then be.connect 2 else n1

/-- `InformixDatabaseConnection::open` (lines 593-625): an established connection is only
re-selected; otherwise the url is checked and the connection attempts are made.  `conNr` is
assigned the result of the attempts before it is tested, so an exception after a failed
attempt leaves that result in the connection: the error carries the connection as `open()`
leaves it. -/
def openConnection (be : Backend) (c : Conn) : Except (Conn × Exc) Conn :=
  if 0 < c.conNr then .ok c
  else if !hasDoubleSlash c.url then .error (c, .runtime "informix: error in url")
  else if 0 < connectLoop be then .ok { c with conNr := connectLoop be }
  else if connectLoop be < 0 then
    .error ({ c with conNr := connectLoop be }, .informix "save failed" (connectLoop be))
  else .error ({ c with conNr := connectLoop be }, .runtime "informix: error connecting to db")

/-- One `infx_exec_desc` / `infx_execute` call: the text is sent, the statement is recorded. -/
def submit (be : Backend) (tr : List Stmt) (st : Stmt) : Reply × List Stmt :=
  (be.exec (tr.map Stmt.text) st.text, tr ++ [st])

/-- The statement that opens the unit of work of `save` / `destroy`. -/
def openStmt (c : Conn) : Stmt :=
  if c.currentTransaction.isSome then .savepoint else .beginWork

/-- The statement of the `catch` handlers: `"ROLLBACK WORK"`, plus `" TO SAVEPOINT MOBS"` if a
transaction is bound. -/
def rollbackStmt (c : Conn) : Stmt :=
  if c.currentTransaction.isSome then .rollbackToSavepoint else .rollbackWork

/-- The statement after the `try` block: `RELEASE SAVEPOINT MOBS;` or `COMMIT WORK;`. -/
def closeStmt (c : Conn) : Stmt :=
  if c.currentTransaction.isSome then .releaseSavepoint else .commitWork

/-- Head of `save` and `destroy` (lines 656-673 and 761-778): `BEGIN WORK;` without a bound
transaction, `transaction mismatch` if the interface carries another transaction,
`SAVEPOINT MOBS;` otherwise. -/
def beginCall (be : Backend) (c : Conn) (dbiTransaction : Option Nat) :
    List Stmt × Except Exc Unit :=
  match c.currentTransaction with
  | none =>
    let r := submit be [] .beginWork
    if r.1.code ≠ 0 then (r.2, .error (.informix "Transaction failed" r.1.code))
    else (r.2, .ok ())
  | some t =>
    if some t ≠ dbiTransaction then ([], .error (.runtime "transaction mismatch"))
    else
      let r := submit be [] .savepoint
      if r.1.code ≠ 0 then (r.2, .error (.informix "Transaction failed" r.1.code))
      else (r.2, .ok ())

/-- The loop `while (not gsql.eof())` of `save` (lines 696-708): one insert per element of a
repeated group, retried once as update on a uniqueness violation. -/
def saveDetails (be : Backend) :
    List (Except Exc (String × String)) → List Stmt → List Stmt × Except Exc Unit
  | [], tr => (tr, .ok ())
  | .error exc :: _, tr => (tr, .error exc)
  | .ok (s, upd) :: rest, tr =>
    let r1 := submit be tr (.detail s)
    let r := if r1.1.code = UNIQCONSTRAINT ∧ upd ≠ "" then submit be r1.2 (.detailRetry upd)
             else r1
    if r.1.code ≠ 0 then (r.2, .error (.informix "save failed" r.1.code))
    else saveDetails be rest r.2

/-- The `try` block of `save` (lines 677-708). -/
def saveTry (be : Backend) (g : SqlGenerator) (tr : List Stmt) : List Stmt × Except Exc Unit :=
  if 0 < g.version then
    match g.updateStatement with
    | .error exc => (tr, .error exc)
    | .ok s =>
      let r := submit be tr (.update s)
      if r.1.code ≠ 0 then (r.2, .error (.informix "save failed" r.1.code))
      else if r.1.rows ≠ 1 then
        (r.2, .error (.runtime ("number of processed rows is " ++ toString r.1.rows
          ++ " should be 1")))
      else saveDetails be g.details r.2
  else
    match g.insertUpdStatement with
    | .error exc => (tr, .error exc)
    | .ok (s, upd) =>
      let r1 := submit be tr (.insert s)
      let r := if g.version < 0 ∧ r1.1.code = UNIQCONSTRAINT ∧ upd ≠ "" then
                 submit be r1.2 (.insertRetry upd)
               else r1
      if r.1.code ≠ 0 then (r.2, .error (.informix "save failed" r.1.code))
      else saveDetails be g.details r.2

/-- Tail of `save` and `destroy`: the `catch` handlers (rollback, then rethrow) and, after a
`try` block that did not throw, the commit or release. -/
def finishCall {α : Type} (be : Backend) (c : Conn) (w : List Stmt × Except Exc α) :
    List Stmt × Except Exc α :=
  match w.2 with
  | .error exc =>
    let r := submit be w.1 (rollbackStmt c)
    if r.1.code ≠ 0 then (r.2, .error (.informix "Transaction failed" r.1.code))
    else (r.2, .error exc)
  | .ok a =>
    let r := submit be w.1 (closeStmt c)
    if r.1.code ≠ 0 then (r.2, .error (.informix "Transaction failed" r.1.code))
    else (r.2, .ok a)

/-- `InformixDatabaseConnection::save` (lines 644-748). -/
def save (be : Backend) (c : Conn) (dbiTransaction : Option Nat) (g : SqlGenerator) : Run Unit :=
  match openConnection be c with
  | .error (c1, exc) => ⟨c1, [], .error exc⟩
  | .ok c1 =>
    match beginCall be c1 dbiTransaction with
    | (tr, .error exc) => ⟨c1, tr, .error exc⟩
    | (tr, .ok ()) =>
      let r := finishCall be c1 (saveTry be g tr)
      ⟨c1, r.1, r.2⟩

/-- The iterations of the loop of `destroy` with `first = false` (lines 784-796). -/
def destroyDetails (be : Backend) :
    List (Except Exc String) → List Stmt → List Stmt × Except Exc Unit
  | [], tr => (tr, .ok ())
  | .error exc :: _, tr => (tr, .error exc)
  | .ok s :: rest, tr =>
    let r := submit be tr (.deleteDetail s)
    if r.1.code ≠ 0 then (r.2, .error (.informix "destroy failed" r.1.code))
    else destroyDetails be rest r.2

/-- The `try` block of `destroy` (lines 783-796); the value is the variable `found`. -/
def destroyTry (be : Backend) (g : SqlGenerator) (tr : List Stmt) : List Stmt × Except Exc Bool :=
  match g.deleteStatement with
  | .error exc => (tr, .error exc)
  | .ok s =>
    let r := submit be tr (.delete s)
    if r.1.code ≠ 0 then (r.2, .error (.informix "destroy failed" r.1.code))
    else
      let found := decide (0 < r.1.rows)
      if 0 < g.version ∧ found = false then
        (r.2, .error (.runtime "destroy: Object with appropriate version not found"))
      else
        let d := destroyDetails be g.deleteDetails r.2
        (d.1, d.2.map (fun _ => found))

/-- `InformixDatabaseConnection::destroy` (lines 751-830). -/
def destroy (be : Backend) (c : Conn) (dbiTransaction : Option Nat) (g : SqlGenerator) :
    Run Bool :=
  match openConnection be c with
  | .error (c1, exc) => ⟨c1, [], .error exc⟩
  | .ok c1 =>
    match beginCall be c1 dbiTransaction with
    | (tr, .error exc) => ⟨c1, tr, .error exc⟩
    | (tr, .ok ()) =>
      let r := finishCall be c1 (destroyTry be g tr)
      ⟨c1, r.1, r.2⟩

/-- `InformixDatabaseConnection::startTransaction` (lines 928-941). -/
def startTransaction (be : Backend) (c : Conn) (transaction : Option Nat) : Run Unit :=
  match openConnection be c with
  | .error (c1, exc) => ⟨c1, [], .error exc⟩
  | .ok c1 =>
    match c1.currentTransaction with
    | none =>
      let r := submit be [] .beginWork
      if r.1.code ≠ 0 then ⟨c1, r.2, .error (.informix "Transaction failed" r.1.code)⟩
      else ⟨{ c1 with currentTransaction := transaction }, r.2, .ok ()⟩
    | some t =>
      if some t ≠ transaction then ⟨c1, [], .error (.runtime "transaction mismatch")⟩
      else ⟨c1, [], .ok ()⟩

/-- `InformixDatabaseConnection::endTransaction` (lines 943-954). -/
def endTransaction (be : Backend) (c : Conn) (transaction : Option Nat) : Run Unit :=
  match c.currentTransaction with
  | none => ⟨c, [], .ok ()⟩
  | some t =>
    if some t ≠ transaction then ⟨c, [], .error (.runtime "transaction mismatch")⟩
    else
      let r := submit be [] .commitWork
      if r.1.code ≠ 0 then ⟨c, r.2, .error (.informix "Transaction failed" r.1.code)⟩
      else ⟨{ c with currentTransaction := none }, r.2, .ok ()⟩

/-- `InformixDatabaseConnection::rollbackTransaction` (lines 956-965). -/
def rollbackTransaction (be : Backend) (c : Conn) (_transaction : Option Nat) : Run Unit :=
  match c.currentTransaction with
  | none => ⟨c, [], .ok ()⟩
  | some _ =>
    let r := submit be [] .rollbackWork
    if r.1.code ≠ 0 then ⟨c, r.2, .error (.informix "Transaction failed" r.1.code)⟩
    else ⟨{ c with currentTransaction := none }, r.2, .ok ()⟩

/-- The frame `save` and `destroy` have in common: `open()`, the opening statement, the `try`
block `body` and the handlers. -/
def callFrame {α : Type} (be : Backend) (c : Conn) (dbiTransaction : Option Nat)
    (body : List Stmt → List Stmt × Except Exc α) : Run α :=
  match openConnection be c with
  | .error (c1, exc) => ⟨c1, [], .error exc⟩
  | .ok c1 =>
    match beginCall be c1 dbiTransaction with
    | (tr, .error exc) => ⟨c1, tr, .error exc⟩
    | (tr, .ok ()) =>
      let r := finishCall be c1 (body tr)
      ⟨c1, r.1, r.2⟩

/-- The retry statements of the insert-to-update fallback. -/
def Stmt.isRetry : Stmt → Bool
  | .insertRetry _ | .detailRetry _ => true
  | _ => false

/-- Statements for the elements of repeated groups in `save`. -/
def Stmt.isDetail : Stmt → Bool
  | .detail _ | .detailRetry _ => true
  | _ => false

/-- The next statement of the trace, if any, is the update that retries a refused insert. -/
def retryFollows : List Stmt → Bool
  | st :: _ => st.isRetry
  | [] => false

/-- The row-count checks of the source: `version > 0 and infx_processed_rows() != 1` after the
main statement of `save`, `version > 0 and not found` after the first delete of `destroy`. -/
def rowCheckFails (g : SqlGenerator) (st : Stmt) (rep : Reply) : Prop :=
  match st with
  | .update _ => 0 < g.version ∧ rep.rows ≠ 1
  | .delete _ => 0 < g.version ∧ ¬ 0 < rep.rows
  | _ => False

/-- Statement `st`, submitted after the statements `pre` and followed in the trace by `post`,
failed for good: the server answered a non-zero code and no retry follows, or it answered 0
and the row-count check failed. -/
def failsAt (be : Backend) (g : SqlGenerator) (pre : List Stmt) (st : Stmt) (post : List Stmt) :
    Prop :=
  if (be.exec (pre.map Stmt.text) st.text).code ≠ 0 then retryFollows post = false
  else rowCheckFails g st (be.exec (pre.map Stmt.text) st.text)

/-- A block that started with trace `tr` and ended as `w` stopped at the first statement that
failed for good: nothing was submitted after it and the block threw. -/
def StopsAtFailure {α : Type} (be : Backend) (g : SqlGenerator) (tr : List Stmt)
    (w : List Stmt × Except Exc α) : Prop :=
  ∀ pre st post, w.1 = tr ++ (pre ++ st :: post) → failsAt be g (tr ++ pre) st post →
    post = [] ∧ ∃ exc, w.2 = .error exc

/-- An established, unbound connection. -/
def exampleConn : Conn := ⟨1, [], none⟩

/-- An established connection bound to transaction 7. -/
def exampleBound : Conn := ⟨1, [], some 7⟩

/-- A server that accepts every statement and reports no processed row. -/
def exampleServer : Backend := ⟨fun _ _ => ⟨0, 0⟩, fun _ => 1⟩

/-- A server that refuses the text `"INS"` as duplicate when it is the first statement after
the opening one, and accepts everything else with one processed row. -/
def exampleDuplicate : Backend :=
  ⟨fun hist s => if s = "INS" ∧ hist.length < 2 then ⟨UNIQCONSTRAINT, 0⟩ else ⟨0, 1⟩, fun _ => 1⟩

/-- A generator for an object of version `v` without repeated groups. -/
def exampleGenerator (v : Int) : SqlGenerator :=
  ⟨v, .ok "UPD", .ok ("INS", "UPD"), [], .ok "DEL", []⟩

/-- The call ended with an exception. -/
def Run.failed {α : Type} (r : Run α) : Prop := ∃ exc, r.out = .error exc

end Informix

/-! ### Document mapping: `mongo.cpp` and the number conversions of `objtypes.cpp` -/

def INT32_MAX : Int := 2147483647

def INT32_MIN : Int := -2147483648

def INT64_MAX : Int := 9223372036854775807

def INT64_MIN : Int := -9223372036854775808

def UINT64_MAX : Nat := 18446744073709551615

/-- The cast `(int32_t) x`. -/
def toInt32 (x : Int) : Int := (x + 2147483648) % 4294967296 - 2147483648

/-- The cast `(int64_t) x`. -/
def toInt64 (x : Int) : Int :=
  (x + 9223372036854775808) % 18446744073709551616 - 9223372036854775808

/-- The conversion of a signed value to `uint64_t`. -/
def toUInt64 (x : Int) : Nat := (x % 18446744073709551616).toNat

/-- Modelled from the spec: the scalar metadata `MobsMemberInfo` (declared in `objgen.h`, which is
not among the sources), with the fields `mongo.cpp` and `informix.cpp` read: kind flags, the
value as `i64` / `u64`, the bounds of the type, the time granularity (in microseconds), and
`is_specialized` / `size` of the C++ type. -/
structure MobsMemberInfo where
  isUnsigned : Bool := false
  isSigned : Bool := false
  isTime : Bool := false
  isBlob : Bool := false
  i64 : Int := 0
  u64 : Nat := 0
  min : Int := 0
  max : Nat := 0
  granularity : Nat := 0
  is_specialized : Bool := false
  size : Nat := 0
  deriving DecidableEq, Repr

/-- A `std::vector<u_char>` as `doMem` sees it: the bytes, and whether the vector owns storage
(`&v[0]` is non-null for a non-empty vector and for an empty one that owns storage). -/
structure BlobView where
  data : List Nat
  hasStorage : Bool
  deriving DecidableEq, Repr

/-- The test `bin.bytes != nullptr` after `bin.bytes = &v[0]`. -/
def BlobView.bytesNonNull (b : BlobView) : Bool := !b.data.isEmpty || b.hasStorage

/-- Modelled from the spec: the part of the interface `MemberBase` (declared in `objgen.h`, not
among the sources) that the encoder calls: `isNull()`, `memInfo(mi)`, `is_chartype(cth)` and
`toStr(cth)` as functions of the compact flag of the hint, `toDouble(d)`, the result of
`dynamic_cast<const MemVarType(vector<u_char>) *>(&mem)`, `key()`, `isModified()`,
`nullAllowed()` and the length `c - LengthBase` of `hasFeature(LengthBase)` when that feature is
set.  A double is represented by its bit pattern. -/
structure MemberBase where
  isNull : Bool
  memInfo : MobsMemberInfo
  is_chartype : Bool → Bool
  toStr : Bool → String
  toDouble : Option Nat
  blob : Option BlobView
  key : Nat
  isModified : Bool
  nullAllowed : Bool := true
  lengthFeature : Option Nat := none

/-- A native element of a document.  `date` holds milliseconds after the epoch, `double` a bit
pattern, `decimal128` the high and the low word; `other` stands for the native types `parsival`
does not list. -/
inductive Element where
  | null
  | date (ms : Int)
  | utf8 (s : String)
  | int32 (v : Int)
  | int64 (v : Int)
  | bool (b : Bool)
  | decimal128 (high low : Nat)
  | binary (bytes : List Nat)
  | double (d : Nat)
  | timestamp (v : Nat)
  | other (typeCode : Nat)
  deriving DecidableEq, Repr

/-- The statement `tp += std::chrono::milliseconds(i64)` for a time point at the epoch: the
clock counts nanoseconds in 64 bits, so the milliseconds are multiplied by 1000000 in 64 bits
and the product wraps. -/
def clockTicks (i64 : Int) : Int := toInt64 (i64 * 1000000)

/-- The milliseconds that `types::b_date(tp)` holds: the `duration_cast` of the nanoseconds of
the time point, a division by 1000000 that rounds towards zero. -/
def dateMillis (tp : Int) : Int := Int.tdiv tp 1000000

/-- The local variables of `valueStmt` / `doMem` after the first `if` chain; `tp` is the time
point in the nanoseconds of the clock. -/
structure Vars where
  i32 : Int := 0
  i64 : Int
  i128 : Nat × Nat := (0, 0)
  tp : Int := 0
  bin : Option (List Nat) := none
  useChar : Bool
  useBool : Bool := false
  use32 : Bool := false
  use64 : Bool := false
  use128 : Bool := false
  deriving DecidableEq, Repr

/-- The first `if` chain of `BsonElements::valueStmt` (lines 63-123): the kind of the member
selects the variable that receives the value. -/
def BsonElements.vars (mem : MemberBase) (compact : Bool) : Vars :=
  let mi := mem.memInfo
  let v0 : Vars := { i64 := mi.i64, useChar := mem.is_chartype compact }
  if mi.isSigned then
    if (mi.max : Int) ≤ INT32_MAX ∧ mi.min ≥ INT32_MIN then
      { v0 with i32 := toInt32 v0.i64, use32 := true }
    else { v0 with use64 := true }
  else if mi.isUnsigned then
    if mi.max = 1 then { v0 with i64 := toInt64 mi.u64, useBool := true }
    else if (mi.max : Int) ≤ INT32_MAX then { v0 with i32 := toInt32 mi.u64, use32 := true }
    else if (mi.max : Int) ≤ INT64_MAX ∨ mi.i64 ≤ INT64_MAX then
      { v0 with i64 := toInt64 mi.u64, use64 := true }
    else { v0 with i128 := (0, mi.u64), use128 := true }
  else if mi.isTime then { v0 with tp := clockTicks v0.i64 }
  else if mi.isBlob then
    match mem.blob with
    | some b => { v0 with bin := if b.bytesNonNull then some b.data else none, useChar := false }
    | none => v0
  else v0

/-- The second `if` chain of `BsonElements::valueStmt` (lines 125-144): the element that is
appended to the document. -/
def BsonElements.append (mem : MemberBase) (compact : Bool) (v : Vars) : Element :=
  if mem.isNull then .null
  else if mem.memInfo.isTime then .date (dateMillis v.tp)
  else if v.useChar then .utf8 (mem.toStr compact)
  else if v.use32 then .int32 v.i32
  else if v.use64 then .int64 v.i64
  else if v.useBool then .bool (v.i64 != 0)
  else if v.use128 then .decimal128 v.i128.1 v.i128.2
  else
    match v.bin with
    | some bytes => .binary bytes
    | none =>
      match mem.toDouble with
      | some d => .double d
      | none => .utf8 (mem.toStr compact)

/-- `BsonElements::valueStmt` (lines 55-145): the element appended for member `mem`; in index
mode the number 1. -/
def BsonElements.valueStmt (index : Bool) (mem : MemberBase) (compact : Bool) : Element :=
  if index then .int32 1
  else BsonElements.append mem compact (BsonElements.vars mem compact)

/-- The state of a `BsonOut` that `doMem` reads: its switches, the hint `cth` (`compact()`,
`omitNull()`, `modOnly()`), `inArray()`, `arrayIndex` and `level.top().isKey`. -/
structure BsonOut where
  noKeys : Bool := false
  noArrays : Bool := false
  index : Bool := false
  compact : Bool := false
  omitNull : Bool := false
  modOnly : Bool := false
  inArray : Bool := false
  arrayIndex : Nat := 0
  levelIsKey : Bool := true
  deriving DecidableEq, Repr

/-- Where `doMem` appends: the array or the document of the top level. -/
inductive Dest where
  | arr
  | doc
  deriving DecidableEq, Repr

/-- The first `if` chain of `BsonOut::doMem` (lines 283-343). -/
def BsonOut.vars (o : BsonOut) (mem : MemberBase) : Vars :=
  let mi := mem.memInfo
  let v0 : Vars := { i64 := mi.i64, useChar := mem.is_chartype o.compact }
  if mi.isSigned then
    if (mi.max : Int) ≤ INT32_MAX ∧ mi.min ≥ INT32_MIN then
      { v0 with i32 := toInt32 v0.i64, use32 := true }
    else { v0 with use64 := true }
  else if mi.isUnsigned then
    if mi.max = 1 then { v0 with i64 := toInt64 mi.u64, useBool := true }
    else if (mi.max : Int) ≤ INT32_MAX then { v0 with i32 := toInt32 mi.u64, use32 := true }
    else if (mi.max : Int) ≤ INT64_MAX ∨ mi.i64 ≤ INT64_MAX then
      { v0 with i64 := toInt64 mi.u64, use64 := true }
    else { v0 with i128 := (0, mi.u64), use128 := true }
  else if mi.isTime then { v0 with tp := clockTicks v0.i64 }
  else if mi.isBlob then
    match mem.blob with
    | some b => { v0 with bin := if b.bytesNonNull then some b.data else none, useChar := false }
    | none => v0
  else v0

/-- The `if` chain of `BsonOut::doMem` inside an array (lines 347-366): the element appended
to `level.top().arr`. -/
def BsonOut.appendArr (o : BsonOut) (mem : MemberBase) (v : Vars) : Element :=
  if mem.isNull then .null
  else if mem.memInfo.isTime then .date (dateMillis v.tp)
  else if v.useChar then .utf8 (mem.toStr o.compact)
  else if v.use32 then .int32 v.i32
  else if v.use64 then .int64 v.i64
  else if v.useBool then .bool (v.i64 != 0)
  else if v.use128 then .decimal128 v.i128.1 v.i128.2
  else
    match v.bin with
    | some bytes => .binary bytes
    | none =>
      match mem.toDouble with
      | some d => .double d
      | none => .utf8 (mem.toStr o.compact)

/-- The `if` chain of `BsonOut::doMem` outside an array (lines 370-389): the element appended
to `level.top().doc` under the name of the member. -/
def BsonOut.appendDoc (o : BsonOut) (mem : MemberBase) (v : Vars) : Element :=
  if mem.isNull then .null
  else if mem.memInfo.isTime then .date (dateMillis v.tp)
  else if v.useChar then .utf8 (mem.toStr o.compact)
  else if v.use32 then .int32 v.i32
  else if v.use64 then .int64 v.i64
  else if v.useBool then .bool (v.i64 != 0)
  else if v.use128 then .decimal128 v.i128.1 v.i128.2
  else
    match v.bin with
    | some bytes => .binary bytes
    | none =>
      match mem.toDouble with
      | some d => .double d
      | none => .utf8 (mem.toStr o.compact)

/-- `BsonOut::doMem` (lines 266-391): nothing, or the element appended and where. -/
def BsonOut.doMem (o : BsonOut) (mem : MemberBase) : Option (Dest × Element) :=
  if o.noKeys ∧ mem.key > 0 ∧ o.levelIsKey then none
  else if mem.isNull ∧ o.omitNull then none
  else if ¬ mem.isModified ∧ o.modOnly then none
  else if o.inArray ∧ o.noArrays ∧ o.arrayIndex ≠ 0 then none
  else if o.index then some (.doc, .int32 1)
  else if o.inArray ∧ ¬ o.noArrays then some (.arr, o.appendArr mem (o.vars mem))
  else some (.doc, o.appendDoc mem (o.vars mem))

/-- The signed integer types `objtypes.cpp` specialises `to_int64` and `from_number` for. -/
inductive SType where
  | shortInt
  | int
  | longInt
  | longLongInt
  deriving DecidableEq, Repr

/-- The unsigned integer types `objtypes.cpp` specialises `to_uint64` and `from_number` for
(`bool` is a value kind of its own). -/
inductive UType where
  | unsignedShort
  | unsignedInt
  | unsignedLong
  | unsignedLongLong
  deriving DecidableEq, Repr

/-- `std::numeric_limits<T>::min()` (LP64: `long` has 64 bits). -/
def SType.min : SType → Int
  | .shortInt => -32768
  | .int => -2147483648
  | .longInt => -9223372036854775808
  | .longLongInt => -9223372036854775808

/-- `std::numeric_limits<T>::max()` for the signed types. -/
def SType.max : SType → Nat
  | .shortInt => 32767
  | .int => 2147483647
  | .longInt => 9223372036854775807
  | .longLongInt => 9223372036854775807

/-- `std::numeric_limits<T>::max()` for the unsigned types. -/
def UType.max : UType → Nat
  | .unsignedShort => 65535
  | .unsignedInt => 4294967295
  | .unsignedLong => 18446744073709551615
  | .unsignedLongLong => 18446744073709551615

/-- The value `wert` of a member variable, with its C++ type.  `double` and `float` hold bit
patterns, `time` the tick count of a time point, `blob` the bytes of a `vector<u_char>`. -/
inductive Wert where
  | sint (t : SType) (v : Int)
  | uint (t : UType) (v : Nat)
  | bool (b : Bool)
  | double (d : Nat)
  | float (f : Nat)
  | string (s : String)
  | blob (v : List Nat)
  | time (t : Int)
  deriving DecidableEq, Repr

/-- Conversions of the C++ library and of headers that are not among the sources: widening and
narrowing between `float` and `double`, and the string conversions `c_to_string` /
`c_string2x` of the types for which `objtypes` relies on streams or on other headers.
`c_string2x` yields the value left in the variable and whether the conversion succeeded. -/
structure Ext where
  widen : Nat → Nat
  narrow : Nat → Nat
  c_to_string : Wert → Bool → String
  c_string2x : Wert → String → Wert × Bool

/-- `to_int64` (`objtypes.cpp` 371-382): value, minimum and maximum for the four signed types;
the primary template answers `false`. -/
def to_int64 : Wert → Option (Int × Int × Nat)
  | .sint t v => some (v, t.min, t.max)
  | _ => none

/-- `to_uint64` (`objtypes.cpp` 383-397): value and maximum for the unsigned types and `bool`. -/
def to_uint64 : Wert → Option (Nat × Nat)
  | .uint t v => some (v, t.max)
  | .bool b => some (if b then 1 else 0, 1)
  | _ => none

/-- `to_double` (`objtypes.cpp` 398-401). -/
def to_double (ext : Ext) : Wert → Option Nat
  | .double d => some d
  | .float f => some (ext.widen f)
  | _ => none

/-- `from_number(int64_t, T&)` (`objtypes.cpp` 405-428): the new value, or nothing when the
range check fails or the type has no specialisation. -/
def from_number_i64 (i : Int) : Wert → Option Wert
  | .sint t _ => if i > t.max ∨ i < t.min then none else some (.sint t i)
  | _ => none

/-- `from_number(uint64_t, T&)` (`objtypes.cpp` 429-458). -/
def from_number_u64 (u : Nat) : Wert → Option Wert
  | .uint t _ => if u > t.max then none else some (.uint t u)
  | .bool _ => if u > 1 then none else some (.bool (u != 0))
  | _ => none

/-- `from_number(double, T&)` (`objtypes.cpp` 459-462). -/
def from_number_double (ext : Ext) (d : Nat) : Wert → Option Wert
  | .double _ => some (.double d)
  | .float _ => some (.float (ext.narrow d))
  | _ => none

/-- `mobschar` / `c_is_chartype` (`objtypes.h` 232-246, 401; `unixtime.h` 99): numeric types
are no character types, everything without `numeric_limits` is, a time is one unless the hint
is compact. -/
def is_chartype (w : Wert) (compact : Bool) : Bool :=
  match w with
  | .sint _ _ | .uint _ _ | .bool _ | .double _ | .float _ => false
  | .string _ | .blob _ => true
  | .time _ => !compact

/-- `c_to_string` (`objtypes.h` 85-157): `std::to_string` for the integers, `true` / `false`
for `bool`, the text itself for a string; the remaining types through `ext`. -/
def c_to_string (ext : Ext) (w : Wert) (compact : Bool) : String :=
  match w with
  | .sint _ v => toString v
  | .uint _ v => toString v
  | .bool b => if b then "true" else "false"
  | .string s => s
  | w => ext.c_to_string w compact

/-- `c_string2x` (`objtypes.h` 192-194, `objtypes.cpp` 128-138): a string takes every text, a
`bool` takes `true` and `false` and is left alone otherwise; the remaining types through
`ext`. -/
def c_string2x (ext : Ext) (w : Wert) (str : String) : Wert × Bool :=
  match w with
  | .string _ => (.string str, true)
  | .bool b => if str = "true" then (.bool true, true)
               else if str = "false" then (.bool false, true) else (.bool b, false)
  | w => ext.c_string2x w str

/-- A member variable: value, null flag, key ordinal, modified flag, and for a blob whether the
vector owns storage. -/
structure Member where
  wert : Wert
  null : Bool := false
  key : Nat := 0
  modified : Bool := false
  hasStorage : Bool := true
  deriving DecidableEq, Repr

/-- Modelled from the spec: `Member::memInfo` (`objgen.h`, not among the sources): the kind
flags and bounds that `to_int64` and `to_uint64` report, `isBlob` for a blob, and for a time
`isTime` with the tick count in `i64`. -/
def Member.memInfo (m : Member) : MobsMemberInfo :=
  match m.wert with
  | .time t => { isTime := true, i64 := t }
  | .blob _ => { isBlob := true }
  | w =>
    match to_int64 w, to_uint64 w with
    | some (i, lo, hi), _ => { isSigned := true, i64 := i, min := lo, max := hi }
    | none, some (u, hi) => { isUnsigned := true, u64 := u, max := hi }
    | none, none => {}

/-- Modelled from the spec: `Member::activate` (`objgen.h`): the member is no longer null and
is marked as modified. -/
def Member.activate (m : Member) (w : Wert) : Member :=
  { m with wert := w, null := false, modified := true }

/-- Modelled from the spec: `Member::fromInt64` (`objgen.h`): `from_number(int64_t, wert)` and
`activate()` on success; a time takes every tick count. -/
def Member.fromInt64 (m : Member) (i : Int) : Option Member :=
  match m.wert with
  | .time _ => some (m.activate (.time i))
  | w => (from_number_i64 i w).map m.activate

/-- Modelled from the spec: `Member::fromUInt64` (`objgen.h`). -/
def Member.fromUInt64 (m : Member) (u : Nat) : Option Member :=
  (from_number_u64 u m.wert).map m.activate

/-- Modelled from the spec: `Member::fromDouble` (`objgen.h`). -/
def Member.fromDouble (ext : Ext) (m : Member) (d : Nat) : Option Member :=
  (from_number_double ext d m.wert).map m.activate

/-- Modelled from the spec: `Member::fromStr` (`objgen.h`): `c_string2x` writes into `wert`;
on success the member is activated. -/
def Member.fromStr (ext : Ext) (m : Member) (str : String) : Member × Bool :=
  let r := c_string2x ext m.wert str
  if r.2 then (m.activate r.1, true) else ({ m with wert := r.1 }, false)

/-- The view of a member through the interface `MemberBase`. -/
def Member.base (ext : Ext) (m : Member) : MemberBase where
  isNull := m.null
  memInfo := m.memInfo
  is_chartype := is_chartype m.wert
  toStr := c_to_string ext m.wert
  toDouble := to_double ext m.wert
  blob := match m.wert with
    | .blob v => some ⟨v, m.hasStorage⟩
    | _ => none
  key := m.key
  isModified := m.modified

/-- What `parsival` does with one element and the member it belongs to: the member after an
assignment, the member as it is when the exception is thrown, or nothing because the element
is consumed by the first `switch` (null). -/
inductive Outcome where
  | assigned (m : Member)
  | thrown (m : Member) (what : String)
  | skipped
  deriving DecidableEq, Repr

/-- The body of `MongoRead::parsival` for a scalar element whose member exists (lines 472-535).
The text of `showName()` is left out of the messages. -/
def MongoRead.parsival (ext : Ext) (m : Member) (e : Element) : Outcome :=
  match e with
  | .null => .skipped
  | .utf8 s =>
    let r := m.fromStr ext s
    if r.2 then .assigned r.1 else .thrown r.1 "mongodb: invalid type in variable can't assign"
  | .bool b =>
    if ¬ m.memInfo.isUnsigned ∨ m.memInfo.max ≠ 1 then
      .thrown m "mongodb: invalid type in variable can't assign"
    else
      match m.fromUInt64 (if b then 1 else 0) with
      | some m2 => .assigned m2
      | none => .thrown m "mongodb: invalid type in variable can't assign"
  | .int32 v =>
    match m.fromInt64 v with
    | some m2 => .assigned m2
    | none =>
      match m.fromUInt64 (toUInt64 v) with
      | some m2 => .assigned m2
      | none => .thrown m "mongodb: invalid type in variable can't assign"
  | .int64 v =>
    match m.fromInt64 v with
    | some m2 => .assigned m2
    | none =>
      match m.fromUInt64 (toUInt64 v) with
      | some m2 => .assigned m2
      | none => .thrown m "mongodb: invalid type in variable can't assign"
  | .decimal128 high low =>
    if high ≠ 0 then .thrown m "mongodb: invalid type in variable can't assign"
    else
      match m.fromInt64 (toInt64 low) with
      | some m2 => .assigned m2
      | none =>
        match m.fromUInt64 low with
        | some m2 => .assigned m2
        | none => .thrown m "mongodb: invalid type in variable can't assign"
  | .date ms =>
    if ¬ m.memInfo.isTime then .thrown m "mongodb: invalid type in variable can't assign"
    else
      match m.fromInt64 ms with
      | some m2 => .assigned m2
      | none => .thrown m "mongodb: invalid type in variable can't assign"
  | .timestamp _ => .thrown m "mongodb: invalid type in variable can't assign"
  | .double d =>
    match m.fromDouble ext d with
    | some m2 => .assigned m2
    | none => .thrown m "mongodb: invalid type in variable can't assign"
  | .binary bytes =>
    if ¬ m.memInfo.isBlob then .thrown m "mongodb: invalid type in variable can't assign blob"
    else
      match m.wert with
      | .blob _ => .assigned (m.activate (.blob bytes))
      | _ => .thrown m "mongodb: invalid type in variable can't assign blob"
  | .other _ => .thrown m "mongodb: invalid type in variable can't assign"

/-- The value lies in the range of its C++ type. -/
def Wert.wf : Wert → Prop
  | .sint t v => t.min ≤ v ∧ v ≤ t.max
  | .uint t v => v ≤ t.max
  | .time t => INT64_MIN ≤ t ∧ t ≤ INT64_MAX
  | _ => True

/-- Two values have the same C++ type. -/
def Wert.sameType : Wert → Wert → Prop
  | .sint t _, .sint t2 _ => t = t2
  | .uint t _, .uint t2 _ => t = t2
  | .bool _, .bool _ => True
  | .double _, .double _ => True
  | .float _, .float _ => True
  | .string _, .string _ => True
  | .blob _, .blob _ => True
  | .time _, .time _ => True
  | _, _ => False

/-- The scalar kinds of the round trip: boolean, signed and unsigned integers, time, double,
character string and non-empty blob. -/
def Wert.roundTrips : Wert → Prop
  | .sint _ _ | .uint _ _ | .bool _ | .double _ | .string _ | .time _ => True
  | .blob v => v ≠ []
  | .float _ => False

/-- In the metadata an integer kind excludes the time and the blob kind. -/
def MobsMemberInfo.kindsExclusive (mi : MobsMemberInfo) : Prop :=
  (mi.isSigned = true ∨ mi.isUnsigned = true) → mi.isTime = false ∧ mi.isBlob = false

/-- The integer rules of the encoder: for a signed field `int32` or `int64` by the bounds of its
type; for an unsigned field boolean if the maximum is 1, else `int32`, `int64` or `decimal128`. -/
def integerRule (mi : MobsMemberInfo) : Element :=
  if mi.isSigned then
    if (mi.max : Int) ≤ INT32_MAX ∧ mi.min ≥ INT32_MIN then .int32 (toInt32 mi.i64)
    else .int64 mi.i64
  else if mi.max = 1 then .bool (toInt64 mi.u64 != 0)
  else if (mi.max : Int) ≤ INT32_MAX then .int32 (toInt32 mi.u64)
  else if (mi.max : Int) ≤ INT64_MAX ∨ mi.i64 ≤ INT64_MAX then .int64 (toInt64 mi.u64)
  else .decimal128 0 mi.u64

/-- The bytes of a blob field that the encoder can write as binary: the member is a blob, the
cast to the byte vector succeeds and the vector has storage. -/
def blobBytes (mem : MemberBase) : Option (List Nat) :=
  if mem.memInfo.isBlob then
    match mem.blob with
    | some b => if b.bytesNonNull then some b.data else none
    | none => none
  else none

/-- The rules for a field that is neither null, a time, a string nor an integer: blob, then
double, then string. -/
def lateRules (mem : MemberBase) (compact : Bool) : Element :=
  match blobBytes mem with
  | some bytes => .binary bytes
  | none =>
    match mem.toDouble with
    | some d => .double d
    | none => .utf8 (mem.toStr compact)

/-- The choice of the native type in the words of the specification: the first matching rule
in the order null, time (the date at the epoch plus the value in milliseconds), character-like,
integer, blob, double, string.  Character-like is what the code tests, the result of
`is_chartype` unless the field is a blob whose cast to the byte vector succeeds. -/
def statedChoice (mem : MemberBase) (compact : Bool) : Element :=
  if mem.isNull then .null
  else if mem.memInfo.isTime then .date mem.memInfo.i64
  else if mem.is_chartype compact ∧ ¬ (mem.memInfo.isBlob ∧ mem.blob.isSome) then
    .utf8 (mem.toStr compact)
  else if mem.memInfo.isSigned ∨ mem.memInfo.isUnsigned then integerRule mem.memInfo
  else lateRules mem compact

/-- The same order, where the date of a time field is the milliseconds of the time point that
the 64-bit clock of nanoseconds reaches. -/
def amendedChoice (mem : MemberBase) (compact : Bool) : Element :=
  if mem.isNull then .null
  else if mem.memInfo.isTime then .date (dateMillis (clockTicks mem.memInfo.i64))
  else if mem.is_chartype compact ∧ ¬ (mem.memInfo.isBlob ∧ mem.blob.isSome) then
    .utf8 (mem.toStr compact)
  else if mem.memInfo.isSigned ∨ mem.memInfo.isUnsigned then integerRule mem.memInfo
  else lateRules mem compact

/-- The time values whose nanoseconds fit 64 bits: at most 9223372036854 milliseconds before
or after the epoch. -/
def inClockRange (i64 : Int) : Prop := -9223372036854 ≤ i64 ∧ i64 ≤ 9223372036854

/-- The value of a time field lies in the range of the clock. -/
def Wert.inClockRange : Wert → Prop
  | .time t => Mobs.inClockRange t
  | _ => True

/-- A time member that holds 9223372036855, the first value whose nanoseconds do not fit 64
bits. -/
def exampleLateTime : Member := { wert := .time 9223372036855 }

/-- A time member that holds 5. -/
def exampleTime : Member := { wert := .time 5 }

/-- Library conversions for the examples: `float` and `double` share their patterns, every
value is written as the same text and no text is parsed. -/
def exampleExt : Ext := ⟨id, id, fun _ _ => "AQID", fun w _ => (w, false)⟩

/-- A blob member with three bytes. -/
def exampleBlob : Member := { wert := .blob [1, 2, 3] }

/-- A `long long` member with the value 5. -/
def exampleLongLong : Member := { wert := .sint .longLongInt 5 }

/-- An `unsigned long long` member with the largest value. -/
def exampleUnsigned : Member := { wert := .uint .unsignedLongLong 18446744073709551615 }

/-- A `bool` member holding `false`. -/
def exampleBool : Member := { wert := .bool false }

/-- An `int` member holding 0. -/
def exampleInt : Member := { wert := .sint .int 0 }

/-- A floating-point field: `float` or `double`. -/
def Wert.isFloating : Wert → Prop
  | .double _ | .float _ => True
  | _ => False

/-- The pairs of native type and field that the claim on strict reading admits: boolean with an
unsigned field of maximum 1, date with a time field, binary with a blob field, string with a
character-like field, `int32` / `int64` with an integer field, double with a floating-point
field, and nothing else. -/
def claimedAccepts (m : Member) : Element → Prop
  | .bool _ => m.memInfo.isUnsigned = true ∧ m.memInfo.max = 1
  | .date _ => m.memInfo.isTime = true
  | .binary _ => m.memInfo.isBlob = true
  | .utf8 _ => ∃ compact, is_chartype m.wert compact = true
  | .int32 _ | .int64 _ => m.memInfo.isSigned = true ∨ m.memInfo.isUnsigned = true
  | .double _ => m.wert.isFloating
  | _ => False

/-- The pairs that `parsival` can accept: as above, but a string may go into a field of any
kind (the field converts the text), and `int32`, `int64` and `decimal128` may go into every
field that takes a number through `fromInt64` / `fromUInt64`: the integer kinds and time. -/
def accepts (m : Member) : Element → Prop
  | .bool _ => m.memInfo.isUnsigned = true ∧ m.memInfo.max = 1
  | .date _ => m.memInfo.isTime = true
  | .binary _ => m.memInfo.isBlob = true
  | .utf8 _ => True
  | .int32 _ | .int64 _ | .decimal128 _ _ =>
    m.memInfo.isSigned = true ∨ m.memInfo.isUnsigned = true ∨ m.memInfo.isTime = true
  | .double _ => m.wert.isFloating
  | .null => True
  | .timestamp _ | .other _ => False

/-- An `unsigned long long` member holding 9223372036854775808, one more than the signed 64-bit
maximum. -/
def exampleBig : Member := { wert := .uint .unsignedLongLong 9223372036854775808 }

/-- An `unsigned long long` member holding 0. -/
def exampleULongLong : Member := { wert := .uint .unsignedLongLong 0 }

/-- An `unsigned int` member holding 0. -/
def exampleUInt : Member := { wert := .uint .unsignedInt 0 }

/-! ### The relational binder: `SQLInformixdescription` -/

namespace Informix

def INT16_MAX : Int := 32767

/-- The text `createStmt` (lines 84-123) has written to `res` before `NOT NULL` is added: the
column type chosen from the metadata of the member. -/
def createType (mem : MemberBase) (compact : Bool) : String :=
  let mi := mem.memInfo
  if mi.isTime ∧ mi.granularity ≥ 86400000000 then "DATE"
  else if mi.isTime ∧ mi.granularity ≥ 1000000 then "DATETIME YEAR TO SECOND"
  else if mi.isTime ∧ mi.granularity ≥ 100000 then "DATETIME YEAR TO FRACTION(1)"
  else if mi.isTime ∧ mi.granularity ≥ 10000 then "DATETIME YEAR TO FRACTION(2)"
  else if mi.isTime ∧ mi.granularity ≥ 1000 then "DATETIME YEAR TO FRACTION(3)"
  else if mi.isTime ∧ mi.granularity ≥ 100 then "DATETIME YEAR TO FRACTION(4)"
  else if mi.isTime then "DATETIME YEAR TO FRACTION(5)"
  else if mi.isUnsigned ∧ mi.max = 1 then "BOOLEAN"
  else if mem.toDouble.isSome then "FLOAT"
  else if mem.is_chartype compact then
    if mi.is_specialized ∧ mi.size = 1 then "CHAR(1)"
    else
      let n := match mem.lengthFeature with
        | some len => len
        | none => 30
      if n ≤ 4 then "CHAR(" ++ toString n ++ ")"
      else if n ≤ 255 then "VARCHAR(" ++ toString n ++ ")"
      else "LVARCHAR(" ++ toString n ++ ")"
  else if mi.isSigned ∧ (mi.max : Int) ≤ INT16_MAX then "SMALLINT"
  else if mi.isSigned ∧ (mi.max : Int) ≤ INT32_MAX then "INT"
  else if mi.isSigned ∨ mi.isUnsigned then "BIGINT"
  else "SMALLINT"

/-- `SQLInformixdescription::createStmt` (lines 84-126): the column type, followed by
`NOT NULL` when the member does not allow null. -/
def createStmt (mem : MemberBase) (compact : Bool) : String :=
  if ¬ mem.nullAllowed then createType mem compact ++ " NOT NULL" else createType mem compact

/-- The number of fractional digits of the seconds that a column type stores. -/
def fractionDigits (ty : String) : Nat :=
  if ty = "DATETIME YEAR TO FRACTION(1)" then 1
  else if ty = "DATETIME YEAR TO FRACTION(2)" then 2
  else if ty = "DATETIME YEAR TO FRACTION(3)" then 3
  else if ty = "DATETIME YEAR TO FRACTION(4)" then 4
  else if ty = "DATETIME YEAR TO FRACTION(5)" then 5
  else 0

/-- The column type of a time field as a function of its granularity in microseconds. -/
def timeColumn (g : Nat) : String :=
  if g ≥ 86400000000 then "DATE"
  else if g ≥ 1000000 then "DATETIME YEAR TO SECOND"
  else if g ≥ 100000 then "DATETIME YEAR TO FRACTION(1)"
  else if g ≥ 10000 then "DATETIME YEAR TO FRACTION(2)"
  else if g ≥ 1000 then "DATETIME YEAR TO FRACTION(3)"
  else if g ≥ 100 then "DATETIME YEAR TO FRACTION(4)"
  else "DATETIME YEAR TO FRACTION(5)"

/-- The metadata of a time field of granularity `g`, with other kind flags set as well. -/
def exampleTimeInfo (g : Nat) : MobsMemberInfo :=
  { isTime := true, isUnsigned := true, max := 1, granularity := g }

/-- A member with the metadata `exampleTimeInfo g` that does not allow null. -/
def exampleTimeField (g : Nat) : MemberBase :=
  { isNull := false, memInfo := exampleTimeInfo g, is_chartype := fun _ => true,
    toStr := fun _ => "", toDouble := some 0, blob := none, key := 0, isModified := false,
    nullAllowed := false }

end Informix

/-- The member is a signed or unsigned integer. -/
def Wert.isInteger : Wert → Prop
  | .sint _ _ | .uint _ _ => True
  | _ => False

/-- The value of an integer member. -/
def Wert.intValue : Wert → Int
  | .sint _ v => v
  | .uint _ v => v
  | _ => 0

/-- An integer member holds the maximum of its type. -/
def Wert.atMax : Wert → Prop
  | .sint t v => v = t.max
  | .uint t v => v = t.max
  | _ => False

namespace Informix

/-- The column types that `valueStmt` binds. -/
inductive SqlType where
  | SQLDATE
  | SQLDTIME
  | SQLINT
  | SQLBIGINT
  | SQLFLOAT
  | SQLVCHAR
  | SQLCHAR
  | SQLLVARCHAR
  deriving DecidableEq, Repr

/-- What `sql_var.sqldata` holds after the call: the null mark of `rsetnull`, the date of
`rmdyjul`, the date-time that `dtcvfmtasc` parsed from a text, an `int`, a `bigint`, a double
(as bit pattern) or the characters of `stcopy`. -/
inductive SqlData where
  | null
  | julian (d : Int)
  | dtime (text : String)
  | int (v : Int)
  | bigint (v : Int)
  | float (d : Nat)
  | chars (s : String)
  deriving DecidableEq, Repr

/-- One bound parameter `ifx_sqlvar_t`. -/
structure SqlVar where
  sqltype : SqlType
  sqllen : Int
  sqldata : SqlData
  deriving DecidableEq, Repr

/-- The Informix client library and the time conversions of `mchrono.h`, which are not among
the sources: whether the macro `SQLBIGINT` is defined, `rtypmsize`, the return code of
`rsetnull`, `toLocalTime` followed by `rmdyjul` (return code and date), `from_number(mi.i64, t)`
followed by `to_string_ansi(t)` and by `to_string_ansi(t, MF5)` (nothing when `from_number`
fails), the return code of `dtcvfmtasc`, `toLocalTime` followed by `put_time` with `%F`, and
`to_squote`. -/
structure InfxLib where
  hasBigint : Bool
  rtypmsize : SqlType → Int → Int
  rsetnull : SqlType → Int
  rmdyjul : MobsMemberInfo → Int × Int
  timeText : Int → Option String
  timeTextF5 : Int → Option String
  dtcvfmtasc : String → Int
  dateText : MobsMemberInfo → String
  to_squote : String → String

/-- `SQLInformixdescription::setBuffer` (lines 146-157): the length `sqllen` of the parameter;
the position of the value in the buffer is left out. -/
def setBuffer (lib : InfxLib) (t : SqlType) (sz : Int) : Except Exc Int :=
  if sz ≤ 0 then
    if lib.rtypmsize t sz ≤ 0 then .error (.runtime "error in setBuffer")
    else .ok (lib.rtypmsize t sz)
  else .ok sz

/-- The end of `valueStmt` (lines 301-304): the conversion code `e` is checked and the
placeholder is returned. -/
def finishBind (v : SqlVar) (e : Int) : Except Exc (String × Option SqlVar) :=
  if e ≠ 0 then .error (.informix "Conversion error Date" e) else .ok ("?", some v)

/-- One parameter is bound: `setBuffer`, then the null mark for a null member and the value
otherwise, then the check of the conversion code. -/
def bindVar (lib : InfxLib) (mem : MemberBase) (t : SqlType) (sz : Int) (data : SqlData)
    (e : Int) : Except Exc (String × Option SqlVar) :=
  match setBuffer lib t sz with
  | .error exc => .error exc
  | .ok len =>
    if mem.isNull then finishBind ⟨t, len, .null⟩ (lib.rsetnull t)
    else finishBind ⟨t, len, data⟩ e

/-- `SQLInformixdescription::valueStmt` (lines 158-306).  Without descriptor or buffer
(`bound = false`) the value is returned as text; otherwise the value is bound as the next
parameter and the placeholder `?` is returned. -/
def valueStmt (lib : InfxLib) (bound : Bool) (mem : MemberBase)
    (compact increment _inWhere : Bool) : Except Exc (String × Option SqlVar) :=
  let mi := mem.memInfo
  if ¬ bound then
    if mem.isNull then .ok ("null", none)
    else if mi.isTime ∧ mi.granularity ≥ 86400000000 then
      .ok (lib.to_squote (lib.dateText mi), none)
    else if mi.isTime then
      match lib.timeText mi.i64 with
      | none => .error (.runtime "Time Conversion")
      | some s => .ok (lib.to_squote s, none)
    else if mi.isUnsigned ∧ mi.max = 1 then .ok (if mi.u64 ≠ 0 then "1" else "0", none)
    else if mem.is_chartype compact then .ok (lib.to_squote (mem.toStr compact), none)
    else .ok (mem.toStr compact, none)
  else if mi.isTime ∧ mi.granularity ≥ 86400000000 then
    bindVar lib mem .SQLDATE 0 (.julian (lib.rmdyjul mi).2) (lib.rmdyjul mi).1
  else if mi.isTime then
    match lib.timeTextF5 mi.i64 with
    | none => .error (.runtime "Time Conversion")
    | some s => bindVar lib mem .SQLDTIME 0 (.dtime s) (lib.dtcvfmtasc s)
  else if mi.isUnsigned then
    if increment ∧ mi.u64 = mi.max then .error (.runtime "VersionElement overflow")
    else if increment ∧ mem.isNull then .error (.runtime "VersionElement is null")
    else
      let u := if increment then (mi.u64 + 1) % 18446744073709551616 else mi.u64
      if (mi.max : Int) > INT32_MAX then
        if ¬ lib.hasBigint ∨ (u : Int) > INT64_MAX then .error (.runtime "Number to big")
        else bindVar lib mem .SQLBIGINT 0 (.bigint (toInt64 u)) 0
      else bindVar lib mem .SQLINT 0 (.int (toInt32 u)) 0
  else if mi.isSigned then
    if increment ∧ toUInt64 mi.i64 = mi.max then .error (.runtime "VersionElement overflow")
    else if increment ∧ mem.isNull then .error (.runtime "VersionElement is null")
    else
      let i := if increment then toInt64 (mi.i64 + 1) else mi.i64
      if (mi.max : Int) > INT32_MAX then
        if lib.hasBigint then bindVar lib mem .SQLBIGINT 0 (.bigint i) 0
        else .error (.runtime "infx: bigint not avilable")
      else bindVar lib mem .SQLINT 0 (.int (toInt32 i)) 0
  else
    match mem.toDouble with
    | some d => bindVar lib mem .SQLFLOAT 0 (.float d) 0
    | none =>
      let s := mem.toStr compact
      if increment then .error (.runtime "VersionElement is not int")
      else if s.utf8ByteSize = 0 then bindVar lib mem .SQLCHAR 2 (.chars " ") 0
      else if s.utf8ByteSize ≥ 2 then
        bindVar lib mem .SQLLVARCHAR (s.utf8ByteSize + 1) (.chars s) 0
      else bindVar lib mem .SQLVCHAR (s.utf8ByteSize + 1) (.chars s) 0

/-- An `int` member holding 5. -/
def exampleFive : Member := { wert := .sint .int 5 }

/-- A client library with `SQLBIGINT`, four bytes for an `int` and eight for everything else,
and conversions that never fail. -/
def exampleLib : InfxLib :=
  { hasBigint := true
    rtypmsize := fun t _ => if t = .SQLINT then 4 else 8
    rsetnull := fun _ => 0
    rmdyjul := fun _ => (0, 0)
    timeText := fun _ => some "T"
    timeTextF5 := fun _ => some "T"
    dtcvfmtasc := fun _ => 0
    dateText := fun _ => "D"
    to_squote := fun s => s }

end Informix

/-! ### Cursors -/

/-- A document of the store without nested documents and arrays: names and native elements in
order. -/
abbrev Document := List (String × Element)

/-- The document `CountCursor` (`mongo.cpp` 570-578): only the count `cnt` of `DbCursor`. -/
structure CountCursor where
  cnt : Nat
  deriving DecidableEq, Repr

/-- The constructor `CountCursor(size)`. -/
def CountCursor.new (size : Nat) : CountCursor := ⟨size⟩

def CountCursor.eof (_c : CountCursor) : Bool := true

def CountCursor.valid (_c : CountCursor) : Bool := false

/-- The increment `operator++`, which `next()` calls. -/
def CountCursor.next (c : CountCursor) : CountCursor := c

/-- The accessor `DbCursor::pos` (`dbifc.h` 64-69). -/
def CountCursor.pos (c : CountCursor) : Nat := c.cnt

/-- The document `Cursor` (`mongo.cpp` 553-567): the count `cnt` of `DbCursor` and the
documents from the iterator `it` up to `cursor.end()`.  The driver's cursor is taken as the
list of the documents it delivers. -/
structure Cursor where
  cnt : Nat := 0
  rest : List Document
  deriving DecidableEq, Repr

/-- The constructor: `it(cursor.begin())`. -/
def Cursor.new (docs : List Document) : Cursor := { rest := docs }

/-- The test `it == cursor.end()`. -/
def Cursor.eof (c : Cursor) : Bool := c.rest.isEmpty

def Cursor.valid (c : Cursor) : Bool := !c.eof

/-- The increment `operator++`: `if (eof()) return; it.operator++(); cnt++;`. -/
def Cursor.next (c : Cursor) : Cursor :=
  if c.eof then c else { cnt := c.cnt + 1, rest := c.rest.tail }

def Cursor.pos (c : Cursor) : Nat := c.cnt

/-- The cursor after `k` increments. -/
def Cursor.advance : Nat → Cursor → Cursor
  | 0, c => c
  | k + 1, c => Cursor.advance k c.next

/-- The count cursor after `k` increments. -/
def CountCursor.advance : Nat → CountCursor → CountCursor
  | 0, c => c
  | k + 1, c => CountCursor.advance k c.next

namespace Informix

/-- A row of a result: the values of its columns as text. -/
abbrev Row := List String

def NOMOREROWS : Int := 100

/-- The relational `CountCursor` (`informix.cpp` 461-469). -/
structure CountCursor where
  cnt : Nat
  deriving DecidableEq, Repr

/-- The constructor `CountCursor(size)`. -/
def CountCursor.new (size : Nat) : CountCursor := ⟨size⟩

def CountCursor.eof (_c : CountCursor) : Bool := true

def CountCursor.valid (_c : CountCursor) : Bool := false

/-- The increment `operator++`, which `next()` calls. -/
def CountCursor.next (c : CountCursor) : CountCursor := c

def CountCursor.pos (c : CountCursor) : Nat := c.cnt

/-- The count cursor after `k` increments. -/
def CountCursor.advance : Nat → CountCursor → CountCursor
  | 0, c => c
  | k + 1, c => CountCursor.advance k c.next

/-- The server side of one cursor: the return code of `infx_query`, the number of columns
`descPtr->sqld`, the buffer position the layout loop of `open` reaches, the return code of
`infx_open_curs`, and the answers to the successive `infx_fetch` calls (return code and row);
when they are used up a fetch answers `NOMOREROWS`. -/
structure CursorServer where
  queryCode : Int := 0
  fldCnt : Nat := 0
  bufferNeeded : Nat := 0
  openCode : Int := 0
  replies : List (Int × Row)

/-- One `infx_fetch`: the answer and the answers that remain. -/
def fetchReply (pending : List (Int × Row)) : (Int × Row) × List (Int × Row) :=
  match pending with
  | [] => ((NOMOREROWS, []), [])
  | r :: rest => (r, rest)

/-- An `InformixCursor` (`informix.cpp` 474-560): the count `cnt` of `DbCursor`, the descriptor
`descPtr` with the row fetched last (`nullptr` is `none`), `fldCnt`, and the answers the server
still holds for this cursor. -/
structure InformixCursor where
  cnt : Nat := 0
  descPtr : Option Row := none
  fldCnt : Nat := 0
  pending : List (Int × Row) := []
  deriving DecidableEq, Repr

def InformixCursor.eof (c : InformixCursor) : Bool := c.descPtr.isNone

def InformixCursor.valid (c : InformixCursor) : Bool := !c.eof

def InformixCursor.pos (c : InformixCursor) : Nat := c.cnt

/-- The private `close()`: the descriptor is freed and set to `nullptr`. -/
def InformixCursor.close (c : InformixCursor) : InformixCursor := { c with descPtr := none }

/-- The increment `operator++` (lines 487-502), which `next()` calls: the cursor afterwards and
the exception, if one is thrown. -/
def InformixCursor.next (c : InformixCursor) : InformixCursor × Option Exc :=
  if c.eof then (c, none)
  else if (fetchReply c.pending).1.1 ≠ 0 then
    if (fetchReply c.pending).1.1 = NOMOREROWS then
      ({ c with pending := (fetchReply c.pending).2 }.close, none)
    else
      ({ c with pending := (fetchReply c.pending).2 }.close,
        some (.informix "cursor: query row failed" (fetchReply c.pending).1.1))
  else
    ({ c with descPtr := some (fetchReply c.pending).1.2, pending := (fetchReply c.pending).2,
              cnt := c.cnt + 1 }, none)

/-- The private `open(stmt)` (lines 504-546) on a new cursor, for the server side `srv` that the
statement selects: query, layout of the columns in `buf` (32768 bytes), `infx_open_curs` and
the first fetch. -/
def InformixCursor.open (srv : CursorServer) : Except Exc InformixCursor :=
  if srv.queryCode ≠ 0 then .error (.informix "cursor: query row failed" srv.queryCode)
  else if srv.bufferNeeded > 32768 then .error (.runtime "informix Buffer overflow")
  else if srv.openCode ≠ 0 then .error (.informix "cursor: open cursor failed" srv.openCode)
  else if (fetchReply srv.replies).1.1 ≠ 0 then
    if (fetchReply srv.replies).1.1 ≠ NOMOREROWS then
      .error (.informix "cursor: query row failed" (fetchReply srv.replies).1.1)
    else .ok { fldCnt := srv.fldCnt, pending := (fetchReply srv.replies).2 }
  else
    .ok { descPtr := some (fetchReply srv.replies).1.2, fldCnt := srv.fldCnt,
          pending := (fetchReply srv.replies).2 }

/-- The cursor after `k` increments (exceptions aside). -/
def InformixCursor.advance : Nat → InformixCursor → InformixCursor
  | 0, c => c
  | k + 1, c => InformixCursor.advance k c.next.1

/-- The server side of a cursor over the result `rows`: every call succeeds and the fetches
deliver the rows in order. -/
def resultOf (rows : List Row) : CursorServer := { replies := rows.map (fun r => (0, r)) }

end Informix

/-! ### Objects and `retrieve` -/

/-- The empty value `c_empty()` of a type (`objtypes.h` 403-406): `T()`. -/
def Wert.c_empty : Wert → Wert
  | .sint t _ => .sint t 0
  | .uint t _ => .uint t 0
  | .bool _ => .bool false
  | .double _ => .double 0
  | .float _ => .float 0
  | .string _ => .string ""
  | .blob _ => .blob []
  | .time _ => .time 0

/-- Modelled from the spec: an object (`ObjectBase`, declared in `objgen.h`, which is not among
the sources) reduced to what the connections touch here: its scalar fields in order, by name;
its repeated groups, whose elements are held as the rows read for them; and the name of the
version field, if it has one. -/
structure ObjectBase where
  fields : List (String × Member)
  groups : List (List Informix.Row) := []
  versionField : Option String := none
  deriving DecidableEq, Repr

/-- Modelled from the spec: `clear()` "resets to empty-but-typed": every field takes the empty
value of its type and every repeated group loses its elements. -/
def ObjectBase.clear (obj : ObjectBase) : ObjectBase :=
  { obj with
    fields := obj.fields.map (fun f => (f.1, { f.2 with wert := f.2.wert.c_empty }))
    groups := obj.groups.map (fun _ => []) }

namespace Informix

/-- Modelled from the spec: what the `SqlGenerator` (not among the sources) does for
`retrieve`: `readObject(obj)` fills the object from the current row (the object afterwards and
the exception, if a conversion throws); `selectStatementArray(di)` yields, while
`not gsql.eof()`, one select per repeated group, in the order of the groups, after it has
extended the vector by one element `blank` to see its structure; `readObject(di)` appends to
group `i` one element read from the current row (the element and the exception, if any). -/
structure ReadGenerator where
  readObject : Row → ObjectBase → ObjectBase × Option Exc
  selectStatementArray : List String
  blank : Row
  readElement : Nat → Row → Row × Option Exc

/-- The elements of group `i` are replaced by `f` of them. -/
def modifyGroup (obj : ObjectBase) (i : Nat) (f : List Row → List Row) : ObjectBase :=
  { obj with groups := obj.groups.set i (f (obj.groups.getD i [])) }

/-- The loop `while (not curs2->eof())` of `retrieve` (lines 917-920): `readObject(di)` for the
current row, then `next()`.  The first argument bounds the number of rounds; `retrieve` passes
the number of answers the server still holds plus 2, which the loop cannot exceed. -/
def readRows (g : ReadGenerator) (i : Nat) :
    Nat → InformixCursor → ObjectBase → ObjectBase × Option Exc
  | 0, _, obj => (obj, none)
  | fuel + 1, c, obj =>
    match c.descPtr with
    | none => (obj, none)
    | some row =>
      match (g.readElement i row).2 with
      | some exc => (modifyGroup obj i (fun l => l ++ [(g.readElement i row).1]), some exc)
      | none =>
        match c.next.2 with
        | some exc => (modifyGroup obj i (fun l => l ++ [(g.readElement i row).1]), some exc)
        | none =>
          readRows g i fuel c.next.1
            (modifyGroup obj i (fun l => l ++ [(g.readElement i row).1]))

/-- Result of `retrieve`: the object afterwards, the select statements for which a cursor was
opened, and the exception, if one was thrown. -/
structure RetrieveRun where
  obj : ObjectBase
  selects : List String
  out : Option Exc

/-- The loop `while (not gsql.eof())` of `retrieve` (lines 908-921) from group `i` on: the
select for the group, a new cursor opened on it, `resize(0)`, and the loop over the rows.
`srv` gives the server side of the cursor for a statement. -/
def retrieveGroups (srv : String → CursorServer) (g : ReadGenerator) :
    Nat → List String → ObjectBase → List String → RetrieveRun
  | _, [], obj, tr => ⟨obj, tr, none⟩
  | i, s :: rest, obj, tr =>
    match InformixCursor.open (srv s) with
    | .error exc => ⟨modifyGroup obj i (fun l => l ++ [g.blank]), tr ++ [s], some exc⟩
    | .ok curs2 =>
      match (readRows g i (curs2.pending.length + 2) curs2
          (modifyGroup (modifyGroup obj i (fun l => l ++ [g.blank])) i (fun _ => []))).2 with
      | some exc =>
        ⟨(readRows g i (curs2.pending.length + 2) curs2
            (modifyGroup (modifyGroup obj i (fun l => l ++ [g.blank])) i (fun _ => []))).1,
          tr ++ [s], some exc⟩
      | none =>
        retrieveGroups srv g (i + 1) rest
          (readRows g i (curs2.pending.length + 2) curs2
            (modifyGroup (modifyGroup obj i (fun l => l ++ [g.blank])) i (fun _ => []))).1
          (tr ++ [s])

/-- `InformixDatabaseConnection::retrieve` (lines 891-924).  `cursor` is the result of the
cast of the cursor to `InformixCursor` (`none` when the cursor is of another class). -/
def retrieve (be : Backend) (srv : String → CursorServer) (g : ReadGenerator) (c : Conn)
    (cursor : Option InformixCursor) (obj : ObjectBase) : RetrieveRun :=
  match cursor with
  | none => ⟨obj, [], some (.runtime "InformixDatabaseConnection: invalid cursor")⟩
  | some curs =>
    match curs.descPtr with
    | none => ⟨obj, [], some (.runtime "Cursor eof")⟩
    | some row =>
      match openConnection be c with
      | .error (_, exc) => ⟨obj, [], some exc⟩
      | .ok _ =>
        match (g.readObject row obj.clear).2 with
        | some exc => ⟨(g.readObject row obj.clear).1, [], some exc⟩
        | none => retrieveGroups srv g 0 g.selectStatementArray (g.readObject row obj.clear).1 []

/-- The groups that reading the results `results` of the selects `sels` in row order gives,
for the groups from index `i` on. -/
def groupsRead (g : ReadGenerator) (results : String → List Row) :
    Nat → List String → List (List Row)
  | _, [] => []
  | i, s :: rest =>
    (results s).map (fun row => (g.readElement i row).1) :: groupsRead g results (i + 1) rest

end Informix

namespace Informix

/-- A generator for an object with one repeated group: the main row is taken as read, the
select for the group is `"SEL"`, and an element is the row itself. -/
def exampleReader : ReadGenerator :=
  { readObject := fun _ obj => (obj, none)
    selectStatementArray := ["SEL"]
    blank := []
    readElement := fun _ row => (row, none) }

/-- The results of the example: every select returns the rows `x` and `y`. -/
def exampleResults (_s : String) : List Row := [["x"], ["y"]]

/-- An object with the field `id` holding 5 and one repeated group with one element. -/
def exampleObject : ObjectBase :=
  { fields := [("id", { wert := .sint .int 5, key := 1 })], groups := [[["old"]]] }

/-- A cursor that stands on the row `main`. -/
def exampleCursor : InformixCursor := { descPtr := some ["main"] }

end Informix

/-! ### The document connection: `retrieve` and `save` -/

/-- Modelled from the spec: `ObjectNavigator::enter(key)` followed by `member()` (`objgen.h`,
not among the sources): the field of that name, if the object has one. -/
def member (fields : List (String × Member)) (key : String) : Option Member :=
  match fields with
  | [] => none
  | f :: rest => if f.1 = key then some f.2 else member rest key

/-- The field of that name is replaced by `m`. -/
def setMember (fields : List (String × Member)) (key : String) (m : Member) :
    List (String × Member) :=
  match fields with
  | [] => []
  | f :: rest => if f.1 = key then (f.1, m) :: rest else f :: setMember rest key m

/-- Modelled from the spec: `getVersion()`: the value of the version field, and the sentinel -1
when the object has none. -/
def ObjectBase.getVersion (obj : ObjectBase) : Int :=
  match obj.versionField with
  | none => -1
  | some name =>
    match member obj.fields name with
    | some m => m.wert.intValue
    | none => -1

/-- `MongoRead::parsival` (lines 426-546) over a document without nested documents, arrays and
object identifiers: a null element sets the member of that name to null (modelled from the
spec: `setNull()`); any other element is assigned to the member of that name by the scalar
cases; an element without member throws only if `exceptionIfUnknown()`.  The result is the
fields afterwards and the message of the exception, if one is thrown. -/
def MongoRead.parsivalView (ext : Ext) (exceptionIfUnknown : Bool) :
    Document → List (String × Member) → List (String × Member) × Option String
  | [], fs => (fs, none)
  | (key, e) :: rest, fs =>
    match member fs key with
    | none =>
      if e ≠ .null ∧ exceptionIfUnknown then (fs, some "mongodb: is no variable, can't assign")
      else MongoRead.parsivalView ext exceptionIfUnknown rest fs
    | some m =>
      if e = .null then
        MongoRead.parsivalView ext exceptionIfUnknown rest
          (setMember fs key { m with null := true })
      else
        match MongoRead.parsival ext m e with
        | .assigned m2 =>
          MongoRead.parsivalView ext exceptionIfUnknown rest (setMember fs key m2)
        | .thrown m2 what => (setMember fs key m2, some what)
        | .skipped => MongoRead.parsivalView ext exceptionIfUnknown rest fs

namespace Mongo

/-- `mongoDatabaseConnection::retrieve` (`mongo.cpp` 751-762).  `cursor` is the result of the
cast of the cursor to `Cursor`; `endView` is what the driver yields for `*(curs->it)` when the
iterator is at `cursor.end()`.  The result is the object afterwards and the message of the
exception, if one is thrown. -/
def retrieve (ext : Ext) (endView : Document) (cursor : Option Cursor) (obj : ObjectBase) :
    ObjectBase × Option String :=
  match cursor with
  | none => (obj, some "invalid cursor")
  | some curs =>
    ({ obj.clear with
        fields := (MongoRead.parsivalView ext false (curs.rest.headD endView)
          obj.clear.fields).1 },
      (MongoRead.parsivalView ext false (curs.rest.headD endView) obj.clear.fields).2)

/-- `ObjectBase::traverse(bo)` with a `BsonOut` for an object of scalar fields: `doMem` for
every field in order; the document is what `doMem` appended under the names of the fields. -/
def traverse (ext : Ext) (o : BsonOut) (fields : List (String × Member)) : Document :=
  fields.filterMap (fun f => (o.doMem (f.2.base ext)).map (fun r => (f.1, r.2)))

/-- Modelled from the spec: `ObjectBase::traverseKey(bk)` (`objgen.h`, not among the sources):
the traversal "restricted to key fields", the fields with a key ordinal above 0, in the order
of their ordinals. -/
def traverseKey (ext : Ext) (o : BsonOut) (fields : List (String × Member)) : Document :=
  traverse ext o
    ((fields.filter (fun f => decide (0 < f.2.key))).insertionSort
      (fun a b => a.2.key ≤ b.2.key))

/-- A document matches a filter of equalities when it holds every pair of the filter. -/
def matchesFilter (filter doc : Document) : Bool := filter.all (fun p => doc.contains p)

/-- The driver call `collection::replace_one(filter, replacement)` with `upsert(true)`: the
first document that matches the filter is replaced; without a match the replacement is
inserted. -/
def replace_one (coll : List Document) (filter repl : Document) : List Document :=
  match coll with
  | [] => [repl]
  | d :: rest =>
    if matchesFilter filter d then repl :: rest else d :: replace_one rest filter repl

/-- `mongoDatabaseConnection::save` (`mongo.cpp` 642-666) on an established connection: the
collection afterwards and the message of the exception, if one is thrown.  `acknowledged` is
whether the driver returns a result for the write. -/
def save (ext : Ext) (acknowledged : Bool) (coll : List Document) (obj : ObjectBase) :
    List Document × Option String :=
  if ¬ acknowledged then
    (replace_one coll (traverseKey ext {} obj.fields)
        (traverse ext { omitNull := true } obj.fields),
      some "save failed")
  else
    (replace_one coll (traverseKey ext {} obj.fields)
        (traverse ext { omitNull := true } obj.fields),
      none)

/-- A stored document with key `id` 1 and version 3. -/
def exampleStored : Document := [("id", .int32 1), ("version", .int32 3), ("name", .utf8 "new")]

/-- A stale copy of that object: key `id` 1, version field holding 2. -/
def exampleStale : ObjectBase :=
  { fields := [("id", { wert := .sint .int 1, key := 1 }), ("version", { wert := .sint .int 2 }),
      ("name", { wert := .string "old" })]
    versionField := some "version" }

end Mongo

namespace Informix

def INT16_MIN : Int := -32768

/-- The smallest integer column type that holds the whole range of a bounded integer field, in
the words of the specification: `BOOLEAN` for an unsigned field with maximum 1, `SMALLINT` if
the bounds fit 16 bits, `INT` if they fit 32 bits, `BIGINT` otherwise. -/
def smallestIntegerType (mi : MobsMemberInfo) : String :=
  if mi.isUnsigned ∧ mi.max = 1 then "BOOLEAN"
  else if INT16_MIN ≤ mi.min ∧ (mi.max : Int) ≤ INT16_MAX then "SMALLINT"
  else if INT32_MIN ≤ mi.min ∧ (mi.max : Int) ≤ INT32_MAX then "INT"
  else "BIGINT"

/-- An `unsigned short` member holding 0. -/
def exampleUShort : Member := { wert := .uint .unsignedShort 0 }

/-- A `short` member holding 0. -/
def exampleShort : Member := { wert := .sint .shortInt 0 }

/-- A string member without declared length. -/
def exampleString : Member := { wert := .string "x" }

end Informix

/-! ### The interface handle -/

/-- `DatabaseInterface` (`dbifc.h` 126-312): the connection (the shared pointer is identified
by a number), the database name, the options and the transaction (`nullptr` is `none`); the
timeout counts milliseconds. -/
structure DatabaseInterface where
  dbCon : Nat
  databaseName : String
  countCursor : Bool := false
  dirtyRead : Bool := false
  skip : Nat := 0
  limit : Nat := 0
  timeout : Int := 0
  transaction : Option Nat := none
  deriving DecidableEq, Repr

/-- The builder `withCountCursor()`: `DatabaseInterface d(*this); d.countCursor = true;
return d;`. -/
def DatabaseInterface.withCountCursor (d : DatabaseInterface) : DatabaseInterface :=
  { d with countCursor := true }

def DatabaseInterface.withDirtyRead (d : DatabaseInterface) : DatabaseInterface :=
  { d with dirtyRead := true }

def DatabaseInterface.withQuerySkip (d : DatabaseInterface) (skipCnt : Nat) :
    DatabaseInterface :=
  { d with skip := skipCnt }

def DatabaseInterface.withQueryLimit (d : DatabaseInterface) (limitCnt : Nat) :
    DatabaseInterface :=
  { d with limit := limitCnt }

def DatabaseInterface.withTimeout (d : DatabaseInterface) (millisec : Int) :
    DatabaseInterface :=
  { d with timeout := millisec }

namespace Informix

def EXISTS : Int := -310

def EXISTSNOT : Int := -206

/-- Result of `structure` and `dropAll`: connection state afterwards, the texts handed to
`infx_execute`, and the exception, if one is thrown. -/
structure AdminRun where
  conn : Conn
  trace : List String
  out : Except Exc Unit

/-- The loop `for (bool first = true; first or not gsql.eof(); first = false)` of `structure`
and `dropAll` over the texts the generator yields: each text is executed; a non-zero code other
than `ignored` throws. -/
def executeAll (be : Backend) (ignored : Int) (what : String) :
    List (Except Exc String) → List String → List String × Except Exc Unit
  | [], tr => (tr, .ok ())
  | .error exc :: _, tr => (tr, .error exc)
  | .ok s :: rest, tr =>
    if (be.exec tr s).code ≠ 0 ∧ (be.exec tr s).code ≠ ignored then
      (tr ++ [s], .error (.informix what (be.exec tr s).code))
    else executeAll be ignored what rest (tr ++ [s])

/-- `InformixDatabaseConnection::structure` (lines 847-860); the name is a keyword of Lean.
`first` is the text of `createStatement(true)`, for the main table, and `rest` are the texts of
the following `createStatement(false)` calls, for the repeated groups. -/
def structureTables (be : Backend) (c : Conn) (first : Except Exc String)
    (rest : List (Except Exc String)) : AdminRun :=
  match openConnection be c with
  | .error (c1, exc) => ⟨c1, [], .error exc⟩
  | .ok c1 =>
    ⟨c1, (executeAll be EXISTS "create failed" (first :: rest) []).1,
      (executeAll be EXISTS "create failed" (first :: rest) []).2⟩

/-- `InformixDatabaseConnection::dropAll` (lines 832-845). -/
def dropAll (be : Backend) (c : Conn) (first : Except Exc String)
    (rest : List (Except Exc String)) : AdminRun :=
  match openConnection be c with
  | .error (c1, exc) => ⟨c1, [], .error exc⟩
  | .ok c1 =>
    ⟨c1, (executeAll be EXISTSNOT "dropAll failed" (first :: rest) []).1,
      (executeAll be EXISTSNOT "dropAll failed" (first :: rest) []).2⟩

/-- A server on which every table exists already: a text that starts with `C` is answered with
-310, every other text with 0. -/
def exampleExisting : Backend :=
  ⟨fun _ s => if s.front = 'C' then ⟨-310, 0⟩ else ⟨0, 0⟩, fun _ => 1⟩

/-- Result of `load`: the object afterwards, the select statements for which a cursor was
opened, and the value or exception. -/
structure LoadRun where
  obj : ObjectBase
  selects : List String
  out : Except Exc Bool

/-- `InformixDatabaseConnection::load` (lines 627-642); `selectStatementFirst` is the text the
generator yields for the key of the object. -/
def load (be : Backend) (srv : String → CursorServer) (g : ReadGenerator)
    (selectStatementFirst : String) (c : Conn) (obj : ObjectBase) : LoadRun :=
  match openConnection be c with
  | .error (_, exc) => ⟨obj, [], .error exc⟩
  | .ok c1 =>
    match InformixCursor.open (srv selectStatementFirst) with
    | .error exc => ⟨obj, [selectStatementFirst], .error exc⟩
    | .ok cursor =>
      if cursor.eof then ⟨obj, [selectStatementFirst], .ok false⟩
      else
        match (retrieve be srv g c1 (some cursor) obj).out with
        | some exc =>
          ⟨(retrieve be srv g c1 (some cursor) obj).obj,
            selectStatementFirst :: (retrieve be srv g c1 (some cursor) obj).selects,
            .error exc⟩
        | none =>
          ⟨(retrieve be srv g c1 (some cursor) obj).obj,
            selectStatementFirst :: (retrieve be srv g c1 (some cursor) obj).selects,
            .ok true⟩

end Informix

namespace Mongo

/-- The driver call `collection::find_one(filter)`: the first document that matches. -/
def find_one (coll : List Document) (filter : Document) : Option Document :=
  coll.find? (matchesFilter filter)

/-- `mongoDatabaseConnection::load` (`mongo.cpp` 607-624) on an established connection: the
object afterwards and the value, or the message of the exception. -/
def load (ext : Ext) (coll : List Document) (obj : ObjectBase) :
    ObjectBase × Except String Bool :=
  match find_one coll (traverseKey ext {} obj.fields) with
  | none => (obj, .ok false)
  | some val =>
    match (MongoRead.parsivalView ext false val obj.clear.fields).2 with
    | some what =>
      ({ obj.clear with fields := (MongoRead.parsivalView ext false val obj.clear.fields).1 },
        .error what)
    | none =>
      ({ obj.clear with fields := (MongoRead.parsivalView ext false val obj.clear.fields).1 },
        .ok true)

end Mongo

/-! ### The XML parser -/

/-- The callbacks of `XmlParser` (`xmlparser.h` 85-117) with their arguments; for `Cdata` the
`len` characters from `value` on. -/
inductive Call where
  | NullTag (element : List Char)
  | Attribut (element attribut value : List Char)
  | Value (value : List Char)
  | Cdata (value : List Char)
  | StartTag (element : List Char)
  | EndTag (element : List Char)
  | ProcessingInstruction (element attribut value : List Char)
  deriving DecidableEq, Repr

/-- A `std::runtime_error` of the parser: the text, and the names or characters that the source
appends to it. -/
structure XmlError where
  what : String
  args : List (List Char) := []
  deriving DecidableEq, Repr

/-- State of an `XmlParser` (`xmlparser.h` 418-424): the text, the positions (`npos` is `none`
for `pos2`, the only position that takes it), the stack `tags` with its top first, `lastKey`,
and the calls made so far, each with the `tagPath()` the callback sees. -/
structure XmlParser where
  Xml : List Char
  pos1 : Nat := 0
  pos2 : Option Nat := some 0
  posS : Nat := 0
  posE : Nat := 0
  tags : List (List Char) := []
  lastKey : List Char := []
  calls : List (Call × List (List Char)) := []
  deriving DecidableEq, Repr

namespace XmlParser

/-- How a member function ends: it returns, it throws, or (for the loops, which are bounded
here) the bound of a loop is used up. -/
inductive Res (α : Type) where
  | ok (a : α) (s : XmlParser)
  | thrown (e : XmlError) (s : XmlParser)
  | unfinished (s : XmlParser)
  deriving DecidableEq, Repr

def Res.state {α : Type} : Res α → XmlParser
  | .ok _ s => s
  | .thrown _ s => s
  | .unfinished s => s

/-- A member function of the parser. -/
abbrev Parse (α : Type) : Type := XmlParser → Res α

instance : Monad Parse where
  pure a := fun s => .ok a s
  bind m f := fun s =>
    match m s with
    | .ok a s1 => f a s1
    | .thrown e s1 => .thrown e s1
    | .unfinished s1 => .unfinished s1

def raise {α : Type} (what : String) (args : List (List Char)) : Parse α :=
  fun s => .thrown ⟨what, args⟩ s

def outOfFuel {α : Type} : Parse α := fun s => .unfinished s

def getState : Parse XmlParser := fun s => .ok s s

def update (f : XmlParser → XmlParser) : Parse Unit := fun s => .ok () (f s)

def dquote : Char := Char.ofNat 34

def squote : Char := Char.ofNat 39

/-- The first index from `i` on, the index of the head of the list, at which `p` holds. -/
def findIf (p : Char → Bool) : List Char → Nat → Option Nat
  | [], _ => none
  | c :: rest, i => if p c then some i else findIf p rest (i + 1)

/-- The searches `Xml.find(c, pos)`, `Xml.find_first_of(set, pos)` and
`Xml.find_first_not_of(set, pos)`, with `npos` as `none`. -/
def find (p : Char → Bool) (Xml : List Char) (pos : Nat) : Option Nat :=
  findIf p (Xml.drop pos) pos

def findFrom (pat : List Char) : List Char → Nat → Option Nat
  | [], _ => none
  | c :: rest, i => if List.isPrefixOf pat (c :: rest) then some i else findFrom pat rest (i + 1)

/-- The search `Xml.find(pat, pos)` for a text `pat` that is not empty. -/
def findStr (pat : List Char) (Xml : List Char) (pos : Nat) : Option Nat :=
  findFrom pat (Xml.drop pos) pos

/-- The comparison `p < n` of a search result with a position; `npos` is the largest value. -/
def below (p : Option Nat) (n : Nat) : Bool :=
  match p with
  | some q => decide (q < n)
  | none => false

/-- The text `std::string(&Xml[pos], len)`. -/
def substr (Xml : List Char) (pos len : Nat) : List Char := (Xml.drop pos).take len

/-- The character of a token `&tok;` in `decode`; `none` is the character 0 of the source. -/
def entity (tok : List Char) : Option Char :=
  if tok = "lt".toList then some '<'
  else if tok = "gt".toList then some '>'
  else if tok = "amp".toList then some '&'
  else if tok = "quot".toList then some dquote
  else if tok = "apos".toList then some squote
  else none

/-- The loop of `decode` (lines 373-417); every round but the last moves `posS` forward, so
`posE - posS + 1` rounds are enough. -/
def decodeLoop (Xml : List Char) : Nat → Nat → Nat → List Char → List Char
  | 0, _, _, result => result
  | fuel + 1, posS, posE, result =>
    match find (fun c => c = '&') Xml posS with
    | none => result ++ substr Xml posS (posE - posS)
    | some pos =>
      if pos < posE then
        match find (fun c => c = ';') Xml (pos + 1) with
        | none =>
          decodeLoop Xml fuel (pos + 1) posE (result ++ substr Xml posS (pos - posS) ++ ['&'])
        | some p =>
          if p < posE ∧ p < pos + 1 + 16 then
            match entity (substr Xml (pos + 1) (p - (pos + 1))) with
            | some c =>
              decodeLoop Xml fuel (p + 1) posE (result ++ substr Xml posS (pos - posS) ++ [c])
            | none =>
              decodeLoop Xml fuel (pos + 1) posE
                (result ++ substr Xml posS (pos - posS) ++ ['&'])
          else
            decodeLoop Xml fuel (pos + 1) posE (result ++ substr Xml posS (pos - posS) ++ ['&'])
      else result ++ substr Xml posS (posE - posS)

/-- The function `decode(posS, posE)`, which the source calls with `posS <= posE` only. -/
def decode (Xml : List Char) (posS posE : Nat) : List Char :=
  decodeLoop Xml (posE - posS + 1) posS posE []

def parse2LT : Parse Unit :=
  update fun s => { s with pos2 := find (fun c => c = '<') s.Xml s.pos1 }

/-- The characters `/ <>="'?!` that end a name. -/
def delimiters : List Char := ['/', ' ', '<', '>', '=', dquote, squote, '?', '!']

def parse2GT : Parse Unit := fun s =>
  match find (fun c => delimiters.contains c) s.Xml s.pos1 with
  | none => .thrown ⟨"Syntax", []⟩ { s with pos2 := none }
  | some p => .ok () { s with pos2 := some p }

def parse2Char (c : Char) : Parse Unit := fun s =>
  match find (fun x => x = c) s.Xml s.pos1 with
  | none => .thrown ⟨"Syntax", []⟩ { s with pos2 := none }
  | some p => .ok () { s with pos2 := some p }

def parse2Com : Parse Unit := fun s =>
  match findStr "-->".toList s.Xml s.pos1 with
  | none => .thrown ⟨"Syntax", []⟩ { s with pos2 := none }
  | some p => .ok () { s with pos2 := some p, pos1 := p + 2 }

def parse2CD : Parse Unit := fun s =>
  match findStr "]]>".toList s.Xml s.pos1 with
  | none => .thrown ⟨"Syntax", []⟩ { s with pos2 := none }
  | some p => .ok () { s with pos2 := some p }

def getValue : Parse (List Char) := fun s =>
  match s.pos2 with
  | none => .thrown ⟨"unexpected EOF", []⟩ s
  | some p2 => .ok (decode s.Xml s.pos1 p2) { s with pos1 := p2 }

def clearValue : Parse Unit := update fun s => { s with posS := s.posE }

/-- The white space ` \n\r\t` of `saveValue`. -/
def white : List Char := [' ', Char.ofNat 10, Char.ofNat 13, Char.ofNat 9]

def saveValue : Parse Unit := fun s =>
  if s.posS ≠ s.posE ∧ below (find (fun c => !white.contains c) s.Xml s.posS) s.posE = true then
    .thrown ⟨"unexpected char", []⟩
      { s with pos1 := (find (fun c => !white.contains c) s.Xml s.posS).getD 0 }
  else
    match s.pos2 with
    | none => .thrown ⟨"unexpected EOF", []⟩ s
    | some p2 => .ok () { s with posS := s.pos1, posE := p2, pos1 := p2 }

/-- The character `Xml[pos]`; at the length of the text it is the terminating character 0. -/
def charAt (Xml : List Char) (pos : Nat) : Char := Xml.getD pos (Char.ofNat 0)

/-- The function `eat(char c)`. -/
def eatChar (c : Char) : Parse Unit := fun s =>
  if charAt s.Xml s.pos1 ≠ c then .thrown ⟨"Expected", [[c], [charAt s.Xml s.pos1]]⟩ s
  else .ok () { s with pos1 := s.pos1 + 1 }

def eat : Parse Unit := update fun s => { s with pos1 := s.pos1 + 1 }

def peek : Parse Char := fun s =>
  if s.pos1 ≥ s.Xml.length then .thrown ⟨"unexpected EOF", []⟩ s
  else .ok (charAt s.Xml s.pos1) s

/-- A callback is called: the call is recorded with the `tagPath()` it can see. -/
def call (c : Call) : Parse Unit :=
  update fun s => { s with calls := s.calls ++ [(c, s.tags)] }

def push (element : List Char) : Parse Unit :=
  update fun s => { s with tags := element :: s.tags }

/-- The statement `tags.pop();`, which the source reaches with an element on the stack only. -/
def pop : Parse Unit := update fun s => { s with tags := s.tags.tail }

def setLastKey (key : List Char) : Parse Unit := update fun s => { s with lastKey := key }

/-- The statement `if (c) throw std::runtime_error(what + args);`. -/
def throwIf (c : Prop) [Decidable c] (what : String) (args : List (List Char)) : Parse Unit :=
  if c then raise what args else pure ()

/-- The statement that eats the opening quote `c`: a double quote if `c` is one, else a single
quote. -/
def eatQuote (c : Char) : Parse Unit :=
  if c = dquote then eatChar dquote else eatChar squote

/-- The part `eat('='); char c = peek(); ... eat(c);` that reads a quoted value. -/
def quoted : Parse (List Char) := do
  eatChar '='
  let c ← peek
  eatQuote c
  parse2Char c
  let v ← getValue
  eatChar c
  pure v

/-- The loop `for (;peek() != '?';)` over the attributes of the leading `<?xml ... ?>`
(lines 134-149). -/
def parseHeader : Nat → Parse Unit
  | 0 => outOfFuel
  | fuel + 1 => do
    let c ← peek
    if c = '?' then pure ()
    else do
      eatChar ' '
      parse2GT
      let a ← getValue
      let v ← quoted
      call (.ProcessingInstruction "xml".toList a v)
      parseHeader fuel

/-- The loop `for (;;)` over the attributes of a processing instruction (lines 227-250). -/
def parseInstruction (element : List Char) : Nat → Parse Unit
  | 0 => outOfFuel
  | fuel + 1 => do
    let c ← peek
    if c = '?' then do
      eat
      call (.ProcessingInstruction element [] [])
    else do
      eatChar ' '
      parse2GT
      let a ← getValue
      let c ← peek
      let v ← (if c = '=' then quoted else pure [])
      call (.ProcessingInstruction element a v)
      parseInstruction element fuel

/-- The loop `for (;;)` over the attributes of an element (lines 262-290); the two tests of
`peek()` are made on one result, since `peek()` changes nothing. -/
def parseAttributes (element : List Char) : Nat → Parse Unit
  | 0 => outOfFuel
  | fuel + 1 => do
    let c ← peek
    if c = '>' then do
      eat
      parse2LT
    else if c = '/' then do
      eat
      eatChar '>'
      call (.NullTag element)
      pop
      parse2LT
    else do
      eatChar ' '
      parse2GT
      let a ← getValue
      let v ← quoted
      call (.Attribut element a v)
      parseAttributes element fuel

/-- The branch for an end tag (lines 160-181). -/
def parseEndTag : Parse Unit := do
  eat
  parse2GT
  let element ← getValue
  throwIf (element = []) "missing tag E" []
  let s ← getState
  (if s.lastKey = element then do
    call (.Value (decode s.Xml s.posS s.posE))
    clearValue
    setLastKey []
  else pure ())
  call (.EndTag element)
  let s ← getState
  throwIf (s.tags = []) "unexpected closing tag " [element]
  throwIf (s.tags.head? ≠ some element) "unmatching tag " [element, s.tags.headD []]
  pop
  eatChar '>'
  parse2LT

/-- The branch for `<![CDATA[ ... ]]>` and for a comment (lines 183-213). -/
def parseMarkup : Parse Unit := do
  eat
  let c ← peek
  (if c = '[' then do
    eatChar '['
    eatChar 'C'
    eatChar 'D'
    eatChar 'A'
    eatChar 'T'
    eatChar 'A'
    eatChar '['
    parse2CD
    saveValue
    let s ← getState
    call (.Cdata (substr s.Xml s.posS (s.posE - s.posS)))
    clearValue
    setLastKey []
    eat
    eat
  else do
    eatChar '-'
    eatChar '-'
    parse2Com)
  eatChar '>'
  parse2LT

/-- The branch for a processing instruction (lines 215-254). -/
def parseProcessing (fuel : Nat) : Parse Unit := do
  eat
  parse2GT
  let element ← getValue
  parseInstruction element fuel
  eatChar '>'
  parse2LT

/-- The branch for the beginning of an element (lines 255-292). -/
def parseElement (fuel : Nat) : Parse Unit := do
  parse2GT
  let element ← getValue
  throwIf (element = []) "missing tag B" []
  push element
  call (.StartTag element)
  parseAttributes element fuel
  setLastKey element

/-- One round of the loop `for (;pos2 != std::string::npos;)` (lines 155-292); `fuel` bounds
the loops over attributes, and the tests of `peek()` are made on one result. -/
def parseRound (fuel : Nat) : Parse Unit := do
  saveValue
  eatChar '<'
  let c ← peek
  if c = '/' then parseEndTag
  else if c = '!' then parseMarkup
  else if c = '?' then parseProcessing fuel
  else parseElement fuel

/-- The loop `for (;pos2 != std::string::npos;)`. -/
def parseRounds (fuel : Nat) : Nat → Parse Unit
  | 0 => fun s => if s.pos2 = none then .ok () s else .unfinished s
  | n + 1 => fun s =>
    if s.pos2 = none then .ok () s
    else (parseRound fuel >>= fun _ => parseRounds fuel n) s

/-- The leading `<?xml ... ?>` (lines 128-152). -/
def parseProlog (fuel : Nat) : Parse Unit := do
  eat
  parse2GT
  let x ← getValue
  throwIf (x ≠ "xml".toList) "Syntax" []
  parseHeader fuel
  eatChar '?'
  eatChar '>'
  parse2LT

/-- The end of `parse()` (lines 293-298). -/
def parseEnd : Parse Unit := do
  update fun s => { s with pos2 := some s.Xml.length }
  saveValue
  saveValue
  let s ← getState
  throwIf (s.tags ≠ []) " expected tag at EOF: " [s.tags.headD []]

/-- The function `parse()` (lines 121-298).  Every round of a loop moves `pos1` forward, so the
length of the text bounds the rounds. -/
def parse : Parse Unit := do
  parse2LT
  let s ← getState
  throwIf (s.pos2 ≠ some 0) "Syntax Head" []
  eatChar '<'
  let c ← peek
  (if c = '?' then parseProlog (s.Xml.length + 1) else pure ())
  parseRounds (s.Xml.length + 1) (s.Xml.length + 1)
  parseEnd

/-- A new parser for the text `input` (the constructor) on which `parse()` is called. -/
def run (input : List Char) : Res Unit := parse { Xml := input }

/-- The calls a run made, without the tag paths. -/
def callsOf (r : Res Unit) : List Call := r.state.calls.map Prod.fst

end XmlParser
namespace XmlParser

/-! ### Properties of runs of the parser -/

/-- The stack of open elements after a call: `StartTag` opens its element; `EndTag` and
`NullTag` close the innermost open element. -/
def stepOpen (stack : List (List Char)) : Call → List (List Char)
  | .StartTag e => e :: stack
  | .EndTag _ => stack.tail
  | .NullTag _ => stack.tail
  | _ => stack

/-- The elements that are open after the calls `cs`, the innermost first. -/
def openElements (cs : List Call) : List (List Char) := cs.foldl stepOpen []

/-- The open elements during the call `c` that follows the calls `before`: an element is open
from its `StartTag` call to the end of its `EndTag` or `NullTag` call. -/
def pathAt (before : List Call) (c : Call) : List (List Char) :=
  match c with
  | .StartTag e => e :: openElements before
  | _ => openElements before

/-- Every recorded call saw as `tagPath()` the elements open during the call. -/
def PathsRight (log : List (Call × List (List Char))) : Prop :=
  ∀ pre c path post, log = pre ++ (c, path) :: post → path = pathAt (pre.map Prod.fst) c

/-- The call closes nothing, or it names the innermost open element of `stack`. -/
def closes (stack : List (List Char)) : Call → Bool
  | .EndTag e => stack.head? = some e
  | .NullTag e => stack.head? = some e
  | _ => true

/-- Every `EndTag` and `NullTag` of the calls names the element that is the innermost open one
at that call, for the open elements `stack` at the beginning. -/
def matching : List (List Char) → List Call → Bool
  | _, [] => true
  | stack, c :: cs => closes stack c && matching (stepOpen stack c) cs

/-- The calls are properly nested: every closing call names the innermost open element, and no
element is left open. -/
def nested (cs : List Call) : Bool := matching [] cs && (openElements cs).isEmpty

/-- A member function started in a state with `P` returns in a state with `Q`, or throws in a
state with `E`, or uses up the bound of a loop in a state with `U`. -/
def Holds {α : Type} (P : XmlParser → Prop) (m : Parse α) (Q : α → XmlParser → Prop)
    (E U : XmlParser → Prop) : Prop :=
  ∀ s, P s →
    match m s with
    | .ok a s1 => Q a s1
    | .thrown _ s1 => E s1
    | .unfinished s1 => U s1

/-- A member function that changes neither the stack of tags nor the recorded calls. -/
def Framed {α : Type} (m : Parse α) : Prop :=
  ∀ s, (m s).state.tags = s.tags ∧ (m s).state.calls = s.calls

/-- A property of the stack of tags and the recorded calls alone. -/
def Stable (P : XmlParser → Prop) : Prop :=
  ∀ s t, t.tags = s.tags → t.calls = s.calls → P s → P t

/-- The invariant of `parse()` between its steps: the recorded tag paths are right, the closing
calls match, and the stack holds the open elements. -/
def Inv (s : XmlParser) : Prop :=
  PathsRight s.calls ∧ matching [] (s.calls.map Prod.fst) = true ∧
    s.tags = openElements (s.calls.map Prod.fst)

/-- The state right after the call `c`, which closes an element, and before `tags.pop()`. -/
def Closing (c : Call) (s : XmlParser) : Prop :=
  PathsRight s.calls ∧
    ∃ log, s.calls.map Prod.fst = log ++ [c] ∧ matching [] log = true ∧
      s.tags = openElements log

end XmlParser

namespace XmlParser

/-- A call that neither opens nor closes an element. -/
def plainCall : Call → Bool
  | .StartTag _ => false
  | .EndTag _ => false
  | .NullTag _ => false
  | _ => true

/-- The invariant inside an element tag: the element is the innermost open one. -/
def InvHead (element : List Char) (s : XmlParser) : Prop :=
  Inv s ∧ s.tags.head? = some element

/-- What holds of the recorded calls when `parse()` throws. -/
def InvThrown (s : XmlParser) : Prop := PathsRight s.calls

end XmlParser

namespace XmlParser

/-- A member function started in a state with `P` returns in a state with `Q` or throws: it
does not use up the bound of a loop. -/
def Ends {α : Type} (P : XmlParser → Prop) (m : Parse α) (Q : α → XmlParser → Prop) : Prop :=
  Holds P m Q (fun _ => True) (fun _ => False)

/-- The parser of the text `X` has read up to position `k` at least. -/
def Reached (X : List Char) (k : Nat) (s : XmlParser) : Prop := s.Xml = X ∧ k ≤ s.pos1

/-- The state after a successful search from `pos1`: `pos2` is not before `pos1`. -/
def Found (X : List Char) (k : Nat) (s : XmlParser) : Prop :=
  s.Xml = X ∧ k ≤ s.pos1 ∧ ∃ q, s.pos2 = some q ∧ s.pos1 ≤ q

/-- The state after `parse2LT()` at a position from `k` on. -/
def Searched (X : List Char) (k : Nat) (s : XmlParser) : Prop :=
  s.Xml = X ∧ ∃ j, k ≤ j ∧ s.pos2 = find (fun c => c = '<') X j

/-- A property of the text and of the positions `pos1` and `pos2` alone. -/
def PosStable (P : XmlParser → Prop) : Prop :=
  ∀ s t, t.Xml = s.Xml → t.pos1 = s.pos1 → t.pos2 = s.pos2 → P s → P t

/-- The state at the head of the main loop with at most `n` rounds to go. -/
def LoopTop (X : List Char) (n : Nat) (s : XmlParser) : Prop :=
  s.Xml = X ∧ ∀ p, s.pos2 = some p → p < X.length ∧ X.length ≤ p + n

end XmlParser

namespace XmlParser

/-- The state `t` differs from `s` in the positions `pos1` and `pos2` at most. -/
def Moved (s t : XmlParser) : Prop :=
  t.Xml = s.Xml ∧ t.posS = s.posS ∧ t.posE = s.posE ∧ t.tags = s.tags ∧
    t.lastKey = s.lastKey ∧ t.calls = s.calls

/-- A name as `parse2GT()` and `getValue()` read it in one piece and hand it on unchanged: it
holds none of the characters that end a name and no `&`. -/
def isName (w : List Char) : Bool := w.all fun c => !delimiters.contains c && c != '&'

/-- An attribute as it is written in a tag: a blank, the name, `=`, and the value between two
quotes of the same kind. -/
structure Attribute where
  name : List Char
  quote : Char
  value : List Char
  deriving DecidableEq, Repr

/-- The attribute is written so that the parser reads it and hands name and value on
unchanged: the quote is `"` or `'`, and the value holds neither that quote nor `&`. -/
def Attribute.wellFormed (a : Attribute) : Bool :=
  isName a.name && (a.quote == dquote || a.quote == squote) &&
    a.value.all fun c => c != a.quote && c != '&'

def Attribute.text (a : Attribute) : List Char :=
  ' ' :: (a.name ++ '=' :: a.quote :: (a.value ++ [a.quote]))

/-- The text of the attributes of a tag, each with one blank before it. -/
def attributesText : List Attribute → List Char
  | [] => []
  | a :: rest => a.text ++ attributesText rest

/-- The `Attribut` calls for the attributes of the element, in their order, each with the tag
path `path`. -/
def attributCalls (element : List Char) (path : List (List Char)) (attrs : List Attribute) :
    List (Call × List (List Char)) :=
  attrs.map fun a => (.Attribut element a.name a.value, path)

/-- The test of `saveValue()` on the text between the last two tags passes: the text was
handed on, or it is white space. -/
def gapDone (s : XmlParser) : Prop :=
  ¬ (s.posS ≠ s.posE ∧
      below (find (fun c => !white.contains c) s.Xml s.posS) s.posE = true)

/-- The `Value` call of the round for an end tag `</e>` found at `p`: the text before the tag,
decoded, when `e` is the element whose tag was read last. -/
def valueCalls (s : XmlParser) (p : Nat) (e : List Char) : List (Call × List (List Char)) :=
  if s.lastKey = e then [(.Value (decode s.Xml s.pos1 p), s.tags)] else []

/-- The error a run ended with. -/
def Res.error {α : Type} : Res α → Option XmlError
  | .thrown e _ => some e
  | _ => none

end XmlParser

namespace XmlParser

/-- The text `<a b='&amp;'>&lt;</a>`. -/
def exampleEntities : List Char := "<a b='&amp;'>&lt;</a>".toList

/-- The text `<e a="v" />`, an empty-element tag with a blank before `/>`. -/
def exampleBlank : List Char :=
  "<e a=".toList ++ [dquote, 'v', dquote] ++ " />".toList

/-- The text `<e a='&amp;'/>`, an empty-element tag whose attribute value is an entity. -/
def exampleAmp : List Char := "<e a='&amp;'/>".toList

/-- The text `<e a='1' b='2'/>`. -/
def exampleEmpty : List Char := "<e a='1' b='2'/>".toList

/-- The attributes `a='1'` and `b='2'`. -/
def exampleAttributes : List Attribute := [⟨['a'], squote, ['1']⟩, ⟨['b'], squote, ['2']⟩]

/-- The text `<r><e k='v'/><f>x</f></r>`. -/
def exampleNested : List Char := "<r><e k='v'/><f>x</f></r>".toList

end XmlParser

/-! ### The converters of `converter.cpp` -/

namespace Converter

/-- The replacement character `inval` of `converter.cpp`, U+00BF; a `wchar_t` is an integer. -/
def inval : Int := 0xBF

def winval : Int := 0xFFFD

def to_iso_8859_1 (c : Int) : Int := if c < 0 ∨ c > 0xFF then inval else c

def to_iso_8859_9 (c : Int) : Int :=
  if c = 0x011E then 0xD0
  else if c = 0x0130 then 0xDD
  else if c = 0x015E then 0xDE
  else if c = 0x011F then 0xF0
  else if c = 0x0131 then 0xFD
  else if c = 0x015F then 0xFE
  else if c = 0xD0 ∨ c = 0xDD ∨ c = 0xDE ∨ c = 0xF0 ∨ c = 0xFD ∨ c = 0xFE then inval
  else if c < 0 ∨ c > 0xFF then inval
  else c

def to_iso_8859_15 (c : Int) : Int :=
  if c = 0x20AC then 0xA4
  else if c = 0x0160 then 0xA6
  else if c = 0x0161 then 0xA8
  else if c = 0x017D then 0xB4
  else if c = 0x017E then 0xB8
  else if c = 0x0152 then 0xBC
  else if c = 0x0153 then 0xBD
  else if c = 0x0178 then 0xBE
  else if c = 0xA4 ∨ c = 0xA6 ∨ c = 0xA8 ∨ c = 0xB4 ∨ c = 0xB8 ∨ c = 0xBC ∨ c = 0xBD ∨ c = 0xBE
    then inval
  else if c < 0 ∨ c > 0xFF then inval
  else c

def from_iso_8859_1 (c : Int) : Int := c

def from_iso_8859_9 (c : Int) : Int :=
  if c = 0xD0 then 0x011E
  else if c = 0xDD then 0x0130
  else if c = 0xDE then 0x015E
  else if c = 0xF0 then 0x011F
  else if c = 0xFD then 0x0131
  else if c = 0xFE then 0x015F
  else c

def from_iso_8859_15 (c : Int) : Int :=
  if c = 0xA4 then 0x20AC
  else if c = 0xA6 then 0x0160
  else if c = 0xA8 then 0x0161
  else if c = 0xB4 then 0x017D
  else if c = 0xB8 then 0x017E
  else if c = 0xBC then 0x0152
  else if c = 0xBD then 0x0153
  else if c = 0xBE then 0x0178
  else c

/-- The table `b64Chars` of `from_base64` (`converter.cpp` 224-232; `objtypes.cpp` 344-352 holds
the same table): 99 marks white space, -1 every other character that is no digit of the
alphabet. -/
def b64Chars : List Int :=
  [-1, -1, -1, -1, -1, -1, -1, -1, -1, 99, 99, -1, 99, 99, -1, -1,
   -1, -1, -1, -1, -1, -1, -1, -1, -1, -1, -1, -1, -1, -1, -1, -1,
   99, -1, -1, -1, -1, -1, -1, -1, -1, -1, -1, -1, -1, -1, -1, -1,
   52, 53, 54, 55, 56, 57, 58, 59, 60, 61, -1, -1, -1, -1, -1, -1,
   -1,  0,  1,  2,  3,  4,  5,  6,  7,  8,  9, 10, 11, 12, 13, 14,
   15, 16, 17, 18, 19, 20, 21, 22, 23, 24, 25, -1, -1, -1, -1, -1,
   -1, 26, 27, 28, 29, 30, 31, 32, 33, 34, 35, 36, 37, 38, 39, 40,
   41, 42, 43, 44, 45, 46, 47, 48, 49, 50, 51, -1, -1, -1, -1, -1]

/-- The function `from_base64` (`converter.cpp` 221-234 and `objtypes.cpp` 354-359, with the
same body): the index `c` is inside the table. -/
def from_base64 (c : Int) : Int :=
  if c < 0 ∨ c > 127 then -1 else b64Chars.getD c.toNat (-1)

/-- The alphabet `base64` of `to_base64`. -/
def base64 : List Char :=
  "ABCDEFGHIJKLMNOPQRSTUVWXYZabcdefghijklmnopqrstuvwxyz0123456789+/".toList

/-- The function `to_base64` (`converter.cpp` 236-241 and `objtypes.cpp` 361-366). -/
def to_base64 (i : Int) : Int :=
  if i < 0 ∨ i > 63 then winval else ((base64.getD i.toNat 'A').toNat : Int)

/-- The conversion to `u_char` that `push_back` makes. -/
def u_char (x : Int) : Int := x % 256

/-- State of a `Base64Reader`: the vector `base64` of bytes it fills, the counter `b64Cnt` and
the value `b64Value` collected so far (an `int`; from `start()` on it stays below 2^24). -/
structure Base64Reader where
  base64 : List Int
  b64Cnt : Int
  b64Value : Int
  deriving DecidableEq, Repr

/-- The function `Base64Reader::start` (lines 317-321). -/
def Base64Reader.start (_r : Base64Reader) : Base64Reader :=
  { base64 := [], b64Cnt := 0, b64Value := 0 }

/-- The function `Base64Reader::put` (lines 330-365): the reader afterwards, or the message of
the exception.  The shifts to the right are divisions, `& 0xff` is the remainder by 256, and
the character `=` is 61. -/
def Base64Reader.put (r : Base64Reader) (c : Int) : Except String Base64Reader :=
  if from_base64 c < 0 then
    if c = 61 then
      if r.b64Cnt = 3 then
        .ok { r with
          base64 := r.base64 ++ [u_char (r.b64Value / 1024), u_char ((r.b64Value / 4) % 256)]
          b64Cnt := 999 }
      else if r.b64Cnt = 100 then .ok { r with b64Cnt := 999 }
      else if r.b64Cnt = 2 then
        .ok { r with base64 := r.base64 ++ [u_char (r.b64Value / 16)], b64Cnt := 100 }
      else if r.b64Cnt = 1 then .error "base64 unexpected end"
      else .error "base64 unexpected padding"
    else .error "base64 padding"
  else if from_base64 c < 64 then
    if r.b64Cnt > 3 then .error "base64 invalid"
    else if r.b64Cnt + 1 = 4 then
      .ok { base64 := r.base64 ++
              [u_char ((r.b64Value * 64 + from_base64 c) / 65536),
               u_char (((r.b64Value * 64 + from_base64 c) / 256) % 256),
               u_char ((r.b64Value * 64 + from_base64 c) % 256)]
            b64Cnt := 0
            b64Value := 0 }
    else .ok { r with b64Cnt := r.b64Cnt + 1, b64Value := r.b64Value * 64 + from_base64 c }
  else .ok r

/-- The function `Base64Reader::done` (lines 323-326). -/
def Base64Reader.done (r : Base64Reader) : Except String Base64Reader :=
  if r.b64Cnt > 0 ∧ r.b64Cnt < 4 then r.put 61 else .ok r

/-- The loop `for (auto c:wstr) r.put(c);` of `c_wstring2x` (lines 385-387). -/
def Base64Reader.putAll : Base64Reader → List Int → Except String Base64Reader
  | r, [] => .ok r
  | r, c :: rest =>
    match r.put c with
    | .error what => .error what
    | .ok r1 => Base64Reader.putAll r1 rest

/-- The white space that the table marks with 99: tab, line feed, form feed, carriage return
and blank. -/
def whiteSpace : List Int := [9, 10, 12, 13, 32]

/-- A reader that holds the bytes 7 and 8 from an earlier use. -/
def exampleReader64 : Base64Reader := { base64 := [7, 8], b64Cnt := 3, b64Value := 5 }

end Converter

namespace Informix

/-! ### Fields that are no integers -/

/-- A time field that holds the moment 5. -/
def exampleVersionTime : MemberBase := Member.base exampleExt { wert := .time 5 }

/-- A `double` field that holds the bit pattern of 1.0. -/
def exampleVersionDouble : MemberBase :=
  Member.base exampleExt { wert := .double 4607182418800017408 }

end Informix

/-! ### The XML writer: `xmlwriter.cpp` -/

namespace XmlWriter

/-- The character sets `XmlWriter::charset` that `xmlwriter.cpp` names. -/
inductive charset where
  | CS_utf8
  | CS_utf8_bom
  | CS_utf16_le
  | CS_utf16_be
  | CS_iso8859_1
  | CS_iso8859_9
  | CS_iso8859_15
  deriving DecidableEq, Repr

/-- The constant `inval` of `xmlwriter.cpp` (line 37): the character U+00B8. -/
def inval : Char := Char.ofNat 0xB8

/-- The function `to_iso_8859_1` of `xmlwriter.cpp` (lines 40-42).  The code of a character is
not negative, so the test `c & ~0xff` is the test for a code above 0xFF. -/
def to_iso_8859_1 (c : Char) : Char := if c.toNat > 0xFF then inval else c

/-- The function `to_iso_8859_9` of `xmlwriter.cpp` (lines 44-61). -/
def to_iso_8859_9 (c : Char) : Char :=
  if c.toNat = 0x011E then Char.ofNat 0xD0
  else if c.toNat = 0x0130 then Char.ofNat 0xDD
  else if c.toNat = 0x015E then Char.ofNat 0xDE
  else if c.toNat = 0x011F then Char.ofNat 0xF0
  else if c.toNat = 0x0131 then Char.ofNat 0xFD
  else if c.toNat = 0x015F then Char.ofNat 0xFE
  else if c.toNat = 0xD0 ∨ c.toNat = 0xDD ∨ c.toNat = 0xDE ∨ c.toNat = 0xF0 ∨ c.toNat = 0xFD ∨
      c.toNat = 0xFE then inval
  else if c.toNat > 0xFF then inval else c

/-- The function `to_iso_8859_15` of `xmlwriter.cpp` (lines 63-84). -/
def to_iso_8859_15 (c : Char) : Char :=
  if c.toNat = 0x20AC then Char.ofNat 0xA4
  else if c.toNat = 0x0160 then Char.ofNat 0xA6
  else if c.toNat = 0x0161 then Char.ofNat 0xA8
  else if c.toNat = 0x017D then Char.ofNat 0xB4
  else if c.toNat = 0x017E then Char.ofNat 0xB8
  else if c.toNat = 0x0152 then Char.ofNat 0xBC
  else if c.toNat = 0x0153 then Char.ofNat 0xBD
  else if c.toNat = 0x0178 then Char.ofNat 0xBE
  else if c.toNat = 0xA4 ∨ c.toNat = 0xA6 ∨ c.toNat = 0xA8 ∨ c.toNat = 0xB4 ∨ c.toNat = 0xB8 ∨
      c.toNat = 0xBC ∨ c.toNat = 0xBD ∨ c.toNat = 0xBE then inval
  else if c.toNat > 0xFF then inval else c

/-- The members of `XmlWriterData` (lines 87-100) but the conversion function, which follows
from `cs`; `buffer` is the text written so far, `tagPrefix` the member `prefix`, and `elements`
the stack with its top first. -/
structure XmlWriterData where
  buffer : List Char := []
  cs : charset
  indent : Bool
  level : Int := 0
  openEnd : Bool := false
  hasValue : Bool := false
  tagPrefix : List Char := []
  elements : List (List Char) := []
  deriving DecidableEq, Repr

/-- The constructor `XmlWriterData(c, i)`. -/
def XmlWriterData.new (c : charset) (i : Bool) : XmlWriterData := { cs := c, indent := i }

/-- The pointer `conFun` as `setConFun` sets it (lines 102-109); `nullptr` is `none`. -/
def conFun (cs : charset) : Option (Char → Char) :=
  match cs with
  | .CS_iso8859_1 => some to_iso_8859_1
  | .CS_iso8859_9 => some to_iso_8859_9
  | .CS_iso8859_15 => some to_iso_8859_15
  | _ => none

/-- The character that `write(c)` appends (lines 110-115); the test `c & ~0x7f` is the test for
a code above 0x7F. -/
def written (cs : charset) (c : Char) : Char :=
  match conFun cs with
  | some f => if c.toNat > 0x7F then f c else c
  | none => c

/-- The statement `buffer << text`. -/
def XmlWriterData.append (d : XmlWriterData) (text : List Char) : XmlWriterData :=
  { d with buffer := d.buffer ++ text }

/-- The function `XmlWriterData::write` (lines 110-115). -/
def XmlWriterData.write (d : XmlWriterData) (c : Char) : XmlWriterData :=
  d.append [written d.cs c]

/-- The function `XmlWriterData::writeIndent` (lines 116-123); the level is not negative when
it is called. -/
def XmlWriterData.writeIndent (d : XmlWriterData) : XmlWriterData :=
  if d.indent then d.append (List.replicate (d.level * 2).toNat ' ') else d

/-- The function `XmlWriterData::closeTag` (lines 124-130). -/
def XmlWriterData.closeTag (d : XmlWriterData) : XmlWriterData :=
  if d.openEnd then { d.append ['>'] with openEnd := false } else d

/-- The function `XmlWriter::writeTagBegin` (lines 193-202). -/
def writeTagBegin (d : XmlWriterData) (tag : List Char) : XmlWriterData :=
  let d1 := d.closeTag
  let d2 := if d1.indent then d1.append [Char.ofNat 10] else d1
  let d3 := d2.writeIndent
  { d3.append ('<' :: (d3.tagPrefix ++ tag)) with
    openEnd := true, elements := tag :: d3.elements, level := d3.level + 1 }

/-- One round of the loop of `writeAttribute` (lines 208-215). -/
def attributeChar (d : XmlWriterData) (c : Char) : XmlWriterData :=
  if c = '<' then d.append "&lt;".toList
  else if c = XmlParser.dquote then d.append "&quot;".toList
  else if c = '&' then d.append "&amp;".toList
  else d.write c

/-- The function `XmlWriter::writeAttribute` (lines 204-217); the warning in the log is left
out; `name` is the parameter `attribute`. -/
def writeAttribute (d : XmlWriterData) (name value : List Char) : XmlWriterData :=
  let d1 := d.append (' ' :: (name ++ ['=', XmlParser.dquote]))
  let d2 := value.foldl attributeChar d1
  d2.append [XmlParser.dquote]

/-- One round of the loop of `writeValue` (lines 221-228). -/
def valueChar (d : XmlWriterData) (c : Char) : XmlWriterData :=
  if c = '<' then d.append "&lt;".toList
  else if c = '>' then d.append "&gt;".toList
  else if c = '&' then d.append "&amp;".toList
  else d.write c

/-- The function `XmlWriter::writeValue` (lines 219-230). -/
def writeValue (d : XmlWriterData) (value : List Char) : XmlWriterData :=
  let d1 := d.closeTag
  let d2 := value.foldl valueChar d1
  { d2 with hasValue := true }

/-- The function `XmlWriter::writeCdata` (lines 232-236). -/
def writeCdata (d : XmlWriterData) (value : List Char) : XmlWriterData :=
  let d1 := d.closeTag
  { d1.append ("<![CDATA[".toList ++ value ++ "]]>".toList) with hasValue := true }

/-- The function `XmlWriter::writeTagEnd` (lines 238-256). -/
def writeTagEnd (d : XmlWriterData) (forceNoNulltag : Bool) : Except String XmlWriterData :=
  match d.elements with
  | [] => .error "XmlWriter::writeTagEnd unbalanced"
  | top :: rest =>
    let d1 := { d with level := d.level - 1 }
    let d2 :=
      if d1.openEnd = true ∧ forceNoNulltag = false then d1.append "/>".toList
      else
        let d3 :=
          if d1.indent = true ∧ d1.hasValue = false then (d1.append [Char.ofNat 10]).writeIndent else d1
        d3.append ('<' :: '/' :: (d3.tagPrefix ++ top ++ ['>']))
    let d4 := if d2.indent = true ∧ d2.level = (0 : Int) then d2.append [Char.ofNat 10] else d2
    .ok { d4 with elements := rest, hasValue := false, openEnd := false }

/-- The function `XmlWriter::getString` (lines 280-301) as the bytes of the result; the
conversion `to_string` of a wide string to UTF-8, of another file, is a parameter. -/
def getString (to_string : List Char → List Nat) (d : XmlWriterData) : List Nat :=
  match d.cs with
  | .CS_iso8859_1 | .CS_iso8859_9 | .CS_iso8859_15 =>
    d.buffer.map fun c => if c.toNat > 0xFF then 0xBF else c.toNat
  | .CS_utf8_bom | .CS_utf8 => to_string d.buffer
  | .CS_utf16_le | .CS_utf16_be => []

/-- The text of `s` with every character replaced by what `esc` writes for it. -/
def escaped (esc : Char → List Char) : List Char → List Char
  | [] => []
  | c :: rest => esc c ++ escaped esc rest

/-- What one round of the loop of `writeValue` appends for the character `c`. -/
def valueText (cs : charset) (c : Char) : List Char :=
  if c = '<' then "&lt;".toList
  else if c = '>' then "&gt;".toList
  else if c = '&' then "&amp;".toList
  else [written cs c]

/-- What one round of the loop of `writeAttribute` appends for the character `c`. -/
def attributeText (cs : charset) (c : Char) : List Char :=
  if c = '<' then "&lt;".toList
  else if c = XmlParser.dquote then "&quot;".toList
  else if c = '&' then "&amp;".toList
  else [written cs c]

/-- What `writeTagBegin(t); writeCdata(v); writeTagEnd()` writes with a new writer for UTF-8
without indentation for the element `t` and the text `]]>`. -/
def exampleCdata : List Char := "<t><![CDATA[]]>]]></t>".toList

/-- What the same calls write with indentation for the element `t` and the text `x`. -/
def exampleIndented : List Char :=
  Char.ofNat 10 :: "<t><![CDATA[x]]></t>".toList ++ [Char.ofNat 10]

end XmlWriter

namespace Informix

/-- A generator that reads the number of columns of the main row into every field; as
`exampleReader` for the repeated group. -/
def exampleRowReader : ReadGenerator :=
  { readObject := fun row obj =>
      ({ obj with
          fields := obj.fields.map (fun f => (f.1, { f.2 with wert := .sint .int row.length })) },
        none)
    selectStatementArray := ["SEL"]
    blank := []
    readElement := fun _ row => (row, none) }

/-- The results of the example for `load`: the select for the key returns a row of two columns
and then a row of three, every other select the rows `x` and `y`. -/
def exampleKeyResults (s : String) : List Row :=
  if s = "SELF" then [["1", "a"], ["1", "b", "c"]] else [["x"], ["y"]]

end Informix

namespace Mongo

/-- The document holds the key of the object: for every field with a key ordinal above 0 it
holds the pair of the name of the field and the element the encoder writes for it. -/
def holdsKey (ext : Ext) (obj : ObjectBase) (d : Document) : Prop :=
  ∀ f, f ∈ obj.fields → 0 < f.2.key →
    (f.1, BsonElements.valueStmt false (f.2.base ext) false) ∈ d

instance (ext : Ext) (obj : ObjectBase) (d : Document) : Decidable (holdsKey ext obj d) := by
  unfold holdsKey
  infer_instance

/-- A collection of three documents; the second and the third hold the key `id` 1. -/
def exampleCollection : List Document :=
  [[("id", .int32 2), ("name", .utf8 "other")], exampleStored,
    [("id", .int32 1), ("name", .utf8 "second")]]

end Mongo

/-! ## Part 2: theorems -/

namespace Informix

theorem submit_fst (be : Backend) (tr : List Stmt) (st : Stmt) :
    (submit be tr st).1 = be.exec (tr.map Stmt.text) st.text := rfl

theorem submit_snd (be : Backend) (tr : List Stmt) (st : Stmt) :
    (submit be tr st).2 = tr ++ [st] := rfl

theorem openConnection_connected (be : Backend) (c : Conn) (h : 0 < c.conNr) :
    openConnection be c = .ok c := by
  simp [openConnection, h]

theorem saveDetails_nil (be : Backend) (tr : List Stmt) :
    saveDetails be [] tr = (tr, .ok ()) := rfl

theorem saveDetails_error (be : Backend) (exc : Exc) (rest : List (Except Exc (String × String)))
    (tr : List Stmt) : saveDetails be (.error exc :: rest) tr = (tr, .error exc) := rfl

/-- One round of the loop when the insert is refused as duplicate and an update text exists. -/
theorem saveDetails_retry (be : Backend) (s upd : String)
    (rest : List (Except Exc (String × String))) (tr : List Stmt)
    (h : (be.exec (tr.map Stmt.text) s).code = UNIQCONSTRAINT ∧ upd ≠ "") :
    saveDetails be (.ok (s, upd) :: rest) tr =
      if (be.exec (tr.map Stmt.text ++ [s]) upd).code ≠ 0 then
        (tr ++ [Stmt.detail s, Stmt.detailRetry upd],
          .error (.informix "save failed" (be.exec (tr.map Stmt.text ++ [s]) upd).code))
      else saveDetails be rest (tr ++ [Stmt.detail s, Stmt.detailRetry upd]) := by
  simp only [saveDetails, Stmt.text, submit_fst, submit_snd, if_pos h]
  simp [Stmt.text]

/-- One round of the loop without retry. -/
theorem saveDetails_plain (be : Backend) (s upd : String)
    (rest : List (Except Exc (String × String))) (tr : List Stmt)
    (h : ¬ ((be.exec (tr.map Stmt.text) s).code = UNIQCONSTRAINT ∧ upd ≠ "")) :
    saveDetails be (.ok (s, upd) :: rest) tr =
      if (be.exec (tr.map Stmt.text) s).code ≠ 0 then
        (tr ++ [Stmt.detail s],
          .error (.informix "save failed" (be.exec (tr.map Stmt.text) s).code))
      else saveDetails be rest (tr ++ [Stmt.detail s]) := by
  simp only [saveDetails, Stmt.text, submit_fst, submit_snd, if_neg h]

/-- The loop over the repeated groups only appends detail statements to the trace. -/
theorem saveDetails_trace (be : Backend) (l : List (Except Exc (String × String))) :
    ∀ tr, ∃ ds, (saveDetails be l tr).1 = tr ++ ds ∧ ∀ x ∈ ds, x.isDetail = true := by
  induction l with
  | nil => intro tr; exact ⟨[], by simp [saveDetails]⟩
  | cons d rest ih =>
    intro tr
    rcases d with exc | ⟨s, upd⟩
    · exact ⟨[], by simp [saveDetails]⟩
    · by_cases h : (be.exec (tr.map Stmt.text) s).code = UNIQCONSTRAINT ∧ upd ≠ ""
      · rw [saveDetails_retry be s upd rest tr h]
        split_ifs with h2
        · exact ⟨[.detail s, .detailRetry upd], rfl, by simp [Stmt.isDetail]⟩
        · obtain ⟨ds, hds, hall⟩ := ih (tr ++ [.detail s, .detailRetry upd])
          refine ⟨.detail s :: .detailRetry upd :: ds, by simp [hds], ?_⟩
          intro x hx
          simp only [List.mem_cons] at hx
          rcases hx with rfl | rfl | hx
          · rfl
          · rfl
          · exact hall x hx
      · rw [saveDetails_plain be s upd rest tr h]
        split_ifs with h2
        · exact ⟨[.detail s], rfl, by simp [Stmt.isDetail]⟩
        · obtain ⟨ds, hds, hall⟩ := ih (tr ++ [.detail s])
          refine ⟨.detail s :: ds, by simp [hds], ?_⟩
          intro x hx
          simp only [List.mem_cons] at hx
          rcases hx with rfl | hx
          · rfl
          · exact hall x hx

theorem uniq_ne_zero : UNIQCONSTRAINT ≠ 0 := by decide

/-- The loop over the repeated groups stops at the first statement that fails for good. -/
theorem saveDetails_stops (be : Backend) (g : SqlGenerator)
    (l : List (Except Exc (String × String))) :
    ∀ tr, StopsAtFailure be g tr (saveDetails be l tr) := by
  induction l with
  | nil =>
    intro tr pre st post h _
    simp [saveDetails] at h
  | cons d rest ih =>
    intro tr pre st post h hf
    rcases d with exc | ⟨s, upd⟩
    · simp [saveDetails] at h
    · by_cases hc : (be.exec (tr.map Stmt.text) s).code = UNIQCONSTRAINT ∧ upd ≠ ""
      · have hne : (be.exec (tr.map Stmt.text) s).code ≠ 0 := by rw [hc.1]; exact uniq_ne_zero
        rw [saveDetails_retry be s upd rest tr hc] at h ⊢
        split_ifs at h ⊢ with h2
        · simp only [List.append_cancel_left_eq] at h
          rcases pre with _ | ⟨p, _ | ⟨q, pre2⟩⟩
          · simp only [List.nil_append, List.cons.injEq] at h
            obtain ⟨rfl, rfl⟩ := h
            simp [failsAt, Stmt.text, hne, retryFollows, Stmt.isRetry] at hf
          · simp only [List.cons_append, List.nil_append, List.cons.injEq] at h
            obtain ⟨_, _, rfl⟩ := h
            exact ⟨rfl, _, rfl⟩
          · simp at h
        · obtain ⟨ds, hds, _⟩ := saveDetails_trace be rest (tr ++ [Stmt.detail s, Stmt.detailRetry upd])
          rw [hds, List.append_assoc, List.append_cancel_left_eq] at h
          rcases pre with _ | ⟨p, _ | ⟨q, pre2⟩⟩
          · simp only [List.nil_append, List.cons_append, List.cons.injEq] at h
            obtain ⟨rfl, rfl⟩ := h
            simp [failsAt, Stmt.text, hne, retryFollows, Stmt.isRetry] at hf
          · simp only [List.cons_append, List.nil_append, List.cons.injEq] at h
            obtain ⟨rfl, rfl, rfl⟩ := h
            have h0 : (be.exec (tr.map Stmt.text ++ [s]) upd).code = 0 := by simpa using h2
            simp [failsAt, Stmt.text, h0, rowCheckFails] at hf
          · simp only [List.cons_append, List.nil_append, List.cons.injEq] at h
            obtain ⟨rfl, rfl, rfl⟩ := h
            refine ih (tr ++ [Stmt.detail s, Stmt.detailRetry upd]) pre2 st post ?_ ?_
            · rw [hds]
            · simpa [List.append_assoc] using hf
      · rw [saveDetails_plain be s upd rest tr hc] at h ⊢
        split_ifs at h ⊢ with h2
        · simp only [List.append_cancel_left_eq] at h
          rcases pre with _ | ⟨p, pre2⟩
          · simp only [List.nil_append, List.cons.injEq] at h
            obtain ⟨_, rfl⟩ := h
            exact ⟨rfl, _, rfl⟩
          · simp at h
        · obtain ⟨ds, hds, _⟩ := saveDetails_trace be rest (tr ++ [Stmt.detail s])
          rw [hds, List.append_assoc, List.append_cancel_left_eq] at h
          rcases pre with _ | ⟨p, pre2⟩
          · simp only [List.nil_append, List.cons_append, List.cons.injEq] at h
            obtain ⟨rfl, rfl⟩ := h
            have h0 : (be.exec (tr.map Stmt.text) s).code = 0 := by simpa using h2
            simp [failsAt, Stmt.text, h0, rowCheckFails] at hf
          · simp only [List.cons_append, List.nil_append, List.cons.injEq] at h
            obtain ⟨rfl, rfl⟩ := h
            refine ih (tr ++ [Stmt.detail s]) pre2 st post ?_ ?_
            · rw [hds]
            · simpa [List.append_assoc] using hf

/-- If no text generation throws and the server accepts every statement, the loop over the
repeated groups ends normally. -/
theorem saveDetails_ok (be : Backend) (l : List (Except Exc (String × String))) :
    ∀ tr, (∀ d ∈ l, ∃ p, d = .ok p) →
      (∀ hist t, (be.exec (tr.map Stmt.text ++ hist) t).code = 0) →
      (saveDetails be l tr).2 = .ok () := by
  induction l with
  | nil => intro tr _ _; rfl
  | cons d rest ih =>
    intro tr hd hb
    obtain ⟨⟨s, upd⟩, rfl⟩ := hd d (List.mem_cons_self _ _)
    have h0 : (be.exec (tr.map Stmt.text) s).code = 0 := by simpa using hb [] s
    have hc : ¬ ((be.exec (tr.map Stmt.text) s).code = UNIQCONSTRAINT ∧ upd ≠ "") := by
      rw [h0]; intro h; exact uniq_ne_zero h.1.symm
    rw [saveDetails_plain be s upd rest tr hc]
    simp only [h0, ne_eq, not_true_eq_false, if_false]
    refine ih (tr ++ [Stmt.detail s]) (fun d hd2 => hd d (List.mem_cons_of_mem _ hd2)) ?_
    intro hist t
    simpa [Stmt.text, List.append_assoc] using hb (s :: hist) t

/-! ### The `try` block of `save` -/

theorem saveTry_update_error (be : Backend) (g : SqlGenerator) (tr : List Stmt) (exc : Exc)
    (hv : 0 < g.version) (hs : g.updateStatement = .error exc) :
    saveTry be g tr = (tr, .error exc) := by
  simp only [saveTry, if_pos hv, hs]

theorem saveTry_update (be : Backend) (g : SqlGenerator) (tr : List Stmt) (s : String)
    (hv : 0 < g.version) (hs : g.updateStatement = .ok s) :
    saveTry be g tr =
      if (be.exec (tr.map Stmt.text) s).code ≠ 0 then
        (tr ++ [Stmt.update s],
          .error (.informix "save failed" (be.exec (tr.map Stmt.text) s).code))
      else if (be.exec (tr.map Stmt.text) s).rows ≠ 1 then
        (tr ++ [Stmt.update s],
          .error (.runtime ("number of processed rows is "
            ++ toString (be.exec (tr.map Stmt.text) s).rows ++ " should be 1")))
      else saveDetails be g.details (tr ++ [Stmt.update s]) := by
  simp only [saveTry, if_pos hv, hs, submit_fst, submit_snd, Stmt.text]

theorem saveTry_insert_error (be : Backend) (g : SqlGenerator) (tr : List Stmt) (exc : Exc)
    (hv : ¬ 0 < g.version) (hs : g.insertUpdStatement = .error exc) :
    saveTry be g tr = (tr, .error exc) := by
  simp only [saveTry, if_neg hv, hs]

theorem saveTry_insert_retry (be : Backend) (g : SqlGenerator) (tr : List Stmt) (s upd : String)
    (hs : g.insertUpdStatement = .ok (s, upd))
    (hc : g.version < 0 ∧ (be.exec (tr.map Stmt.text) s).code = UNIQCONSTRAINT ∧ upd ≠ "") :
    saveTry be g tr =
      if (be.exec (tr.map Stmt.text ++ [s]) upd).code ≠ 0 then
        (tr ++ [Stmt.insert s, Stmt.insertRetry upd],
          .error (.informix "save failed" (be.exec (tr.map Stmt.text ++ [s]) upd).code))
      else saveDetails be g.details (tr ++ [Stmt.insert s, Stmt.insertRetry upd]) := by
  have hv : ¬ 0 < g.version := by have := hc.1; omega
  simp only [saveTry, if_neg hv, hs, Stmt.text, submit_fst, submit_snd, if_pos hc]
  simp [Stmt.text]

theorem saveTry_insert_plain (be : Backend) (g : SqlGenerator) (tr : List Stmt) (s upd : String)
    (hv : ¬ 0 < g.version) (hs : g.insertUpdStatement = .ok (s, upd))
    (hc : ¬ (g.version < 0 ∧ (be.exec (tr.map Stmt.text) s).code = UNIQCONSTRAINT ∧ upd ≠ "")) :
    saveTry be g tr =
      if (be.exec (tr.map Stmt.text) s).code ≠ 0 then
        (tr ++ [Stmt.insert s],
          .error (.informix "save failed" (be.exec (tr.map Stmt.text) s).code))
      else saveDetails be g.details (tr ++ [Stmt.insert s]) := by
  simp only [saveTry, if_neg hv, hs, Stmt.text, submit_fst, submit_snd, if_neg hc]

theorem isData_of_isDetail (x : Stmt) (h : x.isDetail = true) : x.isData = true := by
  cases x <;> simp_all [Stmt.isDetail, Stmt.isData]

/-- The `try` block of `save` appends one main statement (`update`, or `insert` possibly
followed by its retry) and then detail statements. -/
theorem saveTry_trace (be : Backend) (g : SqlGenerator) (tr : List Stmt) :
    ∃ ds, (saveTry be g tr).1 = tr ++ ds ∧ (∀ x ∈ ds, x.isData = true) ∧
      (0 < g.version → ∀ x ∈ ds, (∃ s, x = Stmt.update s ∧ g.updateStatement = .ok s)
        ∨ x.isDetail = true) := by
  by_cases hv : 0 < g.version
  · rcases hs : g.updateStatement with exc | s
    · rw [saveTry_update_error be g tr exc hv hs]
      exact ⟨[], by simp⟩
    · rw [saveTry_update be g tr s hv hs]
      obtain ⟨ds, hds, hall⟩ := saveDetails_trace be g.details (tr ++ [Stmt.update s])
      split_ifs
      · exact ⟨[Stmt.update s], rfl, by simp [Stmt.isData], by simp⟩
      · exact ⟨[Stmt.update s], rfl, by simp [Stmt.isData], by simp⟩
      · refine ⟨Stmt.update s :: ds, by simp [hds], ?_, ?_⟩
        · intro x hx
          rcases List.mem_cons.1 hx with rfl | hx
          · rfl
          · exact isData_of_isDetail x (hall x hx)
        · intro _ x hx
          rcases List.mem_cons.1 hx with rfl | hx
          · exact Or.inl ⟨s, rfl, rfl⟩
          · exact Or.inr (hall x hx)
  · rcases hs : g.insertUpdStatement with exc | ⟨s, upd⟩
    · rw [saveTry_insert_error be g tr exc hv hs]
      exact ⟨[], by simp, by simp, fun h => absurd h hv⟩
    · by_cases hc : g.version < 0 ∧ (be.exec (tr.map Stmt.text) s).code = UNIQCONSTRAINT ∧ upd ≠ ""
      · rw [saveTry_insert_retry be g tr s upd hs hc]
        obtain ⟨ds, hds, hall⟩ :=
          saveDetails_trace be g.details (tr ++ [Stmt.insert s, Stmt.insertRetry upd])
        split_ifs
        · exact ⟨[Stmt.insert s, Stmt.insertRetry upd], rfl, by simp [Stmt.isData],
            fun h => absurd h hv⟩
        · refine ⟨Stmt.insert s :: Stmt.insertRetry upd :: ds, by simp [hds], ?_,
            fun h => absurd h hv⟩
          intro x hx
          simp only [List.mem_cons] at hx
          rcases hx with rfl | rfl | hx
          · rfl
          · rfl
          · exact isData_of_isDetail x (hall x hx)
      · rw [saveTry_insert_plain be g tr s upd hv hs hc]
        obtain ⟨ds, hds, hall⟩ := saveDetails_trace be g.details (tr ++ [Stmt.insert s])
        split_ifs
        · exact ⟨[Stmt.insert s], rfl, by simp [Stmt.isData], fun h => absurd h hv⟩
        · refine ⟨Stmt.insert s :: ds, by simp [hds], ?_, fun h => absurd h hv⟩
          intro x hx
          rcases List.mem_cons.1 hx with rfl | hx
          · rfl
          · exact isData_of_isDetail x (hall x hx)

/-! ### Stopping at the first failure -/

theorem stops_nil {α : Type} (be : Backend) (g : SqlGenerator) (tr : List Stmt)
    (w : List Stmt × Except Exc α) (h1 : w.1 = tr) : StopsAtFailure be g tr w := by
  intro pre st post h _
  rw [h1] at h
  simp at h

theorem stops_single {α : Type} (be : Backend) (g : SqlGenerator) (tr : List Stmt) (a : Stmt)
    (w : List Stmt × Except Exc α) (h1 : w.1 = tr ++ [a]) (h2 : ∃ exc, w.2 = .error exc) :
    StopsAtFailure be g tr w := by
  intro pre st post h _
  rw [h1, List.append_cancel_left_eq] at h
  rcases pre with _ | ⟨p, pre2⟩
  · simp only [List.nil_append, List.cons.injEq] at h
    exact ⟨h.2.symm, h2⟩
  · simp at h

theorem stops_cons {α : Type} (be : Backend) (g : SqlGenerator) (tr : List Stmt) (a : Stmt)
    (w : List Stmt × Except Exc α) (ds : List Stmt) (h1 : w.1 = tr ++ a :: ds)
    (ha : failsAt be g tr a ds → ds = [] ∧ ∃ exc, w.2 = .error exc)
    (hw : StopsAtFailure be g (tr ++ [a]) w) : StopsAtFailure be g tr w := by
  intro pre st post h hf
  have h3 : a :: ds = pre ++ st :: post := by
    rw [h1, List.append_cancel_left_eq] at h
    exact h
  rcases pre with _ | ⟨p, pre2⟩
  · simp only [List.nil_append, List.cons.injEq] at h3
    obtain ⟨rfl, rfl⟩ := h3
    exact ha (by simpa using hf)
  · simp only [List.cons_append, List.cons.injEq] at h3
    obtain ⟨rfl, rfl⟩ := h3
    refine hw pre2 st post ?_ ?_
    · rw [h1]; simp
    · simpa [List.append_assoc] using hf

/-- The `try` block of `save` stops at the first statement that fails for good. -/
theorem saveTry_stops (be : Backend) (g : SqlGenerator) (tr : List Stmt) :
    StopsAtFailure be g tr (saveTry be g tr) := by
  by_cases hv : 0 < g.version
  · rcases hs : g.updateStatement with exc | s
    · exact stops_nil be g tr _ (by rw [saveTry_update_error be g tr exc hv hs])
    · have he := saveTry_update be g tr s hv hs
      by_cases h1 : (be.exec (tr.map Stmt.text) s).code ≠ 0
      · rw [if_pos h1] at he
        exact stops_single be g tr (Stmt.update s) _ (by rw [he]) ⟨_, by rw [he]⟩
      · rw [if_neg h1] at he
        by_cases h2 : (be.exec (tr.map Stmt.text) s).rows ≠ 1
        · rw [if_pos h2] at he
          exact stops_single be g tr (Stmt.update s) _ (by rw [he]) ⟨_, by rw [he]⟩
        · rw [if_neg h2] at he
          obtain ⟨ds, hds, _⟩ := saveDetails_trace be g.details (tr ++ [Stmt.update s])
          refine stops_cons be g tr (Stmt.update s) _ ds (by rw [he, hds]; simp) ?_ ?_
          · intro hf
            simp only [failsAt, Stmt.text, if_neg h1, rowCheckFails] at hf
            exact absurd hf.2 h2
          · rw [he]
            exact saveDetails_stops be g g.details _
  · rcases hs : g.insertUpdStatement with exc | ⟨s, upd⟩
    · exact stops_nil be g tr _ (by rw [saveTry_insert_error be g tr exc hv hs])
    · by_cases hc : g.version < 0 ∧ (be.exec (tr.map Stmt.text) s).code = UNIQCONSTRAINT ∧ upd ≠ ""
      · have he := saveTry_insert_retry be g tr s upd hs hc
        have hne : (be.exec (tr.map Stmt.text) s).code ≠ 0 := by
          rw [hc.2.1]; exact uniq_ne_zero
        by_cases h1 : (be.exec (tr.map Stmt.text ++ [s]) upd).code ≠ 0
        · rw [if_pos h1] at he
          refine stops_cons be g tr (Stmt.insert s) _ [Stmt.insertRetry upd] (by rw [he]) ?_ ?_
          · intro hf
            simp [failsAt, Stmt.text, hne, retryFollows, Stmt.isRetry] at hf
          · exact stops_single be g _ (Stmt.insertRetry upd) _ (by rw [he]; simp) ⟨_, by rw [he]⟩
        · rw [if_neg h1] at he
          obtain ⟨ds, hds, _⟩ :=
            saveDetails_trace be g.details (tr ++ [Stmt.insert s, Stmt.insertRetry upd])
          refine stops_cons be g tr (Stmt.insert s) _ (Stmt.insertRetry upd :: ds)
            (by rw [he, hds]; simp) ?_ ?_
          · intro hf
            simp [failsAt, Stmt.text, hne, retryFollows, Stmt.isRetry] at hf
          · refine stops_cons be g _ (Stmt.insertRetry upd) _ ds (by rw [he, hds]; simp) ?_ ?_
            · intro hf
              have h0 : (be.exec (tr.map Stmt.text ++ [s]) upd).code = 0 := by simpa using h1
              simp [failsAt, Stmt.text, h0, rowCheckFails] at hf
            · rw [he]
              have := saveDetails_stops be g g.details
                (tr ++ [Stmt.insert s, Stmt.insertRetry upd])
              simpa [List.append_assoc] using this
      · have he := saveTry_insert_plain be g tr s upd hv hs hc
        by_cases h1 : (be.exec (tr.map Stmt.text) s).code ≠ 0
        · rw [if_pos h1] at he
          exact stops_single be g tr (Stmt.insert s) _ (by rw [he]) ⟨_, by rw [he]⟩
        · rw [if_neg h1] at he
          obtain ⟨ds, hds, _⟩ := saveDetails_trace be g.details (tr ++ [Stmt.insert s])
          refine stops_cons be g tr (Stmt.insert s) _ ds (by rw [he, hds]; simp) ?_ ?_
          · intro hf
            simp only [failsAt, Stmt.text, if_neg h1, rowCheckFails] at hf
          · rw [he]
            exact saveDetails_stops be g g.details _

/-! ### The `try` block of `destroy` -/

theorem destroyDetails_cons (be : Backend) (s : String) (rest : List (Except Exc String))
    (tr : List Stmt) :
    destroyDetails be (.ok s :: rest) tr =
      if (be.exec (tr.map Stmt.text) s).code ≠ 0 then
        (tr ++ [Stmt.deleteDetail s],
          .error (.informix "destroy failed" (be.exec (tr.map Stmt.text) s).code))
      else destroyDetails be rest (tr ++ [Stmt.deleteDetail s]) := by
  simp only [destroyDetails, Stmt.text, submit_fst, submit_snd]

theorem destroyDetails_trace (be : Backend) (l : List (Except Exc String)) :
    ∀ tr, ∃ ds, (destroyDetails be l tr).1 = tr ++ ds ∧ ∀ x ∈ ds, x.isData = true := by
  induction l with
  | nil => intro tr; exact ⟨[], by simp [destroyDetails]⟩
  | cons d rest ih =>
    intro tr
    rcases d with exc | s
    · exact ⟨[], by simp [destroyDetails]⟩
    · rw [destroyDetails_cons]
      split_ifs
      · exact ⟨[Stmt.deleteDetail s], rfl, by simp [Stmt.isData]⟩
      · obtain ⟨ds, hds, hall⟩ := ih (tr ++ [Stmt.deleteDetail s])
        refine ⟨Stmt.deleteDetail s :: ds, by simp [hds], ?_⟩
        intro x hx
        rcases List.mem_cons.1 hx with rfl | hx
        · rfl
        · exact hall x hx

theorem destroyDetails_stops (be : Backend) (g : SqlGenerator) (l : List (Except Exc String)) :
    ∀ tr, StopsAtFailure be g tr (destroyDetails be l tr) := by
  induction l with
  | nil => intro tr; exact stops_nil be g tr _ rfl
  | cons d rest ih =>
    intro tr
    rcases d with exc | s
    · exact stops_nil be g tr _ rfl
    · have he := destroyDetails_cons be s rest tr
      by_cases h1 : (be.exec (tr.map Stmt.text) s).code ≠ 0
      · rw [if_pos h1] at he
        exact stops_single be g tr (Stmt.deleteDetail s) _ (by rw [he]) ⟨_, by rw [he]⟩
      · rw [if_neg h1] at he
        obtain ⟨ds, hds, _⟩ := destroyDetails_trace be rest (tr ++ [Stmt.deleteDetail s])
        refine stops_cons be g tr (Stmt.deleteDetail s) _ ds (by rw [he, hds]; simp) ?_ ?_
        · intro hf
          simp only [failsAt, Stmt.text, if_neg h1, rowCheckFails] at hf
        · rw [he]
          exact ih _

theorem destroyTry_error (be : Backend) (g : SqlGenerator) (tr : List Stmt) (exc : Exc)
    (hs : g.deleteStatement = .error exc) : destroyTry be g tr = (tr, .error exc) := by
  simp only [destroyTry, hs]

theorem destroyTry_delete (be : Backend) (g : SqlGenerator) (tr : List Stmt) (s : String)
    (hs : g.deleteStatement = .ok s) :
    destroyTry be g tr =
      if (be.exec (tr.map Stmt.text) s).code ≠ 0 then
        (tr ++ [Stmt.delete s],
          .error (.informix "destroy failed" (be.exec (tr.map Stmt.text) s).code))
      else if 0 < g.version ∧ decide (0 < (be.exec (tr.map Stmt.text) s).rows) = false then
        (tr ++ [Stmt.delete s],
          .error (.runtime "destroy: Object with appropriate version not found"))
      else
        ((destroyDetails be g.deleteDetails (tr ++ [Stmt.delete s])).1,
          (destroyDetails be g.deleteDetails (tr ++ [Stmt.delete s])).2.map
            (fun _ => decide (0 < (be.exec (tr.map Stmt.text) s).rows))) := by
  simp only [destroyTry, hs, Stmt.text, submit_fst, submit_snd]

theorem destroyTry_trace (be : Backend) (g : SqlGenerator) (tr : List Stmt) :
    ∃ ds, (destroyTry be g tr).1 = tr ++ ds ∧ ∀ x ∈ ds, x.isData = true := by
  rcases hs : g.deleteStatement with exc | s
  · rw [destroyTry_error be g tr exc hs]
    exact ⟨[], by simp⟩
  · rw [destroyTry_delete be g tr s hs]
    obtain ⟨ds, hds, hall⟩ := destroyDetails_trace be g.deleteDetails (tr ++ [Stmt.delete s])
    split_ifs
    · exact ⟨[Stmt.delete s], rfl, by simp [Stmt.isData]⟩
    · exact ⟨[Stmt.delete s], rfl, by simp [Stmt.isData]⟩
    · refine ⟨Stmt.delete s :: ds, by simp [hds], ?_⟩
      intro x hx
      rcases List.mem_cons.1 hx with rfl | hx
      · rfl
      · exact hall x hx

theorem stops_map {α β : Type} (be : Backend) (g : SqlGenerator) (tr : List Stmt)
    (w : List Stmt × Except Exc α) (f : α → β) (hw : StopsAtFailure be g tr w) :
    StopsAtFailure be g tr (w.1, w.2.map f) := by
  intro pre st post h hf
  obtain ⟨h1, exc, h2⟩ := hw pre st post h hf
  exact ⟨h1, exc, by simp [h2, Except.map]⟩

/-- The `try` block of `destroy` stops at the first statement that fails for good. -/
theorem destroyTry_stops (be : Backend) (g : SqlGenerator) (tr : List Stmt) :
    StopsAtFailure be g tr (destroyTry be g tr) := by
  rcases hs : g.deleteStatement with exc | s
  · exact stops_nil be g tr _ (by rw [destroyTry_error be g tr exc hs])
  · have he := destroyTry_delete be g tr s hs
    by_cases h1 : (be.exec (tr.map Stmt.text) s).code ≠ 0
    · rw [if_pos h1] at he
      exact stops_single be g tr (Stmt.delete s) _ (by rw [he]) ⟨_, by rw [he]⟩
    · rw [if_neg h1] at he
      by_cases h2 : 0 < g.version ∧ decide (0 < (be.exec (tr.map Stmt.text) s).rows) = false
      · rw [if_pos h2] at he
        exact stops_single be g tr (Stmt.delete s) _ (by rw [he]) ⟨_, by rw [he]⟩
      · rw [if_neg h2] at he
        obtain ⟨ds, hds, _⟩ := destroyDetails_trace be g.deleteDetails (tr ++ [Stmt.delete s])
        rw [he]
        refine stops_cons be g tr (Stmt.delete s) _ ds (by simp [hds]) ?_ ?_
        · intro hf
          simp only [failsAt, Stmt.text, if_neg h1, rowCheckFails] at hf
          exact absurd ⟨hf.1, by simpa using hf.2⟩ h2
        · exact stops_map be g _ _ _ (destroyDetails_stops be g g.deleteDetails _)

/-! ### The frame of `save` and `destroy` -/

theorem save_eq_frame (be : Backend) (c : Conn) (tx : Option Nat) (g : SqlGenerator) :
    save be c tx g = callFrame be c tx (saveTry be g) := rfl

theorem destroy_eq_frame (be : Backend) (c : Conn) (tx : Option Nat) (g : SqlGenerator) :
    destroy be c tx g = callFrame be c tx (destroyTry be g) := rfl

theorem openConnection_transaction (be : Backend) (c c1 : Conn)
    (h : openConnection be c = .ok c1) : c1.currentTransaction = c.currentTransaction := by
  unfold openConnection at h
  split_ifs at h
  · cases h; rfl
  · cases h; rfl

theorem beginCall_ok (be : Backend) (c : Conn) (tx : Option Nat)
    (htx : c.currentTransaction = none ∨ c.currentTransaction = tx)
    (hb : (be.exec [] (openStmt c).text).code = 0) :
    beginCall be c tx = ([openStmt c], .ok ()) := by
  rcases hc : c.currentTransaction with _ | t
  · simp [beginCall, openStmt, hc, submit, Stmt.text] at hb ⊢
    exact hb
  · have h2 : tx = some t := by
      rcases htx with h | h
      · rw [hc] at h; cases h
      · rw [← h, hc]
    subst h2
    simp [beginCall, openStmt, hc, submit, Stmt.text] at hb ⊢
    exact hb

theorem beginCall_refused (be : Backend) (c : Conn) (tx : Option Nat)
    (htx : c.currentTransaction = none ∨ c.currentTransaction = tx)
    (hb : (be.exec [] (openStmt c).text).code ≠ 0) :
    beginCall be c tx =
      ([openStmt c], .error (.informix "Transaction failed" (be.exec [] (openStmt c).text).code)) := by
  rcases hc : c.currentTransaction with _ | t
  · simp [beginCall, openStmt, hc, submit, Stmt.text] at hb ⊢
    exact hb
  · have h2 : tx = some t := by
      rcases htx with h | h
      · rw [hc] at h; cases h
      · rw [← h, hc]
    subst h2
    simp [beginCall, openStmt, hc, submit, Stmt.text] at hb ⊢
    exact hb

theorem beginCall_mismatch (be : Backend) (c : Conn) (tx : Option Nat) (t : Nat)
    (hc : c.currentTransaction = some t) (hne : tx ≠ some t) :
    beginCall be c tx = ([], .error (.runtime "transaction mismatch")) := by
  have : ¬ (some t = tx) := fun h => hne h.symm
  simp [beginCall, hc, this]

theorem finishCall_error {α : Type} (be : Backend) (c : Conn) (w : List Stmt × Except Exc α)
    (exc : Exc) (h : w.2 = .error exc) :
    (finishCall be c w).1 = w.1 ++ [rollbackStmt c] ∧
    (∃ e, (finishCall be c w).2 = .error e) ∧
    ((be.exec (w.1.map Stmt.text) (rollbackStmt c).text).code = 0 →
      (finishCall be c w).2 = .error exc) := by
  simp only [finishCall, h, submit_fst, submit_snd]
  split_ifs with h1
  · exact ⟨rfl, ⟨_, rfl⟩, fun h0 => absurd h0 h1⟩
  · exact ⟨rfl, ⟨_, rfl⟩, fun _ => rfl⟩

theorem finishCall_ok {α : Type} (be : Backend) (c : Conn) (w : List Stmt × Except Exc α)
    (a : α) (h : w.2 = .ok a) :
    (finishCall be c w).1 = w.1 ++ [closeStmt c] ∧
    ((be.exec (w.1.map Stmt.text) (closeStmt c).text).code = 0 →
      (finishCall be c w).2 = .ok a) ∧
    ((be.exec (w.1.map Stmt.text) (closeStmt c).text).code ≠ 0 →
      ∃ e, (finishCall be c w).2 = .error e) := by
  simp only [finishCall, h, submit_fst, submit_snd]
  split_ifs with h1
  · exact ⟨rfl, fun h0 => absurd h0 h1, fun _ => ⟨_, rfl⟩⟩
  · exact ⟨rfl, fun _ => rfl, fun h0 => absurd h0 h1⟩

theorem finishCall_congr {α : Type} (be : Backend) (c c1 : Conn) (w : List Stmt × Except Exc α)
    (h : c1.currentTransaction = c.currentTransaction) :
    finishCall be c1 w = finishCall be c w := by
  simp only [finishCall, rollbackStmt, closeStmt, h]

/-- With an established connection, a matching transaction and an accepted opening statement
the call is the `try` block followed by the handlers. -/
theorem frame_started {α : Type} (be : Backend) (c : Conn) (tx : Option Nat)
    (body : List Stmt → List Stmt × Except Exc α) (hcon : 0 < c.conNr)
    (htx : c.currentTransaction = none ∨ c.currentTransaction = tx)
    (hb : (be.exec [] (openStmt c).text).code = 0) :
    callFrame be c tx body =
      ⟨c, (finishCall be c (body [openStmt c])).1, (finishCall be c (body [openStmt c])).2⟩ := by
  simp only [callFrame, openConnection_connected be c hcon, beginCall_ok be c tx htx hb]

/-- Every run of the frame is one of: nothing submitted, only the refused opening statement
submitted, or the accepted opening statement followed by the `try` block and a handler. -/
theorem frame_shape {α : Type} (be : Backend) (c : Conn) (tx : Option Nat)
    (body : List Stmt → List Stmt × Except Exc α) :
    ((callFrame be c tx body).trace = [] ∧ (callFrame be c tx body).failed) ∨
    ((callFrame be c tx body).trace = [openStmt c] ∧ (callFrame be c tx body).failed ∧
      (be.exec [] (openStmt c).text).code ≠ 0) ∨
    ((be.exec [] (openStmt c).text).code = 0 ∧
      (callFrame be c tx body).trace = (finishCall be c (body [openStmt c])).1 ∧
      (callFrame be c tx body).out = (finishCall be c (body [openStmt c])).2) := by
  rcases ho : openConnection be c with exc | c1
  · left
    simp [callFrame, ho, Run.failed]
  · have hct := openConnection_transaction be c c1 ho
    have hos : openStmt c1 = openStmt c := by simp [openStmt, hct]
    by_cases htx : c1.currentTransaction = none ∨ c1.currentTransaction = tx
    · by_cases hb : (be.exec [] (openStmt c1).text).code = 0
      · right; right
        refine ⟨by rw [← hos]; exact hb, ?_, ?_⟩
        · simp only [callFrame, ho, beginCall_ok be c1 tx htx hb, hos,
            finishCall_congr be c c1 _ hct]
        · simp only [callFrame, ho, beginCall_ok be c1 tx htx hb, hos,
            finishCall_congr be c c1 _ hct]
      · right; left
        refine ⟨?_, ?_, by rw [← hos]; exact hb⟩
        · simp only [callFrame, ho, beginCall_refused be c1 tx htx hb, hos]
        · simp only [callFrame, ho, beginCall_refused be c1 tx htx hb, Run.failed]
          exact ⟨_, rfl⟩
    · left
      rcases hc : c1.currentTransaction with _ | t
      · exact absurd (Or.inl hc) htx
      · have hne : tx ≠ some t := by
          intro h; apply htx; right; rw [hc, h]
        simp [callFrame, ho, beginCall_mismatch be c1 tx t hc hne, Run.failed]

theorem finishCall_trace {α : Type} (be : Backend) (c : Conn) (w : List Stmt × Except Exc α) :
    ((∃ exc, w.2 = .error exc) ∧ (finishCall be c w).1 = w.1 ++ [rollbackStmt c]) ∨
    ((∃ a, w.2 = .ok a) ∧ (finishCall be c w).1 = w.1 ++ [closeStmt c]) := by
  rcases h : w.2 with exc | a
  · exact Or.inl ⟨⟨exc, rfl⟩, (finishCall_error be c w exc h).1⟩
  · exact Or.inr ⟨⟨a, rfl⟩, (finishCall_ok be c w a h).1⟩

/-- Every statement of a run is the opening statement, a statement of the `try` block, or the
statement of a handler. -/
theorem frame_members {α : Type} (be : Backend) (c : Conn) (tx : Option Nat)
    (body : List Stmt → List Stmt × Except Exc α) (ds : List Stmt)
    (hds : (body [openStmt c]).1 = [openStmt c] ++ ds) :
    ∀ x ∈ (callFrame be c tx body).trace,
      x = openStmt c ∨ x ∈ ds ∨ x = rollbackStmt c ∨ x = closeStmt c := by
  intro x hx
  rcases frame_shape be c tx body with h | h | h
  · rw [h.1] at hx; simp at hx
  · rw [h.1] at hx; simp at hx; exact Or.inl hx
  · rw [h.2.1] at hx
    rcases finishCall_trace be c (body [openStmt c]) with ⟨_, hf⟩ | ⟨_, hf⟩
    · rw [hf, hds] at hx
      simp only [List.mem_append, List.mem_singleton] at hx
      tauto
    · rw [hf, hds] at hx
      simp only [List.mem_append, List.mem_singleton] at hx
      tauto

theorem openStmt_cases (c : Conn) : openStmt c = Stmt.beginWork ∨ openStmt c = Stmt.savepoint := by
  unfold openStmt; split_ifs <;> simp

theorem rollbackStmt_cases (c : Conn) :
    rollbackStmt c = Stmt.rollbackWork ∨ rollbackStmt c = Stmt.rollbackToSavepoint := by
  unfold rollbackStmt; split_ifs <;> simp

theorem closeStmt_cases (c : Conn) :
    closeStmt c = Stmt.commitWork ∨ closeStmt c = Stmt.releaseSavepoint := by
  unfold closeStmt; split_ifs <;> simp

/-! ### Claims on `save` and `destroy` -/

/-- C1: in `save`, for an object whose version is greater than 0 no insert (and no retry of an
insert) is ever submitted; once the connection is established, the transaction matches and the
opening statement is accepted, the main-row statement is the update statement; and if the
server accepts it (code 0) but reports a processed-row count other than 1, `save` submits
exactly the rollback next and nothing else, ends with an exception, and submits neither
`COMMIT WORK;` nor `RELEASE SAVEPOINT MOBS;`. -/
theorem save_positive_version_updates (be : Backend) (c : Conn) (tx : Option Nat)
    (g : SqlGenerator) (hv : 0 < g.version) :
    (∀ x ∈ (save be c tx g).trace, ∀ t, x ≠ Stmt.insert t ∧ x ≠ Stmt.insertRetry t) ∧
    (∀ s, 0 < c.conNr → (c.currentTransaction = none ∨ c.currentTransaction = tx) →
      (be.exec [] (openStmt c).text).code = 0 → g.updateStatement = .ok s →
      (∃ rest, (save be c tx g).trace = openStmt c :: Stmt.update s :: rest) ∧
      ((be.exec [(openStmt c).text] s).code = 0 → (be.exec [(openStmt c).text] s).rows ≠ 1 →
        (save be c tx g).trace = [openStmt c, Stmt.update s, rollbackStmt c] ∧
        (save be c tx g).failed ∧
        Stmt.commitWork ∉ (save be c tx g).trace ∧
        Stmt.releaseSavepoint ∉ (save be c tx g).trace)) := by
  constructor
  · intro x hx t
    obtain ⟨ds, hds, _, hup⟩ := saveTry_trace be g [openStmt c]
    rcases frame_members be c tx (saveTry be g) ds hds x hx with h | h | h | h
    · rcases openStmt_cases c with h2 | h2 <;> rw [h, h2] <;> simp
    · rcases hup hv x h with ⟨s, rfl, _⟩ | h2
      · simp
      · constructor <;> rintro rfl <;> simp [Stmt.isDetail] at h2
    · rcases rollbackStmt_cases c with h2 | h2 <;> rw [h, h2] <;> simp
    · rcases closeStmt_cases c with h2 | h2 <;> rw [h, h2] <;> simp
  · intro s hcon htx hb hs
    have hfr := frame_started be c tx (saveTry be g) hcon htx hb
    have he := saveTry_update be g [openStmt c] s hv hs
    simp only [List.map_cons, List.map_nil] at he
    constructor
    · obtain ⟨ds, hds, _⟩ := saveTry_trace be g [openStmt c]
      rw [save_eq_frame, hfr]
      have hds2 : ∃ ds2, ds = Stmt.update s :: ds2 := by
        rw [he] at hds
        obtain ⟨ds3, hds3, _⟩ := saveDetails_trace be g.details ([openStmt c] ++ [Stmt.update s])
        split_ifs at hds
        · exact ⟨[], by simpa using hds.symm⟩
        · exact ⟨[], by simpa using hds.symm⟩
        · rw [hds3] at hds
          exact ⟨ds3, by simpa using hds.symm⟩
      obtain ⟨ds2, rfl⟩ := hds2
      rcases finishCall_trace be c (saveTry be g [openStmt c]) with ⟨_, hf⟩ | ⟨_, hf⟩
      · exact ⟨ds2 ++ [rollbackStmt c], by simp [hf, hds]⟩
      · exact ⟨ds2 ++ [closeStmt c], by simp [hf, hds]⟩
    · intro h0 h1
      have h0n : ¬ (be.exec [(openStmt c).text] s).code ≠ 0 := by simp [h0]
      rw [if_neg h0n, if_pos h1] at he
      obtain ⟨hft, hfe, _⟩ := finishCall_error be c (saveTry be g [openStmt c]) _ (by rw [he])
      have htr : (save be c tx g).trace = [openStmt c, Stmt.update s, rollbackStmt c] := by
        rw [save_eq_frame, hfr]
        show (finishCall be c (saveTry be g [openStmt c])).1 = _
        rw [hft, he]
        rfl
      refine ⟨htr, ?_, ?_, ?_⟩
      · rw [save_eq_frame, hfr]
        exact hfe
      · rw [htr]
        rcases openStmt_cases c with h2 | h2 <;> rcases rollbackStmt_cases c with h3 | h3 <;>
          simp [h2, h3]
      · rw [htr]
        rcases openStmt_cases c with h2 | h2 <;> rcases rollbackStmt_cases c with h3 | h3 <;>
          simp [h2, h3]

/-- Witness for C1: an object of version 2 whose update matches no row. -/
theorem save_positive_version_updates_witness :
    0 < (exampleGenerator 2).version ∧
    (save exampleServer exampleConn none (exampleGenerator 2)).trace
      = [Stmt.beginWork, Stmt.update "UPD", Stmt.rollbackWork] ∧
    (save exampleServer exampleConn none (exampleGenerator 2)).failed :=
  have h := ((save_positive_version_updates exampleServer exampleConn none (exampleGenerator 2)
    (by decide)).2 "UPD" (by decide) (by decide) (by decide) rfl).2 (by decide) (by decide)
  ⟨by decide, h.1, h.2.1⟩

theorem openStmt_not_data (c : Conn) : (openStmt c).isData = false := by
  rcases openStmt_cases c with h | h <;> rw [h] <;> rfl

theorem rollbackStmt_not_data (c : Conn) : (rollbackStmt c).isData = false := by
  rcases rollbackStmt_cases c with h | h <;> rw [h] <;> rfl

theorem closeStmt_not_data (c : Conn) : (closeStmt c).isData = false := by
  rcases closeStmt_cases c with h | h <;> rw [h] <;> rfl

theorem not_main_of_detail (x : Stmt) (h : x.isDetail = true) (t : String) :
    x ≠ Stmt.insert t ∧ x ≠ Stmt.insertRetry t ∧ x ≠ Stmt.update t := by
  refine ⟨?_, ?_, ?_⟩ <;> rintro rfl <;> simp [Stmt.isDetail] at h

theorem not_main_of_not_data (x : Stmt) (h : x.isData = false) (t : String) :
    x ≠ Stmt.insert t ∧ x ≠ Stmt.insertRetry t ∧ x ≠ Stmt.update t := by
  refine ⟨?_, ?_, ?_⟩ <;> rintro rfl <;> simp [Stmt.isData] at h

/-- C2: in `save`, when the version is the unknown sentinel (negative), the insert is refused
with the uniqueness code -268 and an update text came with the insert, the update text is
submitted right after the insert and no main-row statement (insert, retry, update) is
submitted again.  If the update is accepted, `save` goes on with the repeated groups and ends
normally when every later statement is accepted.  If the update is refused with code `e`,
nothing but the rollback follows and `save` ends with an exception, which is the
`save failed` exception carrying `e` when the rollback is accepted. -/
theorem save_unknown_version_retries_once (be : Backend) (c : Conn) (tx : Option Nat)
    (g : SqlGenerator) (s upd : String)
    (hcon : 0 < c.conNr)
    (htx : c.currentTransaction = none ∨ c.currentTransaction = tx)
    (hb : (be.exec [] (openStmt c).text).code = 0)
    (hv : g.version < 0) (hs : g.insertUpdStatement = .ok (s, upd)) (hupd : upd ≠ "")
    (hdup : (be.exec [(openStmt c).text] s).code = UNIQCONSTRAINT) :
    (∃ rest, (save be c tx g).trace
        = openStmt c :: Stmt.insert s :: Stmt.insertRetry upd :: rest ∧
      ∀ x ∈ rest, ∀ t, x ≠ Stmt.insert t ∧ x ≠ Stmt.insertRetry t ∧ x ≠ Stmt.update t) ∧
    ((be.exec [(openStmt c).text, s] upd).code = 0 →
      (∀ d ∈ g.details, ∃ p, d = .ok p) →
      (∀ hist t, (be.exec ((openStmt c).text :: s :: upd :: hist) t).code = 0) →
      (save be c tx g).out = .ok ()) ∧
    (∀ e, (be.exec [(openStmt c).text, s] upd).code = e → e ≠ 0 →
      (save be c tx g).trace
        = [openStmt c, Stmt.insert s, Stmt.insertRetry upd, rollbackStmt c] ∧
      (save be c tx g).failed ∧
      ((be.exec [(openStmt c).text, s, upd] (rollbackStmt c).text).code = 0 →
        (save be c tx g).out = .error (.informix "save failed" e))) := by
  have hfr := frame_started be c tx (saveTry be g) hcon htx hb
  have he := saveTry_insert_retry be g [openStmt c] s upd hs ⟨hv, by simpa using hdup, hupd⟩
  simp only [List.map_cons, List.map_nil, List.singleton_append] at he
  refine ⟨?_, ?_, ?_⟩
  · rw [save_eq_frame, hfr]
    show ∃ rest, (finishCall be c (saveTry be g [openStmt c])).1 = _ ∧ _
    by_cases h1 : (be.exec [(openStmt c).text, s] upd).code ≠ 0
    · rw [if_pos h1] at he
      obtain ⟨hft, _, _⟩ := finishCall_error be c (saveTry be g [openStmt c]) _ (by rw [he])
      refine ⟨[rollbackStmt c], by rw [hft, he]; rfl, ?_⟩
      intro x hx t
      rw [List.mem_singleton] at hx
      rw [hx]
      exact not_main_of_not_data _ (rollbackStmt_not_data c) t
    · rw [if_neg h1] at he
      obtain ⟨ds, hds, hall⟩ :=
        saveDetails_trace be g.details [openStmt c, Stmt.insert s, Stmt.insertRetry upd]
      rcases finishCall_trace be c (saveTry be g [openStmt c]) with ⟨_, hf⟩ | ⟨_, hf⟩
      · refine ⟨ds ++ [rollbackStmt c], by rw [hf, he, hds]; simp, ?_⟩
        intro x hx t
        rcases List.mem_append.1 hx with h | h
        · exact not_main_of_detail x (hall x h) t
        · rw [List.mem_singleton] at h
          rw [h]
          exact not_main_of_not_data _ (rollbackStmt_not_data c) t
      · refine ⟨ds ++ [closeStmt c], by rw [hf, he, hds]; simp, ?_⟩
        intro x hx t
        rcases List.mem_append.1 hx with h | h
        · exact not_main_of_detail x (hall x h) t
        · rw [List.mem_singleton] at h
          rw [h]
          exact not_main_of_not_data _ (closeStmt_not_data c) t
  · intro h0 hd hall
    have h1 : ¬ (be.exec [(openStmt c).text, s] upd).code ≠ 0 := by simp [h0]
    rw [if_neg h1] at he
    have hok : (saveTry be g [openStmt c]).2 = .ok () := by
      rw [he]
      refine saveDetails_ok be g.details _ hd ?_
      intro hist t
      simpa [Stmt.text] using hall hist t
    obtain ⟨hft, hfo, _⟩ := finishCall_ok be c (saveTry be g [openStmt c]) () hok
    rw [save_eq_frame, hfr]
    refine hfo ?_
    obtain ⟨ds, hds, _⟩ :=
      saveDetails_trace be g.details [openStmt c, Stmt.insert s, Stmt.insertRetry upd]
    rw [he, hds]
    simpa [Stmt.text] using hall (ds.map Stmt.text) (closeStmt c).text
  · intro e he2 hne
    have h1 : (be.exec [(openStmt c).text, s] upd).code ≠ 0 := by rw [he2]; exact hne
    rw [if_pos h1] at he
    obtain ⟨hft, hfe, hfx⟩ := finishCall_error be c (saveTry be g [openStmt c]) _ (by rw [he])
    refine ⟨?_, ?_, ?_⟩
    · rw [save_eq_frame, hfr]
      show (finishCall be c (saveTry be g [openStmt c])).1 = _
      rw [hft, he]
      rfl
    · rw [save_eq_frame, hfr]
      exact hfe
    · intro hr
      rw [save_eq_frame, hfr]
      show (finishCall be c (saveTry be g [openStmt c])).2 = _
      rw [hfx (by rw [he]; simpa [Stmt.text] using hr), he2]

/-- Witness for C2: an object of unknown version whose row exists already. -/
theorem save_unknown_version_retries_once_witness :
    (save exampleDuplicate exampleConn none (exampleGenerator (-1))).trace
      = [Stmt.beginWork, Stmt.insert "INS", Stmt.insertRetry "UPD", Stmt.commitWork] ∧
    (save exampleDuplicate exampleConn none (exampleGenerator (-1))).out = .ok () :=
  have h := save_unknown_version_retries_once exampleDuplicate exampleConn none
    (exampleGenerator (-1)) "INS" "UPD" (by decide) (by decide) (by decide) (by decide) rfl
    (by decide) (by decide)
  ⟨by decide, h.2.1 (by decide) (by simp [exampleGenerator])
    (by
      intro hist t
      have hlen : ¬ (t = "INS" ∧ hist.length + 1 + 1 + 1 < 2) := fun h => by omega
      simp [exampleDuplicate, hlen])⟩

theorem frame_refused {α : Type} (be : Backend) (c : Conn) (tx : Option Nat)
    (body : List Stmt → List Stmt × Except Exc α) (hcon : 0 < c.conNr)
    (htx : c.currentTransaction = none ∨ c.currentTransaction = tx)
    (hb : (be.exec [] (openStmt c).text).code ≠ 0) :
    callFrame be c tx body =
      ⟨c, [openStmt c],
        .error (.informix "Transaction failed" (be.exec [] (openStmt c).text).code)⟩ := by
  simp only [callFrame, openConnection_connected be c hcon, beginCall_refused be c tx htx hb]

/-- The statements of a run whose connection is established and whose transaction matches: the
opening statement comes first, the rest are data statements and handler statements, and the
last statement is the commit or release exactly when the `try` block ended normally, the
rollback exactly when it threw. -/
theorem frame_bracket {α : Type} (be : Backend) (c : Conn) (tx : Option Nat)
    (body : List Stmt → List Stmt × Except Exc α) (hcon : 0 < c.conNr)
    (htx : c.currentTransaction = none ∨ c.currentTransaction = tx)
    (hbody : ∃ ds, (body [openStmt c]).1 = [openStmt c] ++ ds ∧ ∀ x ∈ ds, x.isData = true) :
    (callFrame be c tx body).trace.head? = some (openStmt c) ∧
    (∀ x ∈ (callFrame be c tx body).trace,
      x.isData = true ∨ x = openStmt c ∨ x = rollbackStmt c ∨ x = closeStmt c) ∧
    ((be.exec [] (openStmt c).text).code = 0 →
      ((∃ a, (body [openStmt c]).2 = .ok a) →
        (callFrame be c tx body).trace.getLast? = some (closeStmt c)) ∧
      ((∃ exc, (body [openStmt c]).2 = .error exc) →
        (callFrame be c tx body).trace.getLast? = some (rollbackStmt c))) ∧
    (∀ a, (callFrame be c tx body).out = .ok a →
      (callFrame be c tx body).trace.getLast? = some (closeStmt c)) := by
  obtain ⟨ds, hds, hall⟩ := hbody
  have hmem := frame_members be c tx body ds hds
  by_cases hb : (be.exec [] (openStmt c).text).code = 0
  · have hfr := frame_started be c tx body hcon htx hb
    refine ⟨?_, ?_, ?_, ?_⟩
    · rw [hfr]
      rcases finishCall_trace be c (body [openStmt c]) with ⟨_, hf⟩ | ⟨_, hf⟩ <;>
        simp [hf, hds]
    · intro x hx
      rcases hmem x hx with h | h | h | h
      · exact Or.inr (Or.inl h)
      · exact Or.inl (hall x h)
      · exact Or.inr (Or.inr (Or.inl h))
      · exact Or.inr (Or.inr (Or.inr h))
    · intro _
      constructor
      · rintro ⟨a, ha⟩
        rw [hfr]
        simp [(finishCall_ok be c _ a ha).1]
      · rintro ⟨exc, he⟩
        rw [hfr]
        simp [(finishCall_error be c _ exc he).1]
    · intro a ha
      rw [hfr] at ha ⊢
      rcases hw : (body [openStmt c]).2 with exc | a2
      · obtain ⟨_, ⟨e, he⟩, _⟩ := finishCall_error be c _ exc hw
        simp only at ha
        rw [he] at ha
        cases ha
      · simp [(finishCall_ok be c _ a2 hw).1]
  · have hfr := frame_refused be c tx body hcon htx hb
    refine ⟨by rw [hfr]; rfl, ?_, fun h => absurd h hb, ?_⟩
    · intro x hx
      rw [hfr] at hx
      simp only [List.mem_singleton] at hx
      exact Or.inr (Or.inl hx)
    · intro a ha
      rw [hfr] at ha
      cases ha

theorem saveTry_body (be : Backend) (g : SqlGenerator) (c : Conn) :
    ∃ ds, (saveTry be g [openStmt c]).1 = [openStmt c] ++ ds ∧ ∀ x ∈ ds, x.isData = true := by
  obtain ⟨ds, h1, h2, _⟩ := saveTry_trace be g [openStmt c]
  exact ⟨ds, h1, h2⟩

theorem bound_stmts (c : Conn) (t : Nat) (hc : c.currentTransaction = some t) :
    openStmt c = Stmt.savepoint ∧ rollbackStmt c = Stmt.rollbackToSavepoint ∧
    closeStmt c = Stmt.releaseSavepoint := by
  simp [openStmt, rollbackStmt, closeStmt, hc]

theorem unbound_stmts (c : Conn) (hc : c.currentTransaction = none) :
    openStmt c = Stmt.beginWork ∧ rollbackStmt c = Stmt.rollbackWork ∧
    closeStmt c = Stmt.commitWork := by
  simp [openStmt, rollbackStmt, closeStmt, hc]

/-- The bracket of a run on a connection bound to the transaction of the interface. -/
theorem frame_bound {α : Type} (be : Backend) (c : Conn) (tx : Option Nat) (t : Nat)
    (body : List Stmt → List Stmt × Except Exc α) (hcon : 0 < c.conNr)
    (hc : c.currentTransaction = some t) (htx : tx = some t)
    (hbody : ∃ ds, (body [openStmt c]).1 = [openStmt c] ++ ds ∧ ∀ x ∈ ds, x.isData = true) :
    (callFrame be c tx body).trace.head? = some Stmt.savepoint ∧
    (∀ x ∈ (callFrame be c tx body).trace,
      x ≠ Stmt.beginWork ∧ x ≠ Stmt.commitWork ∧ x ≠ Stmt.rollbackWork) ∧
    ((be.exec [] "SAVEPOINT MOBS;").code = 0 →
      ((∃ a, (body [Stmt.savepoint]).2 = .ok a) →
        (callFrame be c tx body).trace.getLast? = some Stmt.releaseSavepoint) ∧
      ((∃ exc, (body [Stmt.savepoint]).2 = .error exc) →
        (callFrame be c tx body).trace.getLast? = some Stmt.rollbackToSavepoint)) ∧
    (∀ a, (callFrame be c tx body).out = .ok a →
      (callFrame be c tx body).trace.getLast? = some Stmt.releaseSavepoint) := by
  obtain ⟨h1, h2, h3⟩ := bound_stmts c t hc
  have h := frame_bracket be c tx body hcon (Or.inr (by rw [hc, htx])) hbody
  rw [h1, h2, h3] at h
  refine ⟨h.1, ?_, h.2.2.1, h.2.2.2⟩
  intro x hx
  rcases h.2.1 x hx with hd | rfl | rfl | rfl
  · refine ⟨?_, ?_, ?_⟩ <;> rintro rfl <;> simp [Stmt.isData] at hd
  · simp
  · simp
  · simp

/-- The bracket of a run on a connection that is bound to no transaction. -/
theorem frame_unbound {α : Type} (be : Backend) (c : Conn) (tx : Option Nat)
    (body : List Stmt → List Stmt × Except Exc α) (hcon : 0 < c.conNr)
    (hc : c.currentTransaction = none)
    (hbody : ∃ ds, (body [openStmt c]).1 = [openStmt c] ++ ds ∧ ∀ x ∈ ds, x.isData = true) :
    (callFrame be c tx body).trace.head? = some Stmt.beginWork ∧
    (∀ x ∈ (callFrame be c tx body).trace,
      x ≠ Stmt.savepoint ∧ x ≠ Stmt.releaseSavepoint ∧ x ≠ Stmt.rollbackToSavepoint) ∧
    ((be.exec [] "BEGIN WORK;").code = 0 →
      ((∃ a, (body [Stmt.beginWork]).2 = .ok a) →
        (callFrame be c tx body).trace.getLast? = some Stmt.commitWork) ∧
      ((∃ exc, (body [Stmt.beginWork]).2 = .error exc) →
        (callFrame be c tx body).trace.getLast? = some Stmt.rollbackWork)) ∧
    (∀ a, (callFrame be c tx body).out = .ok a →
      (callFrame be c tx body).trace.getLast? = some Stmt.commitWork) := by
  obtain ⟨h1, h2, h3⟩ := unbound_stmts c hc
  have h := frame_bracket be c tx body hcon (Or.inl hc) hbody
  rw [h1, h2, h3] at h
  refine ⟨h.1, ?_, h.2.2.1, h.2.2.2⟩
  intro x hx
  rcases h.2.1 x hx with hd | rfl | rfl | rfl
  · refine ⟨?_, ?_, ?_⟩ <;> rintro rfl <;> simp [Stmt.isData] at hd
  · simp
  · simp
  · simp

theorem retryFollows_concat (post : List Stmt) (fin : Stmt) (h : fin.isData = false) :
    retryFollows (post ++ [fin]) = retryFollows post := by
  rcases post with _ | ⟨p, post2⟩
  · cases fin <;> simp_all [retryFollows, Stmt.isRetry, Stmt.isData]
  · rfl

theorem failsAt_concat (be : Backend) (g : SqlGenerator) (pre : List Stmt) (st : Stmt)
    (post : List Stmt) (fin : Stmt) (h : fin.isData = false)
    (hf : failsAt be g pre st (post ++ [fin])) : failsAt be g pre st post := by
  unfold failsAt at hf ⊢
  rw [retryFollows_concat post fin h] at hf
  exact hf

theorem not_rollback_of_data (x : Stmt) (h : x.isData = true) : x.isRollback = false := by
  cases x <;> simp_all [Stmt.isData, Stmt.isRollback]

/-- In a run that got past the opening statement, a data statement that fails for good is
followed by the rollback and by nothing else; the rollback is the only one of the run, no commit
or release is submitted, and the call ends with an exception. -/
theorem frame_aborts {α : Type} (be : Backend) (g : SqlGenerator) (c : Conn) (tx : Option Nat)
    (body : List Stmt → List Stmt × Except Exc α) (hcon : 0 < c.conNr)
    (htx : c.currentTransaction = none ∨ c.currentTransaction = tx)
    (hb : (be.exec [] (openStmt c).text).code = 0)
    (hbody : ∃ ds, (body [openStmt c]).1 = [openStmt c] ++ ds ∧ ∀ x ∈ ds, x.isData = true)
    (hstops : StopsAtFailure be g [openStmt c] (body [openStmt c])) :
    ∀ pre st post, (callFrame be c tx body).trace = pre ++ st :: post → st.isData = true →
      failsAt be g pre st post →
      post = [rollbackStmt c] ∧
      (callFrame be c tx body).trace.countP Stmt.isRollback = 1 ∧
      Stmt.commitWork ∉ (callFrame be c tx body).trace ∧
      Stmt.releaseSavepoint ∉ (callFrame be c tx body).trace ∧
      (callFrame be c tx body).failed := by
  intro pre st post htr hst hf
  obtain ⟨ds, hds, hall⟩ := hbody
  have hfr := frame_started be c tx body hcon htx hb
  have key : ∃ fin, fin.isData = false ∧
      (finishCall be c (body [openStmt c])).1 = openStmt c :: (ds ++ [fin]) ∧
      ((∃ exc, (body [openStmt c]).2 = .error exc) → fin = rollbackStmt c) := by
    rcases finishCall_trace be c (body [openStmt c]) with ⟨_, hf2⟩ | ⟨⟨a, ha⟩, hf2⟩
    · exact ⟨rollbackStmt c, rollbackStmt_not_data c, by rw [hf2, hds]; simp, fun _ => rfl⟩
    · refine ⟨closeStmt c, closeStmt_not_data c, by rw [hf2, hds]; simp, ?_⟩
      rintro ⟨exc, he⟩
      rw [ha] at he
      cases he
  obtain ⟨fin, hfin, hshape, hroll⟩ := key
  rw [hfr] at htr
  simp only at htr
  rw [hshape] at htr
  rcases pre with _ | ⟨p, pre2⟩
  · simp only [List.nil_append, List.cons.injEq] at htr
    rw [← htr.1, openStmt_not_data] at hst
    cases hst
  · simp only [List.cons_append, List.cons.injEq] at htr
    obtain ⟨rfl, htr2⟩ := htr
    rcases List.eq_nil_or_concat post with rfl | ⟨post2, fin2, rfl⟩
    · have hlast := congrArg List.getLast? htr2
      simp at hlast
      rw [hlast, hst] at hfin
      cases hfin
    · have hsplit : ds = pre2 ++ st :: post2 ∧ [fin] = [fin2] := by
        apply List.append_inj'
        · rw [htr2]; simp
        · rfl
      obtain ⟨hds2, hfin2⟩ := hsplit
      simp only [List.cons.injEq, and_true] at hfin2
      subst hfin2
      have hf3 : failsAt be g ([openStmt c] ++ pre2) st post2 :=
        failsAt_concat be g _ st post2 fin hfin (by simpa using hf)
      obtain ⟨hnil, hexc⟩ := hstops pre2 st post2 (by rw [hds, hds2]) hf3
      subst hnil
      have hfinr := hroll hexc
      subst hfinr
      obtain ⟨exc, hexc2⟩ := hexc
      have hdsr : ∀ x ∈ pre2 ++ [st], x.isRollback = false := by
        intro x hx
        exact not_rollback_of_data x (hall x (by rw [hds2]; exact hx))
      have hdsd : ∀ x ∈ pre2 ++ [st], x.isData = true := by
        intro x hx
        exact hall x (by rw [hds2]; exact hx)
      have hrb : (rollbackStmt c).isRollback = true := by
        rcases rollbackStmt_cases c with h | h <;> rw [h] <;> rfl
      have hop : (openStmt c).isRollback = false := by
        rcases openStmt_cases c with h | h <;> rw [h] <;> rfl
      refine ⟨rfl, ?_, ?_, ?_, ?_⟩
      · rw [hfr]
        simp only
        rw [hshape, hds2]
        have h0 : List.countP Stmt.isRollback (pre2 ++ [st]) = 0 := by
          rw [List.countP_eq_zero]
          intro x hx
          simp [hdsr x hx]
        rw [List.countP_cons, show pre2 ++ st :: [] ++ [rollbackStmt c]
          = (pre2 ++ [st]) ++ [rollbackStmt c] from rfl, List.countP_append, h0]
        simp [hrb, hop]
      · rw [hfr]
        simp only
        rw [hshape, hds2]
        intro hmem
        simp only [List.mem_cons, List.mem_append, List.mem_singleton, List.not_mem_nil,
          or_false] at hmem
        rcases hmem with h | (h | h) | h
        · rcases openStmt_cases c with h2 | h2 <;> rw [h2] at h <;> cases h
        · have := hdsd Stmt.commitWork (by simp [h])
          simp [Stmt.isData] at this
        · have := hdsd Stmt.commitWork (by simp [h])
          simp [Stmt.isData] at this
        · rcases rollbackStmt_cases c with h2 | h2 <;> rw [h2] at h <;> cases h
      · rw [hfr]
        simp only
        rw [hshape, hds2]
        intro hmem
        simp only [List.mem_cons, List.mem_append, List.mem_singleton, List.not_mem_nil,
          or_false] at hmem
        rcases hmem with h | (h | h) | h
        · rcases openStmt_cases c with h2 | h2 <;> rw [h2] at h <;> cases h
        · have := hdsd Stmt.releaseSavepoint (by simp [h])
          simp [Stmt.isData] at this
        · have := hdsd Stmt.releaseSavepoint (by simp [h])
          simp [Stmt.isData] at this
        · rcases rollbackStmt_cases c with h2 | h2 <;> rw [h2] at h <;> cases h
      · rw [hfr]
        exact (finishCall_error be c _ exc hexc2).2.1

/-- C4: in `save` and in `destroy`, once the opening `BEGIN WORK;` / `SAVEPOINT MOBS;` is
accepted, a data statement that fails for good (a non-zero code that is not followed by the
insert-to-update retry, or code 0 with a failed row-count check) is followed by the rollback
statement and by nothing else: no further data statement is submitted, the run contains exactly
one rollback statement, neither `COMMIT WORK;` nor `RELEASE SAVEPOINT MOBS;`, and the call ends
with an exception. -/
theorem failure_aborts_call (be : Backend) (c : Conn) (tx : Option Nat) (g : SqlGenerator)
    (hcon : 0 < c.conNr)
    (htx : c.currentTransaction = none ∨ c.currentTransaction = tx)
    (hb : (be.exec [] (openStmt c).text).code = 0) :
    (∀ pre st post, (save be c tx g).trace = pre ++ st :: post → st.isData = true →
      failsAt be g pre st post →
      post = [rollbackStmt c] ∧
      (save be c tx g).trace.countP Stmt.isRollback = 1 ∧
      Stmt.commitWork ∉ (save be c tx g).trace ∧
      Stmt.releaseSavepoint ∉ (save be c tx g).trace ∧
      (save be c tx g).failed) ∧
    (∀ pre st post, (destroy be c tx g).trace = pre ++ st :: post → st.isData = true →
      failsAt be g pre st post →
      post = [rollbackStmt c] ∧
      (destroy be c tx g).trace.countP Stmt.isRollback = 1 ∧
      Stmt.commitWork ∉ (destroy be c tx g).trace ∧
      Stmt.releaseSavepoint ∉ (destroy be c tx g).trace ∧
      (destroy be c tx g).failed) :=
  ⟨frame_aborts be g c tx (saveTry be g) hcon htx hb (saveTry_body be g c)
      (saveTry_stops be g [openStmt c]),
    frame_aborts be g c tx (destroyTry be g) hcon htx hb (destroyTry_trace be g [openStmt c])
      (destroyTry_stops be g [openStmt c])⟩

/-- Witness for C4: the update of an object of version 2 matches no row. -/
theorem failure_aborts_call_witness :
    (save exampleServer exampleConn none (exampleGenerator 2)).trace
      = [Stmt.beginWork] ++ Stmt.update "UPD" :: [Stmt.rollbackWork] ∧
    (save exampleServer exampleConn none (exampleGenerator 2)).trace.countP Stmt.isRollback = 1 ∧
    (save exampleServer exampleConn none (exampleGenerator 2)).failed :=
  have h := (failure_aborts_call exampleServer exampleConn none (exampleGenerator 2)
    (by decide) (by decide) (by decide)).1 [Stmt.beginWork] (Stmt.update "UPD")
    [Stmt.rollbackWork] (by decide) rfl
    (by simp [failsAt, exampleServer, rowCheckFails, exampleGenerator])
  ⟨by decide, h.2.1, h.2.2.2.2⟩

/-- C5: on an established connection bound to transaction `t`, `startTransaction` and
`endTransaction` called with another transaction, and `save` and `destroy` called through an
interface that carries another transaction (or none), each throw
`runtime_error("transaction mismatch")`, submit no statement and leave the connection as it
was, bound to `t`. -/
theorem mismatch_rejected (be : Backend) (c : Conn) (tx : Option Nat) (g : SqlGenerator)
    (t : Nat) (hcon : 0 < c.conNr) (hc : c.currentTransaction = some t) (hne : tx ≠ some t) :
    ((startTransaction be c tx).out = .error (.runtime "transaction mismatch") ∧
      (startTransaction be c tx).trace = [] ∧ (startTransaction be c tx).conn = c) ∧
    ((endTransaction be c tx).out = .error (.runtime "transaction mismatch") ∧
      (endTransaction be c tx).trace = [] ∧ (endTransaction be c tx).conn = c) ∧
    ((save be c tx g).out = .error (.runtime "transaction mismatch") ∧
      (save be c tx g).trace = [] ∧ (save be c tx g).conn = c) ∧
    ((destroy be c tx g).out = .error (.runtime "transaction mismatch") ∧
      (destroy be c tx g).trace = [] ∧ (destroy be c tx g).conn = c) ∧
    c.currentTransaction = some t := by
  have hne2 : ¬ (some t = tx) := fun h => hne h.symm
  refine ⟨?_, ?_, ?_, ?_, hc⟩
  · simp [startTransaction, openConnection_connected be c hcon, hc, hne2]
  · simp [endTransaction, hc, hne2]
  · simp [save, openConnection_connected be c hcon, beginCall_mismatch be c tx t hc hne]
  · simp [destroy, openConnection_connected be c hcon, beginCall_mismatch be c tx t hc hne]

/-- Witness for C5: a connection bound to transaction 7 is called with transaction 8. -/
theorem mismatch_rejected_witness :
    (startTransaction exampleServer exampleBound (some 8)).out
      = .error (.runtime "transaction mismatch") ∧
    (save exampleServer exampleBound (some 8) (exampleGenerator 0)).trace = [] ∧
    (destroy exampleServer exampleBound none (exampleGenerator 0)).conn.currentTransaction
      = some 7 :=
  ⟨(mismatch_rejected exampleServer exampleBound (some 8) (exampleGenerator 0) 7 (by decide) rfl
      (by decide)).1.1,
    by decide, by decide⟩

/-- Whenever `destroy` returns, its value is `found`: whether the first delete statement
processed at least one row. -/
theorem destroy_returns_found (be : Backend) (c : Conn) (tx : Option Nat) (g : SqlGenerator)
    (b : Bool) (h : (destroy be c tx g).out = .ok b) :
    ∃ s, g.deleteStatement = .ok s ∧ (be.exec [(openStmt c).text] s).code = 0 ∧
      b = decide (0 < (be.exec [(openStmt c).text] s).rows) := by
  rw [destroy_eq_frame] at h
  rcases frame_shape be c tx (destroyTry be g) with hsh | hsh | hsh
  · obtain ⟨exc, he⟩ := hsh.2
    rw [he] at h; cases h
  · obtain ⟨exc, he⟩ := hsh.2.1
    rw [he] at h; cases h
  · rw [hsh.2.2] at h
    rcases hw : (destroyTry be g [openStmt c]).2 with exc | b2
    · obtain ⟨_, ⟨e, he⟩, _⟩ := finishCall_error be c _ exc hw
      rw [he] at h; cases h
    · have hb2 : b2 = b := by
        simp only [finishCall, hw] at h
        split_ifs at h
        simpa using h
      subst hb2
      rcases hs : g.deleteStatement with exc | s
      · rw [destroyTry_error be g _ exc hs] at hw
        cases hw
      · refine ⟨s, rfl, ?_⟩
        rw [destroyTry_delete be g _ s hs] at hw
        simp only [List.map_cons, List.map_nil] at hw
        split_ifs at hw with h1 h2
        · refine ⟨by simpa using h1, ?_⟩
          rcases hd : (destroyDetails be g.deleteDetails ([openStmt c] ++ [Stmt.delete s])).2
            with exc | u
          · rw [hd] at hw; cases hw
          · rw [hd] at hw
            simp only [Except.map, Except.ok.injEq] at hw
            exact hw.symm

/-- For a version greater than 0, a first delete that is accepted but processes no row makes
`destroy` throw after the rollback. -/
theorem destroy_missing_raises (be : Backend) (c : Conn) (tx : Option Nat) (g : SqlGenerator)
    (s : String) (hcon : 0 < c.conNr)
    (htx : c.currentTransaction = none ∨ c.currentTransaction = tx)
    (hb : (be.exec [] (openStmt c).text).code = 0)
    (hv : 0 < g.version) (hs : g.deleteStatement = .ok s)
    (h0 : (be.exec [(openStmt c).text] s).code = 0)
    (hrows : ¬ 0 < (be.exec [(openStmt c).text] s).rows) :
    (destroy be c tx g).trace = [openStmt c, Stmt.delete s, rollbackStmt c] ∧
    (destroy be c tx g).failed := by
  have hfr := frame_started be c tx (destroyTry be g) hcon htx hb
  have he := destroyTry_delete be g [openStmt c] s hs
  simp only [List.map_cons, List.map_nil] at he
  have h1 : ¬ (be.exec [(openStmt c).text] s).code ≠ 0 := by simp [h0]
  have h2 : 0 < g.version ∧ decide (0 < (be.exec [(openStmt c).text] s).rows) = false :=
    ⟨hv, by simpa using hrows⟩
  rw [if_neg h1, if_pos h2] at he
  obtain ⟨hft, hfe, _⟩ := finishCall_error be c (destroyTry be g [openStmt c]) _ (by rw [he])
  constructor
  · rw [destroy_eq_frame, hfr]
    show (finishCall be c (destroyTry be g [openStmt c])).1 = _
    rw [hft, he]
    rfl
  · rw [destroy_eq_frame, hfr]
    exact hfe

/-- C6 (evaluation at the failing input): for an object that has a version field whose value
is 0, when the delete statement matches no row, `destroy` commits and returns `false`; it
neither throws nor rolls back. -/
theorem destroy_version_zero_returns_false :
    (exampleGenerator 0).version = 0 ∧
    (exampleServer.exec ["BEGIN WORK;"] "DEL").rows = 0 ∧
    (destroy exampleServer exampleConn none (exampleGenerator 0)).out = .ok false ∧
    (destroy exampleServer exampleConn none (exampleGenerator 0)).trace
      = [Stmt.beginWork, Stmt.delete "DEL", Stmt.commitWork] :=
  ⟨by decide, by decide, rfl, by decide⟩

end Informix

/-! ### The document encoder -/

theorem vars_eq (o : BsonOut) (mem : MemberBase) :
    o.vars mem = BsonElements.vars mem o.compact := rfl

theorem appendArr_eq (o : BsonOut) (mem : MemberBase) (v : Vars) :
    o.appendArr mem v = BsonElements.append mem o.compact v := rfl

theorem appendDoc_eq (o : BsonOut) (mem : MemberBase) (v : Vars) :
    o.appendDoc mem v = BsonElements.append mem o.compact v := rfl

/-- Whatever `doMem` appends when it is not building an index document is the element
`valueStmt` appends for the same member and hint. -/
theorem doMem_emits (o : BsonOut) (mem : MemberBase) (d : Dest) (e : Element)
    (hi : o.index = false) (h : o.doMem mem = some (d, e)) :
    e = BsonElements.valueStmt false mem o.compact := by
  unfold BsonOut.doMem at h
  rw [vars_eq, appendArr_eq, appendDoc_eq] at h
  simp only [hi, Bool.false_eq_true, if_false] at h
  simp only [BsonElements.valueStmt, Bool.false_eq_true, if_false]
  split_ifs at h <;> simp only [Option.some.injEq, Prod.mk.injEq] at h <;> exact h.2.symm

/-- Without filters `doMem` appends to the document what `valueStmt` appends. -/
theorem doMem_default (mem : MemberBase) :
    BsonOut.doMem {} mem = some (.doc, BsonElements.valueStmt false mem false) := by
  simp [BsonOut.doMem, vars_eq, appendDoc_eq, BsonElements.valueStmt]

theorem vars_signed_small (mem : MemberBase) (c : Bool) (h3 : mem.memInfo.isSigned = true)
    (hb : (mem.memInfo.max : Int) ≤ INT32_MAX ∧ mem.memInfo.min ≥ INT32_MIN) :
    BsonElements.vars mem c =
      { i64 := mem.memInfo.i64, useChar := mem.is_chartype c, i32 := toInt32 mem.memInfo.i64,
        use32 := true } := by
  simp only [BsonElements.vars, h3, if_true, if_pos hb]

theorem vars_signed_large (mem : MemberBase) (c : Bool) (h3 : mem.memInfo.isSigned = true)
    (hb : ¬ ((mem.memInfo.max : Int) ≤ INT32_MAX ∧ mem.memInfo.min ≥ INT32_MIN)) :
    BsonElements.vars mem c =
      { i64 := mem.memInfo.i64, useChar := mem.is_chartype c, use64 := true } := by
  simp only [BsonElements.vars, h3, if_true, if_neg hb]

theorem vars_bool (mem : MemberBase) (c : Bool) (h3 : mem.memInfo.isSigned = false)
    (h4 : mem.memInfo.isUnsigned = true) (hm : mem.memInfo.max = 1) :
    BsonElements.vars mem c =
      { i64 := toInt64 mem.memInfo.u64, useChar := mem.is_chartype c, useBool := true } := by
  simp only [BsonElements.vars, h3, h4, Bool.false_eq_true, if_false, if_true, if_pos hm]

theorem vars_unsigned32 (mem : MemberBase) (c : Bool) (h3 : mem.memInfo.isSigned = false)
    (h4 : mem.memInfo.isUnsigned = true) (hm : ¬ mem.memInfo.max = 1)
    (hb : (mem.memInfo.max : Int) ≤ INT32_MAX) :
    BsonElements.vars mem c =
      { i64 := mem.memInfo.i64, useChar := mem.is_chartype c, i32 := toInt32 mem.memInfo.u64,
        use32 := true } := by
  simp only [BsonElements.vars, h3, h4, Bool.false_eq_true, if_false, if_true, if_neg hm,
    if_pos hb]

theorem vars_unsigned64 (mem : MemberBase) (c : Bool) (h3 : mem.memInfo.isSigned = false)
    (h4 : mem.memInfo.isUnsigned = true) (hm : ¬ mem.memInfo.max = 1)
    (hb : ¬ (mem.memInfo.max : Int) ≤ INT32_MAX)
    (hc : (mem.memInfo.max : Int) ≤ INT64_MAX ∨ mem.memInfo.i64 ≤ INT64_MAX) :
    BsonElements.vars mem c =
      { i64 := toInt64 mem.memInfo.u64, useChar := mem.is_chartype c, use64 := true } := by
  simp only [BsonElements.vars, h3, h4, Bool.false_eq_true, if_false, if_true, if_neg hm,
    if_neg hb, if_pos hc]

theorem vars_unsigned128 (mem : MemberBase) (c : Bool) (h3 : mem.memInfo.isSigned = false)
    (h4 : mem.memInfo.isUnsigned = true) (hm : ¬ mem.memInfo.max = 1)
    (hb : ¬ (mem.memInfo.max : Int) ≤ INT32_MAX)
    (hc : ¬ ((mem.memInfo.max : Int) ≤ INT64_MAX ∨ mem.memInfo.i64 ≤ INT64_MAX)) :
    BsonElements.vars mem c =
      { i64 := mem.memInfo.i64, useChar := mem.is_chartype c, i128 := (0, mem.memInfo.u64),
        use128 := true } := by
  simp only [BsonElements.vars, h3, h4, Bool.false_eq_true, if_false, if_true, if_neg hm,
    if_neg hb, if_neg hc]

theorem vars_time (mem : MemberBase) (c : Bool) (h3 : mem.memInfo.isSigned = false)
    (h4 : mem.memInfo.isUnsigned = false) (h2 : mem.memInfo.isTime = true) :
    BsonElements.vars mem c =
      { i64 := mem.memInfo.i64, useChar := mem.is_chartype c,
        tp := clockTicks mem.memInfo.i64 } := by
  simp only [BsonElements.vars, h3, h4, h2, Bool.false_eq_true, if_false, if_true]

theorem vars_blob (mem : MemberBase) (c : Bool) (b : BlobView)
    (h3 : mem.memInfo.isSigned = false) (h4 : mem.memInfo.isUnsigned = false)
    (h2 : mem.memInfo.isTime = false) (h5 : mem.memInfo.isBlob = true) (h6 : mem.blob = some b) :
    BsonElements.vars mem c =
      { i64 := mem.memInfo.i64, useChar := false,
        bin := if b.bytesNonNull then some b.data else none } := by
  simp only [BsonElements.vars, h3, h4, h2, h5, h6, Bool.false_eq_true, if_false, if_true]

theorem vars_plain (mem : MemberBase) (c : Bool)
    (h3 : mem.memInfo.isSigned = false) (h4 : mem.memInfo.isUnsigned = false)
    (h2 : mem.memInfo.isTime = false)
    (h5 : mem.memInfo.isBlob = false ∨ mem.blob = none) :
    BsonElements.vars mem c = { i64 := mem.memInfo.i64, useChar := mem.is_chartype c } := by
  rcases h5 with h5 | h5
  · simp only [BsonElements.vars, h3, h4, h2, h5, Bool.false_eq_true, if_false]
  · cases h : mem.memInfo.isBlob
    · simp only [BsonElements.vars, h3, h4, h2, h, Bool.false_eq_true, if_false]
    · simp only [BsonElements.vars, h3, h4, h2, h, h5, Bool.false_eq_true, if_false, if_true]

/-- Under exclusive kinds the element `valueStmt` appends follows the amended order. -/
theorem valueStmt_amended (mem : MemberBase) (compact : Bool)
    (hk : mem.memInfo.kindsExclusive) :
    BsonElements.valueStmt false mem compact = amendedChoice mem compact := by
  unfold MobsMemberInfo.kindsExclusive at hk
  simp only [BsonElements.valueStmt, Bool.false_eq_true, if_false]
  cases h1 : mem.isNull
  swap
  · simp [BsonElements.append, amendedChoice, h1]
  cases h3 : mem.memInfo.isSigned
  swap
  · obtain ⟨h2, h5⟩ := hk (Or.inl h3)
    by_cases hb : (mem.memInfo.max : Int) ≤ INT32_MAX ∧ mem.memInfo.min ≥ INT32_MIN
    · rw [vars_signed_small mem compact h3 hb]
      cases h7 : mem.is_chartype compact <;>
        simp [BsonElements.append, amendedChoice, integerRule, h1, h2, h3, h5, h7, hb]
    · rw [vars_signed_large mem compact h3 hb]
      cases h7 : mem.is_chartype compact <;>
        simp [BsonElements.append, amendedChoice, integerRule, h1, h2, h3, h5, h7, hb]
  cases h4 : mem.memInfo.isUnsigned
  swap
  · obtain ⟨h2, h5⟩ := hk (Or.inr h4)
    by_cases hm : mem.memInfo.max = 1
    · rw [vars_bool mem compact h3 h4 hm]
      cases h7 : mem.is_chartype compact <;>
        simp [BsonElements.append, amendedChoice, integerRule, h1, h2, h3, h4, h5, h7, hm]
    by_cases hb : (mem.memInfo.max : Int) ≤ INT32_MAX
    · rw [vars_unsigned32 mem compact h3 h4 hm hb]
      cases h7 : mem.is_chartype compact <;>
        simp [BsonElements.append, amendedChoice, integerRule, h1, h2, h3, h4, h5, h7, hm, hb]
    by_cases hc : (mem.memInfo.max : Int) ≤ INT64_MAX ∨ mem.memInfo.i64 ≤ INT64_MAX
    · rw [vars_unsigned64 mem compact h3 h4 hm hb hc]
      cases h7 : mem.is_chartype compact <;>
        simp [BsonElements.append, amendedChoice, integerRule, h1, h2, h3, h4, h5, h7, hm, hb,
          hc]
    · rw [vars_unsigned128 mem compact h3 h4 hm hb hc]
      cases h7 : mem.is_chartype compact <;>
        simp [BsonElements.append, amendedChoice, integerRule, h1, h2, h3, h4, h5, h7, hm, hb,
          hc]
  cases h2 : mem.memInfo.isTime
  swap
  · rw [vars_time mem compact h3 h4 h2]
    simp [BsonElements.append, amendedChoice, h1, h2]
  cases h5 : mem.memInfo.isBlob
  · rw [vars_plain mem compact h3 h4 h2 (Or.inl h5)]
    cases h7 : mem.is_chartype compact <;>
      simp [BsonElements.append, amendedChoice, lateRules, blobBytes, h1, h2, h3, h4, h5, h7]
  · rcases h6 : mem.blob with _ | b
    · rw [vars_plain mem compact h3 h4 h2 (Or.inr h6)]
      cases h7 : mem.is_chartype compact <;>
        simp [BsonElements.append, amendedChoice, lateRules, blobBytes, h1, h2, h3, h4, h5, h6,
          h7]
    · rw [vars_blob mem compact b h3 h4 h2 h5 h6]
      cases hb : b.bytesNonNull <;>
        simp [BsonElements.append, amendedChoice, lateRules, blobBytes, h1, h2, h3, h4, h5, h6,
          hb]

theorem member_kindsExclusive (ext : Ext) (m : Member) :
    (m.base ext).memInfo.kindsExclusive := by
  obtain ⟨w, n, k, md, st⟩ := m
  cases w <;>
    simp [Member.base, Member.memInfo, MobsMemberInfo.kindsExclusive, to_int64, to_uint64]

/-- A time value of at most 9223372036854 milliseconds before or after the epoch reaches the
date unchanged. -/
theorem dateMillis_clockTicks (i : Int) (h : inClockRange i) : dateMillis (clockTicks i) = i := by
  unfold inClockRange at h
  unfold dateMillis clockTicks toInt64
  have e : (i * 1000000 + 9223372036854775808) % 18446744073709551616 - 9223372036854775808
      = i * 1000000 := by omega
  rw [e]
  exact Int.mul_tdiv_cancel i (by decide)

theorem toInt32_of_range (v : Int) (h1 : INT32_MIN ≤ v) (h2 : v ≤ INT32_MAX) : toInt32 v = v := by
  unfold toInt32
  unfold INT32_MIN at h1
  unfold INT32_MAX at h2
  omega

theorem toUInt64_toInt64 (u : Nat) (h : u ≤ UINT64_MAX) : toUInt64 (toInt64 u) = u := by
  unfold toUInt64 toInt64
  unfold UINT64_MAX at h
  omega

theorem toUInt64_toInt32 (u : Nat) (h : u ≤ 65535) : toUInt64 (toInt32 u) = u := by
  unfold toUInt64 toInt32
  omega

/-- What a non-null member is encoded as. -/
theorem valueStmt_member (ext : Ext) (m : Member) (c : Bool) (hnull : m.null = false) :
    BsonElements.valueStmt false (m.base ext) c =
      match m.wert with
      | .sint .shortInt v => .int32 (toInt32 v)
      | .sint .int v => .int32 (toInt32 v)
      | .sint .longInt v => .int64 v
      | .sint .longLongInt v => .int64 v
      | .uint .unsignedShort v => .int32 (toInt32 v)
      | .uint _ v => .int64 (toInt64 v)
      | .bool b => .bool b
      | .double d => .double d
      | .float f => .double (ext.widen f)
      | .string s => .utf8 s
      | .blob v => if !v.isEmpty || m.hasStorage then .binary v
                   else .utf8 (ext.c_to_string (.blob v) c)
      | .time t => .date (dateMillis (clockTicks t)) := by
  rw [valueStmt_amended _ _ (member_kindsExclusive ext m)]
  obtain ⟨w, n, k, md, st⟩ := m
  simp only at hnull
  subst hnull
  cases w with
  | sint t v =>
    cases t <;>
      simp [amendedChoice, Member.base, Member.memInfo, to_int64, to_uint64, is_chartype,
        integerRule, SType.max, SType.min, INT32_MAX, INT32_MIN]
  | uint t v =>
    cases t <;>
      simp [amendedChoice, Member.base, Member.memInfo, to_int64, to_uint64, is_chartype,
        integerRule, UType.max, INT32_MAX, INT32_MIN, INT64_MAX]
  | bool b =>
    cases b <;>
      simp [amendedChoice, Member.base, Member.memInfo, to_int64, to_uint64, is_chartype,
        integerRule, toInt64]
  | double d =>
    simp [amendedChoice, Member.base, Member.memInfo, to_int64, to_uint64, is_chartype,
      lateRules, blobBytes, to_double]
  | float f =>
    simp [amendedChoice, Member.base, Member.memInfo, to_int64, to_uint64, is_chartype,
      lateRules, blobBytes, to_double]
  | string s =>
    simp [amendedChoice, Member.base, Member.memInfo, to_int64, to_uint64, is_chartype,
      c_to_string]
  | blob v =>
    cases hb : (!v.isEmpty || st) <;>
    simp [amendedChoice, Member.base, Member.memInfo, is_chartype,
      lateRules, blobBytes, to_double, BlobView.bytesNonNull, c_to_string, hb]
  | time t =>
    simp [amendedChoice, Member.base, Member.memInfo]

theorem fromInt64_sint (m : Member) (t : SType) (v i : Int) (hw : m.wert = .sint t v)
    (h1 : t.min ≤ i) (h2 : i ≤ t.max) :
    m.fromInt64 i = some (m.activate (.sint t i)) := by
  have hr : ¬ (i > (t.max : Int) ∨ i < t.min) := by omega
  simp only [Member.fromInt64, hw, from_number_i64, if_neg hr, Option.map_some']

theorem fromInt64_uint (m : Member) (t : UType) (v : Nat) (i : Int) (hw : m.wert = .uint t v) :
    m.fromInt64 i = none := by
  simp only [Member.fromInt64, hw, from_number_i64, Option.map_none']

theorem fromUInt64_uint (m : Member) (t : UType) (v u : Nat) (hw : m.wert = .uint t v)
    (h : u ≤ t.max) : m.fromUInt64 u = some (m.activate (.uint t u)) := by
  have hr : ¬ (u > t.max) := by omega
  simp only [Member.fromUInt64, hw, from_number_u64, if_neg hr, Option.map_some']

theorem parsival_int_signed (ext : Ext) (m : Member) (t : SType) (v i : Int)
    (hw : m.wert = .sint t v) (h1 : t.min ≤ i) (h2 : i ≤ t.max) :
    MongoRead.parsival ext m (.int32 i) = .assigned (m.activate (.sint t i)) ∧
    MongoRead.parsival ext m (.int64 i) = .assigned (m.activate (.sint t i)) := by
  simp only [MongoRead.parsival, fromInt64_sint m t v i hw h1 h2, and_self]

theorem parsival_int_unsigned (ext : Ext) (m : Member) (t : UType) (v : Nat) (i : Int)
    (hw : m.wert = .uint t v) (h : toUInt64 i ≤ t.max) :
    MongoRead.parsival ext m (.int32 i) = .assigned (m.activate (.uint t (toUInt64 i))) ∧
    MongoRead.parsival ext m (.int64 i) = .assigned (m.activate (.uint t (toUInt64 i))) := by
  simp only [MongoRead.parsival, fromInt64_uint m t v i hw, fromUInt64_uint m t v _ hw h,
    and_self]

/-- Decoding the element `valueStmt` appends for a member restores the member. -/
theorem round_trip_core (ext : Ext) (m target : Member) (c : Bool)
    (hnull : m.null = false) (hwf : m.wert.wf) (hkind : m.wert.roundTrips)
    (hclock : m.wert.inClockRange) (hsame : target.wert.sameType m.wert) :
    ∃ t, MongoRead.parsival ext target (BsonElements.valueStmt false (m.base ext) c)
        = .assigned t ∧ t.wert = m.wert ∧ t.null = false := by
  rw [valueStmt_member ext m c hnull]
  obtain ⟨w, n, k, md, st⟩ := m
  obtain ⟨tw, tn, tk, tmd, tst⟩ := target
  cases w with
  | sint t v =>
    cases tw with
    | sint t2 v2 =>
      have ht : t2 = t := hsame
      subst ht
      have hwf2 : t2.min ≤ v ∧ v ≤ t2.max := hwf
      cases t2
      · have h32 : toInt32 v = v := by
          simp only [SType.min, SType.max] at hwf2
          exact toInt32_of_range v (by unfold INT32_MIN; omega) (by unfold INT32_MAX; omega)
        show ∃ t, MongoRead.parsival ext _ (Element.int32 (toInt32 v)) = _ ∧ _
        rw [h32]
        exact ⟨_, (parsival_int_signed ext _ _ v2 v rfl hwf2.1 hwf2.2).1, rfl, rfl⟩
      · have h32 : toInt32 v = v := by
          simp only [SType.min, SType.max] at hwf2
          exact toInt32_of_range v (by unfold INT32_MIN; omega) (by unfold INT32_MAX; omega)
        show ∃ t, MongoRead.parsival ext _ (Element.int32 (toInt32 v)) = _ ∧ _
        rw [h32]
        exact ⟨_, (parsival_int_signed ext _ _ v2 v rfl hwf2.1 hwf2.2).1, rfl, rfl⟩
      · exact ⟨_, (parsival_int_signed ext _ _ v2 v rfl hwf2.1 hwf2.2).2, rfl, rfl⟩
      · exact ⟨_, (parsival_int_signed ext _ _ v2 v rfl hwf2.1 hwf2.2).2, rfl, rfl⟩
    | _ => exact False.elim hsame
  | uint t v =>
    cases tw with
    | uint t2 v2 =>
      have ht : t2 = t := hsame
      subst ht
      have hwf2 : v ≤ t2.max := hwf
      cases t2
      · have h1 : toUInt64 (toInt32 v) = v := toUInt64_toInt32 v hwf2
        have h := (parsival_int_unsigned ext
          ⟨.uint .unsignedShort v2, tn, tk, tmd, tst⟩ _ v2 (toInt32 v) rfl
          (by rw [h1]; exact hwf2)).1
        rw [h1] at h
        exact ⟨_, h, rfl, rfl⟩
      · have h1 : toUInt64 (toInt64 v) = v :=
          toUInt64_toInt64 v (by simp only [UType.max] at hwf2; unfold UINT64_MAX; omega)
        have h := (parsival_int_unsigned ext
          ⟨.uint .unsignedInt v2, tn, tk, tmd, tst⟩ _ v2 (toInt64 v) rfl
          (by rw [h1]; exact hwf2)).2
        rw [h1] at h
        exact ⟨_, h, rfl, rfl⟩
      · have h1 : toUInt64 (toInt64 v) = v :=
          toUInt64_toInt64 v (by simp only [UType.max] at hwf2; unfold UINT64_MAX; omega)
        have h := (parsival_int_unsigned ext
          ⟨.uint .unsignedLong v2, tn, tk, tmd, tst⟩ _ v2 (toInt64 v) rfl
          (by rw [h1]; exact hwf2)).2
        rw [h1] at h
        exact ⟨_, h, rfl, rfl⟩
      · have h1 : toUInt64 (toInt64 v) = v :=
          toUInt64_toInt64 v (by simp only [UType.max] at hwf2; unfold UINT64_MAX; omega)
        have h := (parsival_int_unsigned ext
          ⟨.uint .unsignedLongLong v2, tn, tk, tmd, tst⟩ _ v2 (toInt64 v) rfl
          (by rw [h1]; exact hwf2)).2
        rw [h1] at h
        exact ⟨_, h, rfl, rfl⟩
    | _ => exact False.elim hsame
  | bool b =>
    cases tw with
    | bool b2 =>
      cases b
      · exact ⟨_, rfl, rfl, rfl⟩
      · exact ⟨_, rfl, rfl, rfl⟩
    | _ => exact False.elim hsame
  | double d =>
    cases tw with
    | double d2 => exact ⟨_, rfl, rfl, rfl⟩
    | _ => exact False.elim hsame
  | float f => exact False.elim hkind
  | string s =>
    cases tw with
    | string s2 => exact ⟨_, rfl, rfl, rfl⟩
    | _ => exact False.elim hsame
  | blob v =>
    cases tw with
    | blob v2 =>
      have hv : v ≠ [] := hkind
      cases v with
      | nil => exact absurd rfl hv
      | cons a l => exact ⟨_, rfl, rfl, rfl⟩
    | _ => exact False.elim hsame
  | time t =>
    cases tw with
    | time t2 =>
      have hc : inClockRange t := hclock
      show ∃ r, MongoRead.parsival ext _ (Element.date (dateMillis (clockTicks t))) = _ ∧ _
      rw [dateMillis_clockTicks t hc]
      exact ⟨_, rfl, rfl, rfl⟩
    | _ => exact False.elim hsame


/-- When `parsival` throws on an element that is not a string, the member is as it was. -/
theorem parsival_thrown_unchanged (ext : Ext) (m m2 : Member) (e : Element) (what : String)
    (h : MongoRead.parsival ext m e = .thrown m2 what) (hs : ∀ s, e ≠ .utf8 s) : m2 = m := by
  cases e with
  | utf8 s => exact absurd rfl (hs s)
  | null => cases h
  | timestamp v => injection h with h1 _; exact h1.symm
  | other v => injection h with h1 _; exact h1.symm
  | bool b =>
    simp only [MongoRead.parsival] at h
    by_cases hc : ¬ m.memInfo.isUnsigned = true ∨ m.memInfo.max ≠ 1
    · rw [if_pos hc] at h; injection h with h1 _; exact h1.symm
    · rw [if_neg hc] at h
      cases hf : m.fromUInt64 (if b = true then 1 else 0) <;> simp only [hf] at h
      · injection h with h1 _; exact h1.symm
      · cases h
  | int32 v =>
    simp only [MongoRead.parsival] at h
    cases hf : m.fromInt64 v <;> simp only [hf] at h
    · cases hg : m.fromUInt64 (toUInt64 v) <;> simp only [hg] at h
      · injection h with h1 _; exact h1.symm
      · cases h
    · cases h
  | int64 v =>
    simp only [MongoRead.parsival] at h
    cases hf : m.fromInt64 v <;> simp only [hf] at h
    · cases hg : m.fromUInt64 (toUInt64 v) <;> simp only [hg] at h
      · injection h with h1 _; exact h1.symm
      · cases h
    · cases h
  | decimal128 hi lo =>
    simp only [MongoRead.parsival] at h
    by_cases hc : hi ≠ 0
    · rw [if_pos hc] at h; injection h with h1 _; exact h1.symm
    · rw [if_neg hc] at h
      cases hf : m.fromInt64 (toInt64 lo) <;> simp only [hf] at h
      · cases hg : m.fromUInt64 lo <;> simp only [hg] at h
        · injection h with h1 _; exact h1.symm
        · cases h
      · cases h
  | date ms =>
    simp only [MongoRead.parsival] at h
    by_cases hc : ¬ m.memInfo.isTime = true
    · rw [if_pos hc] at h; injection h with h1 _; exact h1.symm
    · rw [if_neg hc] at h
      cases hf : m.fromInt64 ms <;> simp only [hf] at h
      · injection h with h1 _; exact h1.symm
      · cases h
  | double d =>
    simp only [MongoRead.parsival] at h
    cases hf : m.fromDouble ext d <;> simp only [hf] at h
    · injection h with h1 _; exact h1.symm
    · cases h
  | binary bytes =>
    simp only [MongoRead.parsival] at h
    by_cases hc : ¬ m.memInfo.isBlob = true
    · rw [if_pos hc] at h; injection h with h1 _; exact h1.symm
    · rw [if_neg hc] at h
      cases hw : m.wert <;> simp only [hw] at h
      all_goals first
        | (injection h with h1 _; exact h1.symm)
        | cases h

theorem memInfo_number (m : Member) (h : m.memInfo.isSigned = false)
    (h2 : m.memInfo.isUnsigned = false) (h3 : m.memInfo.isTime = false) (i : Int) (u : Nat) :
    m.fromInt64 i = none ∧ m.fromUInt64 u = none := by
  obtain ⟨w, n, k, md, st⟩ := m
  cases w with
  | sint t v => cases h
  | uint t v => cases h2
  | bool b => cases h2
  | time t => cases h3
  | double d => exact ⟨rfl, rfl⟩
  | float f => exact ⟨rfl, rfl⟩
  | string s => exact ⟨rfl, rfl⟩
  | blob v => exact ⟨rfl, rfl⟩

theorem fromDouble_floating (ext : Ext) (m : Member) (d : Nat) (h : ¬ m.wert.isFloating) :
    m.fromDouble ext d = none := by
  obtain ⟨w, n, k, md, st⟩ := m
  cases w with
  | double x => exact absurd trivial h
  | float x => exact absurd trivial h
  | sint t v => rfl
  | uint t v => rfl
  | bool b => rfl
  | time t => rfl
  | string s => rfl
  | blob v => rfl

/-- An element that does not match the kind of the member makes `parsival` throw, with the
member as it was. -/
theorem parsival_mismatch_throws (ext : Ext) (m : Member) (e : Element) (hna : ¬ accepts m e) :
    ∃ what, MongoRead.parsival ext m e = .thrown m what := by
  have hnum : ¬ (m.memInfo.isSigned = true ∨ m.memInfo.isUnsigned = true ∨
      m.memInfo.isTime = true) → ∀ (i : Int) (u : Nat),
      m.fromInt64 i = none ∧ m.fromUInt64 u = none := by
    intro h i u
    simp only [not_or, Bool.not_eq_true] at h
    exact memInfo_number m h.1 h.2.1 h.2.2 i u
  cases e with
  | utf8 s => exact absurd trivial hna
  | null => exact absurd trivial hna
  | timestamp v => exact ⟨_, rfl⟩
  | other v => exact ⟨_, rfl⟩
  | bool b =>
    have hc : ¬ m.memInfo.isUnsigned = true ∨ m.memInfo.max ≠ 1 := by
      by_cases h1 : m.memInfo.isUnsigned = true
      · right; intro h2; exact hna ⟨h1, h2⟩
      · left; exact h1
    simp only [MongoRead.parsival, if_pos hc]
    exact ⟨_, rfl⟩
  | int32 v =>
    obtain ⟨h1, h2⟩ := hnum hna v (toUInt64 v)
    simp only [MongoRead.parsival, h1, h2]
    exact ⟨_, rfl⟩
  | int64 v =>
    obtain ⟨h1, h2⟩ := hnum hna v (toUInt64 v)
    simp only [MongoRead.parsival, h1, h2]
    exact ⟨_, rfl⟩
  | decimal128 hi lo =>
    obtain ⟨h1, h2⟩ := hnum hna (toInt64 lo) lo
    simp only [MongoRead.parsival, h1, h2]
    split_ifs <;> exact ⟨_, rfl⟩
  | date ms =>
    have hc : ¬ m.memInfo.isTime = true := hna
    simp only [MongoRead.parsival, if_pos hc]
    exact ⟨_, rfl⟩
  | double d =>
    simp only [MongoRead.parsival, fromDouble_floating ext m d hna]
    exact ⟨_, rfl⟩
  | binary bytes =>
    have hc : ¬ m.memInfo.isBlob = true := hna
    simp only [MongoRead.parsival, if_pos hc]
    exact ⟨_, rfl⟩

/-- C8, amended: `parsival` accepts a native boolean only into an unsigned field with maximum
1, a date only into a time field, a binary only into a blob field, a double only into a
floating-point field, and an `int32`, `int64` or `decimal128` only into a field of an integer
kind or a time field; a string is handed to the conversion of the field, whatever its kind.
Every other pair, and every timestamp or unlisted native type, throws and leaves the member
as it was; and whenever an element other than a string throws, the member is as it was. -/
theorem parsival_strict (ext : Ext) (m : Member) (e : Element) :
    (¬ accepts m e → ∃ what, MongoRead.parsival ext m e = .thrown m what) ∧
    (∀ t, MongoRead.parsival ext m e = .assigned t → accepts m e) ∧
    (∀ m2 what, MongoRead.parsival ext m e = .thrown m2 what → (∀ s, e ≠ .utf8 s) → m2 = m) ∧
    (∀ v, ∃ what, MongoRead.parsival ext m (.timestamp v) = .thrown m what) ∧
    (∀ v, ∃ what, MongoRead.parsival ext m (.other v) = .thrown m what) := by
  refine ⟨parsival_mismatch_throws ext m e, ?_,
    fun m2 what h hs => parsival_thrown_unchanged ext m m2 e what h hs,
    fun v => ⟨_, rfl⟩, fun v => ⟨_, rfl⟩⟩
  intro t h
  by_contra hna
  obtain ⟨what, hw⟩ := parsival_mismatch_throws ext m e hna
  rw [hw] at h
  cases h

/-- Witness for C8: a native date does not match an `int` member; `parsival` throws and the
member keeps its value. -/
theorem parsival_strict_witness :
    ¬ accepts exampleInt (.date 5) ∧
    ∃ what, MongoRead.parsival exampleExt exampleInt (.date 5) = .thrown exampleInt what :=
  have hna : ¬ accepts exampleInt (.date 5) := by
    simp [accepts, exampleInt, Member.memInfo, to_int64]
  ⟨hna, (parsival_strict exampleExt exampleInt (.date 5)).1 hna⟩

/-- C8 as stated fails: the native string `true` is accepted into a `bool` member, which is
not character-like, and a `decimal128` (a native type the claim does not list) with high word
0 is accepted into an `int` member. -/
theorem parsival_accepts_more_than_stated :
    MongoRead.parsival exampleExt exampleBool (.utf8 "true")
      = .assigned { wert := .bool true, modified := true } ∧
    ¬ claimedAccepts exampleBool (.utf8 "true") ∧
    MongoRead.parsival exampleExt exampleInt (.decimal128 0 5)
      = .assigned { wert := .sint .int 5, modified := true } ∧
    ¬ claimedAccepts exampleInt (.decimal128 0 5) := by
  refine ⟨by decide, ?_, by decide, ?_⟩
  · simp [claimedAccepts, exampleBool, is_chartype]
  · simp [claimedAccepts]

/-! ### Signed integers -/

/-- C10 as stated fails: a `long long` member holding 5, a value within the signed 32-bit
range, is appended as native `int64` by both functions. -/
theorem signed_in_range_emitted_as_int64 :
    (exampleLongLong.base exampleExt).isNull = false ∧
    (exampleLongLong.base exampleExt).memInfo.isSigned = true ∧
    (exampleLongLong.base exampleExt).memInfo.i64 = 5 ∧
    INT32_MIN ≤ 5 ∧ (5 : Int) ≤ INT32_MAX ∧
    BsonOut.doMem {} (exampleLongLong.base exampleExt) = some (.doc, .int64 5) ∧
    BsonElements.valueStmt false (exampleLongLong.base exampleExt) false = .int64 5 := by
  decide

/-- C10, amended: for every non-null signed integer member (signed, not a time, not
character-like) the encoder appends a native `int32` when the bounds of the type of the field
lie within the signed 32-bit range and a native `int64` otherwise, whatever the value; the
element holds the value of the field (for `int32` the value cast to 32 bits, which is the value
itself when it lies within the bounds of the type). -/
theorem signed_by_type_bounds (mem : MemberBase) (compact : Bool)
    (hn : mem.isNull = false) (hs : mem.memInfo.isSigned = true)
    (ht : mem.memInfo.isTime = false) (hc : mem.is_chartype compact = false) :
    (((mem.memInfo.max : Int) ≤ INT32_MAX ∧ mem.memInfo.min ≥ INT32_MIN) →
      BsonElements.valueStmt false mem compact = .int32 (toInt32 mem.memInfo.i64) ∧
      (mem.memInfo.min ≤ mem.memInfo.i64 → mem.memInfo.i64 ≤ mem.memInfo.max →
        toInt32 mem.memInfo.i64 = mem.memInfo.i64)) ∧
    (¬ ((mem.memInfo.max : Int) ≤ INT32_MAX ∧ mem.memInfo.min ≥ INT32_MIN) →
      BsonElements.valueStmt false mem compact = .int64 mem.memInfo.i64) ∧
    (∀ (o : BsonOut) d e, o.index = false → o.compact = compact → o.doMem mem = some (d, e) →
      e = BsonElements.valueStmt false mem compact) := by
  refine ⟨?_, ?_, ?_⟩
  · intro hb
    constructor
    · simp only [BsonElements.valueStmt, Bool.false_eq_true, if_false]
      rw [vars_signed_small mem compact hs hb]
      simp [BsonElements.append, hn, ht, hc]
    · intro h1 h2
      exact toInt32_of_range _ (le_trans hb.2 h1) (le_trans h2 hb.1)
  · intro hb
    simp only [BsonElements.valueStmt, Bool.false_eq_true, if_false]
    rw [vars_signed_large mem compact hs hb]
    simp [BsonElements.append, hn, ht, hc]
  · intro o d e hi hcmp h
    rw [doMem_emits o mem d e hi h, hcmp]

/-- Witness for C10: an `int` member holding -5 is appended as native `int32` -5. -/
theorem signed_by_type_bounds_witness :
    BsonElements.valueStmt false (Member.base exampleExt { wert := .sint .int (-5) }) false
      = .int32 (toInt32 (-5)) ∧ toInt32 (-5) = -5 :=
  ⟨((signed_by_type_bounds (Member.base exampleExt { wert := .sint .int (-5) }) false rfl rfl
      rfl rfl).1 (by decide)).1, by decide⟩

/-! ### Unsigned values above the signed 64-bit range -/

/-- The `decimal128` branch is entered only with a value of `mi.i64` above the signed 64-bit
maximum. -/
theorem vars_use128 (mem : MemberBase) (c : Bool)
    (h : (BsonElements.vars mem c).use128 = true) : ¬ mem.memInfo.i64 ≤ INT64_MAX := by
  intro hi
  unfold BsonElements.vars at h
  simp only at h
  split_ifs at h with h1 h2 h3 h4 h5 h6 h7 h8
  all_goals first
    | (exact h6 (Or.inr hi))
    | (cases hb : mem.blob <;> simp [hb] at h)

/-- With `mi.i64` in the range of `int64_t`, `valueStmt` never appends a `decimal128`. -/
theorem valueStmt_never_decimal128 (mem : MemberBase) (c : Bool)
    (hi : mem.memInfo.i64 ≤ INT64_MAX) (high low : Nat) :
    BsonElements.valueStmt false mem c ≠ .decimal128 high low := by
  intro heq
  simp only [BsonElements.valueStmt, Bool.false_eq_true, if_false, BsonElements.append] at heq
  split_ifs at heq with h1 h2 h3 h4 h5 h6 h7
  · exact vars_use128 mem c h7 hi
  · split at heq
    · cases heq
    · split at heq <;> cases heq

/-- A non-null unsigned member whose type reaches beyond the signed 32-bit range is appended as
native `int64` holding the value cast to `int64_t`, whatever the value. -/
theorem unsigned_wide_as_int64 (mem : MemberBase) (c : Bool)
    (hn : mem.isNull = false) (hs : mem.memInfo.isSigned = false)
    (hu : mem.memInfo.isUnsigned = true) (ht : mem.memInfo.isTime = false)
    (hc : mem.is_chartype c = false) (hm : mem.memInfo.max ≠ 1)
    (hb : ¬ (mem.memInfo.max : Int) ≤ INT32_MAX) (hi : mem.memInfo.i64 ≤ INT64_MAX) :
    BsonElements.valueStmt false mem c = .int64 (toInt64 mem.memInfo.u64) := by
  simp only [BsonElements.valueStmt, Bool.false_eq_true, if_false]
  rw [vars_unsigned64 mem c hs hu hm hb (Or.inr hi)]
  simp [BsonElements.append, hn, ht, hc]

/-- C11 (evaluation at the failing input): the non-null `unsigned long long` member holding
9223372036854775808, a value above the signed 64-bit maximum, is appended by `doMem` and by
`valueStmt` as the native `int64` -9223372036854775808 and not as a `decimal128`. -/
theorem unsigned_above_int64_emitted_as_int64 :
    (exampleBig.base exampleExt).isNull = false ∧
    (exampleBig.base exampleExt).memInfo.isUnsigned = true ∧
    (exampleBig.base exampleExt).memInfo.u64 = 9223372036854775808 ∧
    INT64_MAX < 9223372036854775808 ∧
    BsonOut.doMem {} (exampleBig.base exampleExt)
      = some (.doc, .int64 (-9223372036854775808)) ∧
    BsonElements.valueStmt false (exampleBig.base exampleExt) false
      = .int64 (-9223372036854775808) := by
  decide

/-! ### Negative integers and unsigned fields -/

theorem toUInt64_negative (v : Int) (h1 : INT64_MIN ≤ v) (h2 : v < 0) :
    (toUInt64 v : Int) = v + 18446744073709551616 ∧ 9223372036854775808 ≤ toUInt64 v := by
  unfold toUInt64
  unfold INT64_MIN at h1
  omega

theorem fromUInt64_uint_over (m : Member) (t : UType) (v u : Nat) (hw : m.wert = .uint t v)
    (h : u > t.max) : m.fromUInt64 u = none := by
  simp only [Member.fromUInt64, hw, from_number_u64, if_pos h, Option.map_none']

/-- A negative `int32` or `int64` element makes `parsival` throw for an unsigned member whose
type is narrower than 64 bits; the member is as it was. -/
theorem parsival_negative_narrow (ext : Ext) (m : Member) (t : UType) (v0 : Nat) (v : Int)
    (hw : m.wert = .uint t v0) (ht : t.max < 9223372036854775808)
    (h1 : INT64_MIN ≤ v) (h2 : v < 0) :
    ∃ what, MongoRead.parsival ext m (.int32 v) = .thrown m what ∧
      MongoRead.parsival ext m (.int64 v) = .thrown m what := by
  have hu := (toUInt64_negative v h1 h2).2
  have ho : toUInt64 v > t.max := by omega
  simp only [MongoRead.parsival, fromInt64_uint m t v0 v hw, fromUInt64_uint_over m t v0 _ hw ho]
  exact ⟨_, rfl, rfl⟩

/-- A negative `int32` or `int64` element is accepted into an unsigned member of a 64-bit type:
the member receives the value plus 18446744073709551616. -/
theorem parsival_negative_wide (ext : Ext) (m : Member) (t : UType) (v0 : Nat) (v : Int)
    (hw : m.wert = .uint t v0) (ht : t.max = UINT64_MAX) (h1 : INT64_MIN ≤ v) (h2 : v < 0) :
    ∃ u : Nat, (u : Int) = v + 18446744073709551616 ∧
      MongoRead.parsival ext m (.int32 v) = .assigned (m.activate (.uint t u)) ∧
      MongoRead.parsival ext m (.int64 v) = .assigned (m.activate (.uint t u)) := by
  have hu := (toUInt64_negative v h1 h2).1
  have hle : toUInt64 v ≤ t.max := by
    rw [ht]
    unfold UINT64_MAX
    omega
  exact ⟨toUInt64 v, hu, parsival_int_unsigned ext m t v0 v hw hle⟩

/-- C19 (evaluation at the failing input): the native `int64` -1 and the native `int32` -1 are
accepted into an `unsigned long long` member, which then holds 18446744073709551615; no
exception is thrown.  An `unsigned int` member refuses the same element and is as it was.  In
general every unsigned member of a 64-bit type accepts every negative `int32` or `int64`
element and holds the value plus 18446744073709551616 afterwards, and every unsigned member of
a narrower type throws and is as it was. -/
theorem negative_int_stored_as_unsigned :
    MongoRead.parsival exampleExt exampleULongLong (.int64 (-1))
      = .assigned { wert := .uint .unsignedLongLong 18446744073709551615, modified := true } ∧
    MongoRead.parsival exampleExt exampleULongLong (.int32 (-1))
      = .assigned { wert := .uint .unsignedLongLong 18446744073709551615, modified := true } ∧
    MongoRead.parsival exampleExt exampleUInt (.int64 (-1))
      = .thrown exampleUInt "mongodb: invalid type in variable can't assign" ∧
    (∀ (ext : Ext) (m : Member) (t : UType) (v0 : Nat) (v : Int),
      m.wert = .uint t v0 → INT64_MIN ≤ v → v < 0 →
      (t.max = UINT64_MAX →
        ∃ u : Nat, (u : Int) = v + 18446744073709551616 ∧
          MongoRead.parsival ext m (.int32 v) = .assigned (m.activate (.uint t u)) ∧
          MongoRead.parsival ext m (.int64 v) = .assigned (m.activate (.uint t u))) ∧
      (t.max < 9223372036854775808 →
        ∃ what, MongoRead.parsival ext m (.int32 v) = .thrown m what ∧
          MongoRead.parsival ext m (.int64 v) = .thrown m what) ∧
      (t.max < 9223372036854775808 ∨ t.max = UINT64_MAX)) :=
  ⟨by decide, by decide, by decide, fun ext m t v0 v hw h1 h2 =>
    ⟨fun ht => parsival_negative_wide ext m t v0 v hw ht h1 h2,
      fun ht => parsival_negative_narrow ext m t v0 v hw ht h1 h2,
      by cases t <;> simp [UType.max, UINT64_MAX]⟩⟩

namespace Informix

/-! ### Column types of time fields -/

theorem createType_time (mem : MemberBase) (compact : Bool) (ht : mem.memInfo.isTime = true) :
    createType mem compact = timeColumn mem.memInfo.granularity := by
  simp only [createType, timeColumn, ht, true_and, if_true]

theorem timeColumn_antitone (g1 g2 : Nat) (h : g1 ≤ g2) :
    fractionDigits (timeColumn g2) ≤ fractionDigits (timeColumn g1) := by
  unfold timeColumn
  split_ifs <;> first | omega | decide

/-- C20: `createStmt` maps every time field, whatever its other metadata, by its granularity in
microseconds: 86400000000 (a day) or more gives `DATE`, a second `DATETIME YEAR TO SECOND`, a
decisecond `FRACTION(1)`, a centisecond `FRACTION(2)`, a millisecond `FRACTION(3)`, a
microsecond or less the finest type `FRACTION(5)` (each bound holds for the whole band down to
the next one, and the band from 100 to 999 gives `FRACTION(4)`); `NOT NULL` follows when the
field does not allow null.  The mapping is monotone: of two time fields the one with the coarser
granularity never gets the type with more fractional digits. -/
theorem createStmt_time_by_granularity (mem : MemberBase) (compact : Bool)
    (ht : mem.memInfo.isTime = true) :
    createStmt mem compact
      = createType mem compact ++ (if mem.nullAllowed = true then "" else " NOT NULL") ∧
    (86400000000 ≤ mem.memInfo.granularity → createType mem compact = "DATE") ∧
    (1000000 ≤ mem.memInfo.granularity → mem.memInfo.granularity < 86400000000 →
      createType mem compact = "DATETIME YEAR TO SECOND") ∧
    (100000 ≤ mem.memInfo.granularity → mem.memInfo.granularity < 1000000 →
      createType mem compact = "DATETIME YEAR TO FRACTION(1)") ∧
    (10000 ≤ mem.memInfo.granularity → mem.memInfo.granularity < 100000 →
      createType mem compact = "DATETIME YEAR TO FRACTION(2)") ∧
    (1000 ≤ mem.memInfo.granularity → mem.memInfo.granularity < 10000 →
      createType mem compact = "DATETIME YEAR TO FRACTION(3)") ∧
    (100 ≤ mem.memInfo.granularity → mem.memInfo.granularity < 1000 →
      createType mem compact = "DATETIME YEAR TO FRACTION(4)") ∧
    (mem.memInfo.granularity < 100 →
      createType mem compact = "DATETIME YEAR TO FRACTION(5)") ∧
    (∀ (mem2 : MemberBase) (compact2 : Bool), mem2.memInfo.isTime = true →
      mem.memInfo.granularity ≤ mem2.memInfo.granularity →
      fractionDigits (createType mem2 compact2) ≤ fractionDigits (createType mem compact)) := by
  rw [createType_time mem compact ht]
  refine ⟨?_, ?_, ?_, ?_, ?_, ?_, ?_, ?_, ?_⟩
  · unfold createStmt
    rw [createType_time mem compact ht]
    cases mem.nullAllowed <;> simp
  · intro h; unfold timeColumn; rw [if_pos h]
  · intro h1 h2; unfold timeColumn; rw [if_neg (by omega), if_pos h1]
  · intro h1 h2; unfold timeColumn; rw [if_neg (by omega), if_neg (by omega), if_pos h1]
  · intro h1 h2; unfold timeColumn
    rw [if_neg (by omega), if_neg (by omega), if_neg (by omega), if_pos h1]
  · intro h1 h2; unfold timeColumn
    rw [if_neg (by omega), if_neg (by omega), if_neg (by omega), if_neg (by omega), if_pos h1]
  · intro h1 h2; unfold timeColumn
    rw [if_neg (by omega), if_neg (by omega), if_neg (by omega), if_neg (by omega),
      if_neg (by omega), if_pos h1]
  · intro h2; unfold timeColumn
    rw [if_neg (by omega), if_neg (by omega), if_neg (by omega), if_neg (by omega),
      if_neg (by omega), if_neg (by omega)]
  · intro mem2 compact2 ht2 hle
    rw [createType_time mem2 compact2 ht2]
    exact timeColumn_antitone _ _ hle

/-- Witness for C20: a millisecond field that is also flagged unsigned with maximum 1 and does
not allow null. -/
theorem createStmt_time_by_granularity_witness :
    (exampleTimeField 1000).memInfo.isTime = true ∧
    createStmt (exampleTimeField 1000) false = "DATETIME YEAR TO FRACTION(3) NOT NULL" ∧
    createType (exampleTimeField 1000) false = "DATETIME YEAR TO FRACTION(3)" :=
  ⟨rfl, by decide,
    (createStmt_time_by_granularity (exampleTimeField 1000) false rfl).2.2.2.2.2.1
      (by decide) (by decide)⟩

end Informix

namespace Informix

/-! ### Increment of the version field in the binder -/

theorem bindVar_ok (lib : InfxLib) (mem : MemberBase) (t : SqlType) (sz : Int) (data : SqlData)
    (r : String × Option SqlVar) (hn : mem.isNull = false)
    (h : bindVar lib mem t sz data 0 = .ok r) : ∃ len, r = ("?", some ⟨t, len, data⟩) := by
  unfold bindVar at h
  cases hb : setBuffer lib t sz with
  | error exc => rw [hb] at h; cases h
  | ok len =>
    rw [hb] at h
    simp only [hn, Bool.false_eq_true, if_false, finishBind, ne_eq, not_true_eq_false] at h
    exact ⟨len, (Except.ok.inj h).symm⟩

theorem bindVar_returns (lib : InfxLib) (mem : MemberBase) (t : SqlType) (data : SqlData)
    (hn : mem.isNull = false) (hsz : 0 < lib.rtypmsize t 0) :
    bindVar lib mem t 0 data 0 = .ok ("?", some ⟨t, lib.rtypmsize t 0, data⟩) := by
  have h1 : ¬ lib.rtypmsize t 0 ≤ 0 := by omega
  simp only [bindVar, setBuffer, le_refl, if_true, if_neg h1, hn, Bool.false_eq_true, if_false,
    finishBind, ne_eq, not_true_eq_false]

/-- The unsigned branch of `valueStmt` in bound mode with increment. -/
theorem valueStmt_unsigned_increment (lib : InfxLib) (mem : MemberBase) (compact iw : Bool)
    (ht : mem.memInfo.isTime = false) (hu : mem.memInfo.isUnsigned = true) :
    valueStmt lib true mem compact true iw =
      if mem.memInfo.u64 = mem.memInfo.max then .error (.runtime "VersionElement overflow")
      else if mem.isNull = true then .error (.runtime "VersionElement is null")
      else if (mem.memInfo.max : Int) > INT32_MAX then
        if ¬ lib.hasBigint = true ∨
            (((mem.memInfo.u64 + 1) % 18446744073709551616 : Nat) : Int) > INT64_MAX then
          .error (.runtime "Number to big")
        else bindVar lib mem .SQLBIGINT 0
          (.bigint (toInt64 ((mem.memInfo.u64 + 1) % 18446744073709551616 : Nat))) 0
      else bindVar lib mem .SQLINT 0
        (.int (toInt32 ((mem.memInfo.u64 + 1) % 18446744073709551616 : Nat))) 0 := by
  simp only [valueStmt, ht, hu, not_true_eq_false, if_false, Bool.false_eq_true, false_and,
    true_and, if_true]

/-- The signed branch of `valueStmt` in bound mode with increment. -/
theorem valueStmt_signed_increment (lib : InfxLib) (mem : MemberBase) (compact iw : Bool)
    (ht : mem.memInfo.isTime = false) (hu : mem.memInfo.isUnsigned = false)
    (hs : mem.memInfo.isSigned = true) :
    valueStmt lib true mem compact true iw =
      if toUInt64 mem.memInfo.i64 = mem.memInfo.max then
        .error (.runtime "VersionElement overflow")
      else if mem.isNull = true then .error (.runtime "VersionElement is null")
      else if (mem.memInfo.max : Int) > INT32_MAX then
        if lib.hasBigint = true then
          bindVar lib mem .SQLBIGINT 0 (.bigint (toInt64 (mem.memInfo.i64 + 1))) 0
        else .error (.runtime "infx: bigint not avilable")
      else bindVar lib mem .SQLINT 0 (.int (toInt32 (toInt64 (mem.memInfo.i64 + 1)))) 0 := by
  simp only [valueStmt, ht, hu, hs, not_true_eq_false, if_false, Bool.false_eq_true, false_and,
    true_and, if_true]

theorem increment_unsigned (lib : InfxLib) (mem : MemberBase) (compact iw : Bool)
    (ht : mem.memInfo.isTime = false) (hu : mem.memInfo.isUnsigned = true)
    (hwf : mem.memInfo.u64 ≤ mem.memInfo.max) (hmax : mem.memInfo.max ≤ UINT64_MAX) :
    ((mem.isNull = true ∨ mem.memInfo.u64 = mem.memInfo.max) →
      ∃ exc, valueStmt lib true mem compact true iw = .error exc) ∧
    (∀ r, valueStmt lib true mem compact true iw = .ok r →
      mem.isNull = false ∧ mem.memInfo.u64 ≠ mem.memInfo.max ∧
      ∃ v, r = ("?", some v) ∧ (v.sqldata = .int ((mem.memInfo.u64 : Int) + 1) ∨
        v.sqldata = .bigint ((mem.memInfo.u64 : Int) + 1))) ∧
    (mem.isNull = false → mem.memInfo.u64 ≠ mem.memInfo.max → lib.hasBigint = true →
      0 < lib.rtypmsize .SQLINT 0 → 0 < lib.rtypmsize .SQLBIGINT 0 →
      (mem.memInfo.u64 : Int) + 1 ≤ INT64_MAX →
      ∃ v, valueStmt lib true mem compact true iw = .ok ("?", some v)) := by
  rw [valueStmt_unsigned_increment lib mem compact iw ht hu]
  unfold UINT64_MAX at hmax
  by_cases h1 : mem.memInfo.u64 = mem.memInfo.max
  · rw [if_pos h1]
    exact ⟨fun _ => ⟨_, rfl⟩, fun r h => (by cases h), fun _ h => absurd h1 h⟩
  rw [if_neg h1]
  cases hn : mem.isNull
  swap
  · rw [if_pos rfl]
    exact ⟨fun _ => ⟨_, rfl⟩, fun r h => (by cases h), fun h => (by cases h)⟩
  rw [if_neg (by simp)]
  have hmod : (mem.memInfo.u64 + 1) % 18446744073709551616 = mem.memInfo.u64 + 1 :=
    Nat.mod_eq_of_lt (by omega)
  rw [hmod]
  refine ⟨fun h => ?_, ?_, ?_⟩
  · rcases h with h | h
    · cases h
    · exact absurd h h1
  · intro r h
    refine ⟨rfl, h1, ?_⟩
    by_cases h2 : (mem.memInfo.max : Int) > INT32_MAX
    · rw [if_pos h2] at h
      by_cases h3 : ¬ lib.hasBigint = true ∨ ((mem.memInfo.u64 + 1 : Nat) : Int) > INT64_MAX
      · rw [if_pos h3] at h; cases h
      · rw [if_neg h3] at h
        obtain ⟨len, hr⟩ := bindVar_ok lib mem _ _ _ r hn h
        refine ⟨_, hr, Or.inr ?_⟩
        have h4 : ((mem.memInfo.u64 + 1 : Nat) : Int) ≤ INT64_MAX := by
          have := not_or.1 h3
          omega
        have e : toInt64 ((mem.memInfo.u64 + 1 : Nat) : Int) = (mem.memInfo.u64 : Int) + 1 := by
          unfold INT64_MAX at h4
          unfold toInt64
          omega
        show SqlData.bigint (toInt64 ((mem.memInfo.u64 + 1 : Nat) : Int)) = _
        rw [e]
    · rw [if_neg h2] at h
      obtain ⟨len, hr⟩ := bindVar_ok lib mem _ _ _ r hn h
      refine ⟨_, hr, Or.inl ?_⟩
      have e : toInt32 ((mem.memInfo.u64 + 1 : Nat) : Int) = (mem.memInfo.u64 : Int) + 1 := by
        unfold INT32_MAX at h2
        unfold toInt32
        omega
      show SqlData.int (toInt32 ((mem.memInfo.u64 + 1 : Nat) : Int)) = _
      rw [e]
  · intro _ _ hb hs1 hs2 hle
    by_cases h2 : (mem.memInfo.max : Int) > INT32_MAX
    · rw [if_pos h2]
      have h3 : ¬ (¬ lib.hasBigint = true ∨ ((mem.memInfo.u64 + 1 : Nat) : Int) > INT64_MAX) := by
        rw [not_or]
        exact ⟨fun h => h hb, by push_cast; omega⟩
      rw [if_neg h3]
      exact ⟨_, bindVar_returns lib mem _ _ hn hs2⟩
    · rw [if_neg h2]
      exact ⟨_, bindVar_returns lib mem _ _ hn hs1⟩

theorem increment_signed (lib : InfxLib) (mem : MemberBase) (compact iw : Bool)
    (ht : mem.memInfo.isTime = false) (hu : mem.memInfo.isUnsigned = false)
    (hs : mem.memInfo.isSigned = true)
    (hlo : mem.memInfo.min ≤ mem.memInfo.i64) (hhi : mem.memInfo.i64 ≤ mem.memInfo.max)
    (hmin : INT64_MIN ≤ mem.memInfo.min) (hmax : (mem.memInfo.max : Int) ≤ INT64_MAX)
    (h32 : (mem.memInfo.max : Int) ≤ INT32_MAX → INT32_MIN ≤ mem.memInfo.min) :
    ((mem.isNull = true ∨ mem.memInfo.i64 = mem.memInfo.max) →
      ∃ exc, valueStmt lib true mem compact true iw = .error exc) ∧
    (∀ r, valueStmt lib true mem compact true iw = .ok r →
      mem.isNull = false ∧ mem.memInfo.i64 ≠ mem.memInfo.max ∧
      ∃ v, r = ("?", some v) ∧ (v.sqldata = .int (mem.memInfo.i64 + 1) ∨
        v.sqldata = .bigint (mem.memInfo.i64 + 1))) ∧
    (mem.isNull = false → mem.memInfo.i64 ≠ mem.memInfo.max → lib.hasBigint = true →
      0 < lib.rtypmsize .SQLINT 0 → 0 < lib.rtypmsize .SQLBIGINT 0 →
      ∃ v, valueStmt lib true mem compact true iw = .ok ("?", some v)) := by
  rw [valueStmt_signed_increment lib mem compact iw ht hu hs]
  unfold INT64_MIN at hmin
  unfold INT64_MAX at hmax
  have hconv : toUInt64 mem.memInfo.i64 = mem.memInfo.max ↔
      mem.memInfo.i64 = mem.memInfo.max := by
    unfold toUInt64
    omega
  by_cases h1 : mem.memInfo.i64 = mem.memInfo.max
  · rw [if_pos (hconv.2 h1)]
    exact ⟨fun _ => ⟨_, rfl⟩, fun r h => (by cases h), fun _ h => absurd h1 h⟩
  rw [if_neg (fun h => h1 (hconv.1 h))]
  cases hn : mem.isNull
  swap
  · rw [if_pos rfl]
    exact ⟨fun _ => ⟨_, rfl⟩, fun r h => (by cases h), fun h => (by cases h)⟩
  rw [if_neg (by simp)]
  have h64 : toInt64 (mem.memInfo.i64 + 1) = mem.memInfo.i64 + 1 := by
    unfold toInt64
    omega
  rw [h64]
  refine ⟨fun h => ?_, ?_, ?_⟩
  · rcases h with h | h
    · cases h
    · exact absurd h h1
  · intro r h
    refine ⟨rfl, h1, ?_⟩
    by_cases h2 : (mem.memInfo.max : Int) > INT32_MAX
    · rw [if_pos h2] at h
      cases hb : lib.hasBigint
      · rw [hb] at h; cases h
      · rw [hb, if_pos rfl] at h
        obtain ⟨len, hr⟩ := bindVar_ok lib mem _ _ _ r hn h
        exact ⟨_, hr, Or.inr rfl⟩
    · rw [if_neg h2] at h
      obtain ⟨len, hr⟩ := bindVar_ok lib mem _ _ _ r hn h
      refine ⟨_, hr, Or.inl ?_⟩
      have h5 := h32 (by omega)
      have e : toInt32 (mem.memInfo.i64 + 1) = mem.memInfo.i64 + 1 := by
        unfold INT32_MAX at h2
        unfold INT32_MIN at h5
        unfold toInt32
        omega
      show SqlData.int (toInt32 (mem.memInfo.i64 + 1)) = _
      rw [e]
  · intro _ _ hb hs1 hs2
    by_cases h2 : (mem.memInfo.max : Int) > INT32_MAX
    · rw [if_pos h2, hb, if_pos rfl]
      exact ⟨_, bindVar_returns lib mem _ _ hn hs2⟩
    · rw [if_neg h2]
      exact ⟨_, bindVar_returns lib mem _ _ hn hs1⟩

theorem SType.bounds (t : SType) :
    INT64_MIN ≤ t.min ∧ (t.max : Int) ≤ INT64_MAX ∧
      ((t.max : Int) ≤ INT32_MAX → INT32_MIN ≤ t.min) := by
  cases t <;> simp [SType.min, SType.max, INT64_MIN, INT64_MAX, INT32_MIN, INT32_MAX]

theorem UType.bound (t : UType) : t.max ≤ UINT64_MAX := by
  cases t <;> simp [UType.max, UINT64_MAX]

/-- C12: in bound-parameter mode with increment, `valueStmt` on a signed or unsigned integer
member whose value lies in the range of its type throws whenever the member is null or holds
the maximum of its type; whenever it returns, the member is not null and below the maximum, the
text is the placeholder and the bound parameter (an `int` or a `bigint`) holds the value of the
member plus 1; and it does return for such a member when the library has `SQLBIGINT`, gives
both types a positive size and the incremented value fits into 64 signed bits.  The member is
an argument only: the increment is made on the local copy of the metadata. -/
theorem version_increment_bound (lib : InfxLib) (ext : Ext) (m : Member)
    (compact inWhere : Bool) (hint : m.wert.isInteger) (hwf : m.wert.wf) :
    ((m.null = true ∨ m.wert.atMax) →
      ∃ exc, valueStmt lib true (m.base ext) compact true inWhere = .error exc) ∧
    (∀ r, valueStmt lib true (m.base ext) compact true inWhere = .ok r →
      m.null = false ∧ ¬ m.wert.atMax ∧
      ∃ v, r = ("?", some v) ∧ (v.sqldata = .int (m.wert.intValue + 1) ∨
        v.sqldata = .bigint (m.wert.intValue + 1))) ∧
    (m.null = false → ¬ m.wert.atMax → lib.hasBigint = true →
      0 < lib.rtypmsize .SQLINT 0 → 0 < lib.rtypmsize .SQLBIGINT 0 →
      m.wert.intValue + 1 ≤ INT64_MAX →
      ∃ v, valueStmt lib true (m.base ext) compact true inWhere = .ok ("?", some v)) := by
  obtain ⟨w, n, k, md, st⟩ := m
  cases w with
  | sint t v =>
    obtain ⟨hmin, hmax, h32⟩ := SType.bounds t
    have h := increment_signed lib (Member.base ext ⟨.sint t v, n, k, md, st⟩) compact inWhere
      rfl rfl rfl hwf.1 hwf.2 hmin hmax h32
    exact ⟨h.1, h.2.1, fun a b c d e _ => h.2.2 a b c d e⟩
  | uint t v =>
    have h := increment_unsigned lib (Member.base ext ⟨.uint t v, n, k, md, st⟩) compact inWhere
      rfl rfl hwf (UType.bound t)
    refine ⟨?_, ?_, h.2.2⟩
    · intro hc
      refine h.1 ?_
      rcases hc with hc | hc
      · exact Or.inl hc
      · exact Or.inr (by exact_mod_cast hc)
    · intro r hr
      obtain ⟨h1, h2, h3⟩ := h.2.1 r hr
      exact ⟨h1, fun hc => h2 (by exact_mod_cast hc), h3⟩
  | bool b => exact False.elim hint
  | double d => exact False.elim hint
  | float f => exact False.elim hint
  | string s => exact False.elim hint
  | blob v => exact False.elim hint
  | time t => exact False.elim hint

/-- Witness for C12: an `int` member holding 5 is bound as the `int` 6. -/
theorem version_increment_bound_witness :
    valueStmt exampleLib true (exampleFive.base exampleExt) false true false
      = .ok ("?", some ⟨.SQLINT, 4, .int 6⟩) ∧
    (∃ exc, valueStmt exampleLib true
      (Member.base exampleExt { wert := .sint .int 2147483647 }) false true false
        = .error exc) :=
  ⟨rfl,
    (version_increment_bound exampleLib exampleExt { wert := .sint .int 2147483647 } false false
      trivial ⟨by decide, by decide⟩).1 (Or.inr rfl)⟩

end Informix

/-! ### Cursors -/

theorem countCursor_advance (k : Nat) (c : CountCursor) : CountCursor.advance k c = c := by
  induction k with
  | zero => rfl
  | succ k ih => exact ih

theorem informix_countCursor_advance (k : Nat) (c : Informix.CountCursor) :
    Informix.CountCursor.advance k c = c := by
  induction k with
  | zero => rfl
  | succ k ih => exact ih

/-- C15: for every `n`, a count cursor constructed with count `n`, relational or document,
reports `pos() = n`, `valid() = false` and `eof() = true`, and after any number `k` of
increments it is the same cursor and reports the same. -/
theorem count_cursor_fixed (n k : Nat) :
    ((CountCursor.new n).pos = n ∧ (CountCursor.new n).valid = false ∧
      (CountCursor.new n).eof = true ∧
      CountCursor.advance k (CountCursor.new n) = CountCursor.new n ∧
      (CountCursor.advance k (CountCursor.new n)).pos = n ∧
      (CountCursor.advance k (CountCursor.new n)).valid = false ∧
      (CountCursor.advance k (CountCursor.new n)).eof = true) ∧
    ((Informix.CountCursor.new n).pos = n ∧ (Informix.CountCursor.new n).valid = false ∧
      (Informix.CountCursor.new n).eof = true ∧
      Informix.CountCursor.advance k (Informix.CountCursor.new n)
        = Informix.CountCursor.new n ∧
      (Informix.CountCursor.advance k (Informix.CountCursor.new n)).pos = n ∧
      (Informix.CountCursor.advance k (Informix.CountCursor.new n)).valid = false ∧
      (Informix.CountCursor.advance k (Informix.CountCursor.new n)).eof = true) := by
  rw [countCursor_advance, informix_countCursor_advance]
  exact ⟨⟨rfl, rfl, rfl, rfl, rfl, rfl, rfl⟩, ⟨rfl, rfl, rfl, rfl, rfl, rfl, rfl⟩⟩

theorem cursor_advance_eof (k : Nat) (c : Cursor) (h : c.eof = true) :
    Cursor.advance k c = c := by
  induction k with
  | zero => rfl
  | succ k ih =>
    show Cursor.advance k c.next = c
    have hn : c.next = c := by simp only [Cursor.next, h, if_true]
    rw [hn]
    exact ih

/-- After `k` increments a document cursor over `docs` has passed `k` documents, as long as
`k` does not exceed their number. -/
theorem cursor_walk (docs : List Document) (k cnt : Nat) (h : k ≤ docs.length) :
    Cursor.advance k ⟨cnt, docs⟩ = ⟨cnt + k, docs.drop k⟩ := by
  induction k generalizing docs cnt with
  | zero => rfl
  | succ k ih =>
    cases docs with
    | nil => simp at h
    | cons d rest =>
      show Cursor.advance k (Cursor.next ⟨cnt, d :: rest⟩) = _
      have hn : Cursor.next ⟨cnt, d :: rest⟩ = ⟨cnt + 1, rest⟩ := rfl
      rw [hn, ih rest (cnt + 1) (by simpa using h)]
      simp only [List.drop_succ_cons, Cursor.mk.injEq, and_true]
      omega

/-- A document cursor over `N` documents reports `pos() = k` after `k ≤ N` increments, is at
`eof()` exactly from the `N`-th increment on, and then reports `pos() = N`. -/
theorem cursor_pos (docs : List Document) :
    (∀ k, k ≤ docs.length → (Cursor.advance k (Cursor.new docs)).pos = k ∧
      ((Cursor.advance k (Cursor.new docs)).eof = true ↔ k = docs.length)) ∧
    (∀ k, docs.length ≤ k → (Cursor.advance k (Cursor.new docs)).eof = true ∧
      (Cursor.advance k (Cursor.new docs)).pos = docs.length) := by
  have hw : ∀ k, k ≤ docs.length →
      Cursor.advance k (Cursor.new docs) = ⟨k, docs.drop k⟩ := by
    intro k hk
    have := cursor_walk docs k 0 hk
    simpa [Cursor.new] using this
  constructor
  · intro k hk
    rw [hw k hk]
    refine ⟨rfl, ?_⟩
    simp only [Cursor.eof, List.isEmpty_eq_true, List.drop_eq_nil_iff]
    omega
  · intro k hk
    obtain ⟨j, rfl⟩ : ∃ j, k = docs.length + j := ⟨k - docs.length, by omega⟩
    have hsplit : ∀ (a b : Nat) (c : Cursor),
        Cursor.advance (a + b) c = Cursor.advance b (Cursor.advance a c) := by
      intro a
      induction a with
      | zero => intro b c; simp [Cursor.advance]
      | succ a ih =>
        intro b c
        have : a + 1 + b = (a + b) + 1 := by omega
        rw [this]
        show Cursor.advance (a + b) c.next = Cursor.advance b (Cursor.advance a c.next)
        exact ih b c.next
    rw [hsplit, hw docs.length (le_refl _)]
    have he : Cursor.eof ⟨docs.length, docs.drop docs.length⟩ = true := by
      simp [Cursor.eof]
    rw [cursor_advance_eof j _ he]
    exact ⟨he, rfl⟩

namespace Informix

theorem next_eof (c : InformixCursor) (h : c.eof = true) : c.next = (c, none) := by
  simp only [InformixCursor.next, h, if_true]

theorem advance_eof (k : Nat) (c : InformixCursor) (h : c.eof = true) :
    InformixCursor.advance k c = c := by
  induction k with
  | zero => rfl
  | succ k ih =>
    show InformixCursor.advance k c.next.1 = c
    rw [next_eof c h]
    exact ih

theorem next_row (c : InformixCursor) (r : Row) (rest : List (Int × Row))
    (hd : c.eof = false) (hp : c.pending = (0, r) :: rest) :
    c.next = ({ c with descPtr := some r, pending := rest, cnt := c.cnt + 1 }, none) := by
  simp only [InformixCursor.next, hd, hp, fetchReply, Bool.false_eq_true, if_false, ne_eq,
    not_true_eq_false]

theorem next_last (c : InformixCursor) (hd : c.eof = false) (hp : c.pending = []) :
    c.next = ({ c with descPtr := none }, none) := by
  have h1 : (100 : Int) ≠ 0 := by decide
  simp only [InformixCursor.next, hd, hp, fetchReply, NOMOREROWS, Bool.false_eq_true, if_false,
    ne_eq, h1, not_false_eq_true, if_true, InformixCursor.close]

/-- A relational cursor that stands on a row while the server still holds the rows `rows`:
after `k ≤ rows.length` increments it is not at `eof()` and the count has grown by `k`; the
next increment brings it to `eof()` and leaves the count as it is. -/
theorem informix_walk (rows : List Row) (c : InformixCursor) (hd : c.eof = false)
    (hp : c.pending = rows.map (fun r => (0, r))) :
    (∀ k, k ≤ rows.length → (InformixCursor.advance k c).eof = false ∧
      (InformixCursor.advance k c).pos = c.cnt + k) ∧
    (InformixCursor.advance (rows.length + 1) c).eof = true ∧
    (InformixCursor.advance (rows.length + 1) c).pos = c.cnt + rows.length := by
  induction rows generalizing c with
  | nil =>
    refine ⟨?_, ?_, ?_⟩
    · intro k hk
      have : k = 0 := by simpa using hk
      subst this
      exact ⟨hd, rfl⟩
    · show (InformixCursor.advance 0 c.next.1).eof = true
      rw [next_last c hd hp]
      rfl
    · show (InformixCursor.advance 0 c.next.1).pos = _
      rw [next_last c hd hp]
      rfl
  | cons r rest ih =>
    have hn := next_row c r (rest.map (fun r => (0, r))) hd hp
    have hih := ih { c with descPtr := some r, pending := rest.map (fun r => (0, r)),
                            cnt := c.cnt + 1 } rfl rfl
    refine ⟨?_, ?_, ?_⟩
    · intro k hk
      cases k with
      | zero => exact ⟨hd, rfl⟩
      | succ j =>
        show (InformixCursor.advance j c.next.1).eof = false ∧
          (InformixCursor.advance j c.next.1).pos = _
        rw [hn]
        have := hih.1 j (by simpa using hk)
        refine ⟨this.1, ?_⟩
        rw [this.2]
        show c.cnt + 1 + j = c.cnt + (j + 1)
        omega
    · show (InformixCursor.advance (rest.length + 1) c.next.1).eof = true
      rw [hn]
      exact hih.2.1
    · show (InformixCursor.advance (rest.length + 1) c.next.1).pos = _
      rw [hn, hih.2.2]
      show c.cnt + 1 + rest.length = c.cnt + (rest.length + 1)
      omega

/-- A relational cursor opened on a result of `N ≥ 1` records reports `pos() = k` after
`k < N` increments and is not at `eof()`; the `N`-th increment brings it to `eof()`, and then
`pos()` is `N - 1`. -/
theorem informix_pos (r : Row) (rest : List Row) :
    ∃ c, InformixCursor.open (resultOf (r :: rest)) = .ok c ∧
      (∀ k, k < (r :: rest).length → (InformixCursor.advance k c).eof = false ∧
        (InformixCursor.advance k c).pos = k) ∧
      (InformixCursor.advance (r :: rest).length c).eof = true ∧
      (InformixCursor.advance (r :: rest).length c).pos = (r :: rest).length - 1 := by
  refine ⟨{ descPtr := some r, pending := rest.map (fun r => (0, r)) }, rfl, ?_⟩
  have h := informix_walk rest { descPtr := some r, pending := rest.map (fun r => (0, r)) }
    rfl rfl
  refine ⟨?_, h.2.1, ?_⟩
  · intro k hk
    have := h.1 k (by simpa [Nat.lt_succ_iff] using hk)
    refine ⟨this.1, ?_⟩
    rw [this.2]
    show 0 + k = k
    omega
  · rw [show (r :: rest).length = rest.length + 1 from rfl, h.2.2]
    show 0 + rest.length = rest.length + 1 - 1
    omega

/-- C14 (evaluation at the failing input): a relational cursor opened on a result of one
record stands on that record with `pos() = 0`; the increment that brings it to `eof()` throws
nothing and leaves `pos()` at 0, not at 1, the number of records. -/
theorem informix_cursor_pos_at_eof :
    [["a"]].length = 1 ∧
    ∃ c, InformixCursor.open (resultOf [["a"]]) = .ok c ∧ c.eof = false ∧ c.pos = 0 ∧
      c.next.1.eof = true ∧ c.next.2 = none ∧ c.next.1.pos = 0 :=
  ⟨rfl, { descPtr := some ["a"] }, rfl, rfl, rfl, rfl, rfl, rfl⟩

/-- C16: for every relational and every document row cursor `valid()` is `not eof()`; a
cursor opened on an empty result (the first fetch answers `NOMOREROWS`; no documents) is at
`eof()` at once; and an increment at `eof()` returns the cursor as it is: it stays at `eof()`,
no fetch is made (the answers the server holds, and the iterator, are untouched), nothing is
thrown and `pos()` is unchanged, for any number of further increments. -/
theorem row_cursor_eof_stable :
    (∀ c : InformixCursor, c.valid = !c.eof) ∧
    (∀ c : Cursor, c.valid = !c.eof) ∧
    (∀ srv : CursorServer, srv.queryCode = 0 → srv.bufferNeeded ≤ 32768 → srv.openCode = 0 →
      (fetchReply srv.replies).1.1 = NOMOREROWS →
      ∃ c, InformixCursor.open srv = .ok c ∧ c.eof = true ∧ c.pos = 0) ∧
    ((Cursor.new []).eof = true ∧ (Cursor.new []).pos = 0) ∧
    (∀ c : InformixCursor, c.eof = true → c.next = (c, none) ∧
      ∀ k, InformixCursor.advance k c = c) ∧
    (∀ c : Cursor, c.eof = true → c.next = c ∧ ∀ k, Cursor.advance k c = c) := by
  refine ⟨fun _ => rfl, fun _ => rfl, ?_, ⟨rfl, rfl⟩, ?_, ?_⟩
  · intro srv h1 h2 h3 h4
    have h5 : ¬ srv.bufferNeeded > 32768 := by omega
    have h6 : (100 : Int) ≠ 0 := by decide
    refine ⟨{ fldCnt := srv.fldCnt, pending := (fetchReply srv.replies).2 }, ?_, rfl, rfl⟩
    simp only [InformixCursor.open, h1, h3, h4, h5, NOMOREROWS, ne_eq, not_true_eq_false,
      if_false, h6, not_false_eq_true, if_true]
  · intro c h
    exact ⟨next_eof c h, fun k => advance_eof k c h⟩
  · intro c h
    refine ⟨?_, fun k => cursor_advance_eof k c h⟩
    simp only [Cursor.next, h, if_true]

/-- Witness for C16: a relational cursor opened on the empty result. -/
theorem row_cursor_eof_stable_witness :
    ∃ c, InformixCursor.open (resultOf []) = .ok c ∧ c.eof = true ∧ c.pos = 0 :=
  row_cursor_eof_stable.2.2.1 (resultOf []) rfl (by decide) rfl rfl

end Informix

namespace Informix

/-! ### `retrieve` -/

theorem modifyGroup_twice (obj : ObjectBase) (i : Nat) (f h : List Row → List Row)
    (hi : i < obj.groups.length) :
    modifyGroup (modifyGroup obj i f) i h = modifyGroup obj i (fun l => h (f l)) := by
  simp only [modifyGroup, List.set_set, ObjectBase.mk.injEq, true_and, and_true]
  congr 2
  rw [List.getD_eq_getElem?_getD, List.getElem?_set_self (by simpa using hi)]
  rfl

theorem modifyGroup_length (obj : ObjectBase) (i : Nat) (f : List Row → List Row) :
    (modifyGroup obj i f).groups.length = obj.groups.length := by
  simp [modifyGroup]

theorem take_set_succ {α : Type} (l : List α) (i : Nat) (x : α) (hi : i < l.length) :
    (l.set i x).take (i + 1) = l.take i ++ [x] := by
  induction l generalizing i with
  | nil => simp at hi
  | cons a t ih =>
    cases i with
    | zero => simp
    | succ j =>
      simp only [List.set_cons_succ, List.take_succ_cons, List.cons_append, List.cons.injEq,
        true_and]
      exact ih j (by simpa using hi)

/-- The loop over the rows of a cursor that stands on row `r` while the server holds the rows
`rest`: every row gives one element, in order, and the loop ends without exception. -/
theorem readRows_rows (g : ReadGenerator) (i : Nat) (rest : List Row)
    (hel : ∀ row, (g.readElement i row).2 = none) :
    ∀ (r : Row) (c : InformixCursor) (obj : ObjectBase) (fuel : Nat),
      c.descPtr = some r → c.pending = rest.map (fun r => (0, r)) → rest.length + 2 ≤ fuel →
      i < obj.groups.length →
      readRows g i fuel c obj =
        (modifyGroup obj i
          (fun l => l ++ (r :: rest).map (fun row => (g.readElement i row).1)), none) := by
  induction rest with
  | nil =>
    intro r c obj fuel hd hp hf hi
    obtain ⟨f, rfl⟩ : ∃ f, fuel = f + 2 := ⟨fuel - 2, by simp at hf; omega⟩
    have he : c.eof = false := by simp [InformixCursor.eof, hd]
    have hn := next_last c he hp
    simp only [readRows, hd, hel r, hn, List.map_cons, List.map_nil]
  | cons r2 rest ih =>
    intro r c obj fuel hd hp hf hi
    obtain ⟨f, rfl⟩ : ∃ f, fuel = f + 1 := ⟨fuel - 1, by simp at hf; omega⟩
    have he : c.eof = false := by simp [InformixCursor.eof, hd]
    have hn := next_row c r2 (rest.map (fun r => (0, r))) he hp
    simp only [readRows, hd, hel r, hn]
    rw [ih r2 _ _ f rfl rfl (by simp at hf; omega) (by rw [modifyGroup_length]; exact hi),
      modifyGroup_twice obj i _ _ hi]
    simp only [List.map_cons, List.append_assoc, List.singleton_append]

theorem open_resultOf_nil : InformixCursor.open (resultOf []) = .ok {} := rfl

theorem open_resultOf_cons (r : Row) (rest : List Row) :
    InformixCursor.open (resultOf (r :: rest))
      = .ok { descPtr := some r, pending := rest.map (fun r => (0, r)) } := rfl

/-- One round of the loop over the groups, when the select returns `rows` and every element
can be read: group `i` holds exactly the elements read from the rows, in order. -/
theorem group_round (g : ReadGenerator) (i : Nat) (rows : List Row) (obj : ObjectBase)
    (hel : ∀ row, (g.readElement i row).2 = none) (hi : i < obj.groups.length) :
    ∃ curs2, InformixCursor.open (resultOf rows) = .ok curs2 ∧
      readRows g i (curs2.pending.length + 2) curs2
          (modifyGroup (modifyGroup obj i (fun l => l ++ [g.blank])) i (fun _ => []))
        = (modifyGroup obj i (fun _ => rows.map (fun row => (g.readElement i row).1)),
            none) := by
  rw [modifyGroup_twice obj i _ _ hi]
  cases rows with
  | nil =>
    refine ⟨{}, rfl, ?_⟩
    simp only [readRows, List.map_nil]
  | cons r rest =>
    refine ⟨_, open_resultOf_cons r rest, ?_⟩
    rw [readRows_rows g i rest hel r _ _ _ rfl rfl (by simp)
      (by rw [modifyGroup_length]; exact hi), modifyGroup_twice obj i _ _ hi]
    simp only [List.nil_append]

/-- The loop over the groups, when every select returns rows without failure and every
element can be read: one cursor per select, and each group from index `i` on holds the elements
read from the rows of its select, in row order. -/
theorem retrieveGroups_ok (srv : String → CursorServer) (g : ReadGenerator)
    (results : String → List Row) (hsrv : ∀ s, srv s = resultOf (results s))
    (hel : ∀ i row, (g.readElement i row).2 = none) :
    ∀ (sels : List String) (i : Nat) (obj : ObjectBase) (tr : List String),
      obj.groups.length = i + sels.length →
      retrieveGroups srv g i sels obj tr =
        ⟨{ obj with groups := obj.groups.take i ++ groupsRead g results i sels },
          tr ++ sels, none⟩ := by
  intro sels
  induction sels with
  | nil =>
    intro i obj tr hlen
    have : obj.groups.take i = obj.groups := List.take_of_length_le (by simp at hlen; omega)
    simp only [retrieveGroups, groupsRead, List.append_nil, this]
  | cons s rest ih =>
    intro i obj tr hlen
    have hi : i < obj.groups.length := by simp at hlen; omega
    obtain ⟨curs2, ho, hr⟩ := group_round g i (results s) obj (hel i) hi
    simp only [retrieveGroups, hsrv s, ho, hr]
    rw [ih (i + 1) _ (tr ++ [s]) (by rw [modifyGroup_length]; simp at hlen ⊢; omega)]
    simp only [modifyGroup, groupsRead, take_set_succ _ _ _ hi, List.append_assoc,
      List.singleton_append]

theorem groupsRead_getElem (g : ReadGenerator) (results : String → List Row) :
    ∀ (sels : List String) (j i : Nat) (s : String), sels[i]? = some s →
      (groupsRead g results j sels)[i]?
        = some ((results s).map (fun row => (g.readElement (j + i) row).1)) := by
  intro sels
  induction sels with
  | nil => intro j i s h; simp at h
  | cons a rest ih =>
    intro j i s h
    cases i with
    | zero =>
      simp only [List.getElem?_cons_zero, Option.some.injEq] at h
      subst h
      simp [groupsRead]
    | succ k =>
      simp only [List.getElem?_cons_succ] at h
      simp only [groupsRead, List.getElem?_cons_succ]
      rw [ih (j + 1) k s h]
      have : j + 1 + k = j + (k + 1) := by omega
      rw [this]

/-- On an exhausted cursor the relational `retrieve` throws `Cursor eof` before it touches the
object. -/
theorem retrieve_eof (be : Backend) (srv : String → CursorServer) (g : ReadGenerator)
    (c : Conn) (curs : InformixCursor) (obj : ObjectBase) (h : curs.eof = true) :
    retrieve be srv g c (some curs) obj = ⟨obj, [], some (.runtime "Cursor eof")⟩ := by
  have hd : curs.descPtr = none := by
    cases hp : curs.descPtr with
    | none => rfl
    | some r => simp [InformixCursor.eof, hp] at h
  simp only [retrieve, hd]

/-- C18: in the relational `retrieve`, when the main row is read and the select of every
repeated group returns its rows without failure, exactly one cursor is opened per group (the
selects of the generator, in order), nothing is thrown, and every group holds afterwards
exactly the elements read from the rows of its select, one per row and in row order, whatever
it held before; it is empty when the select returned no row. -/
theorem retrieve_groups_in_row_order (be : Backend) (srv : String → CursorServer)
    (g : ReadGenerator) (c : Conn) (curs : InformixCursor) (row : Row) (obj : ObjectBase)
    (results : String → List Row)
    (hcon : 0 < c.conNr) (hrow : curs.descPtr = some row)
    (hmain : (g.readObject row obj.clear).2 = none)
    (hgroups : (g.readObject row obj.clear).1.groups.length = g.selectStatementArray.length)
    (hsrv : ∀ s, srv s = resultOf (results s))
    (hel : ∀ i r, (g.readElement i r).2 = none) :
    (retrieve be srv g c (some curs) obj).out = none ∧
    (retrieve be srv g c (some curs) obj).selects = g.selectStatementArray ∧
    (retrieve be srv g c (some curs) obj).obj.fields = (g.readObject row obj.clear).1.fields ∧
    (retrieve be srv g c (some curs) obj).obj.groups.length = g.selectStatementArray.length ∧
    (∀ i s, g.selectStatementArray[i]? = some s →
      (retrieve be srv g c (some curs) obj).obj.groups[i]?
        = some ((results s).map (fun r => (g.readElement i r).1)) ∧
      ((retrieve be srv g c (some curs) obj).obj.groups.getD i []).length
        = (results s).length ∧
      (results s = [] → (retrieve be srv g c (some curs) obj).obj.groups[i]? = some [])) := by
  have hr : retrieve be srv g c (some curs) obj =
      ⟨{ (g.readObject row obj.clear).1 with
          groups := groupsRead g results 0 g.selectStatementArray },
        g.selectStatementArray, none⟩ := by
    simp only [retrieve, hrow, openConnection_connected be c hcon, hmain]
    rw [retrieveGroups_ok srv g results hsrv hel _ 0 _ [] (by simpa using hgroups)]
    simp only [List.take_zero, List.nil_append]
  rw [hr]
  have hlen : ∀ (sels : List String) (j : Nat),
      (groupsRead g results j sels).length = sels.length := by
    intro sels
    induction sels with
    | nil => intro j; rfl
    | cons a rest ih => intro j; simp [groupsRead, ih]
  refine ⟨rfl, rfl, rfl, hlen _ 0, ?_⟩
  intro i s hs
  have hg := groupsRead_getElem g results g.selectStatementArray 0 i s hs
  simp only [Nat.zero_add] at hg
  refine ⟨hg, ?_, ?_⟩
  · show ((groupsRead g results 0 g.selectStatementArray).getD i []).length = _
    rw [List.getD_eq_getElem?_getD, hg]
    simp
  · intro he
    show (groupsRead g results 0 g.selectStatementArray)[i]? = some []
    rw [hg, he]
    rfl

/-- Witness for C18: the group that held one element holds the two rows of the select. -/
theorem retrieve_groups_in_row_order_witness :
    (retrieve exampleServer (fun s => resultOf (exampleResults s)) exampleReader exampleConn
      (some exampleCursor) exampleObject).obj.groups[0]? = some [["x"], ["y"]] ∧
    (retrieve exampleServer (fun s => resultOf (exampleResults s)) exampleReader exampleConn
      (some exampleCursor) exampleObject).selects = ["SEL"] :=
  have h := retrieve_groups_in_row_order exampleServer (fun s => resultOf (exampleResults s))
    exampleReader exampleConn exampleCursor ["main"] exampleObject exampleResults
    (by decide) rfl rfl rfl (fun _ => rfl) (fun _ _ => rfl)
  ⟨(h.2.2.2.2 0 "SEL" rfl).1, h.2.1⟩

end Informix

namespace Mongo

/-! ### The document connection -/

/-- The document `save` throws only for an unacknowledged write: no comparison of versions
can make it fail. -/
theorem save_acknowledged (ext : Ext) (coll : List Document) (obj : ObjectBase) :
    (save ext true coll obj).2 = none := rfl

/-- C13 (evaluation at the failing input): the stored document has version 3; the document
`save` of the stale copy with version 2 (greater than 0) uses the filter `id = 1` alone, throws
nothing and replaces the stored document by the stale one. -/
theorem mongo_save_overwrites_newer_version :
    exampleStale.getVersion = 2 ∧
    exampleStored.lookup "version" = some (.int32 3) ∧
    traverseKey exampleExt {} exampleStale.fields = [("id", .int32 1)] ∧
    save exampleExt true [exampleStored] exampleStale
      = ([[("id", .int32 1), ("version", .int32 2), ("name", .utf8 "old")]], none) := by
  decide

/-- On a cursor at `eof()` the document `retrieve` makes no check: it clears the object and
reads whatever the iterator yields. -/
theorem retrieve_at_eof (ext : Ext) (endView : Document) (curs : Cursor) (obj : ObjectBase)
    (h : curs.eof = true) :
    retrieve ext endView (some curs) obj =
      ({ obj.clear with
          fields := (MongoRead.parsivalView ext false endView obj.clear.fields).1 },
        (MongoRead.parsivalView ext false endView obj.clear.fields).2) := by
  have hr : curs.rest = [] := by simpa [Cursor.eof] using h
  simp only [retrieve, hr, List.headD_nil]

/-- C17 (evaluation at the failing input): the document `retrieve` with a cursor that was
advanced past its only document, when the exhausted iterator yields the empty view, throws
nothing and returns the object cleared: the field `id` holds 0 instead of 5 and the group has
lost its element. -/
theorem mongo_retrieve_exhausted_clears :
    (Cursor.advance 1 (Cursor.new [[("id", .int32 7)]])).eof = true ∧
    retrieve exampleExt [] (some (Cursor.advance 1 (Cursor.new [[("id", .int32 7)]])))
        Informix.exampleObject
      = ({ fields := [("id", { wert := .sint .int 0, key := 1 })], groups := [[]] }, none) ∧
    Informix.exampleObject.fields = [("id", { wert := .sint .int 5, key := 1 })] := by
  decide

end Mongo

namespace Informix

theorem next_shrinks (c : InformixCursor) (h : c.eof = false) :
    c.next.1.descPtr = none ∨ c.next.1.pending.length < c.pending.length := by
  cases hp : c.pending with
  | nil =>
    left
    rw [next_last c h hp]
  | cons a rest =>
    obtain ⟨e, r⟩ := a
    by_cases he : e = 0
    · right
      subst he
      rw [next_row c r rest h hp]
      simp
    · left
      simp only [InformixCursor.next, h, hp, fetchReply, Bool.false_eq_true, if_false, ne_eq, he,
        not_false_eq_true, if_true, InformixCursor.close]
      split_ifs <;> rfl

theorem readRows_closed (g : ReadGenerator) (i fuel : Nat) (c : InformixCursor)
    (obj : ObjectBase) (h : c.descPtr = none) : readRows g i (fuel + 1) c obj = (obj, none) := by
  simp only [readRows, h]

/-- The bound that `retrieve` passes to the loop over the rows is never reached: every larger
bound gives the same result. -/
theorem readRows_bound (g : ReadGenerator) (i : Nat) :
    ∀ (n : Nat) (c : InformixCursor) (obj : ObjectBase) (f1 f2 : Nat),
      c.pending.length ≤ n → n + 2 ≤ f1 → n + 2 ≤ f2 →
      readRows g i f1 c obj = readRows g i f2 c obj := by
  intro n
  induction n with
  | zero =>
    intro c obj f1 f2 hn h1 h2
    obtain ⟨a, rfl⟩ : ∃ a, f1 = a + 2 := ⟨f1 - 2, by omega⟩
    obtain ⟨b, rfl⟩ : ∃ b, f2 = b + 2 := ⟨f2 - 2, by omega⟩
    cases hd : c.descPtr with
    | none => rw [readRows_closed g i _ c obj hd, readRows_closed g i _ c obj hd]
    | some row =>
      have he : c.eof = false := by simp [InformixCursor.eof, hd]
      have hp : c.pending = [] := List.eq_nil_of_length_eq_zero (by omega)
      have hnx := next_last c he hp
      simp only [readRows, hd, hnx]
  | succ n ih =>
    intro c obj f1 f2 hn h1 h2
    obtain ⟨a, rfl⟩ : ∃ a, f1 = a + 1 := ⟨f1 - 1, by omega⟩
    obtain ⟨b, rfl⟩ : ∃ b, f2 = b + 1 := ⟨f2 - 1, by omega⟩
    cases hd : c.descPtr with
    | none => rw [readRows_closed g i _ c obj hd, readRows_closed g i _ c obj hd]
    | some row =>
      have he : c.eof = false := by simp [InformixCursor.eof, hd]
      simp only [readRows, hd]
      cases hr : (g.readElement i row).2 with
      | some exc => rfl
      | none =>
        cases hx : c.next.2 with
        | some exc => rfl
        | none =>
          show readRows g i a c.next.1 _ = readRows g i b c.next.1 _
          rcases next_shrinks c he with hs | hs
          · obtain ⟨a2, rfl⟩ : ∃ a2, a = a2 + 1 := ⟨a - 1, by omega⟩
            obtain ⟨b2, rfl⟩ : ∃ b2, b = b2 + 1 := ⟨b - 1, by omega⟩
            rw [readRows_closed g i _ _ _ hs, readRows_closed g i _ _ _ hs]
          · exact ih _ _ a b (by omega) (by omega) (by omega)

end Informix

namespace Informix

/-! ### Column types of integer and character fields -/

/-- The part of `createStmt` after the time rules, for a field that is no time. -/
theorem createType_not_time (mem : MemberBase) (compact : Bool)
    (ht : mem.memInfo.isTime = false) :
    createType mem compact =
      if mem.memInfo.isUnsigned = true ∧ mem.memInfo.max = 1 then "BOOLEAN"
      else if mem.toDouble.isSome = true then "FLOAT"
      else if mem.is_chartype compact = true then
        if mem.memInfo.is_specialized = true ∧ mem.memInfo.size = 1 then "CHAR(1)"
        else if mem.lengthFeature.getD 30 ≤ 4 then
          "CHAR(" ++ toString (mem.lengthFeature.getD 30) ++ ")"
        else if mem.lengthFeature.getD 30 ≤ 255 then
          "VARCHAR(" ++ toString (mem.lengthFeature.getD 30) ++ ")"
        else "LVARCHAR(" ++ toString (mem.lengthFeature.getD 30) ++ ")"
      else if mem.memInfo.isSigned = true ∧ (mem.memInfo.max : Int) ≤ INT16_MAX then "SMALLINT"
      else if mem.memInfo.isSigned = true ∧ (mem.memInfo.max : Int) ≤ INT32_MAX then "INT"
      else if mem.memInfo.isSigned = true ∨ mem.memInfo.isUnsigned = true then "BIGINT"
      else "SMALLINT" := by
  have hl : (match mem.lengthFeature with
      | some len => len
      | none => 30) = mem.lengthFeature.getD 30 := by
    cases mem.lengthFeature <;> rfl
  simp only [createType, ht, Bool.false_eq_true, false_and, if_false, hl]

/-- C21 as stated fails: the range of an `unsigned short` field, 0 to 65535, fits 32 bits, so
the smallest sufficient type is `INT`; `createStmt` gives the field `BIGINT`. -/
theorem unsigned_short_gets_bigint :
    (exampleUShort.base exampleExt).memInfo.isUnsigned = true ∧
    (exampleUShort.base exampleExt).memInfo.min = 0 ∧
    (exampleUShort.base exampleExt).memInfo.max = 65535 ∧
    smallestIntegerType (exampleUShort.base exampleExt).memInfo = "INT" ∧
    createType (exampleUShort.base exampleExt) false = "BIGINT" ∧
    createStmt (exampleUShort.base exampleExt) false = "BIGINT" := by
  decide

/-- C21, amended: for a field that is no time, not convertible to double and not
character-like, `createStmt` chooses `BOOLEAN` for an unsigned field with maximum 1; for a
signed field `SMALLINT` if the maximum fits 16 bits, `INT` if it fits 32 bits and `BIGINT`
otherwise; and `BIGINT` for every other unsigned field, whatever its bounds. -/
theorem createStmt_integer_type (mem : MemberBase) (compact : Bool)
    (ht : mem.memInfo.isTime = false) (hd : mem.toDouble = none)
    (hc : mem.is_chartype compact = false) :
    (mem.memInfo.isUnsigned = true ∧ mem.memInfo.max = 1 → createType mem compact = "BOOLEAN") ∧
    (¬ (mem.memInfo.isUnsigned = true ∧ mem.memInfo.max = 1) → mem.memInfo.isSigned = true →
      ((mem.memInfo.max : Int) ≤ INT16_MAX → createType mem compact = "SMALLINT") ∧
      (INT16_MAX < (mem.memInfo.max : Int) → (mem.memInfo.max : Int) ≤ INT32_MAX →
        createType mem compact = "INT") ∧
      (INT32_MAX < (mem.memInfo.max : Int) → createType mem compact = "BIGINT")) ∧
    (mem.memInfo.isUnsigned = true → mem.memInfo.max ≠ 1 → mem.memInfo.isSigned = false →
      createType mem compact = "BIGINT") := by
  rw [createType_not_time mem compact ht]
  simp only [hd, hc, Option.isSome_none, Bool.false_eq_true, if_false]
  refine ⟨fun h => by rw [if_pos h], fun hb hs => ?_, fun hu hm hs => ?_⟩
  · rw [if_neg hb]
    simp only [hs, true_and, true_or, if_true]
    refine ⟨fun h => by rw [if_pos h], fun h1 h2 => ?_, fun h1 => ?_⟩
    · rw [if_neg (by omega), if_pos h2]
    · have h3 : ¬ (mem.memInfo.max : Int) ≤ INT32_MAX := by omega
      have h4 : ¬ (mem.memInfo.max : Int) ≤ INT16_MAX := by
        unfold INT32_MAX at h3
        unfold INT16_MAX
        omega
      rw [if_neg h4, if_neg h3]
  · have hb : ¬ (mem.memInfo.isUnsigned = true ∧ mem.memInfo.max = 1) := fun h => hm h.2
    rw [if_neg hb]
    simp only [hs, hu, Bool.false_eq_true, false_and, if_false, or_true, if_true]

/-- Witness for C21: a `short` field gets `SMALLINT`. -/
theorem createStmt_integer_type_witness :
    createType (exampleShort.base exampleExt) false = "SMALLINT" :=
  ((createStmt_integer_type (exampleShort.base exampleExt) false rfl rfl rfl).2.1
    (by decide) rfl).1 (by decide)

/-- C22: for a character-like field (no time, not boolean-shaped, not convertible to double)
`createStmt` chooses `CHAR(1)` for a single-character type and otherwise, with the declared
length `n` (30 when none is declared), `CHAR(n)` for `n ≤ 4`, `VARCHAR(n)` for `4 < n ≤ 255`
and `LVARCHAR(n)` for `n > 255`; and for every field `createStmt` is the column type followed
by ` NOT NULL` when the field does not allow null, and the column type alone when it does. -/
theorem createStmt_character_type (mem : MemberBase) (compact : Bool)
    (ht : mem.memInfo.isTime = false)
    (hb : ¬ (mem.memInfo.isUnsigned = true ∧ mem.memInfo.max = 1))
    (hd : mem.toDouble = none) (hc : mem.is_chartype compact = true) :
    (mem.memInfo.is_specialized = true ∧ mem.memInfo.size = 1 →
      createType mem compact = "CHAR(1)") ∧
    (¬ (mem.memInfo.is_specialized = true ∧ mem.memInfo.size = 1) →
      (mem.lengthFeature.getD 30 ≤ 4 →
        createType mem compact = "CHAR(" ++ toString (mem.lengthFeature.getD 30) ++ ")") ∧
      (4 < mem.lengthFeature.getD 30 → mem.lengthFeature.getD 30 ≤ 255 →
        createType mem compact = "VARCHAR(" ++ toString (mem.lengthFeature.getD 30) ++ ")") ∧
      (255 < mem.lengthFeature.getD 30 →
        createType mem compact = "LVARCHAR(" ++ toString (mem.lengthFeature.getD 30) ++ ")")) ∧
    (∀ (m : MemberBase) (c : Bool),
      (m.nullAllowed = false → createStmt m c = createType m c ++ " NOT NULL") ∧
      (m.nullAllowed = true → createStmt m c = createType m c)) := by
  rw [createType_not_time mem compact ht]
  simp only [hd, hc, Option.isSome_none, Bool.false_eq_true, if_false, if_neg hb, if_true]
  refine ⟨fun h => by rw [if_pos h], fun h => ?_, fun m c => ?_⟩
  · rw [if_neg h]
    refine ⟨fun h1 => by rw [if_pos h1], fun h1 h2 => ?_, fun h1 => ?_⟩
    · rw [if_neg (by omega), if_pos h2]
    · rw [if_neg (by omega), if_neg (by omega)]
  · constructor
    · intro hn
      simp only [createStmt, hn, Bool.false_eq_true, not_false_eq_true, if_true]
    · intro hn
      simp only [createStmt, hn, not_true_eq_false, if_false]

/-- Witness for C22: a string field without declared length gets `VARCHAR(30)`. -/
theorem createStmt_character_type_witness :
    createType (exampleString.base exampleExt) false = "VARCHAR(30)" ∧
    createStmt (exampleTimeField 1000) false
      = createType (exampleTimeField 1000) false ++ " NOT NULL" :=
  have h := createStmt_character_type (exampleString.base exampleExt) false rfl (by decide) rfl
    rfl
  ⟨(h.2.1 (by decide)).2.1 (by decide) (by decide), (h.2.2 (exampleTimeField 1000) false).1 rfl⟩

/-! ### `save` with version 0 -/

/-- C23 as stated fails: with version 0 the insert that is refused as duplicate (-268) is not
retried as update; `save` rolls back and throws. -/
theorem save_version_zero_not_retried :
    (exampleGenerator 0).version = 0 ∧
    (exampleDuplicate.exec ["BEGIN WORK;"] "INS").code = UNIQCONSTRAINT ∧
    (save exampleDuplicate exampleConn none (exampleGenerator 0)).trace
      = [Stmt.beginWork, Stmt.insert "INS", Stmt.rollbackWork] ∧
    (save exampleDuplicate exampleConn none (exampleGenerator 0)).out
      = .error (.informix "save failed" (-268)) ∧
    (save exampleDuplicate exampleConn none (exampleGenerator (-1))).trace
      = [Stmt.beginWork, Stmt.insert "INS", Stmt.insertRetry "UPD", Stmt.commitWork] :=
  ⟨rfl, by decide, by decide, rfl, by decide⟩

/-- C23, amended: in `save`, when the version is 0 and the insert is refused with a non-zero
code `e`, the uniqueness code -268 included, no update is tried: the rollback is the only
statement that follows, `save` ends with an exception, and the exception is `save failed` with
code `e` when the rollback is accepted.  (The retry as update is made for a negative version
only.) -/
theorem save_version_zero_no_retry (be : Backend) (c : Conn) (tx : Option Nat)
    (g : SqlGenerator) (s upd : String) (e : Int)
    (hcon : 0 < c.conNr)
    (htx : c.currentTransaction = none ∨ c.currentTransaction = tx)
    (hb : (be.exec [] (openStmt c).text).code = 0)
    (hv : g.version = 0) (hs : g.insertUpdStatement = .ok (s, upd))
    (he : (be.exec [(openStmt c).text] s).code = e) (hne : e ≠ 0) :
    (save be c tx g).trace = [openStmt c, Stmt.insert s, rollbackStmt c] ∧
    (save be c tx g).failed ∧
    ((be.exec [(openStmt c).text, s] (rollbackStmt c).text).code = 0 →
      (save be c tx g).out = .error (.informix "save failed" e)) := by
  have hfr := frame_started be c tx (saveTry be g) hcon htx hb
  have h1 : ¬ 0 < g.version := by omega
  have h2 : ¬ (g.version < 0 ∧ (be.exec ([openStmt c].map Stmt.text) s).code = UNIQCONSTRAINT ∧
      upd ≠ "") := fun h => by have := h.1; omega
  have ht := saveTry_insert_plain be g [openStmt c] s upd h1 hs h2
  simp only [List.map_cons, List.map_nil] at ht
  have h3 : (be.exec [(openStmt c).text] s).code ≠ 0 := by rw [he]; exact hne
  rw [if_pos h3] at ht
  obtain ⟨hft, hfe, hfx⟩ := finishCall_error be c (saveTry be g [openStmt c]) _ (by rw [ht])
  refine ⟨?_, ?_, ?_⟩
  · rw [save_eq_frame, hfr]
    show (finishCall be c (saveTry be g [openStmt c])).1 = _
    rw [hft, ht]
    rfl
  · rw [save_eq_frame, hfr]
    exact hfe
  · intro hr
    rw [save_eq_frame, hfr]
    show (finishCall be c (saveTry be g [openStmt c])).2 = _
    rw [hfx (by rw [ht]; simpa [Stmt.text] using hr), he]

/-- Witness for C23: the duplicate insert of an object of version 0. -/
theorem save_version_zero_no_retry_witness :
    (save exampleDuplicate exampleConn none (exampleGenerator 0)).trace
      = [Stmt.beginWork, Stmt.insert "INS", Stmt.rollbackWork] ∧
    (save exampleDuplicate exampleConn none (exampleGenerator 0)).failed :=
  have h := save_version_zero_no_retry exampleDuplicate exampleConn none (exampleGenerator 0)
    "INS" "UPD" (-268) (by decide) (by decide) (by decide) rfl rfl (by decide) (by decide)
  ⟨h.1, h.2.1⟩

end Informix

/-! ### The builders of the interface handle -/

/-- C24: each of `withCountCursor`, `withDirtyRead`, `withQuerySkip(n)`, `withQueryLimit(n)`
and `withTimeout(t)` yields a handle in which the named option has the requested value and the
connection, the database name, the transaction and every other option are those of the
receiver (the builder changes its copy only); builders for different options commute and the
last call for one option wins. -/
theorem with_builders_frame (d : DatabaseInterface) (n m : Nat) (t u : Int) :
    (d.withCountCursor = { d with countCursor := true } ∧
      d.withDirtyRead = { d with dirtyRead := true } ∧
      d.withQuerySkip n = { d with skip := n } ∧
      d.withQueryLimit n = { d with limit := n } ∧
      d.withTimeout t = { d with timeout := t }) ∧
    (d.withCountCursor.countCursor = true ∧ d.withCountCursor.dbCon = d.dbCon ∧
      d.withCountCursor.databaseName = d.databaseName ∧
      d.withCountCursor.transaction = d.transaction ∧
      d.withCountCursor.dirtyRead = d.dirtyRead ∧ d.withCountCursor.skip = d.skip ∧
      d.withCountCursor.limit = d.limit ∧ d.withCountCursor.timeout = d.timeout) ∧
    (d.withDirtyRead.dirtyRead = true ∧ d.withDirtyRead.dbCon = d.dbCon ∧
      d.withDirtyRead.databaseName = d.databaseName ∧
      d.withDirtyRead.transaction = d.transaction ∧
      d.withDirtyRead.countCursor = d.countCursor ∧ d.withDirtyRead.skip = d.skip ∧
      d.withDirtyRead.limit = d.limit ∧ d.withDirtyRead.timeout = d.timeout) ∧
    ((d.withQuerySkip n).skip = n ∧ (d.withQuerySkip n).dbCon = d.dbCon ∧
      (d.withQuerySkip n).databaseName = d.databaseName ∧
      (d.withQuerySkip n).transaction = d.transaction ∧
      (d.withQuerySkip n).countCursor = d.countCursor ∧
      (d.withQuerySkip n).dirtyRead = d.dirtyRead ∧ (d.withQuerySkip n).limit = d.limit ∧
      (d.withQuerySkip n).timeout = d.timeout) ∧
    ((d.withQueryLimit n).limit = n ∧ (d.withQueryLimit n).dbCon = d.dbCon ∧
      (d.withQueryLimit n).databaseName = d.databaseName ∧
      (d.withQueryLimit n).transaction = d.transaction ∧
      (d.withQueryLimit n).countCursor = d.countCursor ∧
      (d.withQueryLimit n).dirtyRead = d.dirtyRead ∧ (d.withQueryLimit n).skip = d.skip ∧
      (d.withQueryLimit n).timeout = d.timeout) ∧
    ((d.withTimeout t).timeout = t ∧ (d.withTimeout t).dbCon = d.dbCon ∧
      (d.withTimeout t).databaseName = d.databaseName ∧
      (d.withTimeout t).transaction = d.transaction ∧
      (d.withTimeout t).countCursor = d.countCursor ∧
      (d.withTimeout t).dirtyRead = d.dirtyRead ∧ (d.withTimeout t).skip = d.skip ∧
      (d.withTimeout t).limit = d.limit) ∧
    (d.withCountCursor.withDirtyRead = d.withDirtyRead.withCountCursor ∧
      d.withCountCursor.withQuerySkip n = (d.withQuerySkip n).withCountCursor ∧
      d.withCountCursor.withQueryLimit n = (d.withQueryLimit n).withCountCursor ∧
      d.withCountCursor.withTimeout t = (d.withTimeout t).withCountCursor ∧
      d.withDirtyRead.withQuerySkip n = (d.withQuerySkip n).withDirtyRead ∧
      d.withDirtyRead.withQueryLimit n = (d.withQueryLimit n).withDirtyRead ∧
      d.withDirtyRead.withTimeout t = (d.withTimeout t).withDirtyRead ∧
      (d.withQuerySkip n).withQueryLimit m = (d.withQueryLimit m).withQuerySkip n ∧
      (d.withQuerySkip n).withTimeout t = (d.withTimeout t).withQuerySkip n ∧
      (d.withQueryLimit n).withTimeout t = (d.withTimeout t).withQueryLimit n) ∧
    (d.withCountCursor.withCountCursor = d.withCountCursor ∧
      d.withDirtyRead.withDirtyRead = d.withDirtyRead ∧
      (d.withQuerySkip n).withQuerySkip m = d.withQuerySkip m ∧
      (d.withQueryLimit n).withQueryLimit m = d.withQueryLimit m ∧
      (d.withTimeout t).withTimeout u = d.withTimeout u) :=
  ⟨⟨rfl, rfl, rfl, rfl, rfl⟩, ⟨rfl, rfl, rfl, rfl, rfl, rfl, rfl, rfl⟩,
    ⟨rfl, rfl, rfl, rfl, rfl, rfl, rfl, rfl⟩, ⟨rfl, rfl, rfl, rfl, rfl, rfl, rfl, rfl⟩,
    ⟨rfl, rfl, rfl, rfl, rfl, rfl, rfl, rfl⟩, ⟨rfl, rfl, rfl, rfl, rfl, rfl, rfl, rfl⟩,
    ⟨rfl, rfl, rfl, rfl, rfl, rfl, rfl, rfl, rfl, rfl⟩, ⟨rfl, rfl, rfl, rfl, rfl⟩⟩

namespace Informix

/-! ### `structure` and `dropAll` -/

/-- The loop executes every text while the codes are 0 or the ignored code. -/
theorem executeAll_all (be : Backend) (ignored : Int) (what : String) (stmts : List String)
    (h : ∀ hist s, s ∈ stmts → (be.exec hist s).code = 0 ∨ (be.exec hist s).code = ignored) :
    ∀ tr, executeAll be ignored what (stmts.map .ok) tr = (tr ++ stmts, .ok ()) := by
  induction stmts with
  | nil => intro tr; simp [executeAll]
  | cons s rest ih =>
    intro tr
    have hs := h tr s (List.mem_cons_self _ _)
    have hn : ¬ ((be.exec tr s).code ≠ 0 ∧ (be.exec tr s).code ≠ ignored) := by
      rcases hs with h0 | h0 <;> simp [h0]
    simp only [List.map_cons, executeAll, if_neg hn]
    rw [ih (fun hist x hx => h hist x (List.mem_cons_of_mem _ hx))]
    simp

/-- The loop stops at the first text that is answered with a non-zero code other than the
ignored one, and throws with that code. -/
theorem executeAll_stops (be : Backend) (ignored : Int) (what : String) (pre : List String)
    (s : String) (post : List (Except Exc String))
    (h : ∀ hist x, x ∈ pre → (be.exec hist x).code = 0 ∨ (be.exec hist x).code = ignored) :
    ∀ tr, (be.exec (tr ++ pre) s).code ≠ 0 → (be.exec (tr ++ pre) s).code ≠ ignored →
      executeAll be ignored what (pre.map .ok ++ .ok s :: post) tr
        = (tr ++ pre ++ [s], .error (.informix what (be.exec (tr ++ pre) s).code)) := by
  induction pre with
  | nil =>
    intro tr h1 h2
    simp only [List.append_nil] at h1 h2
    simp only [List.map_nil, List.nil_append, executeAll, List.append_nil]
    rw [if_pos ⟨h1, h2⟩]
  | cons a rest ih =>
    intro tr h1 h2
    have ha := h tr a (List.mem_cons_self _ _)
    have hn : ¬ ((be.exec tr a).code ≠ 0 ∧ (be.exec tr a).code ≠ ignored) := by
      rcases ha with h0 | h0 <;> simp [h0]
    have e : (a :: rest).map Except.ok ++ Except.ok s :: post
        = Except.ok a :: (rest.map Except.ok ++ Except.ok s :: post) := rfl
    rw [e, executeAll, if_neg hn]
    have h1b : (be.exec (tr ++ [a] ++ rest) s).code ≠ 0 := by simpa using h1
    have h2b : (be.exec (tr ++ [a] ++ rest) s).code ≠ ignored := by simpa using h2
    rw [ih (fun hist x hx => h hist x (List.mem_cons_of_mem _ hx)) (tr ++ [a]) h1b h2b]
    simp

/-- C26: on an established connection `structure` executes the create text of the main table
and of every repeated group, treating code -310 (already exists) like 0: when every text is
answered with 0 or -310 all of them are executed, in order, and nothing is thrown; the first
text that is answered with any other non-zero code ends the call with `create failed` and that
code.  `dropAll` does the same with its drop texts and code -206 (does not exist), and -310
is an error for `dropAll` as -206 is for `structure`. -/
theorem structure_idempotent (be : Backend) (c : Conn) (hcon : 0 < c.conNr) :
    (∀ (first : String) (rest : List String),
      (∀ hist s, s ∈ first :: rest →
        (be.exec hist s).code = 0 ∨ (be.exec hist s).code = -310) →
      (structureTables be c (.ok first) (rest.map .ok)).trace = first :: rest ∧
      (structureTables be c (.ok first) (rest.map .ok)).out = .ok ()) ∧
    (∀ (pre : List String) (s : String) (post : List (Except Exc String))
        (first : Except Exc String) (rest : List (Except Exc String)),
      first :: rest = pre.map .ok ++ .ok s :: post →
      (∀ hist x, x ∈ pre → (be.exec hist x).code = 0 ∨ (be.exec hist x).code = -310) →
      (be.exec pre s).code ≠ 0 → (be.exec pre s).code ≠ -310 →
      (structureTables be c first rest).trace = pre ++ [s] ∧
      (structureTables be c first rest).out
        = .error (.informix "create failed" (be.exec pre s).code)) ∧
    (∀ (first : String) (rest : List String),
      (∀ hist s, s ∈ first :: rest →
        (be.exec hist s).code = 0 ∨ (be.exec hist s).code = -206) →
      (dropAll be c (.ok first) (rest.map .ok)).trace = first :: rest ∧
      (dropAll be c (.ok first) (rest.map .ok)).out = .ok ()) ∧
    (∀ (pre : List String) (s : String) (post : List (Except Exc String))
        (first : Except Exc String) (rest : List (Except Exc String)),
      first :: rest = pre.map .ok ++ .ok s :: post →
      (∀ hist x, x ∈ pre → (be.exec hist x).code = 0 ∨ (be.exec hist x).code = -206) →
      (be.exec pre s).code ≠ 0 → (be.exec pre s).code ≠ -206 →
      (dropAll be c first rest).trace = pre ++ [s] ∧
      (dropAll be c first rest).out
        = .error (.informix "dropAll failed" (be.exec pre s).code)) := by
  refine ⟨?_, ?_, ?_, ?_⟩
  · intro first rest h
    have := executeAll_all be EXISTS "create failed" (first :: rest) h []
    simp only [List.map_cons, List.nil_append] at this
    simp only [structureTables, openConnection_connected be c hcon, this, and_self]
  · intro pre s post first rest heq h h1 h2
    have := executeAll_stops be EXISTS "create failed" pre s post h []
      (by simpa using h1) (by simpa using h2)
    simp only [List.nil_append] at this
    simp only [structureTables, openConnection_connected be c hcon, heq, this, and_self]
  · intro first rest h
    have := executeAll_all be EXISTSNOT "dropAll failed" (first :: rest) h []
    simp only [List.map_cons, List.nil_append] at this
    simp only [dropAll, openConnection_connected be c hcon, this, and_self]
  · intro pre s post first rest heq h h1 h2
    have := executeAll_stops be EXISTSNOT "dropAll failed" pre s post h []
      (by simpa using h1) (by simpa using h2)
    simp only [List.nil_append] at this
    simp only [dropAll, openConnection_connected be c hcon, heq, this, and_self]

/-- Witness for C26: both tables exist already; both create texts are executed and nothing is
thrown, while `dropAll` stops at the first text that is answered with -310. -/
theorem structure_idempotent_witness :
    (structureTables exampleExisting exampleConn (.ok "C1") [.ok "C2"]).trace = ["C1", "C2"] ∧
    (structureTables exampleExisting exampleConn (.ok "C1") [.ok "C2"]).out = .ok () ∧
    (dropAll exampleExisting exampleConn (.ok "C1") [.ok "C2"]).trace = ["C1"] :=
  have h := (structure_idempotent exampleExisting exampleConn (by decide)).1 "C1" ["C2"]
    (by
      intro hist s hs
      simp only [List.mem_cons, List.mem_singleton, List.not_mem_nil, or_false] at hs
      rcases hs with rfl | rfl <;> right <;> rfl)
  ⟨h.1, h.2, by decide⟩

end Informix
namespace Informix

/-! ### The transaction hooks -/

/-- C27: the transaction hooks of an established relational connection form the machine
unbound, bound(T), unbound.  On an unbound connection `startTransaction(T)` submits
`BEGIN WORK;` and binds T (and stays unbound when the statement fails); repeated for the same T
it submits nothing.  On a connection bound to T `endTransaction(T)` submits `COMMIT WORK;` and
`rollbackTransaction` submits `ROLLBACK WORK;`, and either unbinds when its statement succeeds
and leaves the connection bound to T when it fails.  On an unbound connection
`endTransaction` and `rollbackTransaction` submit nothing. -/
theorem transaction_state_machine (be : Backend) (c : Conn) (t : Nat) (any : Option Nat)
    (hcon : 0 < c.conNr) :
    (c.currentTransaction = none →
      (startTransaction be c (some t)).trace = [.beginWork] ∧
      ((be.exec [] Stmt.beginWork.text).code = 0 →
        (startTransaction be c (some t)).conn = { c with currentTransaction := some t } ∧
        (startTransaction be c (some t)).out = .ok ()) ∧
      ((be.exec [] Stmt.beginWork.text).code ≠ 0 →
        (startTransaction be c (some t)).conn = c ∧
        (startTransaction be c (some t)).out
          = .error (.informix "Transaction failed" (be.exec [] Stmt.beginWork.text).code)) ∧
      endTransaction be c any = ⟨c, [], .ok ()⟩ ∧
      rollbackTransaction be c any = ⟨c, [], .ok ()⟩) ∧
    (c.currentTransaction = some t →
      startTransaction be c (some t) = ⟨c, [], .ok ()⟩ ∧
      (endTransaction be c (some t)).trace = [.commitWork] ∧
      (rollbackTransaction be c any).trace = [.rollbackWork] ∧
      ((be.exec [] Stmt.commitWork.text).code = 0 →
        (endTransaction be c (some t)).conn = { c with currentTransaction := none } ∧
        (endTransaction be c (some t)).out = .ok ()) ∧
      ((be.exec [] Stmt.commitWork.text).code ≠ 0 →
        (endTransaction be c (some t)).conn = c ∧
        (endTransaction be c (some t)).out
          = .error (.informix "Transaction failed" (be.exec [] Stmt.commitWork.text).code)) ∧
      ((be.exec [] Stmt.rollbackWork.text).code = 0 →
        (rollbackTransaction be c any).conn = { c with currentTransaction := none } ∧
        (rollbackTransaction be c any).out = .ok ()) ∧
      ((be.exec [] Stmt.rollbackWork.text).code ≠ 0 →
        (rollbackTransaction be c any).conn = c ∧
        (rollbackTransaction be c any).out
          = .error (.informix "Transaction failed"
              (be.exec [] Stmt.rollbackWork.text).code))) := by
  refine ⟨fun hn => ⟨?_, ?_, ?_, ?_, ?_⟩, fun hb => ⟨?_, ?_, ?_, ?_, ?_, ?_, ?_⟩⟩
  · simp only [startTransaction, openConnection_connected be c hcon, hn, submit]
    split_ifs <;> rfl
  · intro h0
    simp only [startTransaction, openConnection_connected be c hcon, hn, submit, List.map_nil,
      h0, ne_eq, not_true_eq_false, if_false, and_self]
  · intro h0
    simp only [startTransaction, openConnection_connected be c hcon, hn, submit, List.map_nil,
      ne_eq, h0, not_false_eq_true, if_true, and_self]
  · simp only [endTransaction, hn]
  · simp only [rollbackTransaction, hn]
  · simp only [startTransaction, openConnection_connected be c hcon, hb, ne_eq,
      not_true_eq_false, if_false]
  · simp only [endTransaction, hb, ne_eq, not_true_eq_false, if_false, submit]
    split_ifs <;> rfl
  · simp only [rollbackTransaction, hb, submit]
    split_ifs <;> rfl
  · intro h0
    simp only [endTransaction, hb, ne_eq, not_true_eq_false, if_false, submit, List.map_nil, h0,
      and_self]
  · intro h0
    simp only [endTransaction, hb, ne_eq, not_true_eq_false, if_false, submit, List.map_nil, h0,
      not_false_eq_true, if_true, and_self]
  · intro h0
    simp only [rollbackTransaction, hb, submit, List.map_nil, h0, ne_eq, not_true_eq_false,
      if_false, and_self]
  · intro h0
    simp only [rollbackTransaction, hb, submit, List.map_nil, ne_eq, h0, not_false_eq_true,
      if_true, and_self]

/-- Witness for C27: the unbound connection is bound to transaction 7 by `BEGIN WORK;`, and
the connection bound to 7 is unbound by `COMMIT WORK;`. -/
theorem transaction_state_machine_witness :
    startTransaction exampleServer exampleConn (some 7) = ⟨exampleBound, [.beginWork], .ok ()⟩ ∧
    endTransaction exampleServer exampleBound (some 7) = ⟨exampleConn, [.commitWork], .ok ()⟩ ∧
    (rollbackTransaction exampleServer exampleConn none).trace = [] :=
  have h := (transaction_state_machine exampleServer exampleConn 7 none (by decide)).1 rfl
  ⟨rfl, rfl, by rw [h.2.2.2.2]⟩

/-! ### `load` -/

theorem open_no_row (srv : CursorServer) (hq : srv.queryCode = 0)
    (hb : srv.bufferNeeded ≤ 32768) (ho : srv.openCode = 0)
    (hf : (fetchReply srv.replies).1.1 = NOMOREROWS) :
    InformixCursor.open srv = .ok { fldCnt := srv.fldCnt, pending := (fetchReply srv.replies).2 } := by
  have h1 : ¬ srv.bufferNeeded > 32768 := by omega
  have h2 : (fetchReply srv.replies).1.1 ≠ 0 := by rw [hf]; decide
  have h3 : ¬ (fetchReply srv.replies).1.1 ≠ NOMOREROWS := by rw [hf]; simp
  unfold InformixCursor.open
  rw [if_neg (by rw [hq]; simp), if_neg h1, if_neg (by rw [ho]; simp), if_pos h2, if_neg h3]

theorem open_row (srv : CursorServer) (hq : srv.queryCode = 0)
    (hb : srv.bufferNeeded ≤ 32768) (ho : srv.openCode = 0)
    (hf : (fetchReply srv.replies).1.1 = 0) :
    InformixCursor.open srv
      = .ok { descPtr := some (fetchReply srv.replies).1.2, fldCnt := srv.fldCnt,
              pending := (fetchReply srv.replies).2 } := by
  have h1 : ¬ srv.bufferNeeded > 32768 := by omega
  simp only [InformixCursor.open, hq, ne_eq, not_true_eq_false, if_false, h1, ho, hf]

/-- A cursor that `open` returns stands on a row only if the first fetch delivered that row
with code 0. -/
theorem open_descPtr (srv : CursorServer) (cursor : InformixCursor) (row : Row)
    (h : InformixCursor.open srv = .ok cursor) (hd : cursor.descPtr = some row) :
    (fetchReply srv.replies).1.1 = 0 ∧ (fetchReply srv.replies).1.2 = row := by
  unfold InformixCursor.open at h
  split_ifs at h with h1 h2 h3 h4 h5
  · injection h with h
    subst h
    cases hd
  · injection h with h
    subst h
    injection hd with hd
    exact ⟨not_not.mp h4, hd⟩

end Informix

namespace Mongo

theorem find_one_none (coll : List Document) (filter : Document)
    (h : ∀ d, d ∈ coll → matchesFilter filter d = false) : find_one coll filter = none := by
  unfold find_one
  rw [List.find?_eq_none]
  intro d hd
  simp [h d hd]

end Mongo

namespace XmlParser

/-! ### The XML parser: the monad -/

theorem bind_apply {α β : Type} (m : Parse α) (f : α → Parse β) (s : XmlParser) :
    (m >>= f) s =
      match m s with
      | .ok a s1 => f a s1
      | .thrown e s1 => .thrown e s1
      | .unfinished s1 => .unfinished s1 := rfl

theorem pure_apply {α : Type} (a : α) (s : XmlParser) : (pure a : Parse α) s = .ok a s := rfl

theorem Holds.bind {α β : Type} {P : XmlParser → Prop} {Q : α → XmlParser → Prop}
    {R : β → XmlParser → Prop} {E U : XmlParser → Prop} {m : Parse α} {f : α → Parse β}
    (hm : Holds P m Q E U) (hf : ∀ a, Holds (Q a) (f a) R E U) : Holds P (m >>= f) R E U := by
  intro s hs
  have h := hm s hs
  rw [bind_apply]
  cases hr : m s with
  | ok a s1 =>
    rw [hr] at h
    exact hf a s1 h
  | thrown e s1 =>
    rw [hr] at h
    exact h
  | unfinished s1 =>
    rw [hr] at h
    exact h

theorem Holds.pure {α : Type} {P : XmlParser → Prop} {Q : α → XmlParser → Prop}
    {E U : XmlParser → Prop} (a : α) (h : ∀ s, P s → Q a s) :
    Holds P (Pure.pure a : Parse α) Q E U := by
  intro s hs
  exact h s hs

theorem Holds.raise {α : Type} {P : XmlParser → Prop} {Q : α → XmlParser → Prop}
    {E U : XmlParser → Prop} (what : String) (args : List (List Char)) (h : ∀ s, P s → E s) :
    Holds P (raise what args : Parse α) Q E U := by
  intro s hs
  exact h s hs

theorem Holds.outOfFuel {α : Type} {P : XmlParser → Prop} {Q : α → XmlParser → Prop}
    {E U : XmlParser → Prop} (h : ∀ s, P s → U s) :
    Holds P (outOfFuel : Parse α) Q E U := by
  intro s hs
  exact h s hs

theorem Holds.ite {α : Type} {P : XmlParser → Prop} {Q : α → XmlParser → Prop}
    {E U : XmlParser → Prop} (c : Prop) [Decidable c] {m1 m2 : Parse α}
    (h1 : c → Holds P m1 Q E U) (h2 : ¬ c → Holds P m2 Q E U) :
    Holds P (if c then m1 else m2) Q E U := by
  by_cases hc : c
  · rw [if_pos hc]; exact h1 hc
  · rw [if_neg hc]; exact h2 hc

theorem Holds.weaken {α : Type} {P P2 : XmlParser → Prop} {Q Q2 : α → XmlParser → Prop}
    {E E2 U U2 : XmlParser → Prop} {m : Parse α} (h : Holds P m Q E U)
    (hp : ∀ s, P2 s → P s) (hq : ∀ a s, Q a s → Q2 a s) (he : ∀ s, E s → E2 s)
    (hu : ∀ s, U s → U2 s) : Holds P2 m Q2 E2 U2 := by
  intro s hs
  have h1 := h s (hp s hs)
  cases hr : m s with
  | ok a s1 => rw [hr] at h1; exact hq a s1 h1
  | thrown e s1 => rw [hr] at h1; exact he s1 h1
  | unfinished s1 => rw [hr] at h1; exact hu s1 h1

/-- A fact that does not depend on the state can be taken out of the precondition. -/
theorem Holds.assume {α : Type} {P : XmlParser → Prop} {Q : α → XmlParser → Prop}
    {E U : XmlParser → Prop} {m : Parse α} (c : Prop) (h : c → Holds P m Q E U) :
    Holds (fun s => P s ∧ c) m Q E U := by
  intro s hs
  exact h hs.2 s hs.1

theorem Holds.getState {P : XmlParser → Prop} {E U : XmlParser → Prop} :
    Holds P getState (fun a s => P s ∧ a = s) E U := by
  intro s hs
  exact ⟨hs, rfl⟩

theorem Holds.of_framed {α : Type} {P E U : XmlParser → Prop} {m : Parse α} (hm : Framed m)
    (hP : Stable P) (hE : ∀ s, P s → E s) (hU : ∀ s, P s → U s) :
    Holds P m (fun _ => P) E U := by
  intro s hs
  have h := hm s
  cases hr : m s with
  | ok a s1 =>
    rw [hr] at h
    exact hP s s1 h.1 h.2 hs
  | thrown e s1 =>
    rw [hr] at h
    exact hE s1 (hP s s1 h.1 h.2 hs)
  | unfinished s1 =>
    rw [hr] at h
    exact hU s1 (hP s s1 h.1 h.2 hs)

theorem framed_bind {α β : Type} {m : Parse α} {f : α → Parse β} (hm : Framed m)
    (hf : ∀ a, Framed (f a)) : Framed (m >>= f) := by
  intro s
  have h := hm s
  rw [bind_apply]
  cases hr : m s with
  | ok a s1 =>
    rw [hr] at h
    have h2 := hf a s1
    exact ⟨h2.1.trans h.1, h2.2.trans h.2⟩
  | thrown e s1 =>
    rw [hr] at h
    exact h
  | unfinished s1 =>
    rw [hr] at h
    exact h

theorem framed_pure {α : Type} (a : α) : Framed (Pure.pure a : Parse α) :=
  fun _ => ⟨rfl, rfl⟩

theorem framed_ite {α : Type} (c : Prop) [Decidable c] {m1 m2 : Parse α}
    (h1 : Framed m1) (h2 : Framed m2) : Framed (if c then m1 else m2) := by
  by_cases hc : c
  · rw [if_pos hc]; exact h1
  · rw [if_neg hc]; exact h2

theorem framed_raise {α : Type} (what : String) (args : List (List Char)) :
    Framed (raise what args : Parse α) := fun _ => ⟨rfl, rfl⟩

theorem framed_getState : Framed getState := fun _ => ⟨rfl, rfl⟩

theorem framed_parse2LT : Framed parse2LT := fun _ => ⟨rfl, rfl⟩

theorem framed_parse2GT : Framed parse2GT := by
  intro s
  unfold parse2GT
  split <;> exact ⟨rfl, rfl⟩

theorem framed_parse2Char (c : Char) : Framed (parse2Char c) := by
  intro s
  unfold parse2Char
  split <;> exact ⟨rfl, rfl⟩

theorem framed_parse2Com : Framed parse2Com := by
  intro s
  unfold parse2Com
  split <;> exact ⟨rfl, rfl⟩

theorem framed_parse2CD : Framed parse2CD := by
  intro s
  unfold parse2CD
  split <;> exact ⟨rfl, rfl⟩

theorem framed_getValue : Framed getValue := by
  intro s
  unfold getValue
  split <;> exact ⟨rfl, rfl⟩

theorem framed_clearValue : Framed clearValue := fun _ => ⟨rfl, rfl⟩

theorem framed_setLastKey (key : List Char) : Framed (setLastKey key) := fun _ => ⟨rfl, rfl⟩

theorem framed_saveValue : Framed saveValue := by
  intro s
  unfold saveValue
  split
  · exact ⟨rfl, rfl⟩
  · split <;> exact ⟨rfl, rfl⟩

theorem framed_eatChar (c : Char) : Framed (eatChar c) := by
  intro s
  unfold eatChar
  split <;> exact ⟨rfl, rfl⟩

theorem framed_eat : Framed eat := fun _ => ⟨rfl, rfl⟩

theorem framed_peek : Framed peek := by
  intro s
  unfold peek
  split <;> exact ⟨rfl, rfl⟩

theorem framed_eatQuote (c : Char) : Framed (eatQuote c) :=
  framed_ite (c = dquote) (framed_eatChar _) (framed_eatChar _)

theorem framed_throwIf (c : Prop) [Decidable c] (what : String) (args : List (List Char)) :
    Framed (throwIf c what args) :=
  framed_ite c (framed_raise what args) (framed_pure ())

theorem framed_quoted : Framed quoted := by
  unfold quoted
  refine framed_bind (framed_eatChar _) (fun _ => ?_)
  refine framed_bind framed_peek (fun c => ?_)
  refine framed_bind (framed_eatQuote c) (fun _ => ?_)
  refine framed_bind (framed_parse2Char _) (fun _ => ?_)
  refine framed_bind framed_getValue (fun v => ?_)
  refine framed_bind (framed_eatChar _) (fun _ => ?_)
  exact framed_pure v

end XmlParser
namespace XmlParser

/-! ### The XML parser: tag paths and nesting -/

theorem openElements_append (cs : List Call) (c : Call) :
    openElements (cs ++ [c]) = stepOpen (openElements cs) c := by
  simp [openElements, List.foldl_append]

theorem matching_append (stack : List (List Char)) (cs : List Call) (c : Call) :
    matching stack (cs ++ [c]) = (matching stack cs && closes (cs.foldl stepOpen stack) c) := by
  induction cs generalizing stack with
  | nil => simp [matching]
  | cons a rest ih => simp [matching, ih, Bool.and_assoc]

theorem pathsRight_nil : PathsRight [] := by
  intro pre c path post h
  simp at h

theorem pathsRight_append (log : List (Call × List (List Char))) (c : Call)
    (path : List (List Char)) (h : PathsRight log) (hp : path = pathAt (log.map Prod.fst) c) :
    PathsRight (log ++ [(c, path)]) := by
  intro pre c2 path2 post heq
  rcases List.eq_nil_or_concat post with hnil | ⟨post2, z, hz⟩
  · subst hnil
    have := List.append_inj' heq rfl
    obtain ⟨h1, h2⟩ := this
    injection h2 with h2 _
    injection h2 with hc hpath
    subst h1 hc hpath
    exact hp
  · subst hz
    have heq2 : log ++ [(c, path)] = (pre ++ (c2, path2) :: post2) ++ [z] := by
      rw [heq]; simp
    have := List.append_inj' heq2 rfl
    exact h pre c2 path2 post2 this.1

theorem stable_Inv : Stable Inv := by
  intro s t ht hc h
  unfold Inv at h ⊢
  rw [ht, hc]
  exact h

theorem stable_InvHead (element : List Char) : Stable (InvHead element) := by
  intro s t ht hc h
  unfold InvHead at h ⊢
  exact ⟨stable_Inv s t ht hc h.1, by rw [ht]; exact h.2⟩

theorem inv_thrown (s : XmlParser) (h : Inv s) : InvThrown s := h.1

theorem invHead_thrown (element : List Char) (s : XmlParser) (h : InvHead element s) :
    InvThrown s := h.1.1

/-- A call that neither opens nor closes an element keeps the invariant. -/
theorem inv_call_plain (c : Call) (hc : plainCall c = true) (s : XmlParser) (h : Inv s) :
    Inv { s with calls := s.calls ++ [(c, s.tags)] } := by
  obtain ⟨h1, h2, h3⟩ := h
  have hstep : ∀ stack, stepOpen stack c = stack := by
    intro stack; cases c <;> simp_all [plainCall, stepOpen]
  have hclose : ∀ stack, closes stack c = true := by
    intro stack; cases c <;> simp_all [plainCall, closes]
  have hpath : ∀ before, pathAt before c = openElements before := by
    intro before; cases c <;> simp_all [plainCall, pathAt]
  refine ⟨?_, ?_, ?_⟩
  · exact pathsRight_append s.calls c s.tags h1 (by rw [hpath]; exact h3)
  · show matching [] ((s.calls ++ [(c, s.tags)]).map Prod.fst) = true
    rw [List.map_append, List.map_singleton, matching_append, h2, hclose]
    rfl
  · show s.tags = openElements ((s.calls ++ [(c, s.tags)]).map Prod.fst)
    rw [List.map_append, List.map_singleton, openElements_append, hstep]
    exact h3

theorem holds_call_plain (c : Call) (hc : plainCall c = true) :
    Holds Inv (call c) (fun _ => Inv) InvThrown InvThrown :=
  fun s h => inv_call_plain c hc s h

theorem holds_call_plain_head (element : List Char) (c : Call) (hc : plainCall c = true) :
    Holds (InvHead element) (call c) (fun _ => InvHead element) InvThrown InvThrown :=
  fun s h => ⟨inv_call_plain c hc s h.1, h.2⟩

/-- The steps `tags.push(element); StartTag(element);`. -/
theorem holds_push_start (element : List Char) :
    Holds Inv (push element >>= fun _ => call (.StartTag element))
      (fun _ => InvHead element) InvThrown InvThrown := by
  intro s h
  obtain ⟨h1, h2, h3⟩ := h
  refine ⟨⟨?_, ?_, ?_⟩, rfl⟩
  · refine pathsRight_append s.calls _ _ h1 ?_
    show element :: s.tags = element :: openElements (s.calls.map Prod.fst)
    rw [← h3]
  · show matching [] ((s.calls ++ [(Call.StartTag element, element :: s.tags)]).map Prod.fst)
      = true
    rw [List.map_append, List.map_singleton, matching_append, h2]
    rfl
  · show element :: s.tags
      = openElements ((s.calls ++ [(Call.StartTag element, element :: s.tags)]).map Prod.fst)
    rw [List.map_append, List.map_singleton, openElements_append, ← h3]
    rfl

/-- The call of `EndTag` or `NullTag` before the stack is popped. -/
theorem holds_call_closing (c : Call) (hc : ∀ before, pathAt before c = openElements before) :
    Holds Inv (call c) (fun _ s => Closing c s) InvThrown InvThrown := by
  intro s h
  obtain ⟨h1, h2, h3⟩ := h
  refine ⟨?_, s.calls.map Prod.fst, ?_, h2, h3⟩
  · exact pathsRight_append s.calls c s.tags h1 (by rw [hc]; exact h3)
  · show (s.calls ++ [(c, s.tags)]).map Prod.fst = _
    rw [List.map_append, List.map_singleton]

/-- After a closing call that names the innermost open element, `tags.pop()` restores the
invariant. -/
theorem holds_pop (c : Call) (hstep : ∀ stack, stepOpen stack c = stack.tail) :
    Holds (fun s => Closing c s ∧ closes s.tags c = true) pop (fun _ => Inv) InvThrown InvThrown := by
  intro s h
  obtain ⟨⟨h1, log, hlog, h2, h3⟩, h4⟩ := h
  refine ⟨h1, ?_, ?_⟩
  · show matching [] (s.calls.map Prod.fst) = true
    rw [hlog, matching_append, h2]
    show (true && closes (openElements log) c) = true
    rw [← h3, h4]
    rfl
  · show s.tags.tail = openElements (s.calls.map Prod.fst)
    rw [hlog, openElements_append, hstep, h3]

theorem Holds.throwIf {P E U : XmlParser → Prop} (c : Prop) [Decidable c] (what : String)
    (args : List (List Char)) (hE : ∀ s, P s → E s) :
    Holds P (throwIf c what args) (fun _ s => P s ∧ ¬ c) E U := by
  unfold XmlParser.throwIf
  refine Holds.ite c (fun _ => Holds.raise what args hE) (fun hc => ?_)
  exact Holds.pure () (fun s hs => ⟨hs, hc⟩)

theorem Holds.framed_inv {α : Type} {m : Parse α} (hm : Framed m) :
    Holds Inv m (fun _ => Inv) InvThrown InvThrown :=
  Holds.of_framed hm stable_Inv inv_thrown inv_thrown

theorem Holds.framed_head {α : Type} {m : Parse α} (element : List Char) (hm : Framed m) :
    Holds (InvHead element) m (fun _ => InvHead element) InvThrown InvThrown :=
  Holds.of_framed hm (stable_InvHead element) (invHead_thrown element)
    (invHead_thrown element)

theorem holds_parseHeader (fuel : Nat) :
    Holds Inv (parseHeader fuel) (fun _ => Inv) InvThrown InvThrown := by
  induction fuel with
  | zero => exact Holds.outOfFuel inv_thrown
  | succ n ih =>
    unfold parseHeader
    refine Holds.bind (Holds.framed_inv framed_peek) (fun c => ?_)
    refine Holds.ite _ (fun _ => Holds.pure () (fun s h => h)) (fun _ => ?_)
    refine Holds.bind (Holds.framed_inv (framed_eatChar _)) (fun _ => ?_)
    refine Holds.bind (Holds.framed_inv framed_parse2GT) (fun _ => ?_)
    refine Holds.bind (Holds.framed_inv framed_getValue) (fun a => ?_)
    refine Holds.bind (Holds.framed_inv framed_quoted) (fun v => ?_)
    refine Holds.bind (holds_call_plain _ rfl) (fun _ => ?_)
    exact ih

theorem holds_parseInstruction (element : List Char) (fuel : Nat) :
    Holds Inv (parseInstruction element fuel) (fun _ => Inv) InvThrown InvThrown := by
  induction fuel with
  | zero => exact Holds.outOfFuel inv_thrown
  | succ n ih =>
    unfold parseInstruction
    refine Holds.bind (Holds.framed_inv framed_peek) (fun c => ?_)
    refine Holds.ite _ (fun _ => ?_) (fun _ => ?_)
    · refine Holds.bind (Holds.framed_inv framed_eat) (fun _ => ?_)
      exact holds_call_plain _ rfl
    · refine Holds.bind (Holds.framed_inv (framed_eatChar _)) (fun _ => ?_)
      refine Holds.bind (Holds.framed_inv framed_parse2GT) (fun _ => ?_)
      refine Holds.bind (Holds.framed_inv framed_getValue) (fun a => ?_)
      refine Holds.bind (Holds.framed_inv framed_peek) (fun c2 => ?_)
      refine Holds.bind (Holds.framed_inv
        (framed_ite (c2 = '=') framed_quoted (framed_pure []))) (fun v => ?_)
      refine Holds.bind (holds_call_plain _ rfl) (fun _ => ?_)
      exact ih

theorem holds_parseAttributes (element : List Char) (fuel : Nat) :
    Holds (InvHead element) (parseAttributes element fuel) (fun _ => Inv) InvThrown InvThrown := by
  induction fuel with
  | zero => exact Holds.outOfFuel (invHead_thrown element)
  | succ n ih =>
    unfold parseAttributes
    refine Holds.bind (Holds.framed_head element framed_peek) (fun c => ?_)
    refine Holds.ite _ (fun _ => ?_) (fun _ => Holds.ite _ (fun _ => ?_) (fun _ => ?_))
    · refine Holds.bind (Holds.framed_head element framed_eat) (fun _ => ?_)
      exact Holds.weaken (Holds.framed_inv framed_parse2LT) (fun s h => h.1)
        (fun _ _ h => h) (fun _ h => h) (fun _ h => h)
    · refine Holds.bind (Holds.framed_head element framed_eat) (fun _ => ?_)
      refine Holds.bind (Holds.framed_head element (framed_eatChar _)) (fun _ => ?_)
      refine Holds.bind (Q := fun _ s => Closing (.NullTag element) s
          ∧ closes s.tags (.NullTag element) = true) ?_ (fun _ => ?_)
      · intro s h
        have h1 := holds_call_closing (.NullTag element) (fun _ => rfl) s h.1
        refine ⟨h1, ?_⟩
        show decide (s.tags.head? = some element) = true
        simp [h.2]
      · refine Holds.bind (holds_pop (.NullTag element) (fun _ => rfl)) (fun _ => ?_)
        exact Holds.framed_inv framed_parse2LT
    · refine Holds.bind (Holds.framed_head element (framed_eatChar _)) (fun _ => ?_)
      refine Holds.bind (Holds.framed_head element framed_parse2GT) (fun _ => ?_)
      refine Holds.bind (Holds.framed_head element framed_getValue) (fun a => ?_)
      refine Holds.bind (Holds.framed_head element framed_quoted) (fun v => ?_)
      refine Holds.bind (holds_call_plain_head element _ rfl) (fun _ => ?_)
      exact ih

theorem holds_parseEndTag : Holds Inv parseEndTag (fun _ => Inv) InvThrown InvThrown := by
  unfold parseEndTag
  refine Holds.bind (Holds.framed_inv framed_eat) (fun _ => ?_)
  refine Holds.bind (Holds.framed_inv framed_parse2GT) (fun _ => ?_)
  refine Holds.bind (Holds.framed_inv framed_getValue) (fun element => ?_)
  refine Holds.bind (Holds.framed_inv (framed_throwIf _ _ _)) (fun _ => ?_)
  refine Holds.bind (Holds.framed_inv framed_getState) (fun s0 => ?_)
  refine Holds.bind (Q := fun _ => Inv) ?_ (fun _ => ?_)
  · refine Holds.ite _ (fun _ => ?_) (fun _ => Holds.pure () (fun s h => h))
    refine Holds.bind (holds_call_plain _ rfl) (fun _ => ?_)
    refine Holds.bind (Holds.framed_inv framed_clearValue) (fun _ => ?_)
    exact Holds.framed_inv (framed_setLastKey _)
  · refine Holds.bind (holds_call_closing (.EndTag element) (fun _ => rfl)) (fun _ => ?_)
    refine Holds.bind Holds.getState (fun s1 => ?_)
    refine Holds.bind (Holds.throwIf _ _ _ (fun s h => h.1.1)) (fun _ => ?_)
    refine Holds.bind (Holds.throwIf _ _ _ (fun s h => h.1.1.1)) (fun _ => ?_)
    refine Holds.bind (Holds.weaken (holds_pop (.EndTag element) (fun _ => rfl)) ?_
      (fun _ _ h => h) (fun _ h => h) (fun _ h => h)) (fun _ => ?_)
    · intro s h
      obtain ⟨⟨⟨hc, heq⟩, _⟩, hh⟩ := h
      subst heq
      refine ⟨hc, ?_⟩
      show decide (s1.tags.head? = some element) = true
      simpa using hh
    · refine Holds.bind (Holds.framed_inv (framed_eatChar _)) (fun _ => ?_)
      exact Holds.framed_inv framed_parse2LT

theorem holds_parseMarkup : Holds Inv parseMarkup (fun _ => Inv) InvThrown InvThrown := by
  unfold parseMarkup
  refine Holds.bind (Holds.framed_inv framed_eat) (fun _ => ?_)
  refine Holds.bind (Holds.framed_inv framed_peek) (fun c => ?_)
  refine Holds.bind (Q := fun _ => Inv) ?_ (fun _ => ?_)
  · refine Holds.ite _ (fun _ => ?_) (fun _ => ?_)
    · refine Holds.bind (Holds.framed_inv (framed_eatChar _)) (fun _ => ?_)
      refine Holds.bind (Holds.framed_inv (framed_eatChar _)) (fun _ => ?_)
      refine Holds.bind (Holds.framed_inv (framed_eatChar _)) (fun _ => ?_)
      refine Holds.bind (Holds.framed_inv (framed_eatChar _)) (fun _ => ?_)
      refine Holds.bind (Holds.framed_inv (framed_eatChar _)) (fun _ => ?_)
      refine Holds.bind (Holds.framed_inv (framed_eatChar _)) (fun _ => ?_)
      refine Holds.bind (Holds.framed_inv (framed_eatChar _)) (fun _ => ?_)
      refine Holds.bind (Holds.framed_inv framed_parse2CD) (fun _ => ?_)
      refine Holds.bind (Holds.framed_inv framed_saveValue) (fun _ => ?_)
      refine Holds.bind (Holds.framed_inv framed_getState) (fun s0 => ?_)
      refine Holds.bind (holds_call_plain _ rfl) (fun _ => ?_)
      refine Holds.bind (Holds.framed_inv framed_clearValue) (fun _ => ?_)
      refine Holds.bind (Holds.framed_inv (framed_setLastKey _)) (fun _ => ?_)
      refine Holds.bind (Holds.framed_inv framed_eat) (fun _ => ?_)
      exact Holds.framed_inv framed_eat
    · refine Holds.bind (Holds.framed_inv (framed_eatChar _)) (fun _ => ?_)
      refine Holds.bind (Holds.framed_inv (framed_eatChar _)) (fun _ => ?_)
      exact Holds.framed_inv framed_parse2Com
  · refine Holds.bind (Holds.framed_inv (framed_eatChar _)) (fun _ => ?_)
    exact Holds.framed_inv framed_parse2LT

theorem holds_parseProcessing (fuel : Nat) :
    Holds Inv (parseProcessing fuel) (fun _ => Inv) InvThrown InvThrown := by
  unfold parseProcessing
  refine Holds.bind (Holds.framed_inv framed_eat) (fun _ => ?_)
  refine Holds.bind (Holds.framed_inv framed_parse2GT) (fun _ => ?_)
  refine Holds.bind (Holds.framed_inv framed_getValue) (fun element => ?_)
  refine Holds.bind (holds_parseInstruction element fuel) (fun _ => ?_)
  refine Holds.bind (Holds.framed_inv (framed_eatChar _)) (fun _ => ?_)
  exact Holds.framed_inv framed_parse2LT

theorem holds_parseElement (fuel : Nat) :
    Holds Inv (parseElement fuel) (fun _ => Inv) InvThrown InvThrown := by
  unfold parseElement
  refine Holds.bind (Holds.framed_inv framed_parse2GT) (fun _ => ?_)
  refine Holds.bind (Holds.framed_inv framed_getValue) (fun element => ?_)
  refine Holds.bind (Holds.framed_inv (framed_throwIf _ _ _)) (fun _ => ?_)
  intro s hs
  have h1 := holds_push_start element s hs
  exact Holds.bind (holds_parseAttributes element fuel)
    (fun _ => Holds.framed_inv (framed_setLastKey element)) _ h1

theorem holds_parseRound (fuel : Nat) :
    Holds Inv (parseRound fuel) (fun _ => Inv) InvThrown InvThrown := by
  unfold parseRound
  refine Holds.bind (Holds.framed_inv framed_saveValue) (fun _ => ?_)
  refine Holds.bind (Holds.framed_inv (framed_eatChar _)) (fun _ => ?_)
  refine Holds.bind (Holds.framed_inv framed_peek) (fun c => ?_)
  refine Holds.ite _ (fun _ => holds_parseEndTag) (fun _ => ?_)
  refine Holds.ite _ (fun _ => holds_parseMarkup) (fun _ => ?_)
  exact Holds.ite _ (fun _ => holds_parseProcessing fuel) (fun _ => holds_parseElement fuel)

theorem holds_parseRounds (fuel n : Nat) :
    Holds Inv (parseRounds fuel n) (fun _ => Inv) InvThrown InvThrown := by
  induction n with
  | zero =>
    intro s hs
    by_cases hp : s.pos2 = none
    · have e : parseRounds fuel 0 s = .ok () s := by simp only [parseRounds, hp, if_true]
      rw [e]
      exact hs
    · have e : parseRounds fuel 0 s = .unfinished s := by simp only [parseRounds, hp, if_false]
      rw [e]
      exact inv_thrown s hs
  | succ k ih =>
    intro s hs
    by_cases hp : s.pos2 = none
    · have e : parseRounds fuel (k + 1) s = .ok () s := by
        simp only [parseRounds, hp, if_true]
      rw [e]
      exact hs
    · have e : parseRounds fuel (k + 1) s
          = (parseRound fuel >>= fun _ => parseRounds fuel k) s := by
        simp only [parseRounds, hp, if_false]
      rw [e]
      exact Holds.bind (holds_parseRound fuel) (fun _ => ih) s hs

theorem holds_parseProlog (fuel : Nat) :
    Holds Inv (parseProlog fuel) (fun _ => Inv) InvThrown InvThrown := by
  unfold parseProlog
  refine Holds.bind (Holds.framed_inv framed_eat) (fun _ => ?_)
  refine Holds.bind (Holds.framed_inv framed_parse2GT) (fun _ => ?_)
  refine Holds.bind (Holds.framed_inv framed_getValue) (fun x => ?_)
  refine Holds.bind (Holds.framed_inv (framed_throwIf _ _ _)) (fun _ => ?_)
  refine Holds.bind (holds_parseHeader fuel) (fun _ => ?_)
  refine Holds.bind (Holds.framed_inv (framed_eatChar _)) (fun _ => ?_)
  refine Holds.bind (Holds.framed_inv (framed_eatChar _)) (fun _ => ?_)
  exact Holds.framed_inv framed_parse2LT

theorem framed_update_pos2 (f : XmlParser → Option Nat) :
    Framed (update fun s => { s with pos2 := f s }) := fun _ => ⟨rfl, rfl⟩

theorem holds_parseEnd :
    Holds Inv parseEnd (fun _ s => Inv s ∧ s.tags = []) InvThrown InvThrown := by
  unfold parseEnd
  refine Holds.bind (Holds.framed_inv (framed_update_pos2 _)) (fun _ => ?_)
  refine Holds.bind (Holds.framed_inv framed_saveValue) (fun _ => ?_)
  refine Holds.bind (Holds.framed_inv framed_saveValue) (fun _ => ?_)
  refine Holds.bind Holds.getState (fun s0 => ?_)
  refine Holds.weaken (Holds.throwIf _ _ _ (fun s h => h.1.1)) (fun s h => h) ?_ (fun _ h => h)
    (fun _ h => h)
  intro _ s h
  obtain ⟨⟨hi, heq⟩, hn⟩ := h
  subst heq
  exact ⟨hi, not_not.mp hn⟩

theorem holds_parse : Holds Inv parse (fun _ s => Inv s ∧ s.tags = []) InvThrown InvThrown := by
  unfold parse
  refine Holds.bind (Holds.framed_inv framed_parse2LT) (fun _ => ?_)
  refine Holds.bind (Holds.framed_inv framed_getState) (fun s0 => ?_)
  refine Holds.bind (Holds.framed_inv (framed_throwIf _ _ _)) (fun _ => ?_)
  refine Holds.bind (Holds.framed_inv (framed_eatChar _)) (fun _ => ?_)
  refine Holds.bind (Holds.framed_inv framed_peek) (fun c => ?_)
  refine Holds.bind (Q := fun _ => Inv) ?_ (fun _ => ?_)
  · exact Holds.ite _ (fun _ => holds_parseProlog _) (fun _ => Holds.pure () (fun s h => h))
  · refine Holds.bind (holds_parseRounds _ _) (fun _ => ?_)
    exact holds_parseEnd

theorem inv_new (input : List Char) : Inv { Xml := input } :=
  ⟨pathsRight_nil, rfl, rfl⟩

end XmlParser
namespace XmlParser

/-! ### The XML parser: the loops end -/

theorem findIf_bounds (p : Char → Bool) (l : List Char) (i j : Nat)
    (h : findIf p l i = some j) : i ≤ j ∧ j < i + l.length := by
  induction l generalizing i with
  | nil => simp [findIf] at h
  | cons c rest ih =>
    unfold findIf at h
    split_ifs at h with hc
    · injection h with h
      subst h
      simp
    · have := ih (i + 1) h
      simp only [List.length_cons]
      omega

theorem find_bounds (p : Char → Bool) (X : List Char) (pos j : Nat)
    (h : find p X pos = some j) : pos ≤ j ∧ j < X.length := by
  unfold find at h
  have hb := findIf_bounds p (X.drop pos) pos j h
  rw [List.length_drop] at hb
  omega

theorem findFrom_bounds (pat : List Char) (l : List Char) (i j : Nat)
    (h : findFrom pat l i = some j) : i ≤ j ∧ j < i + l.length := by
  induction l generalizing i with
  | nil => simp [findFrom] at h
  | cons c rest ih =>
    unfold findFrom at h
    split_ifs at h with hc
    · injection h with h
      subst h
      simp
    · have := ih (i + 1) h
      simp only [List.length_cons]
      omega

theorem findStr_bounds (pat X : List Char) (pos j : Nat)
    (h : findStr pat X pos = some j) : pos ≤ j ∧ j < X.length := by
  unfold findStr at h
  have hb := findFrom_bounds pat (X.drop pos) pos j h
  rw [List.length_drop] at hb
  omega

theorem Holds.from_pre {α : Type} {P : XmlParser → Prop} {Q : α → XmlParser → Prop}
    {E U : XmlParser → Prop} {m : Parse α} (c : Prop) (hc : ∀ s, P s → c)
    (h : c → Holds P m Q E U) : Holds P m Q E U :=
  fun s hs => h (hc s hs) s hs

theorem posStable_reached (X : List Char) (k : Nat) : PosStable (Reached X k) := by
  intro s t hx h1 _ h
  exact ⟨hx.trans h.1, by rw [h1]; exact h.2⟩

theorem posStable_found (X : List Char) (k : Nat) : PosStable (Found X k) := by
  intro s t hx h1 h2 h
  obtain ⟨ha, hb, q, hq, hc⟩ := h
  exact ⟨hx.trans ha, by rw [h1]; exact hb, q, by rw [h2]; exact hq, by rw [h1]; exact hc⟩

theorem posStable_searched (X : List Char) (k : Nat) : PosStable (Searched X k) := by
  intro s t hx _ h2 h
  obtain ⟨ha, j, hj, hq⟩ := h
  exact ⟨hx.trans ha, j, hj, by rw [h2]; exact hq⟩

/-- A change of the state that keeps the text and the positions keeps such a property. -/
theorem ends_update {P : XmlParser → Prop} (f : XmlParser → XmlParser)
    (hf : ∀ s, (f s).Xml = s.Xml ∧ (f s).pos1 = s.pos1 ∧ (f s).pos2 = s.pos2)
    (hP : PosStable P) : Ends P (update f) (fun _ => P) :=
  fun s hs => hP s (f s) (hf s).1 (hf s).2.1 (hf s).2.2 hs

theorem ends_call {P : XmlParser → Prop} (c : Call) (hP : PosStable P) :
    Ends P (call c) (fun _ => P) :=
  ends_update _ (fun _ => ⟨rfl, rfl, rfl⟩) hP

theorem ends_clearValue {P : XmlParser → Prop} (hP : PosStable P) :
    Ends P clearValue (fun _ => P) :=
  ends_update _ (fun _ => ⟨rfl, rfl, rfl⟩) hP

theorem ends_setLastKey {P : XmlParser → Prop} (key : List Char) (hP : PosStable P) :
    Ends P (setLastKey key) (fun _ => P) :=
  ends_update _ (fun _ => ⟨rfl, rfl, rfl⟩) hP

theorem ends_push {P : XmlParser → Prop} (element : List Char) (hP : PosStable P) :
    Ends P (push element) (fun _ => P) :=
  ends_update _ (fun _ => ⟨rfl, rfl, rfl⟩) hP

theorem ends_pop {P : XmlParser → Prop} (hP : PosStable P) : Ends P pop (fun _ => P) :=
  ends_update _ (fun _ => ⟨rfl, rfl, rfl⟩) hP

theorem ends_getState {P : XmlParser → Prop} : Ends P getState (fun a s => P s ∧ a = s) :=
  Holds.getState

theorem ends_skip_state {P : XmlParser → Prop} : Ends P getState (fun _ => P) :=
  fun _ hs => hs

theorem ends_throwIf {P : XmlParser → Prop} (c : Prop) [Decidable c] (what : String)
    (args : List (List Char)) : Ends P (throwIf c what args) (fun _ => P) := by
  unfold throwIf
  exact Holds.ite c (fun _ => Holds.raise what args (fun _ _ => trivial))
    (fun _ => Holds.pure () (fun _ hs => hs))

theorem ends_eat (X : List Char) (k : Nat) :
    Ends (Reached X k) eat (fun _ => Reached X (k + 1)) := by
  intro s hs
  exact ⟨hs.1, Nat.succ_le_succ hs.2⟩

theorem ends_eatChar (X : List Char) (k : Nat) (c : Char) :
    Ends (Reached X k) (eatChar c) (fun _ => Reached X (k + 1)) := by
  intro s hs
  unfold eatChar
  split_ifs
  · trivial
  · exact ⟨hs.1, Nat.succ_le_succ hs.2⟩

theorem ends_eatQuote (X : List Char) (k : Nat) (c : Char) :
    Ends (Reached X k) (eatQuote c) (fun _ => Reached X (k + 1)) := by
  unfold eatQuote
  exact Holds.ite _ (fun _ => ends_eatChar X k _) (fun _ => ends_eatChar X k _)

theorem ends_peek (X : List Char) (k : Nat) :
    Ends (Reached X k) peek (fun _ s => Reached X k s ∧ k < X.length) := by
  intro s hs
  unfold peek
  split_ifs with h
  · trivial
  · refine ⟨hs, ?_⟩
    have := hs.2
    rw [hs.1] at h
    omega

theorem ends_parse2GT (X : List Char) (k : Nat) :
    Ends (Reached X k) parse2GT (fun _ => Found X k) := by
  intro s hs
  unfold parse2GT
  cases hp : find (fun c => delimiters.contains c) s.Xml s.pos1 with
  | none => trivial
  | some p => exact ⟨hs.1, hs.2, p, rfl, (find_bounds _ _ _ _ hp).1⟩

theorem ends_parse2Char (X : List Char) (k : Nat) (c : Char) :
    Ends (Reached X k) (parse2Char c) (fun _ => Found X k) := by
  intro s hs
  unfold parse2Char
  cases hp : find (fun x => x = c) s.Xml s.pos1 with
  | none => trivial
  | some p => exact ⟨hs.1, hs.2, p, rfl, (find_bounds _ _ _ _ hp).1⟩

theorem ends_parse2CD (X : List Char) (k : Nat) :
    Ends (Reached X k) parse2CD (fun _ => Found X k) := by
  intro s hs
  unfold parse2CD
  cases hp : findStr "]]>".toList s.Xml s.pos1 with
  | none => trivial
  | some p => exact ⟨hs.1, hs.2, p, rfl, (findStr_bounds _ _ _ _ hp).1⟩

theorem ends_parse2Com (X : List Char) (k : Nat) :
    Ends (Reached X k) parse2Com (fun _ => Reached X k) := by
  intro s hs
  unfold parse2Com
  cases hp : findStr "-->".toList s.Xml s.pos1 with
  | none => trivial
  | some p =>
    refine ⟨hs.1, ?_⟩
    have := (findStr_bounds _ _ _ _ hp).1
    have := hs.2
    show k ≤ p + 2
    omega

theorem ends_getValue (X : List Char) (k : Nat) :
    Ends (Found X k) getValue (fun _ => Reached X k) := by
  intro s hs
  obtain ⟨ha, hb, q, hq, hc⟩ := hs
  unfold getValue
  rw [hq]
  exact ⟨ha, le_trans hb hc⟩

theorem ends_saveValue (X : List Char) (k : Nat) :
    Ends (Found X k) saveValue (fun _ => Reached X k) := by
  intro s hs
  obtain ⟨ha, hb, q, hq, hc⟩ := hs
  unfold saveValue
  split_ifs
  · trivial
  · rw [hq]
    exact ⟨ha, le_trans hb hc⟩

/-- The call of `saveValue()` at the head of the main loop moves `pos1` to `pos2`. -/
theorem ends_saveValue_top (X : List Char) (p : Nat) :
    Ends (fun s => s.Xml = X ∧ s.pos2 = some p) saveValue (fun _ => Reached X p) := by
  intro s hs
  unfold saveValue
  split_ifs
  · trivial
  · rw [hs.2]
    exact ⟨hs.1, le_refl p⟩

theorem ends_saveValue_any {P : XmlParser → Prop} :
    Ends P saveValue (fun _ _ => True) := by
  intro s _
  unfold saveValue
  split_ifs
  · trivial
  · cases s.pos2 <;> trivial

theorem ends_parse2LT (X : List Char) (k : Nat) :
    Ends (Reached X k) parse2LT (fun _ => Searched X k) := by
  intro s hs
  refine ⟨hs.1, s.pos1, hs.2, ?_⟩
  show find (fun c => c = '<') s.Xml s.pos1 = _
  rw [hs.1]

theorem reached_mono (X : List Char) (k : Nat) (s : XmlParser) (h : Reached X (k + 1) s) :
    Reached X k s := ⟨h.1, Nat.le_of_succ_le h.2⟩

theorem Ends.relax {α : Type} {P : XmlParser → Prop} {Q Q2 : α → XmlParser → Prop}
    {m : Parse α} (h : Ends P m Q) (hq : ∀ a s, Q a s → Q2 a s) : Ends P m Q2 :=
  Holds.weaken h (fun _ hs => hs) hq (fun _ hs => hs) (fun _ hs => hs)

theorem Ends.from {α : Type} {P P2 : XmlParser → Prop} {Q : α → XmlParser → Prop}
    {m : Parse α} (h : Ends P m Q) (hp : ∀ s, P2 s → P s) : Ends P2 m Q :=
  Holds.weaken h hp (fun _ _ hs => hs) (fun _ hs => hs) (fun _ hs => hs)

theorem ends_quoted (X : List Char) (k : Nat) :
    Ends (Reached X k) quoted (fun _ => Reached X (k + 1)) := by
  unfold quoted
  refine Holds.bind (ends_eatChar X k _) (fun _ => ?_)
  refine Holds.bind (Ends.relax (ends_peek X (k + 1)) (fun _ _ h => h.1)) (fun c => ?_)
  refine Holds.bind (Ends.relax (ends_eatQuote X (k + 1) c)
    (fun _ s h => reached_mono X (k + 1) s h)) (fun _ => ?_)
  refine Holds.bind (ends_parse2Char X (k + 1) c) (fun _ => ?_)
  refine Holds.bind (ends_getValue X (k + 1)) (fun v => ?_)
  refine Holds.bind (Ends.relax (ends_eatChar X (k + 1) c)
    (fun _ s h => reached_mono X (k + 1) s h)) (fun _ => ?_)
  exact Holds.pure v (fun _ h => h)

theorem ends_parseHeader (X : List Char) (n : Nat) :
    ∀ k, X.length < k + (n + 1) →
      Ends (Reached X k) (parseHeader (n + 1)) (fun _ => Reached X k) := by
  induction n with
  | zero =>
    intro k hk
    unfold parseHeader
    refine Holds.bind (ends_peek X k) (fun c => ?_)
    refine Holds.assume _ (fun hlt => ?_)
    omega
  | succ n ih =>
    intro k hk
    unfold parseHeader
    refine Holds.bind (Ends.relax (ends_peek X k) (fun _ _ h => h.1)) (fun c => ?_)
    refine Holds.ite _ (fun _ => Holds.pure () (fun _ h => h)) (fun _ => ?_)
    refine Holds.bind (ends_eatChar X k _) (fun _ => ?_)
    refine Holds.bind (ends_parse2GT X (k + 1)) (fun _ => ?_)
    refine Holds.bind (ends_getValue X (k + 1)) (fun a => ?_)
    refine Holds.bind (Ends.relax (ends_quoted X (k + 1))
      (fun _ s h => reached_mono X (k + 1) s h)) (fun v => ?_)
    refine Holds.bind (ends_call _ (posStable_reached X (k + 1))) (fun _ => ?_)
    exact Ends.relax (ih (k + 1) (by omega)) (fun _ s h => reached_mono X k s h)

theorem ends_parseInstruction (X : List Char) (element : List Char) (n : Nat) :
    ∀ k, X.length < k + (n + 1) →
      Ends (Reached X k) (parseInstruction element (n + 1)) (fun _ => Reached X k) := by
  induction n with
  | zero =>
    intro k hk
    unfold parseInstruction
    refine Holds.bind (ends_peek X k) (fun c => ?_)
    refine Holds.assume _ (fun hlt => ?_)
    omega
  | succ n ih =>
    intro k hk
    unfold parseInstruction
    refine Holds.bind (Ends.relax (ends_peek X k) (fun _ _ h => h.1)) (fun c => ?_)
    refine Holds.ite _ (fun _ => ?_) (fun _ => ?_)
    · refine Holds.bind (Ends.relax (ends_eat X k) (fun _ s h => reached_mono X k s h))
        (fun _ => ?_)
      exact ends_call _ (posStable_reached X k)
    · refine Holds.bind (ends_eatChar X k _) (fun _ => ?_)
      refine Holds.bind (ends_parse2GT X (k + 1)) (fun _ => ?_)
      refine Holds.bind (ends_getValue X (k + 1)) (fun a => ?_)
      refine Holds.bind (Ends.relax (ends_peek X (k + 1)) (fun _ _ h => h.1)) (fun c2 => ?_)
      refine Holds.bind (Q := fun _ => Reached X (k + 1)) ?_ (fun v => ?_)
      · refine Holds.ite _ (fun _ => ?_) (fun _ => Holds.pure [] (fun _ h => h))
        exact Ends.relax (ends_quoted X (k + 1)) (fun _ s h => reached_mono X (k + 1) s h)
      · refine Holds.bind (ends_call _ (posStable_reached X (k + 1))) (fun _ => ?_)
        exact Ends.relax (ih (k + 1) (by omega)) (fun _ s h => reached_mono X k s h)

theorem ends_parseAttributes (X : List Char) (element : List Char) (n : Nat) :
    ∀ k, X.length < k + (n + 1) →
      Ends (Reached X k) (parseAttributes element (n + 1)) (fun _ => Searched X k) := by
  induction n with
  | zero =>
    intro k hk
    unfold parseAttributes
    refine Holds.bind (ends_peek X k) (fun c => ?_)
    refine Holds.assume _ (fun hlt => ?_)
    omega
  | succ n ih =>
    intro k hk
    unfold parseAttributes
    refine Holds.bind (Ends.relax (ends_peek X k) (fun _ _ h => h.1)) (fun c => ?_)
    refine Holds.ite _ (fun _ => ?_) (fun _ => Holds.ite _ (fun _ => ?_) (fun _ => ?_))
    · refine Holds.bind (Ends.relax (ends_eat X k) (fun _ s h => reached_mono X k s h))
        (fun _ => ?_)
      exact ends_parse2LT X k
    · refine Holds.bind (Ends.relax (ends_eat X k) (fun _ s h => reached_mono X k s h))
        (fun _ => ?_)
      refine Holds.bind (Ends.relax (ends_eatChar X k _)
        (fun _ s h => reached_mono X k s h)) (fun _ => ?_)
      refine Holds.bind (ends_call _ (posStable_reached X k)) (fun _ => ?_)
      refine Holds.bind (ends_pop (posStable_reached X k)) (fun _ => ?_)
      exact ends_parse2LT X k
    · refine Holds.bind (ends_eatChar X k _) (fun _ => ?_)
      refine Holds.bind (ends_parse2GT X (k + 1)) (fun _ => ?_)
      refine Holds.bind (ends_getValue X (k + 1)) (fun a => ?_)
      refine Holds.bind (Ends.relax (ends_quoted X (k + 1))
        (fun _ s h => reached_mono X (k + 1) s h)) (fun v => ?_)
      refine Holds.bind (ends_call _ (posStable_reached X (k + 1))) (fun _ => ?_)
      refine Ends.relax (ih (k + 1) (by omega)) ?_
      intro _ s h
      obtain ⟨ha, j, hj, hq⟩ := h
      exact ⟨ha, j, Nat.le_of_succ_le hj, hq⟩

theorem ends_parseEndTag (X : List Char) (k : Nat) :
    Ends (Reached X k) parseEndTag (fun _ => Searched X k) := by
  unfold parseEndTag
  refine Holds.bind (Ends.relax (ends_eat X k) (fun _ s h => reached_mono X k s h))
    (fun _ => ?_)
  refine Holds.bind (ends_parse2GT X k) (fun _ => ?_)
  refine Holds.bind (ends_getValue X k) (fun element => ?_)
  refine Holds.bind (ends_throwIf _ _ _) (fun _ => ?_)
  refine Holds.bind ends_skip_state (fun s0 => ?_)
  refine Holds.bind (Q := fun _ => Reached X k) ?_ (fun _ => ?_)
  · refine Holds.ite _ (fun _ => ?_) (fun _ => Holds.pure () (fun _ h => h))
    refine Holds.bind (ends_call _ (posStable_reached X k)) (fun _ => ?_)
    refine Holds.bind (ends_clearValue (posStable_reached X k)) (fun _ => ?_)
    exact ends_setLastKey _ (posStable_reached X k)
  · refine Holds.bind (ends_call _ (posStable_reached X k)) (fun _ => ?_)
    refine Holds.bind ends_skip_state (fun s1 => ?_)
    refine Holds.bind (ends_throwIf _ _ _) (fun _ => ?_)
    refine Holds.bind (ends_throwIf _ _ _) (fun _ => ?_)
    refine Holds.bind (ends_pop (posStable_reached X k)) (fun _ => ?_)
    refine Holds.bind (Ends.relax (ends_eatChar X k _)
      (fun _ s h => reached_mono X k s h)) (fun _ => ?_)
    exact ends_parse2LT X k

theorem ends_parseMarkup (X : List Char) (k : Nat) :
    Ends (Reached X k) parseMarkup (fun _ => Searched X k) := by
  have eatc : ∀ c, Ends (Reached X k) (eatChar c) (fun _ => Reached X k) :=
    fun c => Ends.relax (ends_eatChar X k c) (fun _ s h => reached_mono X k s h)
  have eat1 : Ends (Reached X k) eat (fun _ => Reached X k) :=
    Ends.relax (ends_eat X k) (fun _ s h => reached_mono X k s h)
  unfold parseMarkup
  refine Holds.bind eat1 (fun _ => ?_)
  refine Holds.bind (Ends.relax (ends_peek X k) (fun _ _ h => h.1)) (fun c => ?_)
  refine Holds.bind (Q := fun _ => Reached X k) ?_ (fun _ => ?_)
  · refine Holds.ite _ (fun _ => ?_) (fun _ => ?_)
    · refine Holds.bind (eatc _) (fun _ => ?_)
      refine Holds.bind (eatc _) (fun _ => ?_)
      refine Holds.bind (eatc _) (fun _ => ?_)
      refine Holds.bind (eatc _) (fun _ => ?_)
      refine Holds.bind (eatc _) (fun _ => ?_)
      refine Holds.bind (eatc _) (fun _ => ?_)
      refine Holds.bind (eatc _) (fun _ => ?_)
      refine Holds.bind (ends_parse2CD X k) (fun _ => ?_)
      refine Holds.bind (ends_saveValue X k) (fun _ => ?_)
      refine Holds.bind ends_skip_state (fun s0 => ?_)
      refine Holds.bind (ends_call _ (posStable_reached X k)) (fun _ => ?_)
      refine Holds.bind (ends_clearValue (posStable_reached X k)) (fun _ => ?_)
      refine Holds.bind (ends_setLastKey _ (posStable_reached X k)) (fun _ => ?_)
      refine Holds.bind eat1 (fun _ => ?_)
      exact eat1
    · refine Holds.bind (eatc _) (fun _ => ?_)
      refine Holds.bind (eatc _) (fun _ => ?_)
      exact ends_parse2Com X k
  · refine Holds.bind (eatc _) (fun _ => ?_)
    exact ends_parse2LT X k

theorem ends_parseProcessing (X : List Char) (k fuel : Nat) (hf : X.length < fuel) :
    Ends (Reached X k) (parseProcessing fuel) (fun _ => Searched X k) := by
  obtain ⟨n, rfl⟩ : ∃ n, fuel = n + 1 := ⟨fuel - 1, by omega⟩
  unfold parseProcessing
  refine Holds.bind (Ends.relax (ends_eat X k) (fun _ s h => reached_mono X k s h))
    (fun _ => ?_)
  refine Holds.bind (ends_parse2GT X k) (fun _ => ?_)
  refine Holds.bind (ends_getValue X k) (fun element => ?_)
  refine Holds.bind (ends_parseInstruction X element n k (by omega)) (fun _ => ?_)
  refine Holds.bind (Ends.relax (ends_eatChar X k _)
    (fun _ s h => reached_mono X k s h)) (fun _ => ?_)
  exact ends_parse2LT X k

theorem ends_parseElement (X : List Char) (k fuel : Nat) (hf : X.length < fuel) :
    Ends (Reached X k) (parseElement fuel) (fun _ => Searched X k) := by
  obtain ⟨n, rfl⟩ : ∃ n, fuel = n + 1 := ⟨fuel - 1, by omega⟩
  unfold parseElement
  refine Holds.bind (ends_parse2GT X k) (fun _ => ?_)
  refine Holds.bind (ends_getValue X k) (fun element => ?_)
  refine Holds.bind (ends_throwIf _ _ _) (fun _ => ?_)
  refine Holds.bind (ends_push _ (posStable_reached X k)) (fun _ => ?_)
  refine Holds.bind (ends_call _ (posStable_reached X k)) (fun _ => ?_)
  refine Holds.bind (ends_parseAttributes X element n k (by omega)) (fun _ => ?_)
  exact ends_setLastKey _ (posStable_searched X k)

theorem ends_parseRound (X : List Char) (p fuel : Nat) (hf : X.length < fuel) :
    Ends (fun s => s.Xml = X ∧ s.pos2 = some p) (parseRound fuel)
      (fun _ => Searched X (p + 1)) := by
  unfold parseRound
  refine Holds.bind (ends_saveValue_top X p) (fun _ => ?_)
  refine Holds.bind (ends_eatChar X p _) (fun _ => ?_)
  refine Holds.bind (Ends.relax (ends_peek X (p + 1)) (fun _ _ h => h.1)) (fun c => ?_)
  refine Holds.ite _ (fun _ => ends_parseEndTag X (p + 1)) (fun _ => ?_)
  refine Holds.ite _ (fun _ => ends_parseMarkup X (p + 1)) (fun _ => ?_)
  exact Holds.ite _ (fun _ => ends_parseProcessing X (p + 1) fuel hf)
    (fun _ => ends_parseElement X (p + 1) fuel hf)

theorem loopTop_of_searched (X : List Char) (k n : Nat) (s : XmlParser)
    (h : Searched X k s) (hn : X.length ≤ k + n) : LoopTop X n s := by
  obtain ⟨ha, j, hj, hq⟩ := h
  refine ⟨ha, ?_⟩
  intro p hp
  rw [hq] at hp
  have := find_bounds _ _ _ _ hp
  omega

theorem ends_parseRounds (X : List Char) (fuel : Nat) (hf : X.length < fuel) (n : Nat) :
    Ends (LoopTop X n) (parseRounds fuel n) (fun _ s => s.Xml = X) := by
  induction n with
  | zero =>
    intro s hs
    by_cases hp : s.pos2 = none
    · have e : parseRounds fuel 0 s = .ok () s := by simp only [parseRounds, hp, if_true]
      rw [e]
      exact hs.1
    · exfalso
      cases hq : s.pos2 with
      | none => exact hp hq
      | some p =>
        have := hs.2 p hq
        omega
  | succ k ih =>
    intro s hs
    by_cases hp : s.pos2 = none
    · have e : parseRounds fuel (k + 1) s = .ok () s := by
        simp only [parseRounds, hp, if_true]
      rw [e]
      exact hs.1
    · have e : parseRounds fuel (k + 1) s
          = (parseRound fuel >>= fun _ => parseRounds fuel k) s := by
        simp only [parseRounds, hp, if_false]
      rw [e]
      cases hq : s.pos2 with
      | none => exact absurd hq hp
      | some p =>
        have hb := hs.2 p hq
        refine Holds.bind (ends_parseRound X p fuel hf) (fun _ => Ends.from ih ?_) s
          ⟨hs.1, hq⟩
        intro t ht
        exact loopTop_of_searched X (p + 1) k t ht (by omega)

theorem ends_parseProlog (X : List Char) (k fuel : Nat) (hf : X.length < fuel) :
    Ends (Reached X k) (parseProlog fuel) (fun _ => Searched X k) := by
  obtain ⟨n, rfl⟩ : ∃ n, fuel = n + 1 := ⟨fuel - 1, by omega⟩
  unfold parseProlog
  refine Holds.bind (Ends.relax (ends_eat X k) (fun _ s h => reached_mono X k s h))
    (fun _ => ?_)
  refine Holds.bind (ends_parse2GT X k) (fun _ => ?_)
  refine Holds.bind (ends_getValue X k) (fun x => ?_)
  refine Holds.bind (ends_throwIf _ _ _) (fun _ => ?_)
  refine Holds.bind (ends_parseHeader X n k (by omega)) (fun _ => ?_)
  refine Holds.bind (Ends.relax (ends_eatChar X k _)
    (fun _ s h => reached_mono X k s h)) (fun _ => ?_)
  refine Holds.bind (Ends.relax (ends_eatChar X k _)
    (fun _ s h => reached_mono X k s h)) (fun _ => ?_)
  exact ends_parse2LT X k

theorem ends_parseEnd {P : XmlParser → Prop} : Ends P parseEnd (fun _ _ => True) := by
  unfold parseEnd
  refine Holds.bind (Q := fun _ _ => True) (fun _ _ => trivial) (fun _ => ?_)
  refine Holds.bind ends_saveValue_any (fun _ => ?_)
  refine Holds.bind ends_saveValue_any (fun _ => ?_)
  refine Holds.bind ends_skip_state (fun s0 => ?_)
  exact ends_throwIf _ _ _

theorem ends_parse (X : List Char) :
    Ends (fun s => s.Xml = X ∧ s.pos1 = 0) parse (fun _ _ => True) := by
  unfold parse
  refine Holds.bind (Q := fun _ s => Searched X 0 s ∧ Reached X 0 s) ?_ (fun _ => ?_)
  · intro s hs
    exact ⟨⟨hs.1, s.pos1, Nat.zero_le _, by
      show find (fun c => c = '<') s.Xml s.pos1 = _
      rw [hs.1]⟩, hs.1, Nat.zero_le _⟩
  refine Holds.bind ends_getState (fun s0 => ?_)
  refine Holds.from_pre (s0.Xml = X) (fun s h => by rw [h.2]; exact h.1.1.1) (fun hx => ?_)
  rw [hx]
  have stay : ∀ {α : Type} (m : Parse α), Ends (Reached X 0) m (fun _ => Reached X 0) →
      Framed m → (∀ s, (m s).state.Xml = s.Xml ∧ (m s).state.pos2 = s.pos2) →
      Ends (fun s => Searched X 0 s ∧ Reached X 0 s) m
        (fun _ s => Searched X 0 s ∧ Reached X 0 s) := by
    intro α m hm _ hk s hs
    have h1 := hm s hs.2
    have h2 := hk s
    cases hr : m s with
    | ok a s1 =>
      rw [hr] at h1 h2
      obtain ⟨ha, j, hj, hq⟩ := hs.1
      exact ⟨⟨h2.1.trans ha, j, hj, h2.2.trans hq⟩, h1⟩
    | thrown e s1 => trivial
    | unfinished s1 =>
      rw [hr] at h1
      exact h1
  refine Holds.bind (Q := fun _ s => Searched X 0 s ∧ Reached X 0 s)
    (Ends.from (Ends.relax (ends_throwIf (P := fun s => Searched X 0 s ∧ Reached X 0 s) _ _ _)
      (fun _ _ h => h)) (fun s h => h.1)) (fun _ => ?_)
  refine Holds.bind (stay (eatChar '<')
    (Ends.relax (ends_eatChar X 0 _) (fun _ s h => reached_mono X 0 s h)) (framed_eatChar _)
    (fun s => by unfold eatChar; split <;> exact ⟨rfl, rfl⟩)) (fun _ => ?_)
  refine Holds.bind (stay peek (Ends.relax (ends_peek X 0) (fun _ _ h => h.1)) framed_peek
    (fun s => by unfold peek; split <;> exact ⟨rfl, rfl⟩)) (fun c => ?_)
  refine Holds.bind (Q := fun _ => Searched X 0) ?_ (fun _ => ?_)
  · refine Holds.ite _ (fun _ => ?_) (fun _ => Holds.pure () (fun _ h => h.1))
    exact Ends.from (ends_parseProlog X 0 (X.length + 1) (by omega)) (fun _ h => h.2)
  · refine Holds.bind (Ends.from (ends_parseRounds X (X.length + 1) (by omega) (X.length + 1))
      (fun s h => loopTop_of_searched X 0 (X.length + 1) s h (by omega))) (fun _ => ?_)
    exact ends_parseEnd

/-- Every run of `parse()` returns or throws: the bounds of the loops are never used up. -/
theorem run_ends (input : List Char) (s : XmlParser) : run input ≠ .unfinished s := by
  intro h
  have h1 := ends_parse input { Xml := input } ⟨rfl, rfl⟩
  unfold run at h
  rw [h] at h1
  exact h1

end XmlParser
namespace XmlParser

/-! ### The XML parser: reading a tag -/

theorem bind_ok {α β : Type} {m : Parse α} {f : α → Parse β} {s s1 : XmlParser} {a : α}
    (h : m s = .ok a s1) : (m >>= f) s = f a s1 := by
  rw [bind_apply, h]

theorem bind_thrown {α β : Type} {m : Parse α} {f : α → Parse β} {s s1 : XmlParser}
    {e : XmlError} (h : m s = .thrown e s1) : (m >>= f) s = .thrown e s1 := by
  rw [bind_apply, h]

theorem drop_cons_next (X : List Char) (pos : Nat) (c : Char) (t : List Char)
    (h : X.drop pos = c :: t) : X.drop (pos + 1) = t := by
  have h1 := List.drop_drop 1 pos X
  rw [h] at h1
  simpa using h1.symm

theorem drop_append_next (X : List Char) (pos : Nat) (a t : List Char)
    (h : X.drop pos = a ++ t) : X.drop (pos + a.length) = t := by
  have h1 := List.drop_drop a.length pos X
  rw [h, List.drop_left] at h1
  exact h1.symm

theorem charAt_of_drop (X : List Char) (pos : Nat) (c : Char) (t : List Char)
    (h : X.drop pos = c :: t) : charAt X pos = c := by
  unfold charAt
  rw [List.getD_eq_getElem?_getD, ← List.head?_drop, h]
  rfl

theorem lt_length_of_drop (X : List Char) (pos : Nat) (c : Char) (t : List Char)
    (h : X.drop pos = c :: t) : pos < X.length := by
  by_contra hn
  rw [List.drop_eq_nil_of_le (by omega)] at h
  cases h

theorem findIf_skip (p : Char → Bool) (a t : List Char) (i : Nat)
    (ha : ∀ c, c ∈ a → p c = false) : findIf p (a ++ t) i = findIf p t (i + a.length) := by
  induction a generalizing i with
  | nil => simp
  | cons c rest ih =>
    have hc : p c = false := ha c (List.mem_cons_self _ _)
    have e : (c :: rest) ++ t = c :: (rest ++ t) := rfl
    rw [e, findIf, hc]
    simp only [Bool.false_eq_true, if_false]
    rw [ih (i + 1) (fun x hx => ha x (List.mem_cons_of_mem _ hx))]
    simp only [List.length_cons]
    congr 1
    omega

theorem find_hit (p : Char → Bool) (X : List Char) (pos : Nat) (a : List Char) (d : Char)
    (t : List Char) (h : X.drop pos = a ++ d :: t) (ha : ∀ c, c ∈ a → p c = false)
    (hd : p d = true) : find p X pos = some (pos + a.length) := by
  unfold find
  rw [h, findIf_skip p a (d :: t) pos ha, findIf, if_pos hd]

/-- A search from `pos` finds nothing before the end of a piece of text in which `p` holds
nowhere. -/
theorem find_beyond (p : Char → Bool) (X : List Char) (pos : Nat) (a t : List Char)
    (h : X.drop pos = a ++ t) (ha : ∀ c, c ∈ a → p c = false) :
    below (find p X pos) (pos + a.length) = false := by
  unfold find
  rw [h, findIf_skip p a t pos ha]
  cases hf : findIf p t (pos + a.length) with
  | none => rfl
  | some j =>
    have := (findIf_bounds p t _ j hf).1
    simp only [below, decide_eq_false_iff_not, not_lt]
    exact this

theorem substr_of_drop (X : List Char) (pos : Nat) (a t : List Char)
    (h : X.drop pos = a ++ t) : substr X pos a.length = a := by
  unfold substr
  rw [h, List.take_left]

/-- A piece of text without `&` is handed on by `decode` as it is. -/
theorem decode_plain (X : List Char) (pos : Nat) (w t : List Char)
    (h : X.drop pos = w ++ t) (hw : ∀ c, c ∈ w → c ≠ '&') :
    decode X pos (pos + w.length) = w := by
  have hb := find_beyond (fun c => decide (c = '&')) X pos w t h
    (fun c hc => by simpa using hw c hc)
  have hf : pos + w.length - pos + 1 = w.length + 1 := by omega
  have hl : pos + w.length - pos = w.length := by omega
  unfold decode
  rw [hf, decodeLoop]
  cases hq : find (fun c => decide (c = '&')) X pos with
  | none =>
    simp only [List.nil_append]
    rw [hl]
    exact substr_of_drop X pos w t h
  | some j =>
    rw [hq] at hb
    have hj : ¬ j < pos + w.length := by simpa [below] using hb
    simp only [if_neg hj, List.nil_append]
    rw [hl]
    exact substr_of_drop X pos w t h

theorem peek_at (s : XmlParser) (c : Char) (t : List Char)
    (h : s.Xml.drop s.pos1 = c :: t) : peek s = .ok c s := by
  have hl := lt_length_of_drop _ _ _ _ h
  unfold peek
  rw [if_neg (by omega), charAt_of_drop _ _ _ _ h]

theorem moved_refl (s : XmlParser) : Moved s s := ⟨rfl, rfl, rfl, rfl, rfl, rfl⟩

theorem Moved.trans {s t u : XmlParser} (h1 : Moved s t) (h2 : Moved t u) : Moved s u :=
  ⟨h2.1.trans h1.1, h2.2.1.trans h1.2.1, h2.2.2.1.trans h1.2.2.1,
    h2.2.2.2.1.trans h1.2.2.2.1, h2.2.2.2.2.1.trans h1.2.2.2.2.1,
    h2.2.2.2.2.2.trans h1.2.2.2.2.2⟩

theorem eatChar_at (s : XmlParser) (c : Char) (t : List Char)
    (h : s.Xml.drop s.pos1 = c :: t) :
    ∃ s1, eatChar c s = .ok () s1 ∧ Moved s s1 ∧ s1.Xml.drop s1.pos1 = t := by
  refine ⟨{ s with pos1 := s.pos1 + 1 }, ?_, moved_refl s, drop_cons_next _ _ _ _ h⟩
  unfold eatChar
  rw [if_neg (by rw [charAt_of_drop _ _ _ _ h]; simp)]

theorem eat_at (s : XmlParser) (c : Char) (t : List Char)
    (h : s.Xml.drop s.pos1 = c :: t) :
    ∃ s1, eat s = .ok () s1 ∧ Moved s s1 ∧ s1.Xml.drop s1.pos1 = t :=
  ⟨{ s with pos1 := s.pos1 + 1 }, rfl, moved_refl s, drop_cons_next _ _ _ _ h⟩

theorem isName_delimiter (w : List Char) (hw : isName w = true) :
    ∀ c, c ∈ w → delimiters.contains c = false := by
  intro c hc
  have := List.all_eq_true.mp hw c hc
  simp only [Bool.and_eq_true, Bool.not_eq_true'] at this
  exact this.1

theorem isName_amp (w : List Char) (hw : isName w = true) : ∀ c, c ∈ w → c ≠ '&' := by
  intro c hc
  have := List.all_eq_true.mp hw c hc
  simp only [Bool.and_eq_true, bne_iff_ne, ne_eq] at this
  exact this.2

/-- The steps `parse2GT(); ... = getValue();` read a name up to the character that ends it. -/
theorem name_at (s : XmlParser) (w : List Char) (d : Char) (t : List Char)
    (h : s.Xml.drop s.pos1 = w ++ d :: t) (hw : isName w = true)
    (hd : delimiters.contains d = true) :
    ∃ s1, (∀ (β : Type) (f : List Char → Parse β),
        (parse2GT >>= fun _ => getValue >>= f) s = f w s1) ∧
      Moved s s1 ∧ s1.Xml.drop s1.pos1 = d :: t := by
  have hf := find_hit (fun c => delimiters.contains c) s.Xml s.pos1 w d t h
    (isName_delimiter w hw) hd
  refine ⟨{ s with pos1 := s.pos1 + w.length, pos2 := some (s.pos1 + w.length) }, ?_,
    moved_refl s, drop_append_next _ _ _ _ h⟩
  intro β f
  have e1 : parse2GT s = .ok () { s with pos2 := some (s.pos1 + w.length) } := by
    unfold parse2GT
    rw [hf]
  have e2 : getValue { s with pos2 := some (s.pos1 + w.length) }
      = .ok w { s with pos1 := s.pos1 + w.length, pos2 := some (s.pos1 + w.length) } := by
    unfold getValue
    simp only
    rw [decode_plain s.Xml s.pos1 w (d :: t) h (isName_amp w hw)]
  rw [bind_ok e1, bind_ok e2]

/-- The steps `parse2Char(c); v = getValue();` read a value up to the quote `q`. -/
theorem value_at (s : XmlParser) (q : Char) (v t : List Char)
    (h : s.Xml.drop s.pos1 = v ++ q :: t) (hv : ∀ c, c ∈ v → c ≠ q ∧ c ≠ '&') :
    ∃ s1, (∀ (β : Type) (f : List Char → Parse β),
        (parse2Char q >>= fun _ => getValue >>= f) s = f v s1) ∧
      Moved s s1 ∧ s1.Xml.drop s1.pos1 = q :: t := by
  have hf := find_hit (fun x => decide (x = q)) s.Xml s.pos1 v q t h
    (fun c hc => by simpa using (hv c hc).1) (by simp)
  refine ⟨{ s with pos1 := s.pos1 + v.length, pos2 := some (s.pos1 + v.length) }, ?_,
    moved_refl s, drop_append_next _ _ _ _ h⟩
  intro β f
  have e1 : parse2Char q s = .ok () { s with pos2 := some (s.pos1 + v.length) } := by
    unfold parse2Char
    rw [hf]
  have e2 : getValue { s with pos2 := some (s.pos1 + v.length) }
      = .ok v { s with pos1 := s.pos1 + v.length, pos2 := some (s.pos1 + v.length) } := by
    unfold getValue
    simp only
    rw [decode_plain s.Xml s.pos1 v (q :: t) h (fun c hc => (hv c hc).2)]
  rw [bind_ok e1, bind_ok e2]

theorem eatQuote_at (s : XmlParser) (q : Char) (t : List Char)
    (hq : q = dquote ∨ q = squote) (h : s.Xml.drop s.pos1 = q :: t) :
    ∃ s1, eatQuote q s = .ok () s1 ∧ Moved s s1 ∧ s1.Xml.drop s1.pos1 = t := by
  unfold eatQuote
  rcases hq with rfl | rfl
  · rw [if_pos rfl]
    exact eatChar_at s dquote t h
  · rw [if_neg (by decide)]
    exact eatChar_at s squote t h

/-- The part that reads `=`, a quote, the value and the same quote again. -/
theorem quoted_at (s : XmlParser) (q : Char) (v t : List Char)
    (hq : q = dquote ∨ q = squote) (hv : ∀ c, c ∈ v → c ≠ q ∧ c ≠ '&')
    (h : s.Xml.drop s.pos1 = '=' :: q :: (v ++ q :: t)) :
    ∃ s1, quoted s = .ok v s1 ∧ Moved s s1 ∧ s1.Xml.drop s1.pos1 = t := by
  obtain ⟨s1, e1, m1, d1⟩ := eatChar_at s '=' _ h
  have e2 := peek_at s1 q _ d1
  obtain ⟨s3, e3, m3, d3⟩ := eatQuote_at s1 q _ hq d1
  obtain ⟨s4, e4, m4, d4⟩ := value_at s3 q v t d3 hv
  obtain ⟨s5, e5, m5, d5⟩ := eatChar_at s4 q t d4
  refine ⟨s5, ?_, ((m1.trans m3).trans m4).trans m5, d5⟩
  unfold quoted
  rw [bind_ok e1, bind_ok e2, bind_ok e3, e4, bind_ok e5]
  rfl

theorem wellFormed_parts (a : Attribute) (h : a.wellFormed = true) :
    isName a.name = true ∧ (a.quote = dquote ∨ a.quote = squote) ∧
      ∀ c, c ∈ a.value → c ≠ a.quote ∧ c ≠ '&' := by
  unfold Attribute.wellFormed at h
  simp only [Bool.and_eq_true, Bool.or_eq_true, beq_iff_eq, List.all_eq_true, bne_iff_ne,
    ne_eq] at h
  exact ⟨h.1.1, h.1.2, h.2⟩

/-- One round of the loop over the attributes reads one attribute and calls `Attribut`. -/
theorem attribute_at (element : List Char) (a : Attribute) (n : Nat) (s : XmlParser)
    (t : List Char) (ha : a.wellFormed = true) (h : s.Xml.drop s.pos1 = a.text ++ t) :
    ∃ s1, parseAttributes element (n + 1) s = parseAttributes element n s1 ∧
      s1.Xml = s.Xml ∧ s1.posS = s.posS ∧ s1.posE = s.posE ∧ s1.tags = s.tags ∧
      s1.lastKey = s.lastKey ∧
      s1.calls = s.calls ++ [(.Attribut element a.name a.value, s.tags)] ∧
      s1.Xml.drop s1.pos1 = t := by
  obtain ⟨hn, hq, hv⟩ := wellFormed_parts a ha
  have h0 : s.Xml.drop s.pos1
      = ' ' :: (a.name ++ '=' :: a.quote :: (a.value ++ a.quote :: t)) := by
    rw [h]
    simp [Attribute.text]
  have e0 := peek_at s ' ' _ h0
  obtain ⟨s1, e1, m1, d1⟩ := eatChar_at s ' ' _ h0
  obtain ⟨s2, e2, m2, d2⟩ := name_at s1 a.name '=' _ d1 hn (by decide)
  obtain ⟨s3, e3, m3, d3⟩ := quoted_at s2 a.quote a.value t hq hv d2
  have m := (m1.trans m2).trans m3
  refine ⟨{ s3 with calls := s3.calls ++ [(.Attribut element a.name a.value, s3.tags)] },
    ?_, m.1, m.2.1, m.2.2.1, m.2.2.2.1, m.2.2.2.2.1, ?_, d3⟩
  · rw [parseAttributes, bind_ok e0]
    simp only [show ¬ (' ' = '>') by decide, show ¬ (' ' = '/') by decide, if_false]
    rw [bind_ok e1, e2, bind_ok e3]
    rfl
  · show s3.calls ++ [(Call.Attribut element a.name a.value, s3.tags)] = _
    rw [m.2.2.2.2.2, m.2.2.2.1]

/-- The loop over the attributes reads the attributes of a tag one after the other. -/
theorem attributes_at (element : List Char) (attrs : List Attribute) :
    ∀ (n : Nat) (s : XmlParser) (t : List Char),
      (∀ a, a ∈ attrs → a.wellFormed = true) →
      s.Xml.drop s.pos1 = attributesText attrs ++ t →
      ∃ s1, parseAttributes element (attrs.length + n) s = parseAttributes element n s1 ∧
        s1.Xml = s.Xml ∧ s1.posS = s.posS ∧ s1.posE = s.posE ∧ s1.tags = s.tags ∧
        s1.lastKey = s.lastKey ∧
        s1.calls = s.calls ++ attributCalls element s.tags attrs ∧
        s1.Xml.drop s1.pos1 = t := by
  induction attrs with
  | nil =>
    intro n s t _ h
    refine ⟨s, ?_, rfl, rfl, rfl, rfl, rfl, ?_, by simpa [attributesText] using h⟩
    · simp
    · simp [attributCalls]
  | cons a rest ih =>
    intro n s t hwf h
    have h1 : s.Xml.drop s.pos1 = a.text ++ (attributesText rest ++ t) := by
      rw [h]
      simp [attributesText]
    obtain ⟨s1, e1, x1, ps1, pe1, t1, k1, c1, d1⟩ :=
      attribute_at element a (rest.length + n) s _ (hwf a (List.mem_cons_self _ _)) h1
    obtain ⟨s2, e2, x2, ps2, pe2, t2, k2, c2, d2⟩ :=
      ih n s1 t (fun b hb => hwf b (List.mem_cons_of_mem _ hb)) d1
    refine ⟨s2, ?_, x2.trans x1, ps2.trans ps1, pe2.trans pe1, t2.trans t1, k2.trans k1, ?_,
      d2⟩
    · have hl : (a :: rest).length + n = rest.length + n + 1 := by
        simp only [List.length_cons]
        omega
      rw [hl, e1, e2]
    · rw [c2, c1, t1]
      simp [attributCalls]

/-- The end `/>` of an empty-element tag: `NullTag` is called, then the stack is popped. -/
theorem attributes_close (element : List Char) (n : Nat) (s : XmlParser) (t : List Char)
    (h : s.Xml.drop s.pos1 = '/' :: '>' :: t) :
    ∃ s1, parseAttributes element (n + 1) s = .ok () s1 ∧
      s1.Xml = s.Xml ∧ s1.posS = s.posS ∧ s1.posE = s.posE ∧ s1.tags = s.tags.tail ∧
      s1.lastKey = s.lastKey ∧ s1.calls = s.calls ++ [(.NullTag element, s.tags)] ∧
      s1.Xml.drop s1.pos1 = t ∧ s1.pos2 = find (fun c => c = '<') s1.Xml s1.pos1 := by
  have e0 := peek_at s '/' _ h
  obtain ⟨s1, e1, m1, d1⟩ := eat_at s '/' _ h
  obtain ⟨s2, e2, m2, d2⟩ := eatChar_at s1 '>' _ d1
  have m := m1.trans m2
  refine ⟨{ s2 with calls := s2.calls ++ [(.NullTag element, s2.tags)], tags := s2.tags.tail,
                    pos2 := find (fun c => c = '<') s2.Xml s2.pos1 },
    ?_, m.1, m.2.1, m.2.2.1, ?_, m.2.2.2.2.1, ?_, d2, rfl⟩
  · rw [parseAttributes, bind_ok e0]
    simp only [show ¬ ('/' = '>') by decide, if_false, if_true]
    rw [bind_ok e1, bind_ok e2]
    rfl
  · show s2.tags.tail = _
    rw [m.2.2.2.1]
  · show s2.calls ++ [(Call.NullTag element, s2.tags)] = _
    rw [m.2.2.2.2.2, m.2.2.2.1]

/-- The end `>` of a start tag. -/
theorem attributes_open (element : List Char) (n : Nat) (s : XmlParser) (t : List Char)
    (h : s.Xml.drop s.pos1 = '>' :: t) :
    ∃ s1, parseAttributes element (n + 1) s = .ok () s1 ∧
      s1.Xml = s.Xml ∧ s1.posS = s.posS ∧ s1.posE = s.posE ∧ s1.tags = s.tags ∧
      s1.lastKey = s.lastKey ∧ s1.calls = s.calls ∧
      s1.Xml.drop s1.pos1 = t ∧ s1.pos2 = find (fun c => c = '<') s1.Xml s1.pos1 := by
  have e0 := peek_at s '>' _ h
  obtain ⟨s1, e1, m1, d1⟩ := eat_at s '>' _ h
  refine ⟨{ s1 with pos2 := find (fun c => c = '<') s1.Xml s1.pos1 },
    ?_, m1.1, m1.2.1, m1.2.2.1, m1.2.2.2.1, m1.2.2.2.2.1, m1.2.2.2.2.2, d1, rfl⟩
  rw [parseAttributes, bind_ok e0]
  simp only [if_true]
  rw [bind_ok e1]
  rfl

end XmlParser
namespace XmlParser

/-! ### The XML parser: one round of the main loop -/

theorem saveValue_top (s : XmlParser) (p : Nat) (hp : s.pos2 = some p) (hg : gapDone s) :
    saveValue s = .ok () { s with posS := s.pos1, posE := p, pos1 := p } := by
  unfold gapDone at hg
  unfold saveValue
  rw [if_neg hg, hp]

theorem throwIf_neg (c : Prop) [Decidable c] (what : String) (args : List (List Char))
    (s : XmlParser) (h : ¬ c) : throwIf c what args s = .ok () s := by
  unfold throwIf
  rw [if_neg h]
  rfl

theorem throwIf_pos (c : Prop) [Decidable c] (what : String) (args : List (List Char))
    (s : XmlParser) (h : c) : throwIf c what args s = .thrown ⟨what, args⟩ s := by
  unfold throwIf
  rw [if_pos h]
  rfl

theorem attributesText_head (attrs : List Attribute) (d0 : Char) (t : List Char)
    (hd : delimiters.contains d0 = true) :
    ∃ d t1, attributesText attrs ++ d0 :: t = d :: t1 ∧ delimiters.contains d = true := by
  cases attrs with
  | nil => exact ⟨d0, t, rfl, hd⟩
  | cons a rest => exact ⟨' ', _, rfl, by decide⟩

theorem isName_head (c : Char) (w : List Char) (h : isName (c :: w) = true) :
    c ≠ '/' ∧ c ≠ '!' ∧ c ≠ '?' := by
  have hc := isName_delimiter _ h c (List.mem_cons_self _ _)
  refine ⟨?_, ?_, ?_⟩ <;> (intro e; subst e; revert hc; decide)

/-- The beginning of a tag up to the name: `StartTag(element)` is called with the element on
the stack. -/
theorem element_at (fuel : Nat) (s : XmlParser) (e : List Char) (d : Char) (t : List Char)
    (he : isName e = true) (hne : e ≠ []) (hd : delimiters.contains d = true)
    (h : s.Xml.drop s.pos1 = e ++ d :: t) :
    ∃ s1, parseElement fuel s = (parseAttributes e fuel >>= fun _ => setLastKey e) s1 ∧
      s1.Xml = s.Xml ∧ s1.posS = s.posS ∧ s1.posE = s.posE ∧ s1.tags = e :: s.tags ∧
      s1.calls = s.calls ++ [(.StartTag e, e :: s.tags)] ∧
      s1.Xml.drop s1.pos1 = d :: t := by
  obtain ⟨s1, e1, m1, d1⟩ := name_at s e d t h he hd
  refine ⟨{ s1 with tags := e :: s1.tags, calls := s1.calls ++ [(.StartTag e, e :: s1.tags)] },
    ?_, m1.1, m1.2.1, m1.2.2.1, ?_, ?_, d1⟩
  · rw [parseElement, e1, bind_ok (throwIf_neg _ _ _ _ hne)]
    rfl
  · show e :: s1.tags = _
    rw [m1.2.2.2.1]
  · show s1.calls ++ [(Call.StartTag e, e :: s1.tags)] = _
    rw [m1.2.2.2.2.2, m1.2.2.2.1]

/-- The first steps of a round up to the character after `<`. -/
theorem round_at (fuel : Nat) (s : XmlParser) (p : Nat) (c : Char) (t : List Char)
    (hp : s.pos2 = some p) (hg : gapDone s) (h : s.Xml.drop p = '<' :: c :: t) :
    ∃ s1, parseRound fuel s =
        (if c = '/' then parseEndTag
          else if c = '!' then parseMarkup
          else if c = '?' then parseProcessing fuel
          else parseElement fuel) s1 ∧
      s1.Xml = s.Xml ∧ s1.posS = s.pos1 ∧ s1.posE = p ∧ s1.tags = s.tags ∧
      s1.lastKey = s.lastKey ∧ s1.calls = s.calls ∧ s1.Xml.drop s1.pos1 = c :: t := by
  have e0 := saveValue_top s p hp hg
  obtain ⟨s1, e1, m1, d1⟩ :=
    eatChar_at { s with posS := s.pos1, posE := p, pos1 := p } '<' (c :: t) h
  have e2 := peek_at s1 c t d1
  refine ⟨s1, ?_, m1.1, m1.2.1, m1.2.2.1, m1.2.2.2.1, m1.2.2.2.2.1, m1.2.2.2.2.2, d1⟩
  rw [parseRound, bind_ok e0, bind_ok e1, bind_ok e2]

/-- An empty-element tag at the head of the main loop: the calls of one round. -/
theorem round_empty (fuel : Nat) (s : XmlParser) (p : Nat) (e : List Char)
    (attrs : List Attribute) (t : List Char)
    (hp : s.pos2 = some p) (hg : gapDone s)
    (he : isName e = true) (hne : e ≠ [])
    (ha : ∀ a, a ∈ attrs → a.wellFormed = true) (hf : attrs.length < fuel)
    (h : s.Xml.drop p = '<' :: (e ++ (attributesText attrs ++ '/' :: '>' :: t))) :
    ∃ s1, parseRound fuel s = .ok () s1 ∧
      s1.Xml = s.Xml ∧ s1.Xml.drop s1.pos1 = t ∧
      s1.pos2 = find (fun c => c = '<') s1.Xml s1.pos1 ∧
      s1.posS = s.pos1 ∧ s1.posE = p ∧ s1.lastKey = e ∧ s1.tags = s.tags ∧
      s1.calls = s.calls ++ (.StartTag e, e :: s.tags) ::
        (attributCalls e (e :: s.tags) attrs ++ [(.NullTag e, e :: s.tags)]) := by
  obtain ⟨c, w, rfl⟩ : ∃ c w, e = c :: w := by
    cases e with
    | nil => exact absurd rfl hne
    | cons c w => exact ⟨c, w, rfl⟩
  obtain ⟨h1, h2, h3⟩ := isName_head c w he
  obtain ⟨d, t1, hd, hdd⟩ := attributesText_head attrs '/' ('>' :: t) (by decide)
  obtain ⟨s1, e1, x1, ps1, pe1, t1', k1, c1, d1⟩ := round_at fuel s p c
    (w ++ (attributesText attrs ++ '/' :: '>' :: t)) hp hg h
  rw [if_neg h1, if_neg h2, if_neg h3] at e1
  have d1' : s1.Xml.drop s1.pos1 = (c :: w) ++ d :: t1 := by
    rw [d1, ← hd]
    rfl
  obtain ⟨s2, e2, x2, ps2, pe2, t2, c2, d2⟩ := element_at fuel s1 (c :: w) d t1 he hne hdd d1'
  obtain ⟨m, rfl⟩ : ∃ m, fuel = attrs.length + (m + 1) := ⟨fuel - attrs.length - 1, by omega⟩
  rw [← hd] at d2
  obtain ⟨s3, e3, x3, ps3, pe3, t3, k3, c3, d3⟩ :=
    attributes_at (c :: w) attrs (m + 1) s2 _ ha d2
  obtain ⟨s4, e4, x4, ps4, pe4, t4, k4, c4, d4, q4⟩ := attributes_close (c :: w) m s3 t d3
  refine ⟨{ s4 with lastKey := c :: w }, ?_, ?_, d4, q4, ?_, ?_, rfl, ?_, ?_⟩
  · rw [e1, e2, bind_apply, e3, e4]
    rfl
  · show s4.Xml = s.Xml
    rw [x4, x3, x2, x1]
  · show s4.posS = s.pos1
    rw [ps4, ps3, ps2, ps1]
  · show s4.posE = p
    rw [pe4, pe3, pe2, pe1]
  · show s4.tags = s.tags
    rw [t4, t3, t2, t1']
    rfl
  · show s4.calls = _
    rw [c4, c3, c2, c1, t3, t2, t1']
    simp

/-- A start tag at the head of the main loop: the calls of one round. -/
theorem round_start (fuel : Nat) (s : XmlParser) (p : Nat) (e : List Char)
    (attrs : List Attribute) (t : List Char)
    (hp : s.pos2 = some p) (hg : gapDone s)
    (he : isName e = true) (hne : e ≠ [])
    (ha : ∀ a, a ∈ attrs → a.wellFormed = true) (hf : attrs.length < fuel)
    (h : s.Xml.drop p = '<' :: (e ++ (attributesText attrs ++ '>' :: t))) :
    ∃ s1, parseRound fuel s = .ok () s1 ∧
      s1.Xml = s.Xml ∧ s1.Xml.drop s1.pos1 = t ∧
      s1.pos2 = find (fun c => c = '<') s1.Xml s1.pos1 ∧
      s1.posS = s.pos1 ∧ s1.posE = p ∧ s1.lastKey = e ∧ s1.tags = e :: s.tags ∧
      s1.calls = s.calls ++ (.StartTag e, e :: s.tags) ::
        attributCalls e (e :: s.tags) attrs := by
  obtain ⟨c, w, rfl⟩ : ∃ c w, e = c :: w := by
    cases e with
    | nil => exact absurd rfl hne
    | cons c w => exact ⟨c, w, rfl⟩
  obtain ⟨h1, h2, h3⟩ := isName_head c w he
  obtain ⟨d, t1, hd, hdd⟩ := attributesText_head attrs '>' t (by decide)
  obtain ⟨s1, e1, x1, ps1, pe1, t1', k1, c1, d1⟩ := round_at fuel s p c
    (w ++ (attributesText attrs ++ '>' :: t)) hp hg h
  rw [if_neg h1, if_neg h2, if_neg h3] at e1
  have d1' : s1.Xml.drop s1.pos1 = (c :: w) ++ d :: t1 := by
    rw [d1, ← hd]
    rfl
  obtain ⟨s2, e2, x2, ps2, pe2, t2, c2, d2⟩ := element_at fuel s1 (c :: w) d t1 he hne hdd d1'
  obtain ⟨m, rfl⟩ : ∃ m, fuel = attrs.length + (m + 1) := ⟨fuel - attrs.length - 1, by omega⟩
  rw [← hd] at d2
  obtain ⟨s3, e3, x3, ps3, pe3, t3, k3, c3, d3⟩ :=
    attributes_at (c :: w) attrs (m + 1) s2 _ ha d2
  obtain ⟨s4, e4, x4, ps4, pe4, t4, k4, c4, d4, q4⟩ := attributes_open (c :: w) m s3 t d3
  refine ⟨{ s4 with lastKey := c :: w }, ?_, ?_, d4, q4, ?_, ?_, rfl, ?_, ?_⟩
  · rw [e1, e2, bind_apply, e3, e4]
    rfl
  · show s4.Xml = s.Xml
    rw [x4, x3, x2, x1]
  · show s4.posS = s.pos1
    rw [ps4, ps3, ps2, ps1]
  · show s4.posE = p
    rw [pe4, pe3, pe2, pe1]
  · show s4.tags = _
    rw [t4, t3, t2, t1']
  · show s4.calls = _
    rw [c4, c3, c2, c1, t2, t1']
    simp

/-- An end tag at the head of the main loop, up to the checks of the stack: `Value` is called
for the element opened last, then `EndTag`. -/
theorem endTag_at (fuel : Nat) (s : XmlParser) (p : Nat) (e : List Char) (t : List Char)
    (hp : s.pos2 = some p) (hg : gapDone s) (he : isName e = true) (hne : e ≠ [])
    (h : s.Xml.drop p = '<' :: '/' :: (e ++ '>' :: t)) :
    ∃ s1, parseRound fuel s =
        (throwIf (s1.tags = []) "unexpected closing tag " [e] >>= fun _ =>
          throwIf (s1.tags.head? ≠ some e) "unmatching tag " [e, s1.tags.headD []]
            >>= fun _ => pop >>= fun _ => eatChar '>' >>= fun _ => parse2LT) s1 ∧
      s1.Xml = s.Xml ∧ s1.tags = s.tags ∧
      s1.calls = s.calls ++ valueCalls s p e ++ [(.EndTag e, s.tags)] ∧
      s1.Xml.drop s1.pos1 = '>' :: t := by
  obtain ⟨s1, e1, x1, ps1, pe1, t1, k1, c1, d1⟩ := round_at fuel s p '/'
    (e ++ '>' :: t) hp hg h
  rw [if_pos rfl] at e1
  obtain ⟨s2, e2, m2, d2⟩ := eat_at s1 '/' _ d1
  obtain ⟨s3, e3, m3, d3⟩ := name_at s2 e '>' t d2 he (by decide)
  have m := m2.trans m3
  by_cases hk : s.lastKey = e
  · refine ⟨{ s3 with calls := s3.calls ++ [(.Value (decode s3.Xml s3.posS s3.posE), s3.tags)]
                        ++ [(.EndTag e, s3.tags)],
                      posS := s3.posE, lastKey := [] }, ?_, ?_, ?_, ?_, d3⟩
    · have hk3 : s3.lastKey = e := by rw [m.2.2.2.2.1, k1, hk]
      rw [e1, parseEndTag, bind_ok e2, e3, bind_ok (throwIf_neg _ _ _ _ hne),
        bind_ok (rfl : getState s3 = .ok s3 s3)]
      simp only [hk3, if_true]
      rfl
    · show s3.Xml = s.Xml
      rw [m.1, x1]
    · show s3.tags = s.tags
      rw [m.2.2.2.1, t1]
    · show s3.calls ++ [(Call.Value (decode s3.Xml s3.posS s3.posE), s3.tags)]
          ++ [(Call.EndTag e, s3.tags)] = _
      rw [m.2.2.2.2.2, c1, m.2.2.2.1, t1, m.1, x1, m.2.1, ps1, m.2.2.1, pe1]
      simp [valueCalls, hk]
  · refine ⟨{ s3 with calls := s3.calls ++ [(.EndTag e, s3.tags)] }, ?_, ?_, ?_, ?_, d3⟩
    · have hk3 : ¬ s3.lastKey = e := by rw [m.2.2.2.2.1, k1]; exact hk
      rw [e1, parseEndTag, bind_ok e2, e3, bind_ok (throwIf_neg _ _ _ _ hne),
        bind_ok (rfl : getState s3 = .ok s3 s3)]
      simp only [hk3, if_false]
      rfl
    · show s3.Xml = s.Xml
      rw [m.1, x1]
    · show s3.tags = s.tags
      rw [m.2.2.2.1, t1]
    · show s3.calls ++ [(Call.EndTag e, s3.tags)] = _
      rw [m.2.2.2.2.2, c1, m.2.2.2.1, t1]
      simp [valueCalls, hk]

/-- An end tag for the innermost open element: the calls of one round. -/
theorem round_end (fuel : Nat) (s : XmlParser) (p : Nat) (e : List Char) (t : List Char)
    (ts : List (List Char))
    (hp : s.pos2 = some p) (hg : gapDone s) (he : isName e = true) (hne : e ≠ [])
    (h : s.Xml.drop p = '<' :: '/' :: (e ++ '>' :: t)) (ht : s.tags = e :: ts) :
    ∃ s1, parseRound fuel s = .ok () s1 ∧
      s1.Xml = s.Xml ∧ s1.Xml.drop s1.pos1 = t ∧
      s1.pos2 = find (fun c => c = '<') s1.Xml s1.pos1 ∧ s1.tags = ts ∧
      s1.calls = s.calls ++ valueCalls s p e ++ [(.EndTag e, e :: ts)] := by
  obtain ⟨s1, e1, x1, t1, c1, d1⟩ := endTag_at fuel s p e t hp hg he hne h
  have ht1 : s1.tags = e :: ts := by rw [t1, ht]
  obtain ⟨s2, e2, m2, d2⟩ := eatChar_at { s1 with tags := s1.tags.tail } '>' t d1
  refine ⟨{ s2 with pos2 := find (fun c => c = '<') s2.Xml s2.pos1 }, ?_, ?_, d2, rfl, ?_, ?_⟩
  · rw [e1, bind_ok (throwIf_neg _ _ _ _ (by rw [ht1]; simp)),
      bind_ok (throwIf_neg _ _ _ _ (by rw [ht1]; simp)),
      bind_ok (rfl : pop s1 = .ok () { s1 with tags := s1.tags.tail }), bind_ok e2]
    rfl
  · show s2.Xml = s.Xml
    rw [m2.1]
    exact x1
  · show s2.tags = ts
    rw [m2.2.2.2.1]
    show s1.tags.tail = ts
    rw [ht1]
    rfl
  · show s2.calls = _
    rw [m2.2.2.2.2.2]
    show s1.calls = _
    rw [c1, ht]

/-- An end tag when no element is open, or for another element than the innermost open one:
the round throws after the `EndTag` call. -/
theorem round_end_wrong (fuel : Nat) (s : XmlParser) (p : Nat) (e : List Char) (t : List Char)
    (hp : s.pos2 = some p) (hg : gapDone s) (he : isName e = true) (hne : e ≠ [])
    (h : s.Xml.drop p = '<' :: '/' :: (e ++ '>' :: t)) :
    (s.tags = [] →
      ∃ s1, parseRound fuel s = .thrown ⟨"unexpected closing tag ", [e]⟩ s1 ∧
        s1.calls = s.calls ++ valueCalls s p e ++ [(.EndTag e, [])]) ∧
    (∀ top ts, s.tags = top :: ts → top ≠ e →
      ∃ s1, parseRound fuel s = .thrown ⟨"unmatching tag ", [e, top]⟩ s1 ∧
        s1.calls = s.calls ++ valueCalls s p e ++ [(.EndTag e, top :: ts)]) := by
  obtain ⟨s1, e1, x1, t1, c1, d1⟩ := endTag_at fuel s p e t hp hg he hne h
  refine ⟨fun ht => ⟨s1, ?_, by rw [c1, ht]⟩, fun top ts ht hne2 => ⟨s1, ?_, by rw [c1, ht]⟩⟩
  · rw [e1, bind_thrown (throwIf_pos _ _ _ _ (by rw [t1, ht]))]
  · have ht1 : s1.tags = top :: ts := by rw [t1, ht]
    rw [e1, bind_ok (throwIf_neg _ _ _ _ (by rw [ht1]; simp)),
      bind_thrown (throwIf_pos _ _ _ _ (by rw [ht1]; simpa using hne2))]
    rw [ht1]
    rfl

end XmlParser
namespace XmlParser

/-! ### The XML parser: `decode` -/

theorem decodeLoop_result (X : List Char) (fuel : Nat) :
    ∀ (a b : Nat) (r : List Char),
      decodeLoop X fuel a b r = r ++ decodeLoop X fuel a b [] := by
  induction fuel with
  | zero => intro a b r; simp [decodeLoop]
  | succ k ih =>
    intro a b r
    rw [decodeLoop, decodeLoop]
    cases find (fun c => decide (c = '&')) X a with
    | none => simp
    | some pos =>
      simp only
      by_cases h1 : pos < b
      · simp only [if_pos h1]
        cases find (fun c => decide (c = ';')) X (pos + 1) with
        | none =>
          simp only
          rw [ih (pos + 1) b (r ++ substr X a (pos - a) ++ ['&']),
            ih (pos + 1) b ([] ++ substr X a (pos - a) ++ ['&'])]
          simp
        | some p =>
          simp only
          by_cases h2 : p < b ∧ p < pos + 1 + 16
          · simp only [if_pos h2]
            cases entity (substr X (pos + 1) (p - (pos + 1))) with
            | none =>
              simp only
              rw [ih (pos + 1) b (r ++ substr X a (pos - a) ++ ['&']),
                ih (pos + 1) b ([] ++ substr X a (pos - a) ++ ['&'])]
              simp
            | some c =>
              simp only
              rw [ih (p + 1) b (r ++ substr X a (pos - a) ++ [c]),
                ih (p + 1) b ([] ++ substr X a (pos - a) ++ [c])]
              simp
          · simp only [if_neg h2]
            rw [ih (pos + 1) b (r ++ substr X a (pos - a) ++ ['&']),
              ih (pos + 1) b ([] ++ substr X a (pos - a) ++ ['&'])]
            simp
      · simp only [if_neg h1]
        simp

/-- The loop of `decode` needs no more than `posE - posS + 1` rounds. -/
theorem decodeLoop_fuel (X : List Char) (b : Nat) (fuel : Nat) :
    ∀ (a : Nat) (r : List Char), b - a < fuel →
      decodeLoop X fuel a b r = decodeLoop X (b - a + 1) a b r := by
  induction fuel using Nat.strong_induction_on with
  | _ f ih =>
    intro a r hf
    obtain ⟨k, rfl⟩ : ∃ k, f = k + 1 := ⟨f - 1, by omega⟩
    have step : ∀ (a2 : Nat) (r2 : List Char), a < a2 → a2 ≤ b →
        decodeLoop X k a2 b r2 = decodeLoop X (b - a) a2 b r2 := by
      intro a2 r2 h1 h2
      rw [ih k (by omega) a2 r2 (by omega), ih (b - a) (by omega) a2 r2 (by omega)]
    rw [decodeLoop, decodeLoop]
    cases hq : find (fun c => decide (c = '&')) X a with
    | none => rfl
    | some pos =>
      have hpos := (find_bounds _ _ _ _ hq).1
      simp only
      by_cases h1 : pos < b
      · simp only [if_pos h1]
        cases hp : find (fun c => decide (c = ';')) X (pos + 1) with
        | none =>
          simp only
          exact step _ _ (by omega) (by omega)
        | some p =>
          have hpp := (find_bounds _ _ _ _ hp).1
          simp only
          by_cases h2 : p < b ∧ p < pos + 1 + 16
          · simp only [if_pos h2]
            cases entity (substr X (pos + 1) (p - (pos + 1))) with
            | none =>
              simp only
              exact step _ _ (by omega) (by omega)
            | some c =>
              simp only
              exact step _ _ (by omega) (by omega)
          · simp only [if_neg h2]
            exact step _ _ (by omega) (by omega)
      · simp only [if_neg h1]

theorem entity_names (tok : List Char) (c : Char) (h : entity tok = some c) :
    (tok = "lt".toList ∧ c = '<') ∨ (tok = "gt".toList ∧ c = '>') ∨
    (tok = "amp".toList ∧ c = '&') ∨ (tok = "quot".toList ∧ c = dquote) ∨
    (tok = "apos".toList ∧ c = squote) := by
  unfold entity at h
  split_ifs at h with h1 h2 h3 h4 h5
  · injection h with h; exact Or.inl ⟨h1, h.symm⟩
  · injection h with h; exact Or.inr (Or.inl ⟨h2, h.symm⟩)
  · injection h with h; exact Or.inr (Or.inr (Or.inl ⟨h3, h.symm⟩))
  · injection h with h; exact Or.inr (Or.inr (Or.inr (Or.inl ⟨h4, h.symm⟩)))
  · injection h with h; exact Or.inr (Or.inr (Or.inr (Or.inr ⟨h5, h.symm⟩)))

theorem entity_token (tok : List Char) (c : Char) (h : entity tok = some c) :
    tok.length < 15 ∧ ∀ x, x ∈ tok → (decide (x = ';')) = false := by
  rcases entity_names tok c h with h | h | h | h | h <;>
    (obtain ⟨h1, _⟩ := h; subst h1; exact ⟨by decide, by decide⟩)

/-- A piece of text with the token `&tok;` of one of the five characters after a part without
`&`: `decode` hands on the part, then the character, then what it makes of the rest. -/
theorem decode_entity (X : List Char) (pos : Nat) (w tok : List Char) (c : Char)
    (w2 t : List Char) (h : X.drop pos = w ++ '&' :: (tok ++ ';' :: (w2 ++ t)))
    (hw : ∀ x, x ∈ w → x ≠ '&') (hc : entity tok = some c) :
    decode X pos (pos + (w.length + 1 + tok.length + 1 + w2.length))
      = w ++ c :: decode X (pos + (w.length + 1 + tok.length + 1))
          (pos + (w.length + 1 + tok.length + 1 + w2.length)) := by
  obtain ⟨htl, hts⟩ := entity_token tok c hc
  have hamp := find_hit (fun x => decide (x = '&')) X pos w '&' _ h
    (fun x hx => by simpa using hw x hx) (by simp)
  have h1 := drop_append_next X pos w _ h
  have h2 := drop_cons_next X (pos + w.length) '&' _ h1
  have hsemi := find_hit (fun x => decide (x = ';')) X (pos + w.length + 1) tok ';' _ h2 hts
    (by simp)
  have hsub1 : substr X pos (pos + w.length - pos) = w := by
    have e : pos + w.length - pos = w.length := by omega
    rw [e]
    exact substr_of_drop X pos w _ h
  have hsub2 : substr X (pos + w.length + 1)
      (pos + w.length + 1 + tok.length - (pos + w.length + 1)) = tok := by
    have e : pos + w.length + 1 + tok.length - (pos + w.length + 1) = tok.length := by omega
    rw [e]
    exact substr_of_drop X _ tok _ h2
  have hlt : pos + w.length < pos + (w.length + 1 + tok.length + 1 + w2.length) := by omega
  have hin : pos + w.length + 1 + tok.length
        < pos + (w.length + 1 + tok.length + 1 + w2.length) ∧
      pos + w.length + 1 + tok.length < pos + w.length + 1 + 16 := by
    constructor <;> omega
  have hfuel : pos + (w.length + 1 + tok.length + 1 + w2.length) - pos + 1
      = (w.length + 1 + tok.length + 1 + w2.length) + 1 := by omega
  unfold decode
  rw [hfuel, decodeLoop, hamp]
  simp only [if_pos hlt]
  rw [hsemi]
  simp only [if_pos hin]
  rw [hsub2, hc]
  simp only
  rw [hsub1, decodeLoop_result,
    decodeLoop_fuel X _ (w.length + 1 + tok.length + 1 + w2.length) _ [] (by omega)]
  have e2 : pos + w.length + 1 + tok.length + 1 = pos + (w.length + 1 + tok.length + 1) := by
    omega
  rw [e2]
  simp

end XmlParser
namespace XmlParser

/-! ### The XML parser: what `decode` keeps, and a blank before the end of a tag -/

theorem findIf_split (p : Char → Bool) (l : List Char) (i j : Nat)
    (h : findIf p l i = some j) :
    ∃ a d t, l = a ++ d :: t ∧ j = i + a.length ∧ p d = true ∧ ∀ c, c ∈ a → p c = false := by
  induction l generalizing i with
  | nil => simp [findIf] at h
  | cons c rest ih =>
    unfold findIf at h
    split_ifs at h with hc
    · injection h with h
      exact ⟨[], c, rest, rfl, by simp [h], hc, fun _ hx => by cases hx⟩
    · obtain ⟨a, d, t, h1, h2, h3, h4⟩ := ih (i + 1) h
      refine ⟨c :: a, d, t, by rw [h1]; rfl, by simp only [List.length_cons]; omega, h3, ?_⟩
      intro x hx
      rcases List.mem_cons.mp hx with rfl | hx
      · simpa using hc
      · exact h4 x hx

/-- An `&` after a part without `&` that begins none of the five tokens is handed on as it
is, and `decode` goes on behind it. -/
theorem decode_other (X : List Char) (pos : Nat) (w t1 : List Char) (n : Nat)
    (h : X.drop pos = w ++ '&' :: t1) (hw : ∀ x, x ∈ w → x ≠ '&') (hn : w.length + 1 ≤ n)
    (ht : ∀ tok c rest, t1 = tok ++ ';' :: rest → entity tok ≠ some c) :
    decode X pos (pos + n) = w ++ '&' :: decode X (pos + (w.length + 1)) (pos + n) := by
  have hamp := find_hit (fun x => decide (x = '&')) X pos w '&' _ h
    (fun x hx => by simpa using hw x hx) (by simp)
  have h1 := drop_append_next X pos w _ h
  have h2 := drop_cons_next X (pos + w.length) '&' _ h1
  have hsub1 : substr X pos (pos + w.length - pos) = w := by
    have e : pos + w.length - pos = w.length := by omega
    rw [e]
    exact substr_of_drop X pos w _ h
  have hlt : pos + w.length < pos + n := by omega
  have hfuel : pos + n - pos + 1 = n + 1 := by omega
  have e2 : pos + w.length + 1 = pos + (w.length + 1) := by omega
  have keep : decodeLoop X n (pos + w.length + 1) (pos + n)
        ([] ++ substr X pos (pos + w.length - pos) ++ ['&'])
      = w ++ '&' :: decode X (pos + (w.length + 1)) (pos + n) := by
    rw [hsub1, decodeLoop_result, decodeLoop_fuel X _ n _ [] (by omega), e2]
    unfold decode
    simp
  unfold decode
  rw [hfuel, decodeLoop, hamp]
  simp only [if_pos hlt]
  cases hq : find (fun c => decide (c = ';')) X (pos + w.length + 1) with
  | none => exact keep
  | some p =>
    simp only
    by_cases hin : p < pos + n ∧ p < pos + w.length + 1 + 16
    · simp only [if_pos hin]
      have hsp := hq
      unfold find at hsp
      rw [h2] at hsp
      obtain ⟨a, d, t, hs1, hs2, hs3, hs4⟩ := findIf_split _ _ _ _ hsp
      have hd : d = ';' := by simpa using hs3
      subst hd
      have hsub2 : substr X (pos + w.length + 1) (p - (pos + w.length + 1)) = a := by
        have e : p - (pos + w.length + 1) = a.length := by omega
        rw [e]
        exact substr_of_drop X _ a (';' :: t) (by rw [h2, hs1])
      rw [hsub2]
      cases he : entity a with
      | none => exact keep
      | some c => exact absurd he (ht a c t hs1)
    · simp only [if_neg hin]
      exact keep

theorem eatChar_wrong (s : XmlParser) (c c2 : Char) (t : List Char)
    (h : s.Xml.drop s.pos1 = c2 :: t) (hc : c2 ≠ c) :
    eatChar c s = .thrown ⟨"Expected", [[c], [c2]]⟩ s := by
  unfold eatChar
  rw [charAt_of_drop _ _ _ _ h, if_pos hc]

/-- A blank before `/>`: the loop over the attributes expects an attribute and throws. -/
theorem attributes_blank (element : List Char) (n : Nat) (s : XmlParser) (t : List Char)
    (h : s.Xml.drop s.pos1 = ' ' :: '/' :: t) :
    ∃ s1, parseAttributes element (n + 1) s = .thrown ⟨"Expected", [['='], ['/']]⟩ s1 ∧
      s1.calls = s.calls := by
  have e0 := peek_at s ' ' _ h
  obtain ⟨s1, e1, m1, d1⟩ := eatChar_at s ' ' _ h
  obtain ⟨s2, e2, m2, d2⟩ := name_at s1 [] '/' t d1 (by decide) (by decide)
  have e3 := eatChar_wrong s2 '=' '/' t d2 (by decide)
  refine ⟨s2, ?_, (m1.trans m2).2.2.2.2.2⟩
  rw [parseAttributes, bind_ok e0]
  simp only [show ¬ (' ' = '>') by decide, show ¬ (' ' = '/') by decide, if_false]
  rw [bind_ok e1, e2]
  have e4 : quoted s2 = .thrown ⟨"Expected", [['='], ['/']]⟩ s2 := by
    unfold quoted
    rw [bind_thrown e3]
  rw [bind_thrown e4]

/-- An empty-element tag with a blank before `/>` at the head of the main loop: the round
throws after the `StartTag` and `Attribut` calls. -/
theorem round_blank (fuel : Nat) (s : XmlParser) (p : Nat) (e : List Char)
    (attrs : List Attribute) (t : List Char)
    (hp : s.pos2 = some p) (hg : gapDone s)
    (he : isName e = true) (hne : e ≠ [])
    (ha : ∀ a, a ∈ attrs → a.wellFormed = true) (hf : attrs.length < fuel)
    (h : s.Xml.drop p = '<' :: (e ++ (attributesText attrs ++ ' ' :: '/' :: t))) :
    ∃ s1, parseRound fuel s = .thrown ⟨"Expected", [['='], ['/']]⟩ s1 ∧
      s1.calls = s.calls ++ (.StartTag e, e :: s.tags) ::
        attributCalls e (e :: s.tags) attrs := by
  obtain ⟨c, w, rfl⟩ : ∃ c w, e = c :: w := by
    cases e with
    | nil => exact absurd rfl hne
    | cons c w => exact ⟨c, w, rfl⟩
  obtain ⟨h1, h2, h3⟩ := isName_head c w he
  obtain ⟨d, t1, hd, hdd⟩ := attributesText_head attrs ' ' ('/' :: t) (by decide)
  obtain ⟨s1, e1, x1, ps1, pe1, t1', k1, c1, d1⟩ := round_at fuel s p c
    (w ++ (attributesText attrs ++ ' ' :: '/' :: t)) hp hg h
  rw [if_neg h1, if_neg h2, if_neg h3] at e1
  have d1' : s1.Xml.drop s1.pos1 = (c :: w) ++ d :: t1 := by
    rw [d1, ← hd]
    rfl
  obtain ⟨s2, e2, x2, ps2, pe2, t2, c2, d2⟩ := element_at fuel s1 (c :: w) d t1 he hne hdd d1'
  obtain ⟨m, rfl⟩ : ∃ m, fuel = attrs.length + (m + 1) := ⟨fuel - attrs.length - 1, by omega⟩
  rw [← hd] at d2
  obtain ⟨s3, e3, x3, ps3, pe3, t3, k3, c3, d3⟩ :=
    attributes_at (c :: w) attrs (m + 1) s2 _ ha d2
  obtain ⟨s4, e4, c4⟩ := attributes_blank (c :: w) m s3 t d3
  refine ⟨s4, ?_, ?_⟩
  · rw [e1, e2, bind_apply, e3, e4]
  · rw [c4, c3, c2, c1, t2, t1']
    simp

end XmlParser
namespace XmlParser

/-! ### The XML parser: the claims -/

/-- C28 (evaluation at the failing input): for the text `<a b='&amp;'>&lt;</a>` the parser
returns without an exception, and it has passed to `Attribut` the one character `&` and to
`Value` the one character `<`, not the texts `&amp;` and `&lt;` of the input.  In general
`getValue()`, which reads element names, attribute names and attribute values, returns
`decode` of the text from `pos1` to `pos2`, the round for the end tag of the element whose
tag was read last calls `Value` with `decode` of the text between the two tags, and `decode`
replaces a token `&tok;` of one of the five names by its character. -/
theorem entities_are_converted :
    (run exampleEntities).error = none ∧
    callsOf (run exampleEntities)
      = [.StartTag ['a'], .Attribut ['a'] ['b'] ['&'], .Value ['<'], .EndTag ['a']] ∧
    "&lt;".toList ≠ ['<'] ∧
    (∀ (s : XmlParser) (p : Nat), s.pos2 = some p →
      getValue s = .ok (decode s.Xml s.pos1 p) { s with pos1 := p }) ∧
    (∀ (fuel : Nat) (s : XmlParser) (p : Nat) (e t : List Char) (ts : List (List Char)),
      s.pos2 = some p → gapDone s → isName e = true → e ≠ [] →
      s.Xml.drop p = '<' :: '/' :: (e ++ '>' :: t) → s.tags = e :: ts → s.lastKey = e →
      ∃ s1, parseRound fuel s = .ok () s1 ∧
        s1.calls = s.calls ++
          [(.Value (decode s.Xml s.pos1 p), e :: ts), (.EndTag e, e :: ts)]) ∧
    (∀ (X : List Char) (pos : Nat) (w tok : List Char) (c : Char) (w2 t : List Char),
      X.drop pos = w ++ '&' :: (tok ++ ';' :: (w2 ++ t)) →
      (∀ x, x ∈ w → x ≠ '&') → entity tok = some c →
      decode X pos (pos + (w.length + 1 + tok.length + 1 + w2.length))
        = w ++ c :: decode X (pos + (w.length + 1 + tok.length + 1))
            (pos + (w.length + 1 + tok.length + 1 + w2.length))) := by
  refine ⟨by decide!, by decide!, by decide!, ?_, ?_, decode_entity⟩
  · intro s p hp
    unfold getValue
    rw [hp]
  · intro fuel s p e t ts hp hg he hne h ht hk
    obtain ⟨s1, e1, _, _, _, _, c1⟩ := round_end fuel s p e t ts hp hg he hne h ht
    refine ⟨s1, e1, ?_⟩
    rw [c1, valueCalls, if_pos hk, ht]
    simp

theorem parseEnd_open (s : XmlParser) (h : s.tags ≠ []) : ∃ e, (parseEnd s).error = some e := by
  have f1 := framed_saveValue { s with pos2 := some s.Xml.length }
  have e0 : parseEnd s = (saveValue >>= fun _ => saveValue >>= fun _ => getState >>= fun s0 =>
      throwIf (s0.tags ≠ []) " expected tag at EOF: " [s0.tags.headD []])
        { s with pos2 := some s.Xml.length } := rfl
  rw [e0, bind_apply]
  cases h1 : saveValue { s with pos2 := some s.Xml.length } with
  | thrown e s1 => exact ⟨e, rfl⟩
  | unfinished s1 =>
    have := ends_saveValue_any (P := fun _ => True) { s with pos2 := some s.Xml.length } trivial
    rw [h1] at this
    exact this.elim
  | ok a s1 =>
    rw [h1] at f1
    have ht1 : s1.tags = s.tags := f1.1
    have f2 := framed_saveValue s1
    simp only
    rw [bind_apply]
    cases h2 : saveValue s1 with
    | thrown e s2 => exact ⟨e, rfl⟩
    | unfinished s2 =>
      have := ends_saveValue_any (P := fun _ => True) s1 trivial
      rw [h2] at this
      exact this.elim
    | ok b s2 =>
      rw [h2] at f2
      have ht2 : s2.tags = s.tags := f2.1.trans ht1
      simp only
      rw [bind_ok (rfl : getState s2 = .ok s2 s2),
        throwIf_pos _ _ _ _ (by rw [ht2]; exact h)]
      exact ⟨_, rfl⟩

/-- C30: every run of `parse()` returns or throws; every call it has made, also before an
exception, saw as `tagPath()` exactly the elements open during the call, the innermost first
(an element is open from its `StartTag` call to the end of its `EndTag` or `NullTag` call);
when it returns, the stack of tags is empty and the calls are properly nested: every `EndTag`
and `NullTag` names the innermost open element and no element is left open.  The round for an
end tag `</e>` throws after the `EndTag` call when no element is open and when the innermost
open element is another one, and the end of `parse()` throws when an element is still open; so
do the runs for `<a></b>`, `</a>` and `<a>`. -/
theorem parse_checks_nesting :
    (∀ input : List Char,
      ((∃ s, run input = .ok () s) ∨ ∃ e s, run input = .thrown e s) ∧
      PathsRight (run input).state.calls ∧
      (∀ s, run input = .ok () s →
        s.tags = [] ∧ nested (s.calls.map Prod.fst) = true)) ∧
    (∀ (fuel : Nat) (s : XmlParser) (p : Nat) (e t : List Char),
      s.pos2 = some p → gapDone s → isName e = true → e ≠ [] →
      s.Xml.drop p = '<' :: '/' :: (e ++ '>' :: t) →
      (s.tags = [] →
        (parseRound fuel s).error = some ⟨"unexpected closing tag ", [e]⟩) ∧
      (∀ top ts, s.tags = top :: ts → top ≠ e →
        (parseRound fuel s).error = some ⟨"unmatching tag ", [e, top]⟩)) ∧
    (∀ s : XmlParser, s.tags ≠ [] → ∃ e, (parseEnd s).error = some e) ∧
    (run "<a></b>".toList).error = some ⟨"unmatching tag ", [['b'], ['a']]⟩ ∧
    (run "</a>".toList).error = some ⟨"unexpected closing tag ", [['a']]⟩ ∧
    (run "<a>".toList).error = some ⟨" expected tag at EOF: ", [['a']]⟩ := by
  refine ⟨?_, ?_, parseEnd_open, by decide!, by decide!, by decide!⟩
  · intro input
    have hp := holds_parse { Xml := input } (inv_new input)
    have hr : run input = parse { Xml := input } := rfl
    refine ⟨?_, ?_, ?_⟩
    · cases h : run input with
      | ok a s => exact Or.inl ⟨s, rfl⟩
      | thrown e s => exact Or.inr ⟨e, s, rfl⟩
      | unfinished s => exact absurd h (run_ends input s)
    · rw [hr]
      cases h : parse { Xml := input } with
      | ok a s =>
        rw [h] at hp
        exact hp.1.1
      | thrown e s =>
        rw [h] at hp
        exact hp
      | unfinished s =>
        rw [h] at hp
        exact hp
    · intro s h
      rw [hr] at h
      rw [h] at hp
      obtain ⟨⟨_, h2, h3⟩, h4⟩ := hp
      refine ⟨h4, ?_⟩
      unfold nested
      rw [h2, ← h3, h4]
      rfl
  · intro fuel s p e t hp hg he hne h
    obtain ⟨w1, w2⟩ := round_end_wrong fuel s p e t hp hg he hne h
    refine ⟨fun ht => ?_, fun top ts ht hne2 => ?_⟩
    · obtain ⟨s1, e1, _⟩ := w1 ht
      rw [e1]
      rfl
    · obtain ⟨s1, e1, _⟩ := w2 top ts ht hne2
      rw [e1]
      rfl

/-- Witness for C30: the run for `<r><e k='v'/><f>x</f></r>` returns; its calls are
properly nested and the stack of tags is empty. -/
theorem parse_checks_nesting_witness :
    (run exampleNested).state.tags = [] ∧ nested (callsOf (run exampleNested)) = true ∧
    callsOf (run exampleNested)
      = [.StartTag ['r'], .StartTag ['e'], .Attribut ['e'] ['k'] ['v'], .NullTag ['e'],
          .StartTag ['f'], .Value ['x'], .EndTag ['f'], .EndTag ['r']] :=
  have h := (parse_checks_nesting.1 exampleNested).2.2 (run exampleNested).state (by decide!)
  ⟨h.1, h.2, by decide!⟩

end XmlParser

namespace Converter

/-! ### The ISO 8859 codecs of `converter.cpp` -/

theorem to_iso_8859_1_range (c : Int) : 0 ≤ to_iso_8859_1 c ∧ to_iso_8859_1 c ≤ 255 := by
  unfold to_iso_8859_1 inval
  split_ifs <;> omega

theorem from_to_iso_8859_1 (c : Int) (h : to_iso_8859_1 c ≠ 0xBF) : to_iso_8859_1 c = c := by
  unfold to_iso_8859_1 inval at h ⊢
  split_ifs at h ⊢ with h1
  · exact absurd rfl h
  · rfl

theorem to_iso_8859_9_other (c : Int)
    (h : c ∉ ([0x011E, 0x0130, 0x015E, 0x011F, 0x0131, 0x015F,
      0xD0, 0xDD, 0xDE, 0xF0, 0xFD, 0xFE] : List Int)) :
    to_iso_8859_9 c = to_iso_8859_1 c := by
  simp only [List.mem_cons, List.mem_singleton, List.not_mem_nil, or_false, not_or] at h
  obtain ⟨h1, h2, h3, h4, h5, h6, h7, h8, h9, h10, h11, h12⟩ := h
  simp only [to_iso_8859_9, to_iso_8859_1, h1, h2, h3, h4, h5, h6, h7, h8, h9, h10, h11, h12,
    if_false, or_self]

theorem from_iso_8859_9_other (c : Int)
    (h : c ∉ ([0xD0, 0xDD, 0xDE, 0xF0, 0xFD, 0xFE] : List Int)) : from_iso_8859_9 c = c := by
  simp only [List.mem_cons, List.mem_singleton, List.not_mem_nil, or_false, not_or] at h
  obtain ⟨h1, h2, h3, h4, h5, h6⟩ := h
  simp only [from_iso_8859_9, h1, h2, h3, h4, h5, h6, if_false]

theorem to_iso_8859_15_other (c : Int)
    (h : c ∉ ([0x20AC, 0x0160, 0x0161, 0x017D, 0x017E, 0x0152, 0x0153, 0x0178,
      0xA4, 0xA6, 0xA8, 0xB4, 0xB8, 0xBC, 0xBD, 0xBE] : List Int)) :
    to_iso_8859_15 c = to_iso_8859_1 c := by
  simp only [List.mem_cons, List.mem_singleton, List.not_mem_nil, or_false, not_or] at h
  obtain ⟨h1, h2, h3, h4, h5, h6, h7, h8, h9, h10, h11, h12, h13, h14, h15, h16⟩ := h
  simp only [to_iso_8859_15, to_iso_8859_1, h1, h2, h3, h4, h5, h6, h7, h8, h9, h10, h11, h12,
    h13, h14, h15, h16, if_false, or_self]

theorem from_iso_8859_15_other (c : Int)
    (h : c ∉ ([0xA4, 0xA6, 0xA8, 0xB4, 0xB8, 0xBC, 0xBD, 0xBE] : List Int)) :
    from_iso_8859_15 c = c := by
  simp only [List.mem_cons, List.mem_singleton, List.not_mem_nil, or_false, not_or] at h
  obtain ⟨h1, h2, h3, h4, h5, h6, h7, h8⟩ := h
  simp only [from_iso_8859_15, h1, h2, h3, h4, h5, h6, h7, h8, if_false]

/-- The three properties for ISO-8859-9. -/
theorem iso_8859_9_inverse (c : Int) :
    (0 ≤ to_iso_8859_9 c ∧ to_iso_8859_9 c ≤ 255) ∧
    (0 ≤ c → c ≤ 255 → to_iso_8859_9 (from_iso_8859_9 c) = c) ∧
    (to_iso_8859_9 c ≠ 0xBF → from_iso_8859_9 (to_iso_8859_9 c) = c) := by
  by_cases hm : c ∈ ([0x011E, 0x0130, 0x015E, 0x011F, 0x0131, 0x015F,
      0xD0, 0xDD, 0xDE, 0xF0, 0xFD, 0xFE] : List Int)
  · simp only [List.mem_cons, List.mem_singleton, List.not_mem_nil, or_false] at hm
    rcases hm with h | h | h | h | h | h | h | h | h | h | h | h <;> (subst h; decide)
  · have hb : c ∉ ([0xD0, 0xDD, 0xDE, 0xF0, 0xFD, 0xFE] : List Int) := by
      intro hb
      apply hm
      simp only [List.mem_cons, List.mem_singleton, List.not_mem_nil, or_false] at hb ⊢
      tauto
    rw [to_iso_8859_9_other c hm, from_iso_8859_9_other c hb]
    refine ⟨to_iso_8859_1_range c, fun _ _ => ?_, fun h => ?_⟩
    · rw [to_iso_8859_9_other c hm]
      unfold to_iso_8859_1
      rw [if_neg (by omega)]
    · rw [from_to_iso_8859_1 c h]
      exact from_iso_8859_9_other c hb

/-- The three properties for ISO-8859-15. -/
theorem iso_8859_15_inverse (c : Int) :
    (0 ≤ to_iso_8859_15 c ∧ to_iso_8859_15 c ≤ 255) ∧
    (0 ≤ c → c ≤ 255 → to_iso_8859_15 (from_iso_8859_15 c) = c) ∧
    (to_iso_8859_15 c ≠ 0xBF → from_iso_8859_15 (to_iso_8859_15 c) = c) := by
  by_cases hm : c ∈ ([0x20AC, 0x0160, 0x0161, 0x017D, 0x017E, 0x0152, 0x0153, 0x0178,
      0xA4, 0xA6, 0xA8, 0xB4, 0xB8, 0xBC, 0xBD, 0xBE] : List Int)
  · simp only [List.mem_cons, List.mem_singleton, List.not_mem_nil, or_false] at hm
    rcases hm with h | h | h | h | h | h | h | h | h | h | h | h | h | h | h | h <;>
      (subst h; decide)
  · have hb : c ∉ ([0xA4, 0xA6, 0xA8, 0xB4, 0xB8, 0xBC, 0xBD, 0xBE] : List Int) := by
      intro hb
      apply hm
      simp only [List.mem_cons, List.mem_singleton, List.not_mem_nil, or_false] at hb ⊢
      tauto
    rw [to_iso_8859_15_other c hm, from_iso_8859_15_other c hb]
    refine ⟨to_iso_8859_1_range c, fun _ _ => ?_, fun h => ?_⟩
    · rw [to_iso_8859_15_other c hm]
      unfold to_iso_8859_1
      rw [if_neg (by omega)]
    · rw [from_to_iso_8859_1 c h]
      exact from_iso_8859_15_other c hb

/-- C36: for each of the codecs ISO-8859-1, -9 and -15 of `converter.cpp`, `to_iso` yields a
value from 0 to 255 for every `wchar_t`, `to_iso(from_iso(b)) = b` for every byte `b` from 0 to
255, and `from_iso(to_iso(c)) = c` for every `wchar_t` `c` whose image is not the replacement
character U+00BF. -/
theorem iso_codecs_inverse (c : Int) :
    (0 ≤ to_iso_8859_1 c ∧ to_iso_8859_1 c ≤ 255 ∧
      0 ≤ to_iso_8859_9 c ∧ to_iso_8859_9 c ≤ 255 ∧
      0 ≤ to_iso_8859_15 c ∧ to_iso_8859_15 c ≤ 255) ∧
    (0 ≤ c → c ≤ 255 →
      to_iso_8859_1 (from_iso_8859_1 c) = c ∧ to_iso_8859_9 (from_iso_8859_9 c) = c ∧
      to_iso_8859_15 (from_iso_8859_15 c) = c) ∧
    (to_iso_8859_1 c ≠ 0xBF → from_iso_8859_1 (to_iso_8859_1 c) = c) ∧
    (to_iso_8859_9 c ≠ 0xBF → from_iso_8859_9 (to_iso_8859_9 c) = c) ∧
    (to_iso_8859_15 c ≠ 0xBF → from_iso_8859_15 (to_iso_8859_15 c) = c) := by
  have h1 := to_iso_8859_1_range c
  have h9 := iso_8859_9_inverse c
  have h15 := iso_8859_15_inverse c
  refine ⟨⟨h1.1, h1.2, h9.1.1, h9.1.2, h15.1.1, h15.1.2⟩, fun a b => ⟨?_, h9.2.1 a b, h15.2.1 a b⟩,
    fun h => from_to_iso_8859_1 c h, h9.2.2, h15.2.2⟩
  unfold to_iso_8859_1 from_iso_8859_1
  rw [if_neg (by omega)]

/-- Witness for C36: the euro sign is the byte 0xA4 of ISO-8859-15 and comes back from it; the
byte 0xD0 of ISO-8859-9 is U+011E. -/
theorem iso_codecs_inverse_witness :
    from_iso_8859_15 (to_iso_8859_15 0x20AC) = 0x20AC ∧
    to_iso_8859_9 (from_iso_8859_9 0xD0) = 0xD0 :=
  ⟨(iso_codecs_inverse 0x20AC).2.2.2.2 (by decide),
    ((iso_codecs_inverse 0xD0).2.1 (by decide) (by decide)).2.1⟩

end Converter
namespace Converter

/-! ### Base64 -/

theorem from_to_base64_nat : ∀ n : Nat, n < 62 → from_base64 (to_base64 (n : Int)) = n := by
  decide

theorem to_from_base64_nat :
    ∀ n : Nat, n < 128 → 0 ≤ from_base64 (n : Int) → from_base64 (n : Int) ≤ 63 →
      to_base64 (from_base64 (n : Int)) = n := by
  decide

theorem from_base64_values :
    ∀ n : Nat, n < 128 →
      (from_base64 (n : Int) = 99 ∧ (n : Int) ∈ whiteSpace) ∨
      (from_base64 (n : Int) = -1 ∧ (n : Int) ∉ whiteSpace) ∨
      (0 ≤ from_base64 (n : Int) ∧ from_base64 (n : Int) ≤ 61 ∧
        to_base64 (from_base64 (n : Int)) = n) := by
  decide

theorem from_to_base64 (i : Int) (h0 : 0 ≤ i) (h1 : i ≤ 61) : from_base64 (to_base64 i) = i := by
  obtain ⟨n, rfl⟩ := Int.eq_ofNat_of_zero_le h0
  exact from_to_base64_nat n (by omega)

theorem from_base64_outside (c : Int) (h : c < 0 ∨ c > 127) : from_base64 c = -1 := by
  unfold from_base64
  rw [if_pos h]

/-- Every character is white space (99), a digit of the alphabet with a value up to 61 that
`to_base64` maps back to it, or has the value -1. -/
theorem from_base64_cases (c : Int) :
    (from_base64 c = 99 ∧ c ∈ whiteSpace) ∨ (from_base64 c = -1 ∧ c ∉ whiteSpace) ∨
    (0 ≤ from_base64 c ∧ from_base64 c ≤ 61 ∧ to_base64 (from_base64 c) = c) := by
  by_cases h : c < 0 ∨ c > 127
  · right
    left
    refine ⟨from_base64_outside c h, ?_⟩
    unfold whiteSpace
    simp only [List.mem_cons, List.mem_singleton, List.not_mem_nil, or_false]
    omega
  · obtain ⟨n, rfl⟩ := Int.eq_ofNat_of_zero_le (show 0 ≤ c by omega)
    exact from_base64_values n (by omega)

/-- C31 (evaluation at the failing input): `to_base64` gives the digits 62 and 63 the
characters `+` (43) and `/` (47), and `from_base64` has -1 for both, so
`from_base64(to_base64(i))` is -1 for `i` = 62 and 63.  For the digits 0 to 61 it is `i`, and
`to_base64(from_base64(c))` is `c` for every character with a value from 0 to 63. -/
theorem base64_plus_slash_not_decoded :
    to_base64 62 = 43 ∧ to_base64 63 = 47 ∧
    from_base64 (to_base64 62) = -1 ∧ from_base64 (to_base64 63) = -1 ∧
    (∀ i : Int, 0 ≤ i → i ≤ 61 → from_base64 (to_base64 i) = i) ∧
    (∀ c : Int, 0 ≤ from_base64 c → from_base64 c ≤ 63 → to_base64 (from_base64 c) = c) := by
  refine ⟨by decide, by decide, by decide, by decide, from_to_base64, ?_⟩
  intro c h0 h1
  rcases from_base64_cases c with h | h | h
  · omega
  · omega
  · exact h.2.2

theorem put_digit (r : Base64Reader) (c : Int) (h0 : 0 ≤ from_base64 c)
    (h1 : from_base64 c < 64) (hc : r.b64Cnt < 3) :
    r.put c = .ok { r with b64Cnt := r.b64Cnt + 1,
                           b64Value := r.b64Value * 64 + from_base64 c } := by
  unfold Base64Reader.put
  rw [if_neg (by omega), if_pos h1, if_neg (by omega), if_neg (by omega)]

theorem put_digit_last (r : Base64Reader) (c : Int) (h0 : 0 ≤ from_base64 c)
    (h1 : from_base64 c < 64) (hc : r.b64Cnt = 3) :
    r.put c = .ok { base64 := r.base64 ++
                      [u_char ((r.b64Value * 64 + from_base64 c) / 65536),
                       u_char (((r.b64Value * 64 + from_base64 c) / 256) % 256),
                       u_char ((r.b64Value * 64 + from_base64 c) % 256)]
                    b64Cnt := 0
                    b64Value := 0 } := by
  unfold Base64Reader.put
  rw [if_neg (by omega), if_pos h1, if_neg (by omega), if_pos (by omega)]

theorem put_white (r : Base64Reader) (c : Int) (h : c ∈ whiteSpace) : r.put c = .ok r := by
  have hv : from_base64 c = 99 := by
    unfold whiteSpace at h
    simp only [List.mem_cons, List.mem_singleton, List.not_mem_nil, or_false] at h
    rcases h with h | h | h | h | h <;> (subst h; decide)
  unfold Base64Reader.put
  rw [hv, if_neg (by decide), if_neg (by decide)]

/-- The reader after the first digits of a group, from a state with counter 0 and value 0. -/
theorem putAll_digits (r : Base64Reader) (i0 i1 i2 : Int)
    (h0 : 0 ≤ i0 ∧ i0 ≤ 61) (h1 : 0 ≤ i1 ∧ i1 ≤ 61) (h2 : 0 ≤ i2 ∧ i2 ≤ 61)
    (hc : r.b64Cnt = 0) (hv : r.b64Value = 0) :
    r.putAll [to_base64 i0] = .ok { r with b64Cnt := 1, b64Value := i0 } ∧
    r.putAll [to_base64 i0, to_base64 i1]
      = .ok { r with b64Cnt := 2, b64Value := i0 * 64 + i1 } ∧
    r.putAll [to_base64 i0, to_base64 i1, to_base64 i2]
      = .ok { r with b64Cnt := 3, b64Value := (i0 * 64 + i1) * 64 + i2 } := by
  have f0 := from_to_base64 i0 h0.1 h0.2
  have f1 := from_to_base64 i1 h1.1 h1.2
  have f2 := from_to_base64 i2 h2.1 h2.2
  have e0 : r.put (to_base64 i0) = .ok { r with b64Cnt := 1, b64Value := i0 } := by
    rw [put_digit r _ (by omega) (by omega) (by omega), f0, hc, hv]
    simp
  have e1 : Base64Reader.put { r with b64Cnt := 1, b64Value := i0 } (to_base64 i1)
      = .ok { r with b64Cnt := 2, b64Value := i0 * 64 + i1 } := by
    rw [put_digit _ _ (by omega) (by omega) (by show (1 : Int) < 3; omega), f1]
    rfl
  have e2 : Base64Reader.put { r with b64Cnt := 2, b64Value := i0 * 64 + i1 } (to_base64 i2)
      = .ok { r with b64Cnt := 3, b64Value := (i0 * 64 + i1) * 64 + i2 } := by
    rw [put_digit _ _ (by omega) (by omega) (by show (2 : Int) < 3; omega), f2]
    rfl
  refine ⟨?_, ?_, ?_⟩
  · simp only [Base64Reader.putAll, e0]
  · simp only [Base64Reader.putAll, e0, e1]
  · simp only [Base64Reader.putAll, e0, e1, e2]

theorem putAll_append (r : Base64Reader) (a b : List Int) (r1 : Base64Reader)
    (h : r.putAll a = .ok r1) : r.putAll (a ++ b) = r1.putAll b := by
  induction a generalizing r with
  | nil =>
    simp only [Base64Reader.putAll] at h
    injection h with h
    subst h
    rfl
  | cons c rest ih =>
    simp only [Base64Reader.putAll, List.cons_append] at h ⊢
    cases hp : r.put c with
    | error what => rw [hp] at h; cases h
    | ok r2 =>
      rw [hp] at h
      exact ih r2 h

/-- C32: from a reader with counter 0 and value 0, the state after `start()` and after every
complete group, four characters of `A-Z`, `a-z`, `0-9` (the characters `to_base64(i)` for `i`
from 0 to 61) with the values `i0` to `i3` make the four `put` calls append exactly the three
bytes of the number `i0*2^18 + i1*2^12 + i2*2^6 + i3`, the most significant first, and bring
counter and value back to 0; and in every state `put` of a tab, line feed, form feed, carriage
return or blank changes nothing. -/
theorem base64_group_decoded (r : Base64Reader) (i0 i1 i2 i3 : Int)
    (h0 : 0 ≤ i0 ∧ i0 ≤ 61) (h1 : 0 ≤ i1 ∧ i1 ≤ 61) (h2 : 0 ≤ i2 ∧ i2 ≤ 61)
    (h3 : 0 ≤ i3 ∧ i3 ≤ 61) (hc : r.b64Cnt = 0) (hv : r.b64Value = 0) :
    r.putAll [to_base64 i0, to_base64 i1, to_base64 i2, to_base64 i3]
      = .ok { base64 := r.base64 ++
                [(i0 * 262144 + i1 * 4096 + i2 * 64 + i3) / 65536,
                 (i0 * 262144 + i1 * 4096 + i2 * 64 + i3) / 256 % 256,
                 (i0 * 262144 + i1 * 4096 + i2 * 64 + i3) % 256]
              b64Cnt := 0
              b64Value := 0 } ∧
    ((i0 * 262144 + i1 * 4096 + i2 * 64 + i3) / 65536 * 65536
        + (i0 * 262144 + i1 * 4096 + i2 * 64 + i3) / 256 % 256 * 256
        + (i0 * 262144 + i1 * 4096 + i2 * 64 + i3) % 256
      = i0 * 262144 + i1 * 4096 + i2 * 64 + i3 ∧
      0 ≤ (i0 * 262144 + i1 * 4096 + i2 * 64 + i3) / 65536 ∧
      (i0 * 262144 + i1 * 4096 + i2 * 64 + i3) / 65536 < 256) ∧
    (∀ (q : Base64Reader) (c : Int), c ∈ whiteSpace → q.put c = .ok q) ∧
    ((Base64Reader.start r).b64Cnt = 0 ∧ (Base64Reader.start r).b64Value = 0 ∧
      (Base64Reader.start r).base64 = []) ∧
    (List.range 62).map (fun i => to_base64 (i : Int))
      = "ABCDEFGHIJKLMNOPQRSTUVWXYZabcdefghijklmnopqrstuvwxyz0123456789".toList.map
          (fun c => (c.toNat : Int)) := by
  refine ⟨?_, by omega, put_white, ⟨rfl, rfl, rfl⟩, by decide⟩
  have hd := (putAll_digits r i0 i1 i2 h0 h1 h2 hc hv).2.2
  have f3 := from_to_base64 i3 h3.1 h3.2
  have e := putAll_append r [to_base64 i0, to_base64 i1, to_base64 i2] [to_base64 i3] _ hd
  simp only [List.cons_append, List.nil_append] at e
  rw [e]
  simp only [Base64Reader.putAll]
  rw [put_digit_last _ _ (by omega) (by omega) rfl, f3]
  simp only [u_char]
  have b0 : (((i0 * 64 + i1) * 64 + i2) * 64 + i3) / 65536 % 256
      = (i0 * 262144 + i1 * 4096 + i2 * 64 + i3) / 65536 := by omega
  have b1 : (((i0 * 64 + i1) * 64 + i2) * 64 + i3) / 256 % 256 % 256
      = (i0 * 262144 + i1 * 4096 + i2 * 64 + i3) / 256 % 256 := by omega
  have b2 : (((i0 * 64 + i1) * 64 + i2) * 64 + i3) % 256 % 256
      = (i0 * 262144 + i1 * 4096 + i2 * 64 + i3) % 256 := by omega
  rw [b0, b1, b2]

/-- Witness for C32: the group `TWFu` (the digits 19, 22, 5, 46) gives the bytes 77, 97, 110
of `Man`. -/
theorem base64_group_decoded_witness :
    (Base64Reader.start exampleReader64).putAll [84, 87, 70, 117]
      = .ok { base64 := [77, 97, 110], b64Cnt := 0, b64Value := 0 } :=
  (base64_group_decoded (Base64Reader.start exampleReader64) 19 22 5 46 (by decide) (by decide)
    (by decide) (by decide) rfl rfl).1

theorem put_pad_three (r : Base64Reader) (h : r.b64Cnt = 3) :
    r.put 61 = .ok { r with
      base64 := r.base64 ++ [u_char (r.b64Value / 1024), u_char (r.b64Value / 4 % 256)]
      b64Cnt := 999 } := by
  unfold Base64Reader.put
  rw [if_pos (by decide), if_pos rfl, if_pos h]

theorem put_pad_two (r : Base64Reader) (h : r.b64Cnt = 2) :
    r.put 61 = .ok { r with base64 := r.base64 ++ [u_char (r.b64Value / 16)],
                            b64Cnt := 100 } := by
  unfold Base64Reader.put
  rw [if_pos (by decide), if_pos rfl, if_neg (by omega), if_neg (by omega), if_pos h]

/-- C33: `put('=')` with counter 3 appends two bytes and sets the counter to 999, where a
further `=` throws; with counter 2 it appends one byte and sets the counter to 100, where one
more `=` is taken (counter 999) and the next throws; with counter 0 and with counter 1 it
throws.  After padding (counter 100 or 999) every character of the alphabet throws, and a
character that is no white space, no `=` and none of the 62 digits that `from_base64` knows
throws in every state.  `done()` is `put('=')` for counter 2 and 3, throws for counter 1 and
does nothing otherwise.  From `start()`, two digits and `=` give the first byte of the group,
three digits and `=` the first two bytes. -/
theorem base64_padding_rules (r : Base64Reader) :
    (r.b64Cnt = 3 →
      r.put 61 = .ok { r with
        base64 := r.base64 ++ [u_char (r.b64Value / 1024), u_char (r.b64Value / 4 % 256)]
        b64Cnt := 999 }) ∧
    (r.b64Cnt = 2 →
      r.put 61 = .ok { r with base64 := r.base64 ++ [u_char (r.b64Value / 16)],
                              b64Cnt := 100 }) ∧
    (r.b64Cnt = 100 → r.put 61 = .ok { r with b64Cnt := 999 }) ∧
    (r.b64Cnt = 999 → r.put 61 = .error "base64 unexpected padding") ∧
    (r.b64Cnt = 0 → r.put 61 = .error "base64 unexpected padding") ∧
    (r.b64Cnt = 1 → r.put 61 = .error "base64 unexpected end") ∧
    (∀ i : Int, 0 ≤ i → i ≤ 63 → r.b64Cnt = 100 ∨ r.b64Cnt = 999 →
      ∃ what, r.put (to_base64 i) = .error what) ∧
    (∀ c : Int, c ∉ whiteSpace → c ≠ 61 → (∀ i : Int, 0 ≤ i → i ≤ 61 → c ≠ to_base64 i) →
      r.put c = .error "base64 padding") ∧
    ((r.b64Cnt = 2 ∨ r.b64Cnt = 3 → r.done = r.put 61) ∧
      (r.b64Cnt = 1 → r.done = .error "base64 unexpected end") ∧
      (r.b64Cnt = 0 ∨ r.b64Cnt = 100 ∨ r.b64Cnt = 999 → r.done = .ok r)) ∧
    (∀ i0 i1 i2 : Int, 0 ≤ i0 ∧ i0 ≤ 61 → 0 ≤ i1 ∧ i1 ≤ 61 → 0 ≤ i2 ∧ i2 ≤ 61 →
      (Base64Reader.start r).putAll [to_base64 i0, to_base64 i1, 61]
        = .ok { base64 := [(i0 * 262144 + i1 * 4096) / 65536], b64Cnt := 100,
                b64Value := i0 * 64 + i1 } ∧
      (Base64Reader.start r).putAll [to_base64 i0, to_base64 i1, to_base64 i2, 61]
        = .ok { base64 := [(i0 * 262144 + i1 * 4096 + i2 * 64) / 65536,
                  (i0 * 262144 + i1 * 4096 + i2 * 64) / 256 % 256],
                b64Cnt := 999, b64Value := (i0 * 64 + i1) * 64 + i2 }) := by
  have hpad : from_base64 61 < 0 := by decide
  refine ⟨?_, ?_, ?_, ?_, ?_, ?_, ?_, ?_, ⟨?_, ?_, ?_⟩, ?_⟩
  · exact put_pad_three r
  · exact put_pad_two r
  · intro h
    unfold Base64Reader.put
    rw [if_pos hpad, if_pos rfl, if_neg (by omega), if_pos h]
  · intro h
    unfold Base64Reader.put
    rw [if_pos hpad, if_pos rfl, if_neg (by omega), if_neg (by omega), if_neg (by omega),
      if_neg (by omega)]
  · intro h
    unfold Base64Reader.put
    rw [if_pos hpad, if_pos rfl, if_neg (by omega), if_neg (by omega), if_neg (by omega),
      if_neg (by omega)]
  · intro h
    unfold Base64Reader.put
    rw [if_pos hpad, if_pos rfl, if_neg (by omega), if_neg (by omega), if_neg (by omega),
      if_pos h]
  · intro i h0 h1 hc
    by_cases h61 : i ≤ 61
    · refine ⟨"base64 invalid", ?_⟩
      have f := from_to_base64 i h0 h61
      unfold Base64Reader.put
      rw [f, if_neg (by omega), if_pos (by omega), if_pos (by omega)]
    · refine ⟨"base64 padding", ?_⟩
      have hi : i = 62 ∨ i = 63 := by omega
      rcases hi with rfl | rfl
      · unfold Base64Reader.put
        rw [if_pos (by decide), if_neg (by decide)]
      · unfold Base64Reader.put
        rw [if_pos (by decide), if_neg (by decide)]
  · intro c hw h61 hd
    have hv : from_base64 c = -1 := by
      rcases from_base64_cases c with h | h | h
      · exact absurd h.2 hw
      · exact h.1
      · exact absurd h.2.2.symm (hd _ h.1 h.2.1)
    unfold Base64Reader.put
    rw [hv, if_pos (by decide), if_neg h61]
  · intro h
    unfold Base64Reader.done
    rw [if_pos (by omega)]
  · intro h
    unfold Base64Reader.done
    rw [if_pos (by omega)]
    unfold Base64Reader.put
    rw [if_pos hpad, if_pos rfl, if_neg (by omega), if_neg (by omega), if_neg (by omega),
      if_pos h]
  · intro h
    unfold Base64Reader.done
    rw [if_neg (by omega)]
  · intro i0 i1 i2 h0 h1 h2
    have hd := putAll_digits (Base64Reader.start r) i0 i1 i2 h0 h1 h2 rfl rfl
    constructor
    · have e := putAll_append _ [to_base64 i0, to_base64 i1] [61] _ hd.2.1
      simp only [List.cons_append, List.nil_append] at e
      rw [e]
      simp only [Base64Reader.putAll]
      rw [put_pad_two _ rfl]
      simp only [u_char, Base64Reader.start, List.nil_append]
      have b : (i0 * 64 + i1) / 16 % 256 = (i0 * 262144 + i1 * 4096) / 65536 := by omega
      rw [b]
    · have e := putAll_append _ [to_base64 i0, to_base64 i1, to_base64 i2] [61] _ hd.2.2
      simp only [List.cons_append, List.nil_append] at e
      rw [e]
      simp only [Base64Reader.putAll]
      rw [put_pad_three _ rfl]
      simp only [u_char, Base64Reader.start, List.nil_append]
      have b0 : ((i0 * 64 + i1) * 64 + i2) / 1024 % 256
          = (i0 * 262144 + i1 * 4096 + i2 * 64) / 65536 := by omega
      have b1 : ((i0 * 64 + i1) * 64 + i2) / 4 % 256 % 256
          = (i0 * 262144 + i1 * 4096 + i2 * 64) / 256 % 256 := by omega
      rw [b0, b1]

/-- Witness for C33: `TWE=` gives the bytes 77 and 97 of `Ma`, and a second `=` throws. -/
theorem base64_padding_rules_witness :
    (Base64Reader.start exampleReader64).putAll [84, 87, 69, 61]
      = .ok { base64 := [77, 97], b64Cnt := 999, b64Value := 79236 } ∧
    (Base64Reader.start exampleReader64).putAll [84, 87, 69, 61, 61]
      = .error "base64 unexpected padding" :=
  ⟨((base64_padding_rules exampleReader64).2.2.2.2.2.2.2.2.2 19 22 4 (by decide) (by decide)
      (by decide)).2, rfl⟩

end Converter

namespace Informix

/-! ### `rollbackTransaction` with another transaction, and the increment of other fields -/

/-- C37 (evaluation at the failing input): on the connection bound to transaction 7,
`rollbackTransaction` called with transaction 8 submits `ROLLBACK WORK;`, returns normally and
leaves the connection unbound, where `endTransaction` with transaction 8 throws
`transaction mismatch`, submits nothing and leaves the connection bound to 7.  For every
connection bound to a transaction and every argument, `rollbackTransaction` submits
`ROLLBACK WORK;`, never throws `transaction mismatch`, and unbinds the connection when the
statement succeeds. -/
theorem rollback_ignores_its_transaction :
    rollbackTransaction exampleServer exampleBound (some 8)
      = ⟨exampleConn, [.rollbackWork], .ok ()⟩ ∧
    endTransaction exampleServer exampleBound (some 8)
      = ⟨exampleBound, [], .error (.runtime "transaction mismatch")⟩ ∧
    (∀ (be : Backend) (c : Conn) (t : Nat) (other : Option Nat),
      c.currentTransaction = some t →
      (rollbackTransaction be c other).trace = [.rollbackWork] ∧
      (rollbackTransaction be c other).out ≠ .error (.runtime "transaction mismatch") ∧
      ((be.exec [] Stmt.rollbackWork.text).code = 0 →
        (rollbackTransaction be c other).conn = { c with currentTransaction := none } ∧
        (rollbackTransaction be c other).out = .ok ())) := by
  refine ⟨rfl, rfl, ?_⟩
  intro be c t other hb
  refine ⟨?_, ?_, ?_⟩
  · simp only [rollbackTransaction, hb, submit]
    split_ifs <;> rfl
  · simp only [rollbackTransaction, hb, submit]
    split_ifs
    · intro h
      cases h
    · intro h
      cases h
  · intro h0
    simp only [rollbackTransaction, hb, submit, List.map_nil, h0, ne_eq, not_true_eq_false,
      if_false, and_self]

/-- C38 (evaluation at the failing input): in bound mode with increment, `valueStmt` binds the
time field that holds 5 as the `DATETIME` text of 5 and the `double` field that holds 1.0 as
the float 1.0, the values it binds without increment, and throws nothing.  For every time field
and for every field that is no time and no integer and converts to double, the result with
increment is the result without increment; only a field that is no time, no integer and does
not convert to double throws `VersionElement is not int`. -/
theorem increment_skipped_for_time_and_double :
    valueStmt exampleLib true exampleVersionTime false true false
      = .ok ("?", some ⟨.SQLDTIME, 8, .dtime "T"⟩) ∧
    valueStmt exampleLib true exampleVersionDouble false true false
      = .ok ("?", some ⟨.SQLFLOAT, 8, .float 4607182418800017408⟩) ∧
    valueStmt exampleLib true (Member.base exampleExt exampleString) false true false
      = .error (.runtime "VersionElement is not int") ∧
    (∀ (lib : InfxLib) (mem : MemberBase) (compact w : Bool),
      mem.memInfo.isTime = true →
      valueStmt lib true mem compact true w = valueStmt lib true mem compact false w) ∧
    (∀ (lib : InfxLib) (mem : MemberBase) (compact w : Bool) (d : Nat),
      mem.memInfo.isTime = false → mem.memInfo.isUnsigned = false →
      mem.memInfo.isSigned = false → mem.toDouble = some d →
      valueStmt lib true mem compact true w = bindVar lib mem .SQLFLOAT 0 (.float d) 0 ∧
      valueStmt lib true mem compact false w = bindVar lib mem .SQLFLOAT 0 (.float d) 0) ∧
    (∀ (lib : InfxLib) (mem : MemberBase) (compact w : Bool),
      mem.memInfo.isTime = false → mem.memInfo.isUnsigned = false →
      mem.memInfo.isSigned = false → mem.toDouble = none →
      valueStmt lib true mem compact true w = .error (.runtime "VersionElement is not int")) := by
  refine ⟨rfl, rfl, rfl, ?_, ?_, ?_⟩
  · intro lib mem compact w ht
    simp only [valueStmt, ht, not_true_eq_false, if_false, true_and, if_true]
  · intro lib mem compact w d ht hu hs hd
    simp only [valueStmt, ht, hu, hs, hd, not_true_eq_false, if_false, Bool.false_eq_true,
      false_and, and_self]
  · intro lib mem compact w ht hu hs hd
    simp only [valueStmt, ht, hu, hs, hd, not_true_eq_false, if_false, Bool.false_eq_true,
      false_and, if_true]

end Informix

namespace XmlWriter

/-! ### The XML writer: the replacement character -/

theorem ite_both {α : Type} (P : α → Prop) (c : Prop) [Decidable c] (a b : α) (ha : P a)
    (hb : P b) : P (if c then a else b) := by
  split_ifs
  · exact ha
  · exact hb

/-- No converter of `xmlwriter.cpp` yields U+00BF for another character. -/
theorem to_iso_never_inverted (c : Char) (h : c ≠ Char.ofNat 0xBF) :
    to_iso_8859_1 c ≠ Char.ofNat 0xBF ∧ to_iso_8859_9 c ≠ Char.ofNat 0xBF ∧
    to_iso_8859_15 c ≠ Char.ofNat 0xBF := by
  have hi : inval ≠ Char.ofNat 0xBF := by decide
  refine ⟨?_, ?_, ?_⟩
  · exact ite_both (fun x => x ≠ Char.ofNat 0xBF) _ _ _ hi h
  · unfold to_iso_8859_9
    refine ite_both (fun x => x ≠ Char.ofNat 0xBF) _ _ _ (by decide) ?_
    refine ite_both (fun x => x ≠ Char.ofNat 0xBF) _ _ _ (by decide) ?_
    refine ite_both (fun x => x ≠ Char.ofNat 0xBF) _ _ _ (by decide) ?_
    refine ite_both (fun x => x ≠ Char.ofNat 0xBF) _ _ _ (by decide) ?_
    refine ite_both (fun x => x ≠ Char.ofNat 0xBF) _ _ _ (by decide) ?_
    refine ite_both (fun x => x ≠ Char.ofNat 0xBF) _ _ _ (by decide) ?_
    refine ite_both (fun x => x ≠ Char.ofNat 0xBF) _ _ _ hi ?_
    exact ite_both (fun x => x ≠ Char.ofNat 0xBF) _ _ _ hi h
  · unfold to_iso_8859_15
    refine ite_both (fun x => x ≠ Char.ofNat 0xBF) _ _ _ (by decide) ?_
    refine ite_both (fun x => x ≠ Char.ofNat 0xBF) _ _ _ (by decide) ?_
    refine ite_both (fun x => x ≠ Char.ofNat 0xBF) _ _ _ (by decide) ?_
    refine ite_both (fun x => x ≠ Char.ofNat 0xBF) _ _ _ (by decide) ?_
    refine ite_both (fun x => x ≠ Char.ofNat 0xBF) _ _ _ (by decide) ?_
    refine ite_both (fun x => x ≠ Char.ofNat 0xBF) _ _ _ (by decide) ?_
    refine ite_both (fun x => x ≠ Char.ofNat 0xBF) _ _ _ (by decide) ?_
    refine ite_both (fun x => x ≠ Char.ofNat 0xBF) _ _ _ (by decide) ?_
    refine ite_both (fun x => x ≠ Char.ofNat 0xBF) _ _ _ hi ?_
    exact ite_both (fun x => x ≠ Char.ofNat 0xBF) _ _ _ hi h

theorem to_iso_wide (c : Char) (h : c.toNat > 0xFF) :
    to_iso_8859_1 c = Char.ofNat 0xB8 ∧
    (c.toNat ∉ [0x011E, 0x0130, 0x015E, 0x011F, 0x0131, 0x015F] →
      to_iso_8859_9 c = Char.ofNat 0xB8) ∧
    (c.toNat ∉ [0x20AC, 0x0160, 0x0161, 0x017D, 0x017E, 0x0152, 0x0153, 0x0178] →
      to_iso_8859_15 c = Char.ofNat 0xB8) := by
  refine ⟨?_, ?_, ?_⟩
  · unfold to_iso_8859_1
    rw [if_pos h]
    rfl
  · intro hm
    simp only [List.mem_cons, List.mem_singleton, List.not_mem_nil, or_false, not_or] at hm
    obtain ⟨h1, h2, h3, h4, h5, h6⟩ := hm
    unfold to_iso_8859_9
    rw [if_neg h1, if_neg h2, if_neg h3, if_neg h4, if_neg h5, if_neg h6]
    split_ifs
    · rfl
    · rfl
  · intro hm
    simp only [List.mem_cons, List.mem_singleton, List.not_mem_nil, or_false, not_or] at hm
    obtain ⟨h1, h2, h3, h4, h5, h6, h7, h8⟩ := hm
    unfold to_iso_8859_15
    rw [if_neg h1, if_neg h2, if_neg h3, if_neg h4, if_neg h5, if_neg h6, if_neg h7, if_neg h8]
    split_ifs
    · rfl
    · rfl

/-- C39 (evaluation at the failing input): the replacement character of `xmlwriter.cpp` is
U+00B8, the cedilla, not the inverted question mark U+00BF.  With a writer for ISO-8859-1 the
value U+0100 is written as U+00B8 and `getString` yields the byte 0xB8; with ISO-8859-9 the
reassigned U+00D0 and with ISO-8859-15 the reassigned U+00A4 are written as U+00B8; in
ISO-8859-15 the byte 0xB8 is also what the representable U+017E is written as.  In general
every character above U+00FF that is not one of those a converter maps to a byte is converted
to U+00B8, and no converter yields U+00BF for another character than U+00BF. -/
theorem replacement_is_cedilla :
    inval = Char.ofNat 0xB8 ∧ inval ≠ Char.ofNat 0xBF ∧
    (writeValue (XmlWriterData.new .CS_iso8859_1 false) [Char.ofNat 0x100]).buffer
      = [Char.ofNat 0xB8] ∧
    getString (fun _ => [])
        (writeValue (XmlWriterData.new .CS_iso8859_1 false) [Char.ofNat 0x100]) = [0xB8] ∧
    (writeValue (XmlWriterData.new .CS_iso8859_9 false) [Char.ofNat 0xD0]).buffer
      = [Char.ofNat 0xB8] ∧
    (writeValue (XmlWriterData.new .CS_iso8859_15 false) [Char.ofNat 0xA4]).buffer
      = [Char.ofNat 0xB8] ∧
    (writeValue (XmlWriterData.new .CS_iso8859_15 false) [Char.ofNat 0x017E]).buffer
      = [Char.ofNat 0xB8] ∧
    (∀ c : Char, c.toNat > 0xFF →
      to_iso_8859_1 c = Char.ofNat 0xB8 ∧
      (c.toNat ∉ [0x011E, 0x0130, 0x015E, 0x011F, 0x0131, 0x015F] →
        to_iso_8859_9 c = Char.ofNat 0xB8) ∧
      (c.toNat ∉ [0x20AC, 0x0160, 0x0161, 0x017D, 0x017E, 0x0152, 0x0153, 0x0178] →
        to_iso_8859_15 c = Char.ofNat 0xB8)) ∧
    (∀ c : Char, c ≠ Char.ofNat 0xBF →
      to_iso_8859_1 c ≠ Char.ofNat 0xBF ∧ to_iso_8859_9 c ≠ Char.ofNat 0xBF ∧
      to_iso_8859_15 c ≠ Char.ofNat 0xBF) :=
  ⟨rfl, by decide, by decide, by decide, by decide, by decide, by decide, to_iso_wide,
    to_iso_never_inverted⟩

end XmlWriter
namespace XmlWriter

/-! ### The XML writer: what the parser makes of escaped text -/

/-- What a converter yields is the character itself or one of the bytes it assigns. -/
theorem to_iso_values (c : Char) :
    (to_iso_8859_1 c = c ∨ to_iso_8859_1 c = inval) ∧
    (to_iso_8859_9 c = c ∨ to_iso_8859_9 c ∈ [Char.ofNat 0xD0, Char.ofNat 0xDD,
      Char.ofNat 0xDE, Char.ofNat 0xF0, Char.ofNat 0xFD, Char.ofNat 0xFE, inval]) ∧
    (to_iso_8859_15 c = c ∨ to_iso_8859_15 c ∈ [Char.ofNat 0xA4, Char.ofNat 0xA6,
      Char.ofNat 0xA8, Char.ofNat 0xB4, Char.ofNat 0xB8, Char.ofNat 0xBC, Char.ofNat 0xBD,
      Char.ofNat 0xBE, inval]) := by
  refine ⟨?_, ?_, ?_⟩
  · exact ite_both (fun x => x = c ∨ x = inval) _ _ _ (Or.inr rfl) (Or.inl rfl)
  · unfold to_iso_8859_9
    refine ite_both (fun x => x = c ∨ x ∈ _) _ _ _ (Or.inr (by decide)) ?_
    refine ite_both (fun x => x = c ∨ x ∈ _) _ _ _ (Or.inr (by decide)) ?_
    refine ite_both (fun x => x = c ∨ x ∈ _) _ _ _ (Or.inr (by decide)) ?_
    refine ite_both (fun x => x = c ∨ x ∈ _) _ _ _ (Or.inr (by decide)) ?_
    refine ite_both (fun x => x = c ∨ x ∈ _) _ _ _ (Or.inr (by decide)) ?_
    refine ite_both (fun x => x = c ∨ x ∈ _) _ _ _ (Or.inr (by decide)) ?_
    refine ite_both (fun x => x = c ∨ x ∈ _) _ _ _ (Or.inr (by decide)) ?_
    exact ite_both (fun x => x = c ∨ x ∈ _) _ _ _ (Or.inr (by decide)) (Or.inl rfl)
  · unfold to_iso_8859_15
    refine ite_both (fun x => x = c ∨ x ∈ _) _ _ _ (Or.inr (by decide)) ?_
    refine ite_both (fun x => x = c ∨ x ∈ _) _ _ _ (Or.inr (by decide)) ?_
    refine ite_both (fun x => x = c ∨ x ∈ _) _ _ _ (Or.inr (by decide)) ?_
    refine ite_both (fun x => x = c ∨ x ∈ _) _ _ _ (Or.inr (by decide)) ?_
    refine ite_both (fun x => x = c ∨ x ∈ _) _ _ _ (Or.inr (by decide)) ?_
    refine ite_both (fun x => x = c ∨ x ∈ _) _ _ _ (Or.inr (by decide)) ?_
    refine ite_both (fun x => x = c ∨ x ∈ _) _ _ _ (Or.inr (by decide)) ?_
    refine ite_both (fun x => x = c ∨ x ∈ _) _ _ _ (Or.inr (by decide)) ?_
    refine ite_both (fun x => x = c ∨ x ∈ _) _ _ _ (Or.inr (by decide)) ?_
    exact ite_both (fun x => x = c ∨ x ∈ _) _ _ _ (Or.inr (by decide)) (Or.inl rfl)

theorem written_plain (cs : charset) (c : Char) (h : c.toNat ≤ 0x7F) : written cs c = c := by
  unfold written
  cases conFun cs with
  | none => rfl
  | some f =>
    simp only
    rw [if_neg (by omega)]

theorem written_unconverted (cs : charset) (c : Char) (h : conFun cs = none) :
    written cs c = c := by
  unfold written
  rw [h]

/-- The character `write` appends for a character other than `&` is not `&`. -/
theorem written_ne_amp (cs : charset) (c : Char) (h : c ≠ '&') : written cs c ≠ '&' := by
  obtain ⟨h1, h9, h15⟩ := to_iso_values c
  have key : ∀ f : Char → Char,
      (f c = c ∨ f c ∈ [Char.ofNat 0xD0, Char.ofNat 0xDD, Char.ofNat 0xDE, Char.ofNat 0xF0,
        Char.ofNat 0xFD, Char.ofNat 0xFE, Char.ofNat 0xA4, Char.ofNat 0xA6, Char.ofNat 0xA8,
        Char.ofNat 0xB4, Char.ofNat 0xB8, Char.ofNat 0xBC, Char.ofNat 0xBD, Char.ofNat 0xBE]) →
      (if c.toNat > 0x7F then f c else c) ≠ '&' := by
    intro f hf
    refine ite_both (fun x => x ≠ '&') _ _ _ ?_ h
    rcases hf with hf | hf
    · rw [hf]
      exact h
    · intro e
      rw [e] at hf
      revert hf
      decide
  unfold written
  cases cs with
  | CS_utf8 => exact h
  | CS_utf8_bom => exact h
  | CS_utf16_le => exact h
  | CS_utf16_be => exact h
  | CS_iso8859_1 =>
    refine key to_iso_8859_1 ?_
    rcases h1 with h1 | h1
    · exact Or.inl h1
    · exact Or.inr (by rw [h1]; decide)
  | CS_iso8859_9 =>
    refine key to_iso_8859_9 ?_
    rcases h9 with h9 | h9
    · exact Or.inl h9
    · refine Or.inr ?_
      revert h9
      generalize to_iso_8859_9 c = y
      intro hy
      simp only [List.mem_cons, List.mem_singleton, List.not_mem_nil, or_false] at hy
      rcases hy with rfl | rfl | rfl | rfl | rfl | rfl | rfl <;> decide
  | CS_iso8859_15 =>
    refine key to_iso_8859_15 ?_
    rcases h15 with h15 | h15
    · exact Or.inl h15
    · refine Or.inr ?_
      revert h15
      generalize to_iso_8859_15 c = y
      intro hy
      simp only [List.mem_cons, List.mem_singleton, List.not_mem_nil, or_false] at hy
      rcases hy with rfl | rfl | rfl | rfl | rfl | rfl | rfl | rfl | rfl <;> decide

theorem append_append (d : XmlWriterData) (a b : List Char) :
    (d.append a).append b = d.append (a ++ b) := by
  simp only [XmlWriterData.append, List.append_assoc]

theorem append_nil (d : XmlWriterData) : d.append [] = d := by
  simp only [XmlWriterData.append, List.append_nil]

theorem valueChar_eq (d : XmlWriterData) (c : Char) :
    valueChar d c = d.append (valueText d.cs c) := by
  unfold valueChar valueText XmlWriterData.write
  split_ifs <;> rfl

theorem attributeChar_eq (d : XmlWriterData) (c : Char) :
    attributeChar d c = d.append (attributeText d.cs c) := by
  unfold attributeChar attributeText XmlWriterData.write
  split_ifs <;> rfl

theorem foldl_valueChar (s : List Char) :
    ∀ d : XmlWriterData, s.foldl valueChar d = d.append (escaped (valueText d.cs) s) := by
  induction s with
  | nil =>
    intro d
    exact (append_nil d).symm
  | cons c rest ih =>
    intro d
    rw [List.foldl_cons, ih, valueChar_eq, append_append]
    rfl

theorem foldl_attributeChar (s : List Char) :
    ∀ d : XmlWriterData,
      s.foldl attributeChar d = d.append (escaped (attributeText d.cs) s) := by
  induction s with
  | nil =>
    intro d
    exact (append_nil d).symm
  | cons c rest ih =>
    intro d
    rw [List.foldl_cons, ih, attributeChar_eq, append_append]
    rfl

/-- The text `writeValue` appends after the `>` of an open tag. -/
theorem writeValue_buffer (d : XmlWriterData) (s : List Char) :
    (writeValue d s).buffer = d.closeTag.buffer ++ escaped (valueText d.cs) s := by
  have hcs : d.closeTag.cs = d.cs := by
    unfold XmlWriterData.closeTag
    split_ifs <;> rfl
  unfold writeValue
  simp only
  rw [foldl_valueChar, hcs]
  rfl

/-- The text `writeAttribute` appends. -/
theorem writeAttribute_buffer (d : XmlWriterData) (a s : List Char) :
    (writeAttribute d a s).buffer
      = d.buffer ++ (' ' :: (a ++ ['=', XmlParser.dquote]))
          ++ escaped (attributeText d.cs) s ++ [XmlParser.dquote] := by
  unfold writeAttribute
  simp only
  rw [foldl_attributeChar]
  rfl

/-- A piece of text in which every character is written as itself, as another character that
is no `&`, or as the token of one of the five characters: `decode` yields the characters. -/
theorem decode_escaped (esc : Char → List Char) (out : Char → Char)
    (hesc : ∀ c, (esc c = [out c] ∧ out c ≠ '&') ∨
      ∃ tok, esc c = '&' :: (tok ++ [';']) ∧ XmlParser.entity tok = some (out c))
    (X : List Char) (s : List Char) :
    ∀ (pos : Nat) (w t : List Char), X.drop pos = w ++ (escaped esc s ++ t) →
      (∀ x, x ∈ w → x ≠ '&') →
      XmlParser.decode X pos (pos + (w.length + (escaped esc s).length)) = w ++ s.map out := by
  induction s with
  | nil =>
    intro pos w t h hw
    have h1 : X.drop pos = w ++ t := h
    have := XmlParser.decode_plain X pos w t h1 hw
    simpa [escaped] using this
  | cons c rest ih =>
    intro pos w t h hw
    rcases hesc c with ⟨he, hn⟩ | ⟨tok, he, hc⟩
    · have h1 : X.drop pos = (w ++ [out c]) ++ (escaped esc rest ++ t) := by
        rw [h, escaped, he]
        simp
      have hw1 : ∀ x, x ∈ w ++ [out c] → x ≠ '&' := by
        intro x hx
        rcases List.mem_append.mp hx with hx | hx
        · exact hw x hx
        · rw [List.mem_singleton.mp hx]
          exact hn
      have := ih pos (w ++ [out c]) t h1 hw1
      have el : pos + (w.length + (escaped esc (c :: rest)).length)
          = pos + ((w ++ [out c]).length + (escaped esc rest).length) := by
        rw [escaped, he]
        simp only [List.length_append, List.length_cons, List.length_nil]
        omega
      rw [el, this]
      simp
    · have h1 : X.drop pos = w ++ '&' :: (tok ++ ';' :: (escaped esc rest ++ t)) := by
        rw [h, escaped, he]
        simp
      have hd := XmlParser.decode_entity X pos w tok (out c) (escaped esc rest) t h1 hw hc
      have h2 : X.drop (pos + (w.length + 1 + tok.length + 1))
          = [] ++ (escaped esc rest ++ t) := by
        have e : w ++ '&' :: (tok ++ ';' :: (escaped esc rest ++ t))
            = (w ++ '&' :: (tok ++ [';'])) ++ (escaped esc rest ++ t) := by simp
        rw [e] at h1
        have := XmlParser.drop_append_next X pos _ _ h1
        have el : pos + (w ++ '&' :: (tok ++ [';'])).length
            = pos + (w.length + 1 + tok.length + 1) := by
          simp only [List.length_append, List.length_cons, List.length_nil]
          omega
        rw [el] at this
        exact this
      have hr := ih (pos + (w.length + 1 + tok.length + 1)) [] t h2
        (fun x hx => by cases hx)
      have el : pos + (w.length + (escaped esc (c :: rest)).length)
          = pos + (w.length + 1 + tok.length + 1 + (escaped esc rest).length) := by
        rw [escaped, he]
        simp only [List.length_append, List.length_cons, List.length_nil]
        omega
      have el2 : pos + (w.length + 1 + tok.length + 1) + (([] : List Char).length
            + (escaped esc rest).length)
          = pos + (w.length + 1 + tok.length + 1 + (escaped esc rest).length) := by
        simp only [List.length_nil]
        omega
      rw [el2] at hr
      rw [el, hd, hr]
      simp

theorem valueText_cases (cs : charset) (c : Char) :
    (valueText cs c = [written cs c] ∧ written cs c ≠ '&') ∨
    ∃ tok, valueText cs c = '&' :: (tok ++ [';']) ∧
      XmlParser.entity tok = some (written cs c) := by
  unfold valueText
  by_cases h1 : c = '<'
  · subst h1
    exact Or.inr ⟨"lt".toList, rfl, by rw [written_plain _ _ (by decide)]; rfl⟩
  · by_cases h2 : c = '>'
    · subst h2
      exact Or.inr ⟨"gt".toList, rfl, by rw [written_plain _ _ (by decide)]; rfl⟩
    · by_cases h3 : c = '&'
      · subst h3
        exact Or.inr ⟨"amp".toList, rfl, by rw [written_plain _ _ (by decide)]; rfl⟩
      · rw [if_neg h1, if_neg h2, if_neg h3]
        exact Or.inl ⟨rfl, written_ne_amp cs c h3⟩

theorem attributeText_cases (cs : charset) (c : Char) :
    (attributeText cs c = [written cs c] ∧ written cs c ≠ '&') ∨
    ∃ tok, attributeText cs c = '&' :: (tok ++ [';']) ∧
      XmlParser.entity tok = some (written cs c) := by
  unfold attributeText
  by_cases h1 : c = '<'
  · subst h1
    exact Or.inr ⟨"lt".toList, rfl, by rw [written_plain _ _ (by decide)]; rfl⟩
  · by_cases h2 : c = XmlParser.dquote
    · subst h2
      exact Or.inr ⟨"quot".toList, rfl, by rw [written_plain _ _ (by decide)]; rfl⟩
    · by_cases h3 : c = '&'
      · subst h3
        exact Or.inr ⟨"amp".toList, rfl, by rw [written_plain _ _ (by decide)]; rfl⟩
      · rw [if_neg h1, if_neg h2, if_neg h3]
        exact Or.inl ⟨rfl, written_ne_amp cs c h3⟩

/-- C34 as stated fails: a writer for ISO-8859-9 writes the value of the one character U+011E
as the one character U+00D0, in `writeValue` and between the quotes of `writeAttribute`, and
`decode` applied to that text yields U+00D0, not the string that was written. -/
theorem conversion_not_undone :
    (writeValue (XmlWriterData.new .CS_iso8859_9 false) [Char.ofNat 0x011E]).buffer
      = [Char.ofNat 0xD0] ∧
    XmlParser.decode
        (writeValue (XmlWriterData.new .CS_iso8859_9 false) [Char.ofNat 0x011E]).buffer 0 1
      = [Char.ofNat 0xD0] ∧
    (writeAttribute (XmlWriterData.new .CS_iso8859_9 false) ['a'] [Char.ofNat 0x011E]).buffer
      = [' ', 'a', '=', XmlParser.dquote, Char.ofNat 0xD0, XmlParser.dquote] ∧
    XmlParser.decode
        (writeAttribute (XmlWriterData.new .CS_iso8859_9 false) ['a']
          [Char.ofNat 0x011E]).buffer 4 5
      = [Char.ofNat 0xD0] ∧
    [Char.ofNat 0xD0] ≠ [Char.ofNat 0x011E] := by
  decide

/-- C34 (amended): for every writer `d` without conversion function (UTF-8, UTF-16), every
string `s` and every text `t` that follows, `decode` applied to what `writeValue(s)` appends
to the buffer (with `<`, `>` and `&` written as `&lt;`, `&gt;` and `&amp;`) yields `s`, and so
does `decode` applied to the value that `writeAttribute(a, s)` puts between the quotes (with
`<`, the double quote and `&` written as tokens).  For every writer the two yield the
characters that `write` is given `s` as, which are `s` also for a string of characters up to
U+007F.  `decode` is the identity on a piece of text without `&`, and it hands on as it is an
`&` that does not begin the token of one of the five characters. -/
theorem decode_undoes_escaping (d : XmlWriterData) (s : List Char) :
    (conFun d.cs = none →
      (∀ t : List Char,
        XmlParser.decode ((writeValue d s).buffer ++ t) d.closeTag.buffer.length
          (writeValue d s).buffer.length = s) ∧
      (∀ a t : List Char,
        XmlParser.decode ((writeAttribute d a s).buffer ++ t)
          (d.buffer.length + a.length + 3) ((writeAttribute d a s).buffer.length - 1) = s)) ∧
    (∀ t : List Char,
      XmlParser.decode ((writeValue d s).buffer ++ t) d.closeTag.buffer.length
        (writeValue d s).buffer.length = s.map (written d.cs)) ∧
    (∀ a t : List Char,
      XmlParser.decode ((writeAttribute d a s).buffer ++ t) (d.buffer.length + a.length + 3)
        ((writeAttribute d a s).buffer.length - 1) = s.map (written d.cs)) ∧
    (conFun d.cs = none → s.map (written d.cs) = s) ∧
    ((∀ c, c ∈ s → c.toNat ≤ 0x7F) → s.map (written d.cs) = s) ∧
    (∀ (X : List Char) (pos : Nat) (w t : List Char), X.drop pos = w ++ t →
      (∀ c, c ∈ w → c ≠ '&') → XmlParser.decode X pos (pos + w.length) = w) ∧
    (∀ (X : List Char) (pos : Nat) (w t1 : List Char) (n : Nat),
      X.drop pos = w ++ '&' :: t1 → (∀ x, x ∈ w → x ≠ '&') → w.length + 1 ≤ n →
      (∀ tok c rest, t1 = tok ++ ';' :: rest → XmlParser.entity tok ≠ some c) →
      XmlParser.decode X pos (pos + n)
        = w ++ '&' :: XmlParser.decode X (pos + (w.length + 1)) (pos + n)) := by
  have hid : conFun d.cs = none → s.map (written d.cs) = s := by
    intro h
    conv_rhs => rw [← List.map_id s]
    exact List.map_congr_left (fun c _ => written_unconverted d.cs c h)
  have hv : ∀ t : List Char,
      XmlParser.decode ((writeValue d s).buffer ++ t) d.closeTag.buffer.length
        (writeValue d s).buffer.length = s.map (written d.cs) := by
    intro t
    have h := decode_escaped (valueText d.cs) (written d.cs) (valueText_cases d.cs)
      ((writeValue d s).buffer ++ t) s d.closeTag.buffer.length [] t
      (by rw [writeValue_buffer, List.append_assoc, List.drop_left]; rfl)
      (fun x hx => by cases hx)
    have el : (writeValue d s).buffer.length
        = d.closeTag.buffer.length + (([] : List Char).length
            + (escaped (valueText d.cs) s).length) := by
      rw [writeValue_buffer, List.length_append, List.length_nil]
      omega
    rw [el, h]
    rfl
  have ha : ∀ a t : List Char,
      XmlParser.decode ((writeAttribute d a s).buffer ++ t) (d.buffer.length + a.length + 3)
        ((writeAttribute d a s).buffer.length - 1) = s.map (written d.cs) := by
    intro a t
    have hb := writeAttribute_buffer d a s
    have hx : ((writeAttribute d a s).buffer ++ t).drop (d.buffer.length + a.length + 3)
        = [] ++ (escaped (attributeText d.cs) s ++ (XmlParser.dquote :: t)) := by
      have e : (writeAttribute d a s).buffer ++ t
          = (d.buffer ++ (' ' :: (a ++ ['=', XmlParser.dquote])))
            ++ (escaped (attributeText d.cs) s ++ (XmlParser.dquote :: t)) := by
        rw [hb]
        simp
      have el : d.buffer.length + a.length + 3
          = (d.buffer ++ (' ' :: (a ++ ['=', XmlParser.dquote]))).length := by
        simp only [List.length_append, List.length_cons, List.length_nil]
        omega
      rw [e, el, List.drop_left]
      rfl
    have h := decode_escaped (attributeText d.cs) (written d.cs) (attributeText_cases d.cs)
      ((writeAttribute d a s).buffer ++ t) s (d.buffer.length + a.length + 3) []
      (XmlParser.dquote :: t) hx (fun x hx => by cases hx)
    have el : (writeAttribute d a s).buffer.length - 1
        = d.buffer.length + a.length + 3 + (([] : List Char).length
            + (escaped (attributeText d.cs) s).length) := by
      rw [hb]
      simp only [List.length_append, List.length_cons, List.length_nil]
      omega
    rw [el, h]
    rfl
  refine ⟨fun hn => ⟨fun t => ?_, fun a t => ?_⟩, hv, ha, hid, ?_, XmlParser.decode_plain,
    XmlParser.decode_other⟩
  · rw [hv t, hid hn]
  · rw [ha a t, hid hn]
  · intro h
    conv_rhs => rw [← List.map_id s]
    exact List.map_congr_left (fun c hc => written_plain d.cs c (h c hc))

end XmlWriter
namespace XmlParser

/-! ### The XML parser: a CDATA section -/

theorem bind_assoc_apply {α β γ : Type} (m : Parse α) (f : α → Parse β) (g : β → Parse γ)
    (s : XmlParser) : ((m >>= f) >>= g) s = (m >>= fun a => f a >>= g) s := by
  rw [bind_apply, bind_apply, bind_apply]
  cases m s <;> rfl

theorem findFrom_cdata (v t : List Char) :
    ∀ i, findFrom [']', ']', '>'] v i = none →
      findFrom [']', ']', '>'] (v ++ ']' :: ']' :: '>' :: t) i = some (i + v.length) := by
  induction v with
  | nil =>
    intro i _
    simp [findFrom, List.isPrefixOf]
  | cons c rest ih =>
    intro i h
    unfold findFrom at h
    by_cases hc : List.isPrefixOf [']', ']', '>'] (c :: rest) = true
    · rw [if_pos hc] at h
      cases h
    · rw [if_neg hc] at h
      have hpre : ¬ List.isPrefixOf [']', ']', '>'] (c :: (rest ++ ']' :: ']' :: '>' :: t))
          = true := by
        rcases rest with _ | ⟨c2, _ | ⟨c3, r3⟩⟩
        · simp [List.isPrefixOf]
        · simp [List.isPrefixOf]
        · simpa [List.isPrefixOf] using hc
      rw [List.cons_append, findFrom, if_neg hpre, ih (i + 1) h]
      simp only [List.length_cons]
      congr 1
      omega

theorem findFrom_none_shift (pat l : List Char) (i j : Nat) (h : findFrom pat l i = none) :
    findFrom pat l j = none := by
  induction l generalizing i j with
  | nil => rfl
  | cons c rest ih =>
    unfold findFrom at h ⊢
    by_cases hc : List.isPrefixOf pat (c :: rest) = true
    · rw [if_pos hc] at h
      cases h
    · rw [if_neg hc] at h ⊢
      exact ih _ _ h

theorem below_zero (x : Option Nat) : below x 0 = false := by
  cases x with
  | none => rfl
  | some q => simp [below]

theorem gapDone_of_eq (s : XmlParser) (h : s.posS = s.posE) : gapDone s := by
  unfold gapDone
  intro hn
  exact hn.1 h

theorem gapDone_of_zero (s : XmlParser) (h : s.posE = 0) : gapDone s := by
  unfold gapDone
  intro hn
  rw [h, below_zero] at hn
  cases hn.2

theorem gapDone_of_end (s : XmlParser) (h : s.Xml.drop s.posS = []) : gapDone s := by
  unfold gapDone
  intro hn
  have hf : find (fun c => !white.contains c) s.Xml s.posS = none := by
    unfold find
    rw [h]
    rfl
  rw [hf] at hn
  cases hn.2

/-- A CDATA section right after the last tag, at the head of the main loop: the calls of one
round. -/
theorem round_cdata (fuel : Nat) (s : XmlParser) (p : Nat) (v t : List Char)
    (hp : s.pos2 = some p) (hg : gapDone s) (hq : s.pos1 = p)
    (hv : findFrom [']', ']', '>'] v 0 = none)
    (h : s.Xml.drop p = '<' :: '!' :: '[' :: 'C' :: 'D' :: 'A' :: 'T' :: 'A' :: '[' ::
      (v ++ ']' :: ']' :: '>' :: t)) :
    ∃ s1, parseRound fuel s = .ok () s1 ∧
      s1.Xml = s.Xml ∧ s1.Xml.drop s1.pos1 = t ∧
      s1.pos2 = find (fun c => c = '<') s1.Xml s1.pos1 ∧ s1.posS = s1.posE ∧
      s1.lastKey = [] ∧ s1.tags = s.tags ∧ s1.calls = s.calls ++ [(.Cdata v, s.tags)] := by
  obtain ⟨s1, e1, x1, ps1, pe1, t1, k1, c1, d1⟩ := round_at fuel s p '!' _ hp hg h
  rw [if_neg (by decide), if_pos rfl] at e1
  obtain ⟨s2, e2, m2, d2⟩ := eat_at s1 '!' _ d1
  have e2p := peek_at s2 '[' _ d2
  obtain ⟨s3, e3, m3, d3⟩ := eatChar_at s2 '[' _ d2
  obtain ⟨s4, e4, m4, d4⟩ := eatChar_at s3 'C' _ d3
  obtain ⟨s5, e5, m5, d5⟩ := eatChar_at s4 'D' _ d4
  obtain ⟨s6, e6, m6, d6⟩ := eatChar_at s5 'A' _ d5
  obtain ⟨s7, e7, m7, d7⟩ := eatChar_at s6 'T' _ d6
  obtain ⟨s8, e8, m8, d8⟩ := eatChar_at s7 'A' _ d7
  obtain ⟨s9, e9, m9, d9⟩ := eatChar_at s8 '[' _ d8
  have m : Moved s1 s9 :=
    (((((((m2.trans m3).trans m4).trans m5).trans m6).trans m7).trans m8).trans m9)
  have hfind : findStr "]]>".toList s9.Xml s9.pos1 = some (s9.pos1 + v.length) := by
    unfold findStr
    rw [d9]
    exact findFrom_cdata v t s9.pos1 (findFrom_none_shift _ _ 0 _ hv)
  have e10 : parse2CD s9 = .ok () { s9 with pos2 := some (s9.pos1 + v.length) } := by
    unfold parse2CD
    rw [hfind]
  have hpos : s9.posS = s9.posE := by
    rw [m.2.1, m.2.2.1, ps1, pe1, hq]
  have e11 := saveValue_top { s9 with pos2 := some (s9.pos1 + v.length) }
    (s9.pos1 + v.length) rfl (gapDone_of_eq _ hpos)
  have hsub : substr s9.Xml s9.pos1 (s9.pos1 + v.length - s9.pos1) = v := by
    have e : s9.pos1 + v.length - s9.pos1 = v.length := by omega
    rw [e]
    exact substr_of_drop _ _ v _ d9
  have dv := drop_append_next _ _ v _ d9
  have dv1 := drop_cons_next _ _ _ _ dv
  have dv2 := drop_cons_next _ _ _ _ dv1
  have dv3 := drop_cons_next _ _ _ _ dv2
  refine ⟨{ s9 with
      pos2 := find (fun c => c = '<') s9.Xml (s9.pos1 + v.length + 1 + 1 + 1),
      posS := s9.pos1 + v.length, posE := s9.pos1 + v.length,
      pos1 := s9.pos1 + v.length + 1 + 1 + 1, lastKey := [],
      calls := s9.calls ++ [(.Cdata v, s9.tags)] }, ?_, ?_, dv3, rfl, rfl, rfl, ?_, ?_⟩
  · have e12 : eatChar '>' { s9 with
          pos2 := some (s9.pos1 + v.length),
          posS := s9.pos1 + v.length, posE := s9.pos1 + v.length,
          pos1 := s9.pos1 + v.length + 1 + 1, lastKey := [],
          calls := s9.calls ++ [(.Cdata v, s9.tags)] }
        = .ok () { s9 with
          pos2 := some (s9.pos1 + v.length),
          posS := s9.pos1 + v.length, posE := s9.pos1 + v.length,
          pos1 := s9.pos1 + v.length + 1 + 1 + 1, lastKey := [],
          calls := s9.calls ++ [(.Cdata v, s9.tags)] } := by
      unfold eatChar
      rw [if_neg (by
        show ¬ charAt s9.Xml (s9.pos1 + v.length + 1 + 1) ≠ '>'
        rw [charAt_of_drop _ _ _ _ dv2]
        simp)]
    rw [e1, parseMarkup, bind_ok e2, bind_ok e2p]
    simp only [if_true]
    rw [bind_assoc_apply, bind_ok e3, bind_assoc_apply, bind_ok e4, bind_assoc_apply,
      bind_ok e5, bind_assoc_apply, bind_ok e6, bind_assoc_apply, bind_ok e7,
      bind_assoc_apply, bind_ok e8, bind_assoc_apply, bind_ok e9, bind_assoc_apply,
      bind_ok e10, bind_assoc_apply, bind_ok e11, bind_assoc_apply,
      bind_ok (rfl : getState _ = .ok _ _)]
    simp only [hsub]
    rw [bind_assoc_apply, bind_ok (rfl : call _ _ = .ok () _), bind_assoc_apply,
      bind_ok (rfl : clearValue _ = .ok () _), bind_assoc_apply,
      bind_ok (rfl : setLastKey [] _ = .ok () _), bind_assoc_apply,
      bind_ok (rfl : eat _ = .ok () _), bind_ok (rfl : eat _ = .ok () _), bind_ok e12]
    rfl
  · show s9.Xml = s.Xml
    rw [m.1, x1]
  · show s9.tags = s.tags
    rw [m.2.2.2.1, t1]
  · show s9.calls ++ [(Call.Cdata v, s9.tags)] = _
    rw [m.2.2.2.2.2, c1, m.2.2.2.1, t1]

/-- An end tag for the innermost open element that is not the element whose tag was read
last: the calls of one round and the positions of the text before the tag. -/
theorem round_end_plain (fuel : Nat) (s : XmlParser) (p : Nat) (e : List Char) (t : List Char)
    (ts : List (List Char))
    (hp : s.pos2 = some p) (hg : gapDone s) (he : isName e = true) (hne : e ≠ [])
    (h : s.Xml.drop p = '<' :: '/' :: (e ++ '>' :: t)) (ht : s.tags = e :: ts)
    (hk : s.lastKey ≠ e) :
    ∃ s1, parseRound fuel s = .ok () s1 ∧
      s1.Xml = s.Xml ∧ s1.Xml.drop s1.pos1 = t ∧
      s1.pos2 = find (fun c => c = '<') s1.Xml s1.pos1 ∧ s1.tags = ts ∧
      s1.calls = s.calls ++ [(.EndTag e, e :: ts)] ∧ s1.posS = s.pos1 ∧ s1.posE = p := by
  obtain ⟨s1, e1, x1, ps1, pe1, t1, k1, c1, d1⟩ := round_at fuel s p '/'
    (e ++ '>' :: t) hp hg h
  rw [if_pos rfl] at e1
  obtain ⟨s2, e2, m2, d2⟩ := eat_at s1 '/' _ d1
  obtain ⟨s3, e3, m3, d3⟩ := name_at s2 e '>' t d2 he (by decide)
  have m := m2.trans m3
  have hk3 : ¬ s3.lastKey = e := by rw [m.2.2.2.2.1, k1]; exact hk
  have ht3 : s3.tags = e :: ts := by rw [m.2.2.2.1, t1, ht]
  obtain ⟨s4, e4, m4, d4⟩ := eatChar_at
    { s3 with calls := s3.calls ++ [(.EndTag e, s3.tags)], tags := s3.tags.tail } '>' t d3
  refine ⟨{ s4 with pos2 := find (fun c => c = '<') s4.Xml s4.pos1 }, ?_, ?_, d4, rfl, ?_, ?_,
    ?_, ?_⟩
  · rw [e1, parseEndTag, bind_ok e2, e3, bind_ok (throwIf_neg _ _ _ _ hne),
      bind_ok (rfl : getState s3 = .ok s3 s3)]
    simp only [hk3, if_false]
    rw [bind_ok (rfl : (pure () : Parse Unit) s3 = .ok () s3),
      bind_ok (rfl : call (.EndTag e) s3
        = .ok () { s3 with calls := s3.calls ++ [(.EndTag e, s3.tags)] }),
      bind_ok (rfl : getState _ = .ok _ _),
      bind_ok (throwIf_neg _ _ _ _ (by show ¬ s3.tags = []; rw [ht3]; simp)),
      bind_ok (throwIf_neg _ _ _ _ (by show ¬ s3.tags.head? ≠ some e; rw [ht3]; simp)),
      bind_ok (rfl : pop _ = .ok () _), bind_ok e4]
    rfl
  · show s4.Xml = s.Xml
    rw [m4.1]
    show s3.Xml = s.Xml
    rw [m.1, x1]
  · show s4.tags = ts
    rw [m4.2.2.2.1]
    show s3.tags.tail = ts
    rw [ht3]
    rfl
  · show s4.calls = _
    rw [m4.2.2.2.2.2]
    show s3.calls ++ [(Call.EndTag e, s3.tags)] = _
    rw [m.2.2.2.2.2, c1, ht3]
  · show s4.posS = s.pos1
    rw [m4.2.1]
    show s3.posS = s.pos1
    rw [m.2.1, ps1]
  · show s4.posE = p
    rw [m4.2.2.1]
    show s3.posE = p
    rw [m.2.2.1, pe1]

theorem rounds_step (fuel n : Nat) (s s1 : XmlParser) (p : Nat) (hn : 0 < n)
    (hp : s.pos2 = some p) (h : parseRound fuel s = .ok () s1) :
    parseRounds fuel n s = parseRounds fuel (n - 1) s1 := by
  obtain ⟨m, rfl⟩ : ∃ m, n = m + 1 := ⟨n - 1, by omega⟩
  rw [parseRounds]
  show (if s.pos2 = none then Res.ok () s
    else (parseRound fuel >>= fun _ => parseRounds fuel m) s) = _
  rw [if_neg (by rw [hp]; simp), bind_ok h]
  rfl

theorem rounds_done (fuel n : Nat) (s : XmlParser) (hp : s.pos2 = none) :
    parseRounds fuel n s = .ok () s := by
  cases n with
  | zero =>
    rw [parseRounds]
    show (if s.pos2 = none then Res.ok () s else Res.unfinished s) = _
    rw [if_pos hp]
  | succ m =>
    rw [parseRounds]
    show (if s.pos2 = none then Res.ok () s
      else (parseRound fuel >>= fun _ => parseRounds fuel m) s) = _
    rw [if_pos hp]

/-- The end of `parse()` when no element is open and the text is read to its end. -/
theorem parseEnd_at (s : XmlParser) (hg : gapDone s) (hd : s.Xml.drop s.pos1 = [])
    (ht : s.tags = []) :
    ∃ s1, parseEnd s = .ok () s1 ∧ s1.calls = s.calls ∧ s1.tags = [] := by
  have e1 := saveValue_top { s with pos2 := some s.Xml.length } s.Xml.length rfl hg
  have e2 := saveValue_top
    { s with pos2 := some s.Xml.length, posS := s.pos1, posE := s.Xml.length,
             pos1 := s.Xml.length }
    s.Xml.length rfl (gapDone_of_end _ hd)
  refine ⟨{ s with pos2 := some s.Xml.length, posS := s.Xml.length, posE := s.Xml.length,
                   pos1 := s.Xml.length }, ?_, rfl, ht⟩
  have e0 : parseEnd s = (saveValue >>= fun _ => saveValue >>= fun _ => getState >>= fun s0 =>
      throwIf (s0.tags ≠ []) " expected tag at EOF: " [s0.tags.headD []])
        { s with pos2 := some s.Xml.length } := rfl
  rw [e0, bind_ok e1, bind_ok e2, bind_ok (rfl : getState _ = .ok _ _)]
  exact throwIf_neg _ _ _ _ (by simpa using ht)

end XmlParser
namespace XmlParser

/-- The text `<t><![CDATA[v]]></t>` for a name `t` and a text `v` without `]]>`: `parse()`
returns, and it has called `StartTag(t)`, `Cdata(v)` and `EndTag(t)`. -/
theorem parse_cdata_element (t v : List Char) (ht : isName t = true) (hne : t ≠ [])
    (hv : findFrom [']', ']', '>'] v 0 = none) :
    ∃ s, run ('<' :: (t ++ '>' :: '<' :: '!' :: '[' :: 'C' :: 'D' :: 'A' :: 'T' :: 'A' :: '[' ::
        (v ++ ']' :: ']' :: '>' :: '<' :: '/' :: (t ++ ['>'])))) = .ok () s ∧
      s.calls = [(.StartTag t, [t]), (.Cdata v, [t]), (.EndTag t, [t])] := by
  obtain ⟨X, hX⟩ : ∃ X : List Char, X = '<' :: (t ++ '>' :: '<' :: '!' :: '[' :: 'C' :: 'D' ::
      'A' :: 'T' :: 'A' :: '[' :: (v ++ ']' :: ']' :: '>' :: '<' :: '/' :: (t ++ ['>']))) :=
    ⟨_, rfl⟩
  rw [← hX]
  have hd0 : X.drop 0 = '<' :: (t ++ (attributesText [] ++ '>' :: '<' :: '!' :: '[' :: 'C' ::
      'D' :: 'A' :: 'T' :: 'A' :: '[' :: (v ++ ']' :: ']' :: '>' :: '<' :: '/' ::
        (t ++ ['>'])))) := by
    rw [hX]
    rfl
  have hlen : 3 ≤ X.length := by
    rw [hX]
    simp only [List.length_cons, List.length_append]
    omega
  obtain ⟨c, w, rfl⟩ : ∃ c w, t = c :: w := by
    cases t with
    | nil => exact absurd rfl hne
    | cons c w => exact ⟨c, w, rfl⟩
  obtain ⟨_, _, hq⟩ := isName_head c w ht
  have hfind : find (fun c => decide (c = '<')) X 0 = some 0 :=
    find_hit (fun c => decide (c = '<')) X 0 [] '<' _ hd0 (fun _ hx => by cases hx) (by simp)
  have e0 : parse2LT { Xml := X } = .ok () { Xml := X } := by
    show Res.ok () ({ Xml := X, pos2 := find (fun c => decide (c = '<')) X 0 } : XmlParser) = _
    rw [hfind]
  have e1 : eatChar '<' { Xml := X } = .ok () { Xml := X, pos1 := 1 } := by
    unfold eatChar
    rw [if_neg (by
      show ¬ charAt X 0 ≠ '<'
      rw [charAt_of_drop _ _ _ _ hd0]
      simp)]
  have hd1 : X.drop 1 = c :: (w ++ (attributesText [] ++ '>' :: '<' :: '!' :: '[' :: 'C' ::
      'D' :: 'A' :: 'T' :: 'A' :: '[' :: (v ++ ']' :: ']' :: '>' :: '<' :: '/' ::
        (c :: w ++ ['>'])))) := drop_cons_next X 0 _ _ hd0
  have e2 := peek_at { Xml := X, pos1 := 1 } c _ hd1
  obtain ⟨s2, r2, x2, d2, q2, ps2, pe2, k2, t2, c2⟩ :=
    round_start (X.length + 1) { Xml := X, pos1 := 1 } 0 (c :: w) [] _ rfl
      (gapDone_of_eq _ rfl) ht hne (fun _ hx => by cases hx)
      (by simp only [List.length_nil]; omega) hd0
  have hp2 : s2.pos2 = some s2.pos1 := by
    rw [q2]
    exact find_hit (fun c => decide (c = '<')) s2.Xml s2.pos1 [] '<' _ d2
      (fun _ hx => by cases hx) (by simp)
  obtain ⟨s3, r3, x3, d3, q3, pp3, k3, t3, c3⟩ :=
    round_cdata (X.length + 1) s2 s2.pos1 v _ hp2 (gapDone_of_zero s2 pe2) rfl hv d2
  have hp3 : s3.pos2 = some s3.pos1 := by
    rw [q3]
    exact find_hit (fun c => decide (c = '<')) s3.Xml s3.pos1 [] '<' _ d3
      (fun _ hx => by cases hx) (by simp)
  obtain ⟨s4, r4, x4, d4, q4, t4, c4, ps4, pe4⟩ :=
    round_end_plain (X.length + 1) s3 s3.pos1 (c :: w) [] [] hp3 (gapDone_of_eq s3 pp3) ht hne
      d3 (by rw [t3, t2]) (by rw [k3]; exact fun e => hne e.symm)
  have hp4 : s4.pos2 = none := by
    rw [q4]
    unfold find
    rw [d4]
    rfl
  obtain ⟨s5, r5, c5, _⟩ := parseEnd_at s4 (gapDone_of_eq s4 (ps4.trans pe4.symm)) d4 t4
  have hr : parseRounds (X.length + 1) (X.length + 1) { Xml := X, pos1 := 1 } = .ok () s4 := by
    rw [rounds_step _ _ _ s2 0 (by omega) rfl r2, rounds_step _ _ _ s3 _ (by omega) hp2 r3,
      rounds_step _ _ _ s4 _ (by omega) hp3 r4, rounds_done _ _ s4 hp4]
  refine ⟨s5, ?_, ?_⟩
  · rw [run, parse, bind_ok e0, bind_ok (rfl : getState _ = .ok _ _),
      bind_ok (throwIf_neg _ _ _ _ (by simp)), bind_ok e1, bind_ok e2]
    simp only [if_neg hq]
    rw [bind_ok (rfl : (pure () : Parse Unit) _ = .ok () _), bind_ok hr]
    exact r5
  · rw [c5, c4, c3, c2, t2]
    simp [attributCalls]

end XmlParser

namespace XmlWriter

/-! ### A CDATA section from the writer to the parser -/

/-- What `writeTagBegin(t); writeCdata(v); writeTagEnd()` write with a new writer without
indentation. -/
theorem cdata_text (cs : charset) (t v : List Char) (force : Bool) :
    writeTagEnd (writeCdata (writeTagBegin (XmlWriterData.new cs false) t) v) force
      = .ok { buffer := '<' :: (t ++ '>' :: '<' :: '!' :: '[' :: 'C' :: 'D' :: 'A' :: 'T' ::
                'A' :: '[' :: (v ++ ']' :: ']' :: '>' :: '<' :: '/' :: (t ++ ['>']))),
              cs := cs, indent := false } := by
  simp [writeTagEnd, writeCdata, writeTagBegin, XmlWriterData.new, XmlWriterData.closeTag,
    XmlWriterData.append, XmlWriterData.writeIndent]

/-- Witness for C34: by a writer for UTF-8 the value `a<b>&c` is written as
`a&lt;b&gt;&amp;c`, and `decode` yields `a<b>&c` from it. -/
theorem decode_undoes_escaping_witness :
    (writeValue (XmlWriterData.new .CS_utf8 false) "a<b>&c".toList).buffer
      = "a&lt;b&gt;&amp;c".toList ∧
    XmlParser.decode ("a&lt;b&gt;&amp;c".toList ++ "</t>".toList) 0 16 = "a<b>&c".toList :=
  ⟨by decide,
    ((decode_undoes_escaping (XmlWriterData.new .CS_utf8 false) "a<b>&c".toList).1 rfl).1
      "</t>".toList⟩

end XmlWriter

namespace XmlParser

/-! ### The XML parser: a document of one element -/

theorem attributesText_length (attrs : List Attribute) :
    attrs.length ≤ (attributesText attrs).length := by
  induction attrs with
  | nil => exact Nat.le_refl _
  | cons a rest ih =>
    simp only [attributesText, Attribute.text, List.length_cons, List.length_append]
    omega

/-- The document that consists of one empty-element tag: `parse()` returns, and it has called
`StartTag`, `Attribut` for each attribute in the order of the text, and `NullTag`. -/
theorem parse_empty_document (e : List Char) (attrs : List Attribute)
    (he : isName e = true) (hne : e ≠ []) (ha : ∀ a, a ∈ attrs → a.wellFormed = true) :
    ∃ s, run ('<' :: (e ++ (attributesText attrs ++ ['/', '>']))) = .ok () s ∧ s.tags = [] ∧
      s.calls = (.StartTag e, [e]) :: (attributCalls e [e] attrs ++ [(.NullTag e, [e])]) := by
  obtain ⟨X, hX⟩ : ∃ X : List Char, X = '<' :: (e ++ (attributesText attrs ++ ['/', '>'])) :=
    ⟨_, rfl⟩
  rw [← hX]
  have hd0 : X.drop 0 = '<' :: (e ++ (attributesText attrs ++ '/' :: '>' :: [])) := by
    rw [hX]
    rfl
  have hlen : attrs.length < X.length + 1 := by
    have := attributesText_length attrs
    rw [hX]
    simp only [List.length_cons, List.length_append]
    omega
  obtain ⟨c, w, rfl⟩ : ∃ c w, e = c :: w := by
    cases e with
    | nil => exact absurd rfl hne
    | cons c w => exact ⟨c, w, rfl⟩
  obtain ⟨_, _, hq⟩ := isName_head c w he
  have hfind : find (fun c => decide (c = '<')) X 0 = some 0 :=
    find_hit (fun c => decide (c = '<')) X 0 [] '<' _ hd0 (fun _ hx => by cases hx) (by simp)
  have e0 : parse2LT { Xml := X } = .ok () { Xml := X } := by
    show Res.ok () ({ Xml := X, pos2 := find (fun c => decide (c = '<')) X 0 } : XmlParser) = _
    rw [hfind]
  have e1 : eatChar '<' { Xml := X } = .ok () { Xml := X, pos1 := 1 } := by
    unfold eatChar
    rw [if_neg (by
      show ¬ charAt X 0 ≠ '<'
      rw [charAt_of_drop _ _ _ _ hd0]
      simp)]
  have hd1 : X.drop 1 = c :: (w ++ (attributesText attrs ++ '/' :: '>' :: [])) :=
    drop_cons_next X 0 _ _ hd0
  have e2 := peek_at { Xml := X, pos1 := 1 } c _ hd1
  obtain ⟨s2, r2, x2, d2, q2, ps2, pe2, k2, t2, c2⟩ :=
    round_empty (X.length + 1) { Xml := X, pos1 := 1 } 0 (c :: w) attrs [] rfl
      (gapDone_of_eq _ rfl) he hne ha hlen hd0
  have hp2 : s2.pos2 = none := by
    rw [q2]
    unfold find
    rw [d2]
    rfl
  obtain ⟨s3, r3, c3, t3⟩ := parseEnd_at s2 (gapDone_of_zero s2 pe2) d2 t2
  have hr : parseRounds (X.length + 1) (X.length + 1) { Xml := X, pos1 := 1 } = .ok () s2 := by
    rw [rounds_step _ _ _ s2 0 (by omega) rfl r2, rounds_done _ _ s2 hp2]
  refine ⟨s3, ?_, t3, ?_⟩
  · rw [run, parse, bind_ok e0, bind_ok (rfl : getState _ = .ok _ _),
      bind_ok (throwIf_neg _ _ _ _ (by simp)), bind_ok e1, bind_ok e2]
    simp only [if_neg hq]
    rw [bind_ok (rfl : (pure () : Parse Unit) _ = .ok () _), bind_ok hr]
    exact r3
  · rw [c3, c2]
    rfl

/-- An end tag for the innermost open element, which is the element whose tag was read last:
`Value` is called with the decoded text before the tag, then `EndTag`, and the text counts as
handed on. -/
theorem round_end_value (fuel : Nat) (s : XmlParser) (p : Nat) (e : List Char) (t : List Char)
    (ts : List (List Char))
    (hp : s.pos2 = some p) (hg : gapDone s) (he : isName e = true) (hne : e ≠ [])
    (h : s.Xml.drop p = '<' :: '/' :: (e ++ '>' :: t)) (ht : s.tags = e :: ts)
    (hk : s.lastKey = e) :
    ∃ s1, parseRound fuel s = .ok () s1 ∧
      s1.Xml = s.Xml ∧ s1.Xml.drop s1.pos1 = t ∧
      s1.pos2 = find (fun c => c = '<') s1.Xml s1.pos1 ∧ s1.tags = ts ∧
      s1.calls = s.calls ++ [(.Value (decode s.Xml s.pos1 p), e :: ts), (.EndTag e, e :: ts)] ∧
      s1.posS = s1.posE := by
  obtain ⟨s1, e1, x1, ps1, pe1, t1, k1, c1, d1⟩ := round_at fuel s p '/'
    (e ++ '>' :: t) hp hg h
  rw [if_pos rfl] at e1
  obtain ⟨s2, e2, m2, d2⟩ := eat_at s1 '/' _ d1
  obtain ⟨s3, e3, m3, d3⟩ := name_at s2 e '>' t d2 he (by decide)
  have m := m2.trans m3
  have hk3 : s3.lastKey = e := by rw [m.2.2.2.2.1, k1, hk]
  have ht3 : s3.tags = e :: ts := by rw [m.2.2.2.1, t1, ht]
  obtain ⟨s4, e4, m4, d4⟩ := eatChar_at
    { s3 with calls := s3.calls ++ [(.Value (decode s3.Xml s3.posS s3.posE), s3.tags)]
                ++ [(.EndTag e, s3.tags)],
              posS := s3.posE, lastKey := [], tags := s3.tags.tail } '>' t d3
  refine ⟨{ s4 with pos2 := find (fun c => c = '<') s4.Xml s4.pos1 }, ?_, ?_, d4, rfl, ?_, ?_,
    ?_⟩
  · rw [e1, parseEndTag, bind_ok e2, e3, bind_ok (throwIf_neg _ _ _ _ hne),
      bind_ok (rfl : getState s3 = .ok s3 s3)]
    simp only [hk3, if_true]
    rw [bind_assoc_apply, bind_ok (rfl : call _ s3 = .ok () _), bind_assoc_apply,
      bind_ok (rfl : clearValue _ = .ok () _),
      bind_ok (rfl : setLastKey [] _ = .ok () _),
      bind_ok (rfl : call (.EndTag e) _ = .ok () _),
      bind_ok (rfl : getState _ = .ok _ _),
      bind_ok (throwIf_neg _ _ _ _ (by show ¬ s3.tags = []; rw [ht3]; simp)),
      bind_ok (throwIf_neg _ _ _ _ (by show ¬ s3.tags.head? ≠ some e; rw [ht3]; simp)),
      bind_ok (rfl : pop _ = .ok () _), bind_ok e4]
    rfl
  · show s4.Xml = s.Xml
    rw [m4.1]
    show s3.Xml = s.Xml
    rw [m.1, x1]
  · show s4.tags = ts
    rw [m4.2.2.2.1]
    show s3.tags.tail = ts
    rw [ht3]
    rfl
  · show s4.calls = _
    rw [m4.2.2.2.2.2]
    show s3.calls ++ [(Call.Value (decode s3.Xml s3.posS s3.posE), s3.tags)]
      ++ [(Call.EndTag e, s3.tags)] = _
    rw [m.2.2.2.2.2, c1, ht3, m.1, x1, m.2.1, ps1, m.2.2.1, pe1]
    simp
  · show s4.posS = s4.posE
    rw [m4.2.1, m4.2.2.1]

/-- The document that consists of a start tag and its end tag: `parse()` returns, and it has
called `StartTag`, `Attribut` for each attribute, `Value` with the empty text and `EndTag`. -/
theorem parse_element_document (e : List Char) (attrs : List Attribute)
    (he : isName e = true) (hne : e ≠ []) (ha : ∀ a, a ∈ attrs → a.wellFormed = true) :
    ∃ s, run ('<' :: (e ++ (attributesText attrs ++ '>' :: '<' :: '/' :: (e ++ ['>']))))
        = .ok () s ∧ s.tags = [] ∧
      s.calls = (.StartTag e, [e]) ::
        (attributCalls e [e] attrs ++ [(.Value [], [e]), (.EndTag e, [e])]) := by
  obtain ⟨X, hX⟩ : ∃ X : List Char,
      X = '<' :: (e ++ (attributesText attrs ++ '>' :: '<' :: '/' :: (e ++ ['>']))) := ⟨_, rfl⟩
  rw [← hX]
  have hd0 : X.drop 0
      = '<' :: (e ++ (attributesText attrs ++ '>' :: '<' :: '/' :: (e ++ '>' :: []))) := by
    rw [hX]
    rfl
  have hlen : attrs.length + 1 < X.length + 1 := by
    have := attributesText_length attrs
    rw [hX]
    simp only [List.length_cons, List.length_append]
    omega
  obtain ⟨c, w, rfl⟩ : ∃ c w, e = c :: w := by
    cases e with
    | nil => exact absurd rfl hne
    | cons c w => exact ⟨c, w, rfl⟩
  obtain ⟨_, _, hq⟩ := isName_head c w he
  have hfind : find (fun c => decide (c = '<')) X 0 = some 0 :=
    find_hit (fun c => decide (c = '<')) X 0 [] '<' _ hd0 (fun _ hx => by cases hx) (by simp)
  have e0 : parse2LT { Xml := X } = .ok () { Xml := X } := by
    show Res.ok () ({ Xml := X, pos2 := find (fun c => decide (c = '<')) X 0 } : XmlParser) = _
    rw [hfind]
  have e1 : eatChar '<' { Xml := X } = .ok () { Xml := X, pos1 := 1 } := by
    unfold eatChar
    rw [if_neg (by
      show ¬ charAt X 0 ≠ '<'
      rw [charAt_of_drop _ _ _ _ hd0]
      simp)]
  have hd1 : X.drop 1
      = c :: (w ++ (attributesText attrs ++ '>' :: '<' :: '/' :: (c :: w ++ '>' :: []))) :=
    drop_cons_next X 0 _ _ hd0
  have e2 := peek_at { Xml := X, pos1 := 1 } c _ hd1
  obtain ⟨s2, r2, x2, d2, q2, ps2, pe2, k2, t2, c2⟩ :=
    round_start (X.length + 1) { Xml := X, pos1 := 1 } 0 (c :: w) attrs _ rfl
      (gapDone_of_eq _ rfl) he hne ha (by omega) hd0
  have hp2 : s2.pos2 = some s2.pos1 := by
    rw [q2]
    exact find_hit (fun c => decide (c = '<')) s2.Xml s2.pos1 [] '<' _ d2
      (fun _ hx => by cases hx) (by simp)
  obtain ⟨s3, r3, x3, d3, q3, t3, c3, pp3⟩ :=
    round_end_value (X.length + 1) s2 s2.pos1 (c :: w) [] [] hp2 (gapDone_of_zero s2 pe2) he
      hne d2 (by rw [t2]) k2
  have hp3 : s3.pos2 = none := by
    rw [q3]
    unfold find
    rw [d3]
    rfl
  have hdec : decode s2.Xml s2.pos1 s2.pos1 = [] :=
    decode_plain s2.Xml s2.pos1 [] _ d2 (fun _ hx => by cases hx)
  obtain ⟨s4, r4, c4, t4⟩ := parseEnd_at s3 (gapDone_of_eq s3 pp3) d3 t3
  have hr : parseRounds (X.length + 1) (X.length + 1) { Xml := X, pos1 := 1 } = .ok () s3 := by
    rw [rounds_step _ _ _ s2 0 (by omega) rfl r2, rounds_step _ _ _ s3 _ (by omega) hp2 r3,
      rounds_done _ _ s3 hp3]
  refine ⟨s4, ?_, t4, ?_⟩
  · rw [run, parse, bind_ok e0, bind_ok (rfl : getState _ = .ok _ _),
      bind_ok (throwIf_neg _ _ _ _ (by simp)), bind_ok e1, bind_ok e2]
    simp only [if_neg hq]
    rw [bind_ok (rfl : (pure () : Parse Unit) _ = .ok () _), bind_ok hr]
    exact r4
  · rw [c4, c3, c2, hdec]
    simp

/-- C29 as stated fails: for the empty-element tag `<e a="v" />`, written with a blank before
`/>`, the parser calls `StartTag(e)` and `Attribut(e, a, v)` and then throws, because it
expects an attribute after the blank; `NullTag` is not called.  For the empty-element tag
`<e a='&amp;'/>` it returns, and `Attribut` is called with the one character `&`, not with the
value `&amp;` of the text. -/
theorem blank_before_close_throws :
    (run exampleBlank).error = some ⟨"Expected", [['='], ['/']]⟩ ∧
    callsOf (run exampleBlank) = [.StartTag ['e'], .Attribut ['e'] ['a'] ['v']] ∧
    (run exampleAmp).error = none ∧
    callsOf (run exampleAmp) = [.StartTag ['e'], .Attribut ['e'] ['a'] ['&'], .NullTag ['e']] ∧
    "&amp;".toList ≠ ['&'] := by
  decide!

/-- C29 (amended): in the round of the main loop of `parse()` that starts at the `<` of a tag
(the next `<` is at `p`, and the text before it is handed on or white), for a name `e` that is
not empty and attributes that are each written as one blank, a name, `=` and a value between
two double or two single quotes, where the names hold none of the characters that end a name
and no `&` and a value holds neither its quote nor `&`: for the empty-element tag
`<e a1="v1" ... an="vn"/>` with nothing between the last value (or the name) and `/>` the round
returns and has called `StartTag(e)`, then `Attribut(e, ai, vi)` for each attribute in the
order of the text, then `NullTag(e)`, and no `EndTag`, and the stack of tags is the one from
before the tag; for the start tag `<e a1="v1" ... an="vn">` it has called `StartTag(e)` and the
`Attribut` calls only and `e` is on the stack; for the end tag `</e>` of the innermost open
element it calls `EndTag(e)`, after `Value` if the tag of `e` was read last, never `NullTag`,
and takes `e` from the stack; and for the empty-element tag with a blank before `/>` the round
throws after the `StartTag` and `Attribut` calls.  The document that consists of the
empty-element tag alone is parsed without exception with exactly the calls `StartTag`,
`Attribut` and `NullTag`, and the document `<e a1="v1" ... an="vn"></e>` with the calls
`StartTag`, `Attribut`, `Value` of the empty text and `EndTag`. -/
theorem tag_calls (fuel : Nat) (s : XmlParser) (p : Nat) (e : List Char)
    (attrs : List Attribute) (t : List Char)
    (hp : s.pos2 = some p) (hg : gapDone s) (he : isName e = true) (hne : e ≠ [])
    (ha : ∀ a, a ∈ attrs → a.wellFormed = true) (hf : attrs.length < fuel) :
    (s.Xml.drop p = '<' :: (e ++ (attributesText attrs ++ '/' :: '>' :: t)) →
      ∃ s1, parseRound fuel s = .ok () s1 ∧ s1.Xml.drop s1.pos1 = t ∧
        s1.pos2 = find (fun c => c = '<') s1.Xml s1.pos1 ∧ s1.tags = s.tags ∧
        s1.calls = s.calls ++ (.StartTag e, e :: s.tags) ::
          (attributCalls e (e :: s.tags) attrs ++ [(.NullTag e, e :: s.tags)])) ∧
    (s.Xml.drop p = '<' :: (e ++ (attributesText attrs ++ '>' :: t)) →
      ∃ s1, parseRound fuel s = .ok () s1 ∧ s1.Xml.drop s1.pos1 = t ∧
        s1.pos2 = find (fun c => c = '<') s1.Xml s1.pos1 ∧ s1.tags = e :: s.tags ∧
        s1.lastKey = e ∧
        s1.calls = s.calls ++ (.StartTag e, e :: s.tags) ::
          attributCalls e (e :: s.tags) attrs) ∧
    (∀ ts, s.Xml.drop p = '<' :: '/' :: (e ++ '>' :: t) → s.tags = e :: ts →
      ∃ s1, parseRound fuel s = .ok () s1 ∧ s1.Xml.drop s1.pos1 = t ∧
        s1.pos2 = find (fun c => c = '<') s1.Xml s1.pos1 ∧ s1.tags = ts ∧
        s1.calls = s.calls ++ valueCalls s p e ++ [(.EndTag e, e :: ts)]) ∧
    (s.Xml.drop p = '<' :: (e ++ (attributesText attrs ++ ' ' :: '/' :: '>' :: t)) →
      ∃ s1, parseRound fuel s = .thrown ⟨"Expected", [['='], ['/']]⟩ s1 ∧
        s1.calls = s.calls ++ (.StartTag e, e :: s.tags) ::
          attributCalls e (e :: s.tags) attrs) ∧
    (∃ s1, run ('<' :: (e ++ (attributesText attrs ++ ['/', '>']))) = .ok () s1 ∧
      s1.tags = [] ∧
      s1.calls = (.StartTag e, [e]) :: (attributCalls e [e] attrs ++ [(.NullTag e, [e])])) ∧
    (∃ s1, run ('<' :: (e ++ (attributesText attrs ++ '>' :: '<' :: '/' :: (e ++ ['>']))))
        = .ok () s1 ∧ s1.tags = [] ∧
      s1.calls = (.StartTag e, [e]) ::
        (attributCalls e [e] attrs ++ [(.Value [], [e]), (.EndTag e, [e])])) := by
  refine ⟨?_, ?_, ?_, round_blank fuel s p e attrs ('>' :: t) hp hg he hne ha hf,
    parse_empty_document e attrs he hne ha, parse_element_document e attrs he hne ha⟩
  · intro h
    obtain ⟨s1, e1, _, d1, q1, _, _, _, t1, c1⟩ :=
      round_empty fuel s p e attrs t hp hg he hne ha hf h
    exact ⟨s1, e1, d1, q1, t1, c1⟩
  · intro h
    obtain ⟨s1, e1, _, d1, q1, _, _, k1, t1, c1⟩ :=
      round_start fuel s p e attrs t hp hg he hne ha hf h
    exact ⟨s1, e1, d1, q1, t1, k1, c1⟩
  · intro ts h ht
    obtain ⟨s1, e1, _, d1, q1, t1, c1⟩ := round_end fuel s p e t ts hp hg he hne h ht
    exact ⟨s1, e1, d1, q1, t1, c1⟩

/-- Witness for C29: the round for the text `<e a='1' b='2'/>` calls `StartTag`, `Attribut`
twice and `NullTag`, each with `e` on the stack, and leaves the stack empty as before; and
`parse()` on that text returns with these calls. -/
theorem tag_calls_witness :
    (∃ s1, parseRound 3 { Xml := exampleEmpty } = .ok () s1 ∧ s1.tags = [] ∧
      s1.calls = [(.StartTag ['e'], [['e']]), (.Attribut ['e'] ['a'] ['1'], [['e']]),
        (.Attribut ['e'] ['b'] ['2'], [['e']]), (.NullTag ['e'], [['e']])]) ∧
    ∃ s1, run exampleEmpty = .ok () s1 ∧ s1.tags = [] ∧
      s1.calls = [(.StartTag ['e'], [['e']]), (.Attribut ['e'] ['a'] ['1'], [['e']]),
        (.Attribut ['e'] ['b'] ['2'], [['e']]), (.NullTag ['e'], [['e']])] :=
  have h := tag_calls 3 { Xml := exampleEmpty } 0 ['e'] exampleAttributes [] rfl
    (fun h => h.1 rfl) (by decide) (by decide) (by decide) (by decide)
  ⟨(h.1 rfl).imp fun _ h1 => ⟨h1.1, h1.2.2.2.1, h1.2.2.2.2⟩, h.2.2.2.2.1⟩

end XmlParser

namespace Informix

theorem readRows_fields (g : ReadGenerator) (i : Nat) :
    ∀ (fuel : Nat) (c : InformixCursor) (obj : ObjectBase),
      (readRows g i fuel c obj).1.fields = obj.fields := by
  intro fuel
  induction fuel with
  | zero => intro c obj; rfl
  | succ k ih =>
    intro c obj
    unfold readRows
    cases c.descPtr with
    | none => rfl
    | some row =>
      simp only
      cases (g.readElement i row).2 with
      | some exc => rfl
      | none =>
        simp only
        cases c.next.2 with
        | some exc => rfl
        | none =>
          simp only
          rw [ih]
          rfl

/-- The loop over the groups leaves the scalar fields as they are. -/
theorem retrieveGroups_fields (srv : String → CursorServer) (g : ReadGenerator) :
    ∀ (sels : List String) (i : Nat) (obj : ObjectBase) (tr : List String),
      (retrieveGroups srv g i sels obj tr).obj.fields = obj.fields := by
  intro sels
  induction sels with
  | nil => intro i obj tr; rfl
  | cons s rest ih =>
    intro i obj tr
    unfold retrieveGroups
    cases InformixCursor.open (srv s) with
    | error exc => rfl
    | ok curs2 =>
      simp only
      cases hr : (readRows g i (curs2.pending.length + 2) curs2
          (modifyGroup (modifyGroup obj i (fun l => l ++ [g.blank])) i (fun _ => []))).2 with
      | some exc =>
        simp only
        rw [readRows_fields]
        rfl
      | none =>
        simp only
        rw [ih, readRows_fields]
        rfl

end Informix

namespace Mongo

theorem member_setMember_same (fs : List (String × Member)) (k : String) (m m2 : Member)
    (h : member fs k = some m) : member (setMember fs k m2) k = some m2 := by
  induction fs with
  | nil => simp [member] at h
  | cons f rest ih =>
    unfold member at h
    unfold setMember
    by_cases hk : f.1 = k
    · rw [if_pos hk]
      unfold member
      rw [if_pos hk]
    · rw [if_neg hk] at h
      rw [if_neg hk]
      unfold member
      rw [if_neg hk]
      exact ih h

theorem member_setMember_other (fs : List (String × Member)) (k n : String) (m2 : Member)
    (h : n ≠ k) : member (setMember fs k m2) n = member fs n := by
  induction fs with
  | nil => rfl
  | cons f rest ih =>
    unfold setMember
    by_cases hk : f.1 = k
    · rw [if_pos hk]
      unfold member
      have hn : ¬ f.1 = n := fun e => h (e.symm.trans hk)
      rw [if_neg hn, if_neg hn]
    · rw [if_neg hk]
      unfold member
      rw [ih]

theorem setMember_names (fs : List (String × Member)) (k : String) (m2 : Member) :
    (setMember fs k m2).map Prod.fst = fs.map Prod.fst := by
  induction fs with
  | nil => rfl
  | cons f rest ih =>
    unfold setMember
    by_cases hk : f.1 = k
    · rw [if_pos hk]
      rfl
    · rw [if_neg hk, List.map_cons, List.map_cons, ih]

theorem parsival_skipped (ext : Ext) (m : Member) (e : Element)
    (h : MongoRead.parsival ext m e = .skipped) : e = .null := by
  cases e <;> first
    | rfl
    | (exfalso
       simp only [MongoRead.parsival] at h
       repeat' split at h
       all_goals cases h)

/-- What `parsivalView` leaves in the fields when it throws nothing, for a document without a
repeated name: the names of the fields are as before; a field for which the document holds
null is null; a field for which it holds another element is what `parsival` assigns from that
element; every other field is as before. -/
theorem parsivalView_fields (ext : Ext) :
    ∀ (val : Document) (fs : List (String × Member)), (val.map Prod.fst).Nodup →
      (MongoRead.parsivalView ext false val fs).2 = none →
      (MongoRead.parsivalView ext false val fs).1.map Prod.fst = fs.map Prod.fst ∧
      ∀ n m0, member fs n = some m0 →
        (∀ e, (n, e) ∈ val →
          (e = .null →
            member (MongoRead.parsivalView ext false val fs).1 n
              = some { m0 with null := true }) ∧
          (e ≠ .null →
            ∃ m2, MongoRead.parsival ext m0 e = .assigned m2 ∧
              member (MongoRead.parsivalView ext false val fs).1 n = some m2)) ∧
        ((∀ e, (n, e) ∉ val) →
          member (MongoRead.parsivalView ext false val fs).1 n = some m0) := by
  intro val
  induction val with
  | nil =>
    intro fs _ _
    refine ⟨rfl, fun n m0 hm => ⟨fun e he => (by cases he), fun _ => hm⟩⟩
  | cons p rest ih =>
    obtain ⟨k, e0⟩ := p
    intro fs hnd hok
    have hnd2 : (rest.map Prod.fst).Nodup := (List.nodup_cons.mp hnd).2
    have hk : ∀ e, (k, e) ∉ rest := by
      intro e he
      exact (List.nodup_cons.mp hnd).1 (List.mem_map.mpr ⟨(k, e), he, rfl⟩)
    -- the fields after the first element
    have key : ∀ fs2 : List (String × Member),
        MongoRead.parsivalView ext false ((k, e0) :: rest) fs
          = MongoRead.parsivalView ext false rest fs2 →
        fs2.map Prod.fst = fs.map Prod.fst →
        (∀ n, n ≠ k → member fs2 n = member fs n) →
        (∀ m0, member fs k = some m0 →
          (e0 = .null → member fs2 k = some { m0 with null := true }) ∧
          (e0 ≠ .null → ∃ m2, MongoRead.parsival ext m0 e0 = .assigned m2 ∧
            member fs2 k = some m2)) →
        (MongoRead.parsivalView ext false ((k, e0) :: rest) fs).1.map Prod.fst
            = fs.map Prod.fst ∧
        ∀ n m0, member fs n = some m0 →
          (∀ e, (n, e) ∈ (k, e0) :: rest →
            (e = .null →
              member (MongoRead.parsivalView ext false ((k, e0) :: rest) fs).1 n
                = some { m0 with null := true }) ∧
            (e ≠ .null →
              ∃ m2, MongoRead.parsival ext m0 e = .assigned m2 ∧
                member (MongoRead.parsivalView ext false ((k, e0) :: rest) fs).1 n
                  = some m2)) ∧
          ((∀ e, (n, e) ∉ (k, e0) :: rest) →
            member (MongoRead.parsivalView ext false ((k, e0) :: rest) fs).1 n = some m0) := by
      intro fs2 heq hnames hother hsame
      have hok2 : (MongoRead.parsivalView ext false rest fs2).2 = none := by
        rw [← heq]
        exact hok
      obtain ⟨i1, i2⟩ := ih fs2 hnd2 hok2
      rw [heq]
      refine ⟨i1.trans hnames, ?_⟩
      intro n m0 hm
      by_cases hn : n = k
      · subst hn
        obtain ⟨s1, s2⟩ := hsame m0 hm
        refine ⟨?_, fun hno => absurd (List.mem_cons_self _ _) (hno e0)⟩
        intro e he
        have he0 : e = e0 := by
          rcases List.mem_cons.mp he with h | h
          · exact (Prod.mk.inj h).2
          · exact absurd h (hk e)
        subst he0
        constructor
        · intro hnull
          exact ((i2 n _ (s1 hnull)).2 hk)
        · intro hnn
          obtain ⟨m2, a1, a2⟩ := s2 hnn
          exact ⟨m2, a1, (i2 n m2 a2).2 hk⟩
      · have hm2 : member fs2 n = some m0 := by rw [hother n hn]; exact hm
        obtain ⟨j1, j2⟩ := i2 n m0 hm2
        constructor
        · intro e he
          have he2 : (n, e) ∈ rest := by
            rcases List.mem_cons.mp he with h | h
            · exact absurd (Prod.mk.inj h).1 hn
            · exact h
          exact j1 e he2
        · intro hno
          exact j2 (fun e he => hno e (List.mem_cons_of_mem _ he))
    cases hmem : member fs k with
    | none =>
      refine key fs ?_ rfl (fun _ _ => rfl) (fun m0 h => by rw [hmem] at h; cases h)
      rw [MongoRead.parsivalView]
      simp only [hmem, Bool.false_eq_true, and_false, if_false]
    | some m =>
      by_cases hnull : e0 = .null
      · refine key (setMember fs k { m with null := true }) ?_ (setMember_names _ _ _)
          (fun n hn => member_setMember_other fs k n _ hn) ?_
        · rw [MongoRead.parsivalView]
          simp only [hmem, hnull, if_true]
        · intro m0 h
          have : m0 = m := by rw [hmem] at h; exact (Option.some.inj h).symm
          subst this
          exact ⟨fun _ => member_setMember_same fs k m0 _ hmem, fun hnn => absurd hnull hnn⟩
      · cases hp : MongoRead.parsival ext m e0 with
        | assigned m2 =>
          refine key (setMember fs k m2) ?_ (setMember_names _ _ _)
            (fun n hn => member_setMember_other fs k n _ hn) ?_
          · rw [MongoRead.parsivalView]
            simp only [hmem, hnull, if_false, hp]
          · intro m0 h
            have : m0 = m := by rw [hmem] at h; exact (Option.some.inj h).symm
            subst this
            exact ⟨fun hn => absurd hn hnull,
              fun _ => ⟨m2, hp, member_setMember_same fs k m0 _ hmem⟩⟩
        | thrown m2 what =>
          rw [MongoRead.parsivalView] at hok
          simp only [hmem, hnull, if_false, hp] at hok
          cases hok
        | skipped => exact absurd (parsival_skipped ext m e0 hp) hnull

/-- `parsivalView` throws nothing when the document repeats no name and every element for
which the object has a field is null or can be assigned to that field. -/
theorem parsivalView_ok (ext : Ext) :
    ∀ (val : Document) (fs : List (String × Member)), (val.map Prod.fst).Nodup →
      (∀ n e m0, (n, e) ∈ val → member fs n = some m0 →
        e = .null ∨ ∃ m2, MongoRead.parsival ext m0 e = .assigned m2) →
      (MongoRead.parsivalView ext false val fs).2 = none := by
  intro val
  induction val with
  | nil => intro fs _ _; rfl
  | cons p rest ih =>
    obtain ⟨k, e0⟩ := p
    intro fs hnd hall
    have hnd2 : (rest.map Prod.fst).Nodup := (List.nodup_cons.mp hnd).2
    have hk : ∀ e, (k, e) ∉ rest := by
      intro e he
      exact (List.nodup_cons.mp hnd).1 (List.mem_map.mpr ⟨(k, e), he, rfl⟩)
    have step : ∀ m2 : Member,
        (MongoRead.parsivalView ext false rest (setMember fs k m2)).2 = none := by
      intro m2
      refine ih _ hnd2 ?_
      intro n e m0 he hm
      have hn : n ≠ k := fun h => hk e (h ▸ he)
      rw [member_setMember_other fs k n _ hn] at hm
      exact hall n e m0 (List.mem_cons_of_mem _ he) hm
    cases hmem : member fs k with
    | none =>
      rw [MongoRead.parsivalView]
      simp only [hmem, Bool.false_eq_true, and_false, if_false]
      exact ih fs hnd2 (fun n e m0 he hm => hall n e m0 (List.mem_cons_of_mem _ he) hm)
    | some m =>
      by_cases hnull : e0 = .null
      · rw [MongoRead.parsivalView]
        simp only [hmem, hnull, if_true]
        exact step _
      · rcases hall k e0 m (List.mem_cons_self _ _) hmem with h | ⟨m2, h⟩
        · exact absurd h hnull
        · rw [MongoRead.parsivalView]
          simp only [hmem, hnull, if_false, h]
          exact step m2

theorem member_clear (obj : ObjectBase) (n : String) :
    member obj.clear.fields n
      = (member obj.fields n).map (fun m => { m with wert := m.wert.c_empty }) := by
  unfold ObjectBase.clear
  simp only
  induction obj.fields with
  | nil => rfl
  | cons f rest ih =>
    simp only [List.map_cons, member]
    by_cases hk : f.1 = n
    · simp only [if_pos hk, Option.map_some']
    · simp only [if_neg hk]
      exact ih

/-- The key filter of `load` matches exactly the documents that hold the key of the object. -/
theorem matchesFilter_key (ext : Ext) (obj : ObjectBase) (d : Document) :
    matchesFilter (traverseKey ext {} obj.fields) d = true ↔ holdsKey ext obj d := by
  unfold matchesFilter traverseKey traverse holdsKey
  rw [List.all_eq_true]
  constructor
  · intro h f hf hkey
    have h1 := h (f.1, BsonElements.valueStmt false (f.2.base ext) false) (by
      rw [List.mem_filterMap]
      refine ⟨f, ?_, by rw [doMem_default]; rfl⟩
      rw [(List.perm_insertionSort _ _).mem_iff, List.mem_filter]
      exact ⟨hf, decide_eq_true hkey⟩)
    exact List.elem_iff.mp h1
  · intro h p hp
    rw [List.mem_filterMap] at hp
    obtain ⟨f, hf, hfp⟩ := hp
    rw [doMem_default] at hfp
    simp only [Option.map_some', Option.some.injEq] at hfp
    subst hfp
    rw [(List.perm_insertionSort _ _).mem_iff, List.mem_filter] at hf
    exact List.elem_iff.mpr (h f hf.1 (of_decide_eq_true hf.2))

theorem find_first (p : Document → Bool) (coll : List Document) (val : Document)
    (h : coll.find? p = some val) :
    ∃ pre post, coll = pre ++ val :: post ∧ (∀ d, d ∈ pre → p d = false) ∧ p val = true := by
  induction coll with
  | nil => simp at h
  | cons d rest ih =>
    rw [List.find?_cons] at h
    cases hd : p d with
    | true =>
      rw [hd] at h
      simp only [Option.some.injEq] at h
      subst h
      exact ⟨[], rest, rfl, fun _ hx => (by cases hx), hd⟩
    | false =>
      rw [hd] at h
      obtain ⟨pre, post, h1, h2, h3⟩ := ih h
      refine ⟨d :: pre, post, (by rw [h1]; rfl), ?_, h3⟩
      intro x hx
      rcases List.mem_cons.mp hx with rfl | hx
      · exact hd
      · exact h2 x hx

theorem find_of_first (p : Document → Bool) (pre post : List Document) (val : Document)
    (h1 : ∀ d, d ∈ pre → p d = false) (h2 : p val = true) :
    (pre ++ val :: post).find? p = some val := by
  induction pre with
  | nil => simp [List.find?_cons, h2]
  | cons d rest ih =>
    rw [List.cons_append, List.find?_cons, h1 d (List.mem_cons_self _ _)]
    exact ih (fun x hx => h1 x (List.mem_cons_of_mem _ hx))

end Mongo

namespace Mongo

theorem parsivalView_names (ext : Ext) (x : Bool) :
    ∀ (val : Document) (fs : List (String × Member)),
      (MongoRead.parsivalView ext x val fs).1.map Prod.fst = fs.map Prod.fst := by
  intro val
  induction val with
  | nil => intro fs; rfl
  | cons p rest ih =>
    obtain ⟨k, e0⟩ := p
    intro fs
    rw [MongoRead.parsivalView]
    cases hmem : member fs k with
    | none =>
      simp only
      split_ifs
      · rfl
      · exact ih fs
    | some m =>
      simp only
      split_ifs
      · rw [ih, setMember_names]
      · cases hp : MongoRead.parsival ext m e0 with
        | assigned m2 => simp only; rw [ih, setMember_names]
        | thrown m2 what => simp only; rw [setMember_names]
        | skipped => simp only; exact ih fs

theorem clear_names (obj : ObjectBase) :
    obj.clear.fields.map Prod.fst = obj.fields.map Prod.fst := by
  simp [ObjectBase.clear, List.map_map, Function.comp_def]

/-- A document that the key filter refuses does not hold the key. -/
theorem not_holdsKey (ext : Ext) (obj : ObjectBase) (d : Document)
    (h : matchesFilter (traverseKey ext {} obj.fields) d = false) : ¬ holdsKey ext obj d := by
  intro hk
  rw [(matchesFilter_key ext obj d).mpr hk] at h
  cases h

theorem matchesFilter_false (ext : Ext) (obj : ObjectBase) (d : Document)
    (h : ¬ holdsKey ext obj d) : matchesFilter (traverseKey ext {} obj.fields) d = false := by
  cases hm : matchesFilter (traverseKey ext {} obj.fields) d with
  | false => rfl
  | true => exact absurd ((matchesFilter_key ext obj d).mp hm) h

end Mongo

namespace Informix

/-- `load` on an established connection, when the server returns the rows `row :: rest` for
the select of the key and rows for every select of a group, and every reading succeeds. -/
theorem load_rows (be : Backend) (srv : String → CursorServer) (g : ReadGenerator)
    (sel : String) (c : Conn) (obj : ObjectBase) (results : String → List Row) (row : Row)
    (rest : List Row) (hcon : 0 < c.conNr) (hsrv : ∀ s, srv s = resultOf (results s))
    (hres : results sel = row :: rest) (hmain : (g.readObject row obj.clear).2 = none)
    (hgroups : (g.readObject row obj.clear).1.groups.length = g.selectStatementArray.length)
    (hel : ∀ i r, (g.readElement i r).2 = none) :
    load be srv g sel c obj
      = ⟨{ (g.readObject row obj.clear).1 with
            groups := groupsRead g results 0 g.selectStatementArray },
          sel :: g.selectStatementArray, .ok true⟩ := by
  have hr : retrieve be srv g c
      (some { descPtr := some row, pending := rest.map (fun r => (0, r)) }) obj =
      ⟨{ (g.readObject row obj.clear).1 with
          groups := groupsRead g results 0 g.selectStatementArray },
        g.selectStatementArray, none⟩ := by
    simp only [retrieve, openConnection_connected be c hcon, hmain]
    rw [retrieveGroups_ok srv g results hsrv hel _ 0 _ [] (by simpa using hgroups)]
    simp only [List.take_zero, List.nil_append]
  simp only [load, openConnection_connected be c hcon, hsrv sel, hres, open_resultOf_cons,
    InformixCursor.eof, Option.isNone_some, Bool.false_eq_true, if_false, hr]

end Informix

end Mobs
